import Mathlib

/-! ## HiveSplitter and HiveTrigger: a shallow embedding

The embedding follows `lib/algorithms/HiveSplitter.cxx` and
`lib/algorithms/HiveTrigger.cxx` function by function; further down it covers
`lib/algorithms/HiveCleaning.cxx` and the class `StringRings` of `lib/internals/Hive.cxx`.

Conventions.
* Hit times are `double` in HiveSplitter; they are modelled as exact integers
  (no rounding), and the non-finite values the code uses (`NAN` for an unset
  accept window, `INFINITY` for an unset reject window, `±infinity` for the
  synchronisation time) are represented explicitly.
* `std::set<AbsHit>` is a strictly increasing list, `std::list` is a list,
  `std::map` is an association list with unique keys.
* Loops that erase from a list while they walk over it are written as
  recursions over the part of the list that has not been visited yet.
-/

namespace HitSorting

/-- Modelled from the spec: `AbsHit` is declared in `ToolZ/HitSorting.h`, which is
not part of the sources; a hit is a sensor index (`GetDOMIndex`) and a time
(`GetTime`). -/
structure AbsHit where
  dom : Nat
  time : Int
deriving DecidableEq, Repr

/-- Modelled from the spec: hits are totally ordered by `(time, sensorId)`;
this is `operator<` of `AbsHit`. -/
def AbsHit.lt (a b : AbsHit) : Bool :=
  decide (a.time < b.time) || (decide (a.time = b.time) && decide (a.dom < b.dom))

/-- The hit set type `AbsHitSet` is a `std::set<AbsHit>`: a list kept in increasing order. -/
abbrev AbsHitSet := List AbsHit

/-- Insertion into a `std::set<AbsHit>` (a position hint does not change the result). -/
def AbsHitSet.insert (h : AbsHit) : AbsHitSet → AbsHitSet
  | [] => [h]
  | x :: xs =>
    if h.lt x then h :: x :: xs
    else if x.lt h then x :: AbsHitSet.insert h xs
    else x :: xs

/-- Range insertion `s.insert(t.begin(), t.end())`. -/
def AbsHitSet.insertAll (s t : AbsHitSet) : AbsHitSet :=
  t.foldl (fun acc x => AbsHitSet.insert x acc) s

/-- Skip the elements of a set that are smaller than `x` (`while (*it2 < *it1) ++it2`). -/
def skipLess (x : AbsHit) : AbsHitSet → AbsHitSet
  | [] => []
  | y :: ys => if y.lt x then skipLess x ys else y :: ys

end HitSorting

open HitSorting

/-- An association list standing for a `std::map` keyed by sensor index. -/
abbrev DomMap (V : Type) := List (Nat × V)

namespace DomMap

/-- Lookup, `find`/`at`. -/
def get? {V : Type} (m : DomMap V) (k : Nat) : Option V :=
  match m with
  | [] => none
  | (k1, v) :: rest => if k1 = k then some v else get? rest k

/-- Membership test `count(k)`. -/
def has {V : Type} (m : DomMap V) (k : Nat) : Bool := (get? m k).isSome

/-- Assignment `m[k] = v`. -/
def set {V : Type} (m : DomMap V) (k : Nat) (v : V) : DomMap V :=
  match m with
  | [] => [(k, v)]
  | (k1, v1) :: rest => if k1 = k then (k, v) :: rest else (k1, v1) :: set rest k v

/-- Removal `erase(k)`. -/
def erase {V : Type} (m : DomMap V) (k : Nat) : DomMap V :=
  m.filter (fun e => decide (e.1 ≠ k))

end DomMap

/-- Insertion into a `std::set` of sensor indices. -/
def domSetInsert (d : Nat) (s : List Nat) : List Nat :=
  if d ∈ s then s else d :: s

namespace hivesplitter

/-- The type `Time` of HiveSplitter is `double`; the values of the synchronisation time. -/
inductive Time where
  | ninf : Time
  | fin : Int → Time
  | pinf : Time
deriving DecidableEq, Repr

/-- Strict comparison `a > b` for a time that may be infinite against a finite one. -/
def Time.gtFin : Time → Int → Bool
  | .ninf, _ => false
  | .fin a, b => decide (a > b)
  | .pinf, _ => true

/-- Maximum with a finite time, `std::max(sync_time, t)`. -/
def Time.maxFin : Time → Int → Time
  | .ninf, b => .fin b
  | .fin a, b => .fin (max a b)
  | .pinf, _ => .pinf

/-- Minimum, `std::min(a, b)`. -/
def Time.min : Time → Time → Time
  | .ninf, _ => .ninf
  | _, .ninf => .ninf
  | .pinf, b => b
  | a, .pinf => a
  | .fin a, .fin b => .fin (Min.min a b)

/-- Comparison `t < e` of a finite time with a possibly infinite one. -/
def Time.finLt (t : Int) : Time → Bool
  | .ninf => false
  | .fin e => decide (t < e)
  | .pinf => true

/-- The parameter set `HiveSplitter_ParameterSet`. `acceptTimeWindow = none` is `NAN`
(deactivated), `rejectTimeWindow = none` is `INFINITY` (deactivated); `Connected` is
the answer of the connector block for a pair of hits given in time order. -/
structure HiveSplitter_ParameterSet where
  multiplicity : Nat
  multiplicityTimeWindow : Int
  acceptTimeWindow : Option Int
  rejectTimeWindow : Option Int
  Connected : AbsHit → AbsHit → Bool
  mergeOverlap : Nat

/-- Comparison `x < acceptTimeWindow`; every comparison with `NAN` is false. -/
def ltAccept (p : HiveSplitter_ParameterSet) (x : Int) : Bool :=
  match p.acceptTimeWindow with
  | none => false
  | some a => decide (x < a)

/-- Comparison `x <= acceptTimeWindow`; every comparison with `NAN` is false. -/
def leAccept (p : HiveSplitter_ParameterSet) (x : Int) : Bool :=
  match p.acceptTimeWindow with
  | none => false
  | some a => decide (x ≤ a)

/-- Comparison `x < rejectTimeWindow`. -/
def ltReject (p : HiveSplitter_ParameterSet) (x : Int) : Bool :=
  match p.rejectTimeWindow with
  | none => true
  | some r => decide (x < r)

/-- Comparison `x > rejectTimeWindow`. -/
def gtReject (p : HiveSplitter_ParameterSet) (x : Int) : Bool :=
  match p.rejectTimeWindow with
  | none => false
  | some r => decide (x > r)

/-- The value `params.multiplicity - 1` in `size_t` arithmetic. -/
def multMinusOne (p : HiveSplitter_ParameterSet) : Nat :=
  (p.multiplicity + 2 ^ 64 - 1) % 2 ^ 64

namespace detail

/-- The function `CausallyConnected`: enforce the time order, then ask the connector block. -/
def CausallyConnected (p : HiveSplitter_ParameterSet) (h1 h2 : AbsHit) : Bool :=
  if h1.time > h2.time then p.Connected h2 h1 else p.Connected h1 h2

/-- The sweep of `CausallyOverlaps` over both sets; `common` is `common_hitdoms`.
Entries whose time has run out are dropped before the common hit is recorded, as the comment
of the source announces (`eliminate DOMs where times have run out`). The source erases them
through the iterator of the running loop, which leaves its behaviour undefined as soon as an
entry has run out; `overlapsLoop_checked` is the loop with this made explicit, and the two
agree wherever the source is defined, in particular for a multiplicity of at most one, where
the loop only ever runs on an empty map. -/
def overlapsLoop (multiplicity : Nat) (window : Int) :
    AbsHitSet → AbsHitSet → DomMap Int → Bool
  | [], _, _ => false
  | x :: xs, s2, common =>
    match skipLess x s2 with
    | [] => false
    | y :: ys =>
      if x.lt y then overlapsLoop multiplicity window xs (y :: ys) common
      else
        let kept := common.filter (fun e => !decide (e.2 < x.time - window))
        let common1 := DomMap.set kept x.dom x.time
        if common1.length ≥ multiplicity then true
        else overlapsLoop multiplicity window xs ys common1

/-- The function `CausallyOverlaps`. -/
def CausallyOverlaps (set1 set2 : AbsHitSet) (multiplicity : Nat) (window : Int) : Bool :=
  overlapsLoop multiplicity window set1 set2 []

/-- The class `CausalCluster` (the parameter pointer is passed to the methods instead). -/
structure CausalCluster where
  sync_time : Time
  active_hits : AbsHitSet
  active_doms : DomMap Nat
  firstHitTimes : DomMap Int
  concluded_hits : AbsHitSet
  established : Bool
deriving DecidableEq, Repr

/-- The constructor `CausalCluster(p)`. -/
def CausalCluster.new : CausalCluster :=
  { sync_time := .ninf, active_hits := [], active_doms := [], firstHitTimes := [],
    concluded_hits := [], established := false }

/-- The method `getEarliestTime`; the branch behind `assert(false)` returns infinity. -/
def CausalCluster.getEarliestTime (c : CausalCluster) : Time :=
  match c.concluded_hits with
  | x :: _ => .fin x.time
  | [] =>
    match c.active_hits with
    | y :: _ => .fin y.time
    | [] => .pinf

/-- The method `insertActiveHit`. -/
def CausalCluster.insertActiveHit (p : HiveSplitter_ParameterSet) (c : CausalCluster)
    (h : AbsHit) : CausalCluster :=
  let doms := DomMap.set c.active_doms h.dom (((c.active_doms.get? h.dom).getD 0) + 1)
  let fht :=
    match c.firstHitTimes.get? h.dom with
    | none => DomMap.set c.firstHitTimes h.dom h.time
    | some t => if t > h.time then DomMap.set c.firstHitTimes h.dom h.time else c.firstHitTimes
  { sync_time := c.sync_time.maxFin h.time
    active_hits := AbsHitSet.insert h c.active_hits
    active_doms := doms
    firstHitTimes := fht
    concluded_hits := c.concluded_hits
    established := c.established || decide (doms.length ≥ p.multiplicity) }

/-- The method `takeConcludedHits`. -/
def CausalCluster.takeConcludedHits (c other : CausalCluster) : CausalCluster :=
  { c with concluded_hits := AbsHitSet.insertAll c.concluded_hits other.concluded_hits }

/-- The method `getLatestActiveHit`; `none` on an empty active set, where the source
dereferences `rbegin()` of an empty set. -/
def CausalCluster.getLatestActiveHit (c : CausalCluster) : Option AbsHit :=
  c.active_hits.getLast?

/-- The method `isActive`. -/
def CausalCluster.isActive (p : HiveSplitter_ParameterSet) (c : CausalCluster) : Bool :=
  if c.active_hits ≠ [] then true
  else
    match p.acceptTimeWindow with
    | none => false
    | some a =>
      if a ≤ p.multiplicityTimeWindow then false
      else
        match c.sync_time with
        | .ninf => !c.firstHitTimes.isEmpty
        | .fin s => c.firstHitTimes.any (fun fht => decide (fht.2 > s - a))
        | .pinf => false

/-- The method `isEstablished`. -/
def CausalCluster.isEstablished (c : CausalCluster) : Bool := c.established

/-- The scan of `isSubsetOf` over the two time-ordered active sets. -/
def isSubsetLoop : AbsHitSet → AbsHitSet → Bool
  | [], _ => true
  | _ :: _, [] => false
  | x :: xs, y :: ys =>
    match skipLess x (y :: ys) with
    | [] => false
    | z :: zs => if x.lt z then false else isSubsetLoop xs zs

/-- The method `isSubsetOf`. -/
def CausalCluster.isSubsetOf (c c2 : CausalCluster) : Bool :=
  if c2.active_hits.length < c.active_hits.length then false
  else isSubsetLoop c.active_hits c2.active_hits

/-- The statement `--active_doms[d]` followed by the erasure of an entry that reached zero.
The counter is a `size_t`: decrementing an entry that is zero (or was absent and is
created by `operator[]`) wraps around to `2^64 - 1`. Counters count hits held in the
active set, so the increment in `insertActiveHit` is taken without wrap-around. -/
def decrDom (m : DomMap Nat) (d : Nat) : DomMap Nat :=
  let x := (m.get? d).getD 0
  let v := if x = 0 then 2 ^ 64 - 1 else x - 1
  if v ≤ 0 then DomMap.erase m d else DomMap.set m d v

/-- The inner `BOOST_FOREACH` of `advanceInTime`: every active hit on the sensor of `h`
overwrites the first-hit time of that sensor, in the order of the active set. -/
def resyncFirstHit (h : AbsHit) (active : AbsHitSet) (fht : DomMap Int) : DomMap Int :=
  active.foldl (fun m hh => if h.dom = hh.dom then DomMap.set m h.dom hh.time else m) fht

/-- The `while` loop of `advanceInTime`, walking over the active set from its begin. -/
def advanceLoop (p : HiveSplitter_ParameterSet) (time : Time) (established : Bool) :
    AbsHitSet → DomMap Nat → DomMap Int → AbsHitSet →
      AbsHitSet × DomMap Nat × DomMap Int × AbsHitSet
  | [], doms, fht, concluded => ([], doms, fht, concluded)
  | h :: rest, doms, fht, concluded =>
    if time.gtFin (h.time + p.multiplicityTimeWindow) then
      let doms1 := decrDom doms h.dom
      if established then
        advanceLoop p time established rest doms1 fht (AbsHitSet.insert h concluded)
      else
        let fht1 :=
          if !DomMap.has doms1 h.dom then DomMap.erase fht h.dom
          else resyncFirstHit h (h :: rest) fht
        advanceLoop p time established rest doms1 fht1 concluded
    else (h :: rest, doms, fht, concluded)

/-- The method `advanceInTime`. -/
def CausalCluster.advanceInTime (p : HiveSplitter_ParameterSet) (c : CausalCluster)
    (time : Time) : CausalCluster :=
  let r := advanceLoop p time c.established c.active_hits c.active_doms c.firstHitTimes
    c.concluded_hits
  { sync_time := time, active_hits := r.1, active_doms := r.2.1, firstHitTimes := r.2.2.1,
    concluded_hits := r.2.2.2, established := c.established }

end detail

open detail

/-- The result of scanning the active hits of a cluster against a new hit: either the
early exit (enough connected sensors were found and the hit is inserted) or the
collected connected hits together with the flag `allConnected`. -/
inductive Scan where
  | enough : Scan
  | finished : AbsHitSet → Bool → Scan
deriving DecidableEq, Repr

/-- The FAST loop of `AddHitToCluster`, over the active hits from the latest to the earliest. -/
def scanFast (p : HiveSplitter_ParameterSet) (h : AbsHit) :
    List AbsHit → List Nat → AbsHitSet → Bool → Scan
  | [], _, connectedHits, allConnected => .finished connectedHits allConnected
  | it :: rest, connectedDOMs, connectedHits, allConnected =>
    if CausallyConnected p it h then
      let doms1 := domSetInsert it.dom connectedDOMs
      let hits1 := AbsHitSet.insert it connectedHits
      if doms1.length ≥ multMinusOne p then .enough
      else scanFast p h rest doms1 hits1 allConnected
    else scanFast p h rest connectedDOMs connectedHits false

/-- The SLOW loop of `AddHitToCluster`, with the accept and reject windows on the same sensor. -/
def scanSlow (p : HiveSplitter_ParameterSet) (h : AbsHit) :
    List AbsHit → List Nat → AbsHitSet → Bool → Scan
  | [], _, connectedHits, allConnected => .finished connectedHits allConnected
  | it :: rest, connectedDOMs, connectedHits, allConnected =>
    if it.dom = h.dom then
      let dt := h.time - it.time
      if leAccept p dt then
        scanSlow p h rest connectedDOMs (AbsHitSet.insert it connectedHits) allConnected
      else if gtReject p dt then
        scanSlow p h rest connectedDOMs connectedHits false
      else if CausallyConnected p it h then
        scanSlow p h rest connectedDOMs (AbsHitSet.insert it connectedHits) allConnected
      else scanSlow p h rest connectedDOMs connectedHits false
    else if CausallyConnected p it h then
      let doms1 := domSetInsert it.dom connectedDOMs
      let hits1 := AbsHitSet.insert it connectedHits
      if doms1.length ≥ multMinusOne p then .enough
      else scanSlow p h rest doms1 hits1 allConnected
    else scanSlow p h rest connectedDOMs connectedHits false

/-- The pruning loop at the end of `AddHitToCluster`: the remaining list of new clusters
and the flag `keep`. -/
def pruneNew (n : CausalCluster) : List CausalCluster → List CausalCluster × Bool
  | [] => ([], true)
  | c :: cs =>
    if c.isSubsetOf n then pruneNew n cs
    else if n.isSubsetOf c then (c :: cs, false)
    else ((c :: (pruneNew n cs).1), (pruneNew n cs).2)

/-- The new sub-cluster of `AddHitToCluster`: the connected hits, then the hit itself. -/
def makeSubCluster (p : HiveSplitter_ParameterSet) (connectedHits : AbsHitSet) (h : AbsHit) :
    CausalCluster :=
  (connectedHits.foldl (fun c x => c.insertActiveHit p x) CausalCluster.new).insertActiveHit p h

/-- The condition of the immediate accept at the head of `AddHitToCluster`. -/
def fastAccept (p : HiveSplitter_ParameterSet) (c : CausalCluster) (h : AbsHit) : Bool :=
  match c.firstHitTimes.get? h.dom with
  | none => false
  | some t => ltAccept p (t - h.time) && ltReject p (t - h.time)

/-- The method `HiveSplitter::AddHitToCluster`: the cluster afterwards, the list
`newClusters_` afterwards, and the returned flag. -/
def AddHitToCluster (p : HiveSplitter_ParameterSet) (c : CausalCluster) (h : AbsHit)
    (newClusters : List CausalCluster) : CausalCluster × List CausalCluster × Bool :=
  if fastAccept p c h then (c.insertActiveHit p h, newClusters, true)
  else
    let scan :=
      if !DomMap.has c.firstHitTimes h.dom then scanFast p h c.active_hits.reverse [] [] true
      else scanSlow p h c.active_hits.reverse [] [] true
    match scan with
    | .enough => (c.insertActiveHit p h, newClusters, true)
    | .finished connectedHits allConnected =>
      if allConnected then (c.insertActiveHit p h, newClusters, true)
      else if connectedHits.isEmpty then (c, newClusters, false)
      else
        let newSubCluster := makeSubCluster p connectedHits h
        let r := pruneNew newSubCluster newClusters
        (c, (if r.2 then r.1 ++ [newSubCluster] else r.1), true)

/-- The merging loop of `AddSubEvent`: the enlarged new set and the partial subevents
that stay. -/
def mergeLoop (p : HiveSplitter_ParameterSet) :
    AbsHitSet → List AbsHitSet → AbsHitSet × List AbsHitSet
  | newSet, [] => (newSet, [])
  | newSet, s :: rest =>
    if CausallyOverlaps newSet s p.mergeOverlap p.multiplicityTimeWindow then
      mergeLoop p (AbsHitSet.insertAll newSet s) rest
    else ((mergeLoop p newSet rest).1, s :: (mergeLoop p newSet rest).2)

/-- The earliest time of all hits percolating through the clusters. -/
def earliestUpcomingTime (clusters : List CausalCluster) : Time :=
  clusters.foldl (fun t c => Time.min t c.getEarliestTime) Time.pinf

/-- The test `hset->rbegin()->GetTime() < earliest`; on an empty set, where the source
dereferences `rbegin()` of an empty set, the test counts as failed. -/
def endsBefore (earliest : Time) (hset : AbsHitSet) : Bool :=
  match hset.getLast? with
  | none => false
  | some x => Time.finLt x.time earliest

/-- Modelled from the spec: `AbsHitSetSequence` is declared in `ToolZ/HitSorting.h`, which is
not part of the sources; the spec calls it the final output sequence, to which a promoted
subevent is added at the end (`insert(end(), x)`), in the order it matured. -/
abbrev AbsHitSetSequence := List AbsHitSet

/-- The method `HiveSplitter::AddSubEvent`, given the current cluster list: the partial
subevents and the completed subevents afterwards. -/
def AddSubEvent (p : HiveSplitter_ParameterSet) (clusters : List CausalCluster)
    (newSet : AbsHitSet) (partialSubEvents : List AbsHitSet) (subEvents : AbsHitSetSequence) :
    List AbsHitSet × AbsHitSetSequence :=
  let m := mergeLoop p newSet partialSubEvents
  let pool := m.2 ++ [m.1]
  let earliest := earliestUpcomingTime clusters
  if earliest ≠ Time.pinf then
    (pool.filter (fun s => !endsBefore earliest s),
      subEvents ++ pool.filter (fun s => endsBefore earliest s))
  else (pool, subEvents)

/-- The internal state of the class `HiveSplitter`. -/
structure HiveSplitter where
  clusters_ : List CausalCluster
  newClusters_ : List CausalCluster
  partialSubEvents_ : List AbsHitSet
  subEvents_ : AbsHitSetSequence
deriving DecidableEq, Repr

/-- The state while the first loop of `AddHit` runs: the clusters already visited and
kept, the new clusters, both subevent pools and the flag `addedToCluster`. -/
structure AddHitLoop where
  visited : List CausalCluster
  newClusters : List CausalCluster
  partialSubEvents : List AbsHitSet
  subEvents : AbsHitSetSequence
  addedToCluster : Bool
deriving DecidableEq, Repr

/-- The first loop of `HiveSplitter::AddHit` over the clusters not yet visited. -/
def addHitLoop (p : HiveSplitter_ParameterSet) (h : AbsHit) :
    List CausalCluster → AddHitLoop → AddHitLoop
  | [], st => st
  | c :: rest, st =>
    let c1 := c.advanceInTime p (.fin h.time)
    let ev :=
      if c1.isEstablished && !c1.isActive p then
        AddSubEvent p (st.visited ++ c1 :: rest) c1.concluded_hits st.partialSubEvents
          st.subEvents
      else (st.partialSubEvents, st.subEvents)
    if c1.isActive p then
      let r := AddHitToCluster p c1 h st.newClusters
      addHitLoop p h rest
        { visited := st.visited ++ [r.1], newClusters := r.2.1, partialSubEvents := ev.1,
          subEvents := ev.2, addedToCluster := st.addedToCluster || r.2.2 }
    else
      addHitLoop p h rest { st with partialSubEvents := ev.1, subEvents := ev.2 }

/-- The inner loop of the second part of `AddHit` for one new cluster: the new cluster
(with the concluded hits it took over), the remaining cluster list and the flag `add`. -/
def reconcileOne (h : AbsHit) :
    CausalCluster → List CausalCluster → CausalCluster × List CausalCluster × Bool
  | n, [] => (n, [], true)
  | n, c :: cs =>
    if c.getLatestActiveHit = some h then
      if n.isSubsetOf c then (n, c :: cs, false)
      else ((reconcileOne h n cs).1, c :: (reconcileOne h n cs).2.1, (reconcileOne h n cs).2.2)
    else if c.isSubsetOf n then reconcileOne h (n.takeConcludedHits c) cs
    else ((reconcileOne h n cs).1, c :: (reconcileOne h n cs).2.1, (reconcileOne h n cs).2.2)

/-- The second part of `AddHit`: move the new clusters into the main cluster list. -/
def reconcile (h : AbsHit) : List CausalCluster → List CausalCluster → List CausalCluster
  | [], clusters => clusters
  | n :: ns, clusters =>
    let r := reconcileOne h n clusters
    reconcile h ns (if r.2.2 then r.2.1 ++ [r.1] else r.2.1)

/-- The method `HiveSplitter::AddHit`. -/
def HiveSplitter.AddHit (p : HiveSplitter_ParameterSet) (s : HiveSplitter) (h : AbsHit) :
    HiveSplitter :=
  let st := addHitLoop p h s.clusters_
    { visited := [], newClusters := [], partialSubEvents := s.partialSubEvents_,
      subEvents := s.subEvents_, addedToCluster := false }
  let clusters := reconcile h st.newClusters st.visited
  { clusters_ :=
      if !st.addedToCluster then clusters ++ [CausalCluster.new.insertActiveHit p h]
      else clusters
    newClusters_ := []
    partialSubEvents_ := st.partialSubEvents
    subEvents_ := st.subEvents }

/-- The loop of `HiveSplitter::FinalizeSubEvents` over the clusters in progress. -/
def finalizeLoop (p : HiveSplitter_ParameterSet) :
    List CausalCluster → List AbsHitSet → AbsHitSetSequence →
      List AbsHitSet × AbsHitSetSequence
  | [], partialSubEvents, subEvents => (partialSubEvents, subEvents)
  | c :: rest, partialSubEvents, subEvents =>
    let c1 := c.advanceInTime p .pinf
    let ev :=
      if c1.isEstablished then
        AddSubEvent p (c1 :: rest) c1.concluded_hits partialSubEvents subEvents
      else (partialSubEvents, subEvents)
    finalizeLoop p rest ev.1 ev.2

/-- The method `HiveSplitter::FinalizeSubEvents`. -/
def HiveSplitter.FinalizeSubEvents (p : HiveSplitter_ParameterSet) (s : HiveSplitter) :
    HiveSplitter :=
  let ev := finalizeLoop p s.clusters_ s.partialSubEvents_ s.subEvents_
  { clusters_ := [], newClusters_ := s.newClusters_, partialSubEvents_ := [],
    subEvents_ := ev.2 ++ ev.1 }

/-- The state after the four `clear()` calls at the head of `Split`. -/
def HiveSplitter.cleared : HiveSplitter :=
  { clusters_ := [], newClusters_ := [], partialSubEvents_ := [], subEvents_ := [] }

/-- The method `HiveSplitter::Split` on a time-ordered hit set. -/
def HiveSplitter.Split (p : HiveSplitter_ParameterSet) (inhits : AbsHitSet) :
    AbsHitSetSequence :=
  ((inhits.foldl (fun s h => s.AddHit p h) HiveSplitter.cleared).FinalizeSubEvents p).subEvents_

/-- The parameter sets that pass the checks of the constructor `HiveSplitter::HiveSplitter`
that end in `log_fatal`; the multiplicity is a `size_t`. -/
def validParams (p : HiveSplitter_ParameterSet) : Prop :=
  0 < p.multiplicity ∧ p.multiplicity < 2 ^ 64 ∧ 0 < p.multiplicityTimeWindow ∧
  (∀ a, p.acceptTimeWindow = some a → 0 ≤ a) ∧
  (∀ r, p.rejectTimeWindow = some r → 0 ≤ r) ∧
  (∀ a r, p.acceptTimeWindow = some a → p.rejectTimeWindow = some r → a < r)

end hivesplitter

namespace Scenario

open hivesplitter

/-- The oracle of the concrete scenario: two hits are connected iff their times differ
by at most 50. -/
def within50 (h1 h2 : AbsHit) : Bool := decide (h2.time - h1.time ≤ 50 ∧ h1.time - h2.time ≤ 50)

/-- The parameter set of the concrete scenario. -/
def params : HiveSplitter_ParameterSet :=
  { multiplicity := 2, multiplicityTimeWindow := 100, acceptTimeWindow := none,
    rejectTimeWindow := none, Connected := within50, mergeOverlap := 1 }

end Scenario

/-! ## Invariants used in the proofs -/

namespace hivesplitter
open detail

/-- The number of hits of a set that lie on sensor `d`. -/
def hitsOn (d : Nat) (l : AbsHitSet) : Nat := l.countP (fun x => decide (x.dom = d))

/-- The bookkeeping invariant between an active set and its per-sensor counter map: the
active set is strictly increasing, the map has one entry per sensor with an active hit,
and the entry is the number of active hits on the sensor. -/
structure Bookkept (active : AbsHitSet) (doms : DomMap Nat) : Prop where
  sorted : active.Pairwise (fun a b => a.lt b = true)
  keys : (doms.map Prod.fst).Nodup
  counts : ∀ d, (doms.get? d).getD 0 = hitsOn d active
  nonzero : ∀ d, doms.get? d ≠ some 0

/-- Every sensor with a recorded first-hit time has an active hit. -/
def FirstHitsActive (active : AbsHitSet) (fht : DomMap Int) : Prop :=
  ∀ d, (fht.get? d).isSome = true → 0 < hitsOn d active

end hivesplitter

namespace hivesplitter
open detail

/-- A cluster that is not established and whose active hits all lie on the sensor `d`,
with consistent bookkeeping. -/
def OneSensor (d : Nat) (c : CausalCluster) : Prop :=
  c.established = false ∧ Bookkept c.active_hits c.active_doms ∧
  FirstHitsActive c.active_hits c.firstHitTimes ∧ ∀ x ∈ c.active_hits, x.dom = d

end hivesplitter

namespace Scenario

/-- A parameter set with an oracle that connects nothing. -/
def paramsNone : hivesplitter.HiveSplitter_ParameterSet :=
  { multiplicity := 2, multiplicityTimeWindow := 100, acceptTimeWindow := some 20,
    rejectTimeWindow := some 60, Connected := fun _ _ => false, mergeOverlap := 1 }

end Scenario

namespace hivesplitter
open detail

/-- A single established cluster that holds, in its concluded set followed by its active
set, exactly the hits `done` fed so far, the latest of which is `prev`; every sensor
with a recorded first-hit time carries one of these hits. -/
structure Chained (c : CausalCluster) (done : AbsHitSet) (prev : AbsHit) : Prop where
  est : c.established = true
  hits : c.concluded_hits ++ c.active_hits = done
  last : c.active_hits.getLast? = some prev
  fht : ∀ d, (c.firstHitTimes.get? d).isSome = true → ∃ x ∈ done, x.dom = d

end hivesplitter
namespace Scenario

/-- A parameter set with multiplicity one and an oracle that connects everything. -/
def paramsAll : hivesplitter.HiveSplitter_ParameterSet :=
  { multiplicity := 1, multiplicityTimeWindow := 100, acceptTimeWindow := none,
    rejectTimeWindow := none, Connected := fun _ _ => true, mergeOverlap := 1 }

end Scenario

/-! ## HiveTrigger

The trigger variant works on `AbsDAQHit`, whose time is a number of DAQ ticks
(`int64_t`). Tick arithmetic is modelled in `Int` without wrap-around (a sum such as
`ticks + NsToTicks(window)` overflows only for ticks next to the ends of the range).
The windows of the parameter set are `double` nanoseconds; they are modelled as exact
integers and converted by `NsToTicks`. -/

namespace HitSorting

/-- Modelled from the spec: `AbsDAQHit` is declared in `ToolZ/HitSorting.h`, which is not
part of the sources; it is a sensor index and a time in DAQ ticks (`GetDAQTicks`), here
the field `time`, ordered like `AbsHit`. -/
abbrev AbsDAQHit := AbsHit

/-- The hit set type `AbsDAQHitSet`, a `std::set<AbsDAQHit>`. -/
abbrev AbsDAQHitSet := AbsHitSet

/-- Modelled from the spec: `AbsDAQHitSetSequence` is declared in `ToolZ/HitSorting.h`; as
for `AbsHitSetSequence`, a sequence to which subevents are added at the end. -/
abbrev AbsDAQHitSetSequence := List AbsDAQHitSet

end HitSorting

namespace hivetrigger

/-- The type `DAQTicks` is `int64_t`. -/
abbrev DAQTicks := Int

/-- The value `std::numeric_limits<DAQTicks>::max()`. -/
def DAQTicks.max : DAQTicks := 2 ^ 63 - 1

/-- The value `std::numeric_limits<DAQTicks>::min()`. -/
def DAQTicks.min : DAQTicks := -(2 ^ 63)

/-- The parameter set `HiveTrigger_ParameterSet`; the windows are in nanoseconds,
`acceptTimeWindow = none` is `NAN` and `rejectTimeWindow = none` is `INFINITY`. The
conversion of a `double` that is not finite, or out of the range of `int64_t`, to
`DAQTicks` is undefined in C++; `indefinite` is the value the platform delivers
(`INT64_MIN` on x86-64). -/
structure HiveTrigger_ParameterSet where
  multiplicity : Nat
  multiplicityTimeWindow : Int
  acceptTimeWindow : Option Int
  rejectTimeWindow : Option Int
  Connected : AbsDAQHit → AbsDAQHit → Bool
  mergeOverlap : Nat
  indefinite : DAQTicks

/-- The function `NsToTicks`, `(DAQTicks)(ns*10.)`, on a finite or non-finite `double`. -/
def NsToTicks (p : HiveTrigger_ParameterSet) (ns : Option Int) : DAQTicks :=
  match ns with
  | none => p.indefinite
  | some v => if DAQTicks.min ≤ v * 10 ∧ v * 10 ≤ DAQTicks.max then v * 10 else p.indefinite

/-- The value `params.multiplicity - 1` in `size_t` arithmetic. -/
def multMinusOne (p : HiveTrigger_ParameterSet) : Nat :=
  (p.multiplicity + 2 ^ 64 - 1) % 2 ^ 64

namespace detail

/-- The function `CausallyConnected` of the trigger. -/
def CausallyConnected (p : HiveTrigger_ParameterSet) (h1 h2 : AbsDAQHit) : Bool :=
  if h1.time > h2.time then p.Connected h2 h1 else p.Connected h1 h2

/-- The function `CausallyOverlaps` of the trigger; its body is the one of the splitter. -/
def CausallyOverlaps (set1 set2 : AbsDAQHitSet) (multiplicity : Nat) (window : DAQTicks) :
    Bool :=
  hivesplitter.detail.overlapsLoop multiplicity window set1 set2 []

/-- The class `CausalCluster` of the trigger. -/
structure CausalCluster where
  sync_time : DAQTicks
  active_hits : AbsDAQHitSet
  active_doms : DomMap Nat
  firstHitTimes : DomMap DAQTicks
  concluded_hits : AbsDAQHitSet
  established : Bool
deriving DecidableEq, Repr

/-- The constructor `CausalCluster(p)`. -/
def CausalCluster.new : CausalCluster :=
  { sync_time := DAQTicks.min, active_hits := [], active_doms := [], firstHitTimes := [],
    concluded_hits := [], established := false }

/-- The method `getEarliestTime`; the branch behind `assert(false)` returns the maximum. -/
def CausalCluster.getEarliestTime (c : CausalCluster) : DAQTicks :=
  match c.concluded_hits with
  | x :: _ => x.time
  | [] =>
    match c.active_hits with
    | y :: _ => y.time
    | [] => DAQTicks.max

/-- The method `insertActiveHit`. -/
def CausalCluster.insertActiveHit (p : HiveTrigger_ParameterSet) (c : CausalCluster)
    (h : AbsDAQHit) : CausalCluster :=
  let doms := DomMap.set c.active_doms h.dom (((c.active_doms.get? h.dom).getD 0) + 1)
  let fht :=
    match c.firstHitTimes.get? h.dom with
    | none => DomMap.set c.firstHitTimes h.dom h.time
    | some t => if t > h.time then DomMap.set c.firstHitTimes h.dom h.time else c.firstHitTimes
  { sync_time := max c.sync_time h.time
    active_hits := AbsHitSet.insert h c.active_hits
    active_doms := doms
    firstHitTimes := fht
    concluded_hits := c.concluded_hits
    established := c.established || decide (doms.length ≥ p.multiplicity) }

/-- The method `takeConcludedHits`. -/
def CausalCluster.takeConcludedHits (c other : CausalCluster) : CausalCluster :=
  { c with concluded_hits := AbsHitSet.insertAll c.concluded_hits other.concluded_hits }

/-- The method `getLatestActiveHit`; `none` on an empty active set. -/
def CausalCluster.getLatestActiveHit (c : CausalCluster) : Option AbsDAQHit :=
  c.active_hits.getLast?

/-- The method `isActive`. The first test compares the two windows as `double`s (false
for `NAN`); the second converts `sync_time - acceptTimeWindow` with `NsToTicks`. -/
def CausalCluster.isActive (p : HiveTrigger_ParameterSet) (c : CausalCluster) : Bool :=
  if c.active_hits ≠ [] then true
  else
    match p.acceptTimeWindow with
    | none => c.firstHitTimes.any (fun fht => decide (fht.2 > NsToTicks p none))
    | some a =>
      if a ≤ p.multiplicityTimeWindow then false
      else c.firstHitTimes.any (fun fht => decide (fht.2 > NsToTicks p (some (c.sync_time - a))))

/-- The method `isEstablished`. -/
def CausalCluster.isEstablished (c : CausalCluster) : Bool := c.established

/-- The method `isSubsetOf`. -/
def CausalCluster.isSubsetOf (c c2 : CausalCluster) : Bool :=
  if c2.active_hits.length < c.active_hits.length then false
  else hivesplitter.detail.isSubsetLoop c.active_hits c2.active_hits

/-- The `while` loop of `advanceInTime`. -/
def advanceLoop (p : HiveTrigger_ParameterSet) (ticks : DAQTicks) (established : Bool) :
    AbsDAQHitSet → DomMap Nat → DomMap DAQTicks → AbsDAQHitSet →
      AbsDAQHitSet × DomMap Nat × DomMap DAQTicks × AbsDAQHitSet
  | [], doms, fht, concluded => ([], doms, fht, concluded)
  | h :: rest, doms, fht, concluded =>
    if ticks > h.time + NsToTicks p (some p.multiplicityTimeWindow) then
      let doms1 := hivesplitter.detail.decrDom doms h.dom
      if established then
        advanceLoop p ticks established rest doms1 fht (AbsHitSet.insert h concluded)
      else
        let fht1 :=
          if !DomMap.has doms1 h.dom then DomMap.erase fht h.dom
          else hivesplitter.detail.resyncFirstHit h (h :: rest) fht
        advanceLoop p ticks established rest doms1 fht1 concluded
    else (h :: rest, doms, fht, concluded)

/-- The method `advanceInTime`. -/
def CausalCluster.advanceInTime (p : HiveTrigger_ParameterSet) (c : CausalCluster)
    (ticks : DAQTicks) : CausalCluster :=
  let r := advanceLoop p ticks c.established c.active_hits c.active_doms c.firstHitTimes
    c.concluded_hits
  { sync_time := ticks, active_hits := r.1, active_doms := r.2.1, firstHitTimes := r.2.2.1,
    concluded_hits := r.2.2.2, established := c.established }

end detail

open detail

/-- The FAST loop of `HiveTrigger::AddHitToCluster`. -/
def scanFast (p : HiveTrigger_ParameterSet) (h : AbsDAQHit) :
    List AbsDAQHit → List Nat → AbsDAQHitSet → Bool → hivesplitter.Scan
  | [], _, connectedHits, allConnected => .finished connectedHits allConnected
  | it :: rest, connectedDOMs, connectedHits, allConnected =>
    if CausallyConnected p it h then
      let doms1 := domSetInsert it.dom connectedDOMs
      let hits1 := AbsHitSet.insert it connectedHits
      if doms1.length ≥ multMinusOne p then .enough
      else scanFast p h rest doms1 hits1 allConnected
    else scanFast p h rest connectedDOMs connectedHits false

/-- The SLOW loop of `HiveTrigger::AddHitToCluster`. -/
def scanSlow (p : HiveTrigger_ParameterSet) (h : AbsDAQHit) :
    List AbsDAQHit → List Nat → AbsDAQHitSet → Bool → hivesplitter.Scan
  | [], _, connectedHits, allConnected => .finished connectedHits allConnected
  | it :: rest, connectedDOMs, connectedHits, allConnected =>
    if it.dom = h.dom then
      let dt := h.time - it.time
      if dt ≤ NsToTicks p p.acceptTimeWindow then
        scanSlow p h rest connectedDOMs (AbsHitSet.insert it connectedHits) allConnected
      else if dt > NsToTicks p p.rejectTimeWindow then
        scanSlow p h rest connectedDOMs connectedHits false
      else if CausallyConnected p it h then
        scanSlow p h rest connectedDOMs (AbsHitSet.insert it connectedHits) allConnected
      else scanSlow p h rest connectedDOMs connectedHits false
    else if CausallyConnected p it h then
      let doms1 := domSetInsert it.dom connectedDOMs
      let hits1 := AbsHitSet.insert it connectedHits
      if doms1.length ≥ multMinusOne p then .enough
      else scanSlow p h rest doms1 hits1 allConnected
    else scanSlow p h rest connectedDOMs connectedHits false

/-- The pruning loop at the end of `AddHitToCluster`. -/
def pruneNew (n : CausalCluster) : List CausalCluster → List CausalCluster × Bool
  | [] => ([], true)
  | c :: cs =>
    if c.isSubsetOf n then pruneNew n cs
    else if n.isSubsetOf c then (c :: cs, false)
    else ((c :: (pruneNew n cs).1), (pruneNew n cs).2)

/-- The new sub-cluster of `AddHitToCluster`. -/
def makeSubCluster (p : HiveTrigger_ParameterSet) (connectedHits : AbsDAQHitSet)
    (h : AbsDAQHit) : CausalCluster :=
  (connectedHits.foldl (fun c x => c.insertActiveHit p x) CausalCluster.new).insertActiveHit p h

/-- The condition of the immediate accept at the head of `AddHitToCluster`. -/
def fastAccept (p : HiveTrigger_ParameterSet) (c : CausalCluster) (h : AbsDAQHit) : Bool :=
  match c.firstHitTimes.get? h.dom with
  | none => false
  | some t =>
    decide (t - h.time < NsToTicks p p.acceptTimeWindow) &&
      decide (t - h.time < NsToTicks p p.rejectTimeWindow)

/-- The method `HiveTrigger::AddHitToCluster`. -/
def AddHitToCluster (p : HiveTrigger_ParameterSet) (c : CausalCluster) (h : AbsDAQHit)
    (newClusters : List CausalCluster) : CausalCluster × List CausalCluster × Bool :=
  if fastAccept p c h then (c.insertActiveHit p h, newClusters, true)
  else
    let scan :=
      if !DomMap.has c.firstHitTimes h.dom then scanFast p h c.active_hits.reverse [] [] true
      else scanSlow p h c.active_hits.reverse [] [] true
    match scan with
    | .enough => (c.insertActiveHit p h, newClusters, true)
    | .finished connectedHits allConnected =>
      if allConnected then (c.insertActiveHit p h, newClusters, true)
      else if connectedHits.isEmpty then (c, newClusters, false)
      else
        let newSubCluster := makeSubCluster p connectedHits h
        let r := pruneNew newSubCluster newClusters
        (c, (if r.2 then r.1 ++ [newSubCluster] else r.1), true)

/-- The internal state of the class `HiveTrigger`. -/
structure HiveTrigger where
  clusters_ : List CausalCluster
  newClusters_ : List CausalCluster
  partialSubEvents_ : List AbsDAQHitSet
  subEvents_ : AbsDAQHitSetSequence
deriving DecidableEq, Repr

/-- The state of a freshly constructed `HiveTrigger`. -/
def HiveTrigger.fresh : HiveTrigger :=
  { clusters_ := [], newClusters_ := [], partialSubEvents_ := [], subEvents_ := [] }

/-- The test `hset->rbegin()->GetDAQTicks() < earliestTick`; false on an empty set. -/
def endsBefore (earliestTick : DAQTicks) (hset : AbsDAQHitSet) : Bool :=
  match hset.getLast? with
  | none => false
  | some x => decide (x.time < earliestTick)

/-- The method `HiveTrigger::PushEvents`: the partial subevents that stay and the completed
subevents afterwards. -/
def PushEvents (earliestTick : DAQTicks) (partialSubEvents : List AbsDAQHitSet)
    (subEvents : AbsDAQHitSetSequence) : List AbsDAQHitSet × AbsDAQHitSetSequence :=
  (partialSubEvents.filter (fun s => !endsBefore earliestTick s),
    subEvents ++ partialSubEvents.filter (fun s => endsBefore earliestTick s))

/-- The merging loop of `AddSubEvent`. -/
def mergeLoop (p : HiveTrigger_ParameterSet) :
    AbsDAQHitSet → List AbsDAQHitSet → AbsDAQHitSet × List AbsDAQHitSet
  | newSet, [] => (newSet, [])
  | newSet, s :: rest =>
    if CausallyOverlaps newSet s p.mergeOverlap (NsToTicks p (some p.multiplicityTimeWindow))
    then mergeLoop p (AbsHitSet.insertAll newSet s) rest
    else ((mergeLoop p newSet rest).1, s :: (mergeLoop p newSet rest).2)

/-- The earliest tick of all hits percolating through the clusters. -/
def earliestUpcomingTime (clusters : List CausalCluster) : DAQTicks :=
  clusters.foldl (fun t c => min t c.getEarliestTime) DAQTicks.max

/-- The method `HiveTrigger::AddSubEvent`, given the current cluster list. -/
def AddSubEvent (p : HiveTrigger_ParameterSet) (clusters : List CausalCluster)
    (newSet : AbsDAQHitSet) (partialSubEvents : List AbsDAQHitSet)
    (subEvents : AbsDAQHitSetSequence) : List AbsDAQHitSet × AbsDAQHitSetSequence :=
  let m := mergeLoop p newSet partialSubEvents
  let pool := m.2 ++ [m.1]
  let earliest := earliestUpcomingTime clusters
  if earliest ≠ DAQTicks.max then PushEvents earliest pool subEvents
  else (pool, subEvents)

/-- The state while the first loop of `AddHit` (or the loop of `AdvanceTime`) runs. -/
structure ClusterLoop where
  visited : List CausalCluster
  newClusters : List CausalCluster
  partialSubEvents : List AbsDAQHitSet
  subEvents : AbsDAQHitSetSequence
  addedToCluster : Bool
deriving DecidableEq, Repr

/-- The first loop of `HiveTrigger::AddHit`; an inactive cluster is erased before its
concluded hits are handed to `AddSubEvent`. -/
def addHitLoop (p : HiveTrigger_ParameterSet) (h : AbsDAQHit) :
    List CausalCluster → ClusterLoop → ClusterLoop
  | [], st => st
  | c :: rest, st =>
    let c1 := c.advanceInTime p h.time
    if c1.isActive p then
      let r := AddHitToCluster p c1 h st.newClusters
      addHitLoop p h rest
        { st with visited := st.visited ++ [r.1], newClusters := r.2.1,
                  addedToCluster := st.addedToCluster || r.2.2 }
    else if c1.isEstablished then
      let ev := AddSubEvent p (st.visited ++ rest) c1.concluded_hits st.partialSubEvents
        st.subEvents
      addHitLoop p h rest { st with partialSubEvents := ev.1, subEvents := ev.2 }
    else addHitLoop p h rest st

/-- The inner loop of the second part of `AddHit` for one new cluster. -/
def reconcileOne (h : AbsDAQHit) :
    CausalCluster → List CausalCluster → CausalCluster × List CausalCluster × Bool
  | n, [] => (n, [], true)
  | n, c :: cs =>
    if c.getLatestActiveHit = some h then
      if n.isSubsetOf c then (n, c :: cs, false)
      else ((reconcileOne h n cs).1, c :: (reconcileOne h n cs).2.1, (reconcileOne h n cs).2.2)
    else if c.isSubsetOf n then reconcileOne h (n.takeConcludedHits c) cs
    else ((reconcileOne h n cs).1, c :: (reconcileOne h n cs).2.1, (reconcileOne h n cs).2.2)

/-- The second part of `AddHit`: move the new clusters into the main cluster list. -/
def reconcile (h : AbsDAQHit) : List CausalCluster → List CausalCluster → List CausalCluster
  | [], clusters => clusters
  | n :: ns, clusters =>
    let r := reconcileOne h n clusters
    reconcile h ns (if r.2.2 then r.2.1 ++ [r.1] else r.2.1)

/-- The method `HiveTrigger::AddHit`. -/
def HiveTrigger.AddHit (p : HiveTrigger_ParameterSet) (s : HiveTrigger) (h : AbsDAQHit) :
    HiveTrigger :=
  let st := addHitLoop p h s.clusters_
    { visited := [], newClusters := [], partialSubEvents := s.partialSubEvents_,
      subEvents := s.subEvents_, addedToCluster := false }
  let clusters := reconcile h st.newClusters st.visited
  { clusters_ :=
      if !st.addedToCluster then clusters ++ [CausalCluster.new.insertActiveHit p h]
      else clusters
    newClusters_ := []
    partialSubEvents_ := st.partialSubEvents
    subEvents_ := st.subEvents }

/-- The loop of `HiveTrigger::AdvanceTime(DAQTicks)`. -/
def advanceTimeLoop (p : HiveTrigger_ParameterSet) (ticks : DAQTicks) :
    List CausalCluster → ClusterLoop → ClusterLoop
  | [], st => st
  | c :: rest, st =>
    let c1 := c.advanceInTime p ticks
    if c1.isActive p then advanceTimeLoop p ticks rest { st with visited := st.visited ++ [c1] }
    else if c1.isEstablished then
      let ev := AddSubEvent p (st.visited ++ rest) c1.concluded_hits st.partialSubEvents
        st.subEvents
      advanceTimeLoop p ticks rest { st with partialSubEvents := ev.1, subEvents := ev.2 }
    else advanceTimeLoop p ticks rest st

/-- The method `HiveTrigger::AdvanceTime(DAQTicks)`. -/
def HiveTrigger.AdvanceTime (p : HiveTrigger_ParameterSet) (s : HiveTrigger)
    (ticks : DAQTicks) : HiveTrigger :=
  let st := advanceTimeLoop p ticks s.clusters_
    { visited := [], newClusters := s.newClusters_, partialSubEvents := s.partialSubEvents_,
      subEvents := s.subEvents_, addedToCluster := false }
  { clusters_ := st.visited, newClusters_ := s.newClusters_,
    partialSubEvents_ := st.partialSubEvents, subEvents_ := st.subEvents }

/-- The method `HiveTrigger::FinalizeSubEvents` (the two assertions are not modelled). -/
def HiveTrigger.FinalizeSubEvents (p : HiveTrigger_ParameterSet) (s : HiveTrigger) :
    HiveTrigger :=
  let s1 := s.AdvanceTime p DAQTicks.max
  let ev := PushEvents DAQTicks.max s1.partialSubEvents_ s1.subEvents_
  { s1 with partialSubEvents_ := ev.1, subEvents_ := ev.2 }

/-- The method `HiveTrigger::PullSubEvents`: the returned sequence and the state afterwards. -/
def HiveTrigger.PullSubEvents (s : HiveTrigger) : AbsDAQHitSetSequence × HiveTrigger :=
  (s.subEvents_, { s with subEvents_ := [] })

/-- The last tick of a subevent, `sub.rbegin()->GetDAQTicks()`; an empty set leaves the
accumulator as it is. -/
def lastTickOr (d : DAQTicks) (s : AbsDAQHitSet) : DAQTicks :=
  match s.getLast? with
  | none => d
  | some x => x.time

/-- The first tick of a subevent, `set.begin()->GetDAQTicks()`. -/
def firstTickOr (d : DAQTicks) (s : AbsDAQHitSet) : DAQTicks :=
  match s with
  | [] => d
  | x :: _ => x.time

/-- The method `HiveTrigger::FinalizedUntil`. The second loop assigns to `ticks_frombelow`
the minimum of `ticks_fromabove` and the first tick of the partial subevent, as the
source does. -/
def HiveTrigger.FinalizedUntil (s : HiveTrigger) : DAQTicks :=
  let frombelow1 := s.subEvents_.foldl (fun fb sub => max fb (lastTickOr fb sub)) DAQTicks.min
  let fromabove0 := DAQTicks.max
  let frombelow2 := s.partialSubEvents_.foldl
    (fun _ set => min fromabove0 (firstTickOr fromabove0 set)) frombelow1
  let fromabove := s.clusters_.foldl (fun fa c => min fa c.getEarliestTime) fromabove0
  let max_time := max frombelow2 fromabove
  if max_time > 1 then max_time - 1 else 0

end hivetrigger

namespace hivetrigger

/-- Modelled from the spec: the watermark as §4.6 words it, to be compared with
`HiveTrigger.FinalizedUntil`: the maximum of (a) the latest hit tick among the finalized
subevents and (b) the minimum of the earliest hit tick among the partial subevents and
the earliest hit tick among the live clusters, minus one tick. -/
def HiveTrigger.FinalizedUntil_spec (s : HiveTrigger) : DAQTicks :=
  let a := s.subEvents_.foldl (fun m sub => max m (lastTickOr m sub)) DAQTicks.min
  let earliestPartial :=
    s.partialSubEvents_.foldl (fun m set => min m (firstTickOr m set)) DAQTicks.max
  let earliestCluster :=
    s.clusters_.foldl (fun m c => min m c.getEarliestTime) DAQTicks.max
  max a (min earliestPartial earliestCluster) - 1

end hivetrigger

namespace HitSorting

/-- The times of the first hits of the subevents of a sequence, in the order of the
sequence (an empty subevent has no first hit). -/
def firstHitTimesOf (l : List AbsHitSet) : List Int :=
  l.filterMap (fun e => e.head?.map (fun x => x.time))

end HitSorting

namespace Scenario
open hivetrigger

/-- An oracle that connects two hits iff their sensor indices have the same parity. -/
def sameParity (h1 h2 : AbsHit) : Bool := decide (h1.dom % 2 = h2.dom % 2)

/-- Multiplicity 2, window 100, oracle `sameParity`. -/
def paramsParity : hivesplitter.HiveSplitter_ParameterSet :=
  { multiplicity := 2, multiplicityTimeWindow := 100, acceptTimeWindow := none,
    rejectTimeWindow := none, Connected := sameParity, mergeOverlap := 1 }

/-- Five hits: sensors 1, 3, 5 form one group, sensors 2, 4 another. -/
def fiveHits : AbsHitSet := [⟨1, 0⟩, ⟨2, 5⟩, ⟨4, 6⟩, ⟨3, 90⟩, ⟨5, 150⟩]

/-- An oracle that connects two hits iff their sensor indices agree modulo 3. -/
def sameMod3 (h1 h2 : AbsDAQHit) : Bool := decide (h1.dom % 3 = h2.dom % 3)

/-- A trigger parameter set: multiplicity 1, window 10 ns (100 ticks), accept window 0,
reject window 1000 ns, oracle `sameMod3`. -/
def triggerParams : HiveTrigger_ParameterSet :=
  { multiplicity := 1, multiplicityTimeWindow := 10, acceptTimeWindow := some 0,
    rejectTimeWindow := some 1000, Connected := sameMod3, mergeOverlap := 1,
    indefinite := DAQTicks.min }

/-- Multiplicity 2, window 10 ns (100 ticks), oracle `sameParity`, for the trigger. -/
def triggerParity : HiveTrigger_ParameterSet :=
  { multiplicity := 2, multiplicityTimeWindow := 10, acceptTimeWindow := some 0,
    rejectTimeWindow := some 1000, Connected := sameParity, mergeOverlap := 1,
    indefinite := DAQTicks.min }

/-- The parameter set of `IceHiveTriggerTest`: the defaults of `HiveTrigger_ParameterSet`
(multiplicity 3, window 1000 ns, accept window `NAN`, reject window `INFINITY`, merge
overlap 1) with a connector that connects nothing. -/
def triggerTestParams : HiveTrigger_ParameterSet :=
  { multiplicity := 3, multiplicityTimeWindow := 1000, acceptTimeWindow := none,
    rejectTimeWindow := none, Connected := fun _ _ => false, mergeOverlap := 1,
    indefinite := DAQTicks.min }

/-- Feed a list of hits, in the given order, to a fresh trigger. -/
def feed (p : HiveTrigger_ParameterSet) (l : List AbsDAQHit) : HiveTrigger :=
  l.foldl (fun s h => s.AddHit p h) HiveTrigger.fresh

/-- Four hits in tick order: sensors 0, 3, 6 form one group, sensor 2 another. -/
def fourHits : List AbsDAQHit := [⟨0, 1000⟩, ⟨2, 1050⟩, ⟨3, 1100⟩, ⟨6, 1190⟩]

end Scenario

namespace hivesplitter
open detail

/-- The number of distinct sensors that carry a hit of the set. -/
def distinctDoms (l : AbsHitSet) : Nat := (l.map (fun x => x.dom)).dedup.length

/-- The invariant behind the multiplicity threshold: consistent bookkeeping, and an
established cluster holds hits on at least `multiplicity` distinct sensors. -/
def MultOk (p : HiveSplitter_ParameterSet) (c : CausalCluster) : Prop :=
  Bookkept c.active_hits c.active_doms ∧
  (c.established = true → p.multiplicity ≤ distinctDoms (c.concluded_hits ++ c.active_hits))

end hivesplitter

namespace hivesplitter
open detail

/-- Every hit held by the cluster satisfies `P`, and the concluded set is strictly
increasing. -/
def HitsIn (P : AbsHit → Prop) (c : CausalCluster) : Prop :=
  (∀ x ∈ c.active_hits, P x) ∧ (∀ x ∈ c.concluded_hits, P x) ∧
  c.concluded_hits.Pairwise (fun a b => a.lt b = true)

/-- The number of subevents of a sequence that contain the hit `x`. -/
def occurrences (x : AbsHit) (l : AbsHitSetSequence) : Nat :=
  (l.filter (fun e => decide (x ∈ e))).length

end hivesplitter

namespace Scenario

/-- The oracle that connects two hits iff the pair of their sensors is in the list. -/
def linked (pairs : List (Nat × Nat)) (h1 h2 : AbsHit) : Bool :=
  pairs.any (fun e => (e.1 == h1.dom && e.2 == h2.dom) || (e.1 == h2.dom && e.2 == h1.dom))

/-- Multiplicity 3, window 100, merge overlap 2; sensor 1 is connected to all other
sensors, and besides only the pairs (0,3) and (2,4) are connected. -/
def paramsOverlapTwo : hivesplitter.HiveSplitter_ParameterSet :=
  { multiplicity := 3, multiplicityTimeWindow := 100, acceptTimeWindow := none,
    rejectTimeWindow := none,
    Connected := linked [(0, 1), (1, 2), (0, 3), (1, 3), (1, 4), (2, 4)], mergeOverlap := 2 }

end Scenario

namespace hivetrigger
open detail

/-- The multiplicity time window in ticks, `NsToTicks(params.multiplicityTimeWindow)`. -/
def windowTicks (p : HiveTrigger_ParameterSet) : DAQTicks :=
  NsToTicks p (some p.multiplicityTimeWindow)

/-- Every concluded hit of the cluster satisfies `C`, every active hit satisfies `A`, and
both sets are strictly increasing. -/
def Held (C A : AbsDAQHit → Prop) (c : CausalCluster) : Prop :=
  (∀ x ∈ c.concluded_hits, C x) ∧ (∀ y ∈ c.active_hits, A y) ∧
  c.concluded_hits.Pairwise (fun a b => a.lt b = true) ∧
  c.active_hits.Pairwise (fun a b => a.lt b = true)

/-- The time order of the hits held by the live clusters: the hit sets are strictly
increasing, no held hit is later than the tick `T`, and no concluded hit of a cluster
is later than an active hit of a cluster. -/
structure Ordered (s : HiveTrigger) (T : DAQTicks) : Prop where
  sorted : ∀ c ∈ s.clusters_, c.concluded_hits.Pairwise (fun a b => a.lt b = true) ∧
    c.active_hits.Pairwise (fun a b => a.lt b = true)
  bound : ∀ c ∈ s.clusters_, ∀ x ∈ c.concluded_hits ++ c.active_hits, x.time ≤ T
  before : ∀ c ∈ s.clusters_, ∀ c3 ∈ s.clusters_, ∀ x ∈ c.concluded_hits,
    ∀ y ∈ c3.active_hits, x.time ≤ y.time

/-- The engine states reached from a freshly constructed engine by calls of `AddHit` with
non-decreasing hit ticks and calls of `AdvanceTime`; the second argument is the tick
of the latest hit fed (any tick for the fresh engine). -/
inductive Reachable (p : HiveTrigger_ParameterSet) : HiveTrigger → DAQTicks → Prop where
  | fresh (T : DAQTicks) : Reachable p HiveTrigger.fresh T
  | addHit {s : HiveTrigger} {T : DAQTicks} (h : AbsDAQHit) :
      Reachable p s T → T ≤ h.time → Reachable p (s.AddHit p h) h.time
  | advanceTime {s : HiveTrigger} {T : DAQTicks} (t : DAQTicks) :
      Reachable p s T → Reachable p (s.AdvanceTime p t) T

end hivetrigger

/-! ## The constructors of the engines -/

/-- Modelled from the spec: the logging macros are declared in the icetray framework, which
is not part of the sources. `log_fatal` is the fatal configuration error of the spec: it
writes its message and ends the construction. `log_error` and `log_warn` write their
message and return; their messages are collected in the order they are written
(`log_info` and `log_debug` are left out). -/
inductive Construction (E : Type) where
  | fatal : String → Construction E
  | done : E → List String → Construction E
deriving DecidableEq, Repr

namespace hivesplitter

/-- The test `params_.acceptTimeWindow < 0.0`; false for `NAN`. -/
def acceptNegative (p : HiveSplitter_ParameterSet) : Bool :=
  match p.acceptTimeWindow with
  | none => false
  | some a => decide (a < 0)

/-- The test `params_.rejectTimeWindow < 0.0`; false for `INFINITY`. -/
def rejectNegative (p : HiveSplitter_ParameterSet) : Bool :=
  match p.rejectTimeWindow with
  | none => false
  | some r => decide (r < 0)

/-- The test `params_.rejectTimeWindow <= params_.acceptTimeWindow`; false if the accept
window is `NAN`, and false if the reject window is `INFINITY`. -/
def rejectLeAccept (p : HiveSplitter_ParameterSet) : Bool :=
  match p.acceptTimeWindow, p.rejectTimeWindow with
  | some a, some r => decide (r ≤ a)
  | _, _ => false

/-- The constructor `HiveSplitter::HiveSplitter`. The shared pointer `connectorBlock` of the
parameter set is the flag `connectorBlock` (false for a null pointer); when it is set, the
field `Connected` of the parameter set is what the connector block answers. -/
def HiveSplitter.new (p : HiveSplitter_ParameterSet) (connectorBlock : Bool) :
    Construction HiveSplitter :=
  if p.multiplicity ≤ 0 then .fatal "Multiplicity should be greater than zero"
  else if p.multiplicityTimeWindow ≤ 0 then .fatal "TimeWindow should be greater than zero"
  else if acceptNegative p then .fatal "AcceptTimeWindow cannot be negative"
  else if rejectNegative p then .fatal "RejectTimeWindow cannot be negative"
  else if rejectLeAccept p then
    .fatal "RejectTimeWindow needs to be greater than AcceptTimeWindow"
  else
    .done HiveSplitter.cleared
      ((if !connectorBlock then ["No ConnectionBlock defined!"] else []) ++
        (if p.mergeOverlap = 0 then
          ["RequiredDOMOverlap configured with 0, everything will be merged"] else []))

end hivesplitter

namespace hivetrigger

/-- The test `params_.acceptTimeWindow < 0.0`; false for `NAN`. -/
def acceptNegative (p : HiveTrigger_ParameterSet) : Bool :=
  match p.acceptTimeWindow with
  | none => false
  | some a => decide (a < 0)

/-- The test `params_.rejectTimeWindow < 0.0`; false for `INFINITY`. -/
def rejectNegative (p : HiveTrigger_ParameterSet) : Bool :=
  match p.rejectTimeWindow with
  | none => false
  | some r => decide (r < 0)

/-- The test `params_.rejectTimeWindow <= params_.acceptTimeWindow`. -/
def rejectLeAccept (p : HiveTrigger_ParameterSet) : Bool :=
  match p.acceptTimeWindow, p.rejectTimeWindow with
  | some a, some r => decide (r ≤ a)
  | _, _ => false

/-- The constructor `HiveTrigger::HiveTrigger`; `connectorBlock` is false for a null
pointer in the parameter set. -/
def HiveTrigger.new (p : HiveTrigger_ParameterSet) (connectorBlock : Bool) :
    Construction HiveTrigger :=
  if p.multiplicity ≤ 0 then .fatal "Multiplicity should be greater than zero"
  else if p.multiplicityTimeWindow ≤ 0 then .fatal "TimeWindow should be greater than zero"
  else if acceptNegative p then .fatal "AcceptTimeWindow cannot be negative"
  else if rejectNegative p then .fatal "RejectTimeWindow cannot be negative"
  else if rejectLeAccept p then
    .fatal "RejectTimeWindow needs to be greater than AcceptTimeWindow"
  else
    .done HiveTrigger.fresh
      ((if !connectorBlock then ["No ConnectionBlock defined!"] else []) ++
        (if p.mergeOverlap = 0 then
          ["RequiredDOMOverlap configured with 0, everything will be merged"] else []))

/-- The overload `HiveTrigger::PushEvents(Time)` of the header: the time in nanoseconds
(`none` for a `double` that is not finite) is converted and handed to `PushEvents`. -/
def HiveTrigger.PushEvents_Time (p : HiveTrigger_ParameterSet) (s : HiveTrigger)
    (earliestTime : Option Int) : HiveTrigger :=
  let ev := PushEvents (NsToTicks p earliestTime) s.partialSubEvents_ s.subEvents_
  { s with partialSubEvents_ := ev.1, subEvents_ := ev.2 }

/-- The overload `HiveTrigger::AdvanceTime(Time)` of the header; its body is
`return PushEvents(hivetrigger::NsToTicks(time))`. -/
def HiveTrigger.AdvanceTime_Time (p : HiveTrigger_ParameterSet) (s : HiveTrigger)
    (time : Option Int) : HiveTrigger :=
  s.PushEvents_Time p time

end hivetrigger

/-! ## HiveCleaning -/

namespace hivesplitter

/-- Comparison `x <= b` of a finite time difference with a bound that may be infinite. -/
def Time.finLe (x : Int) : Time → Bool
  | .ninf => false
  | .fin b => decide (x ≤ b)
  | .pinf => true

end hivesplitter

/-- The parameter set `HiveCleaning_ParameterSet`; the residuals are `double`s that may be
infinite, `Connected` is the answer of the connector block, the multiplicity is
`unsigned`. -/
structure HiveCleaning_ParameterSet where
  multiplicity : Nat
  max_tresidual_early : hivesplitter.Time
  max_tresidual_late : hivesplitter.Time
  Connected : AbsHit → AbsHit → Bool

/-- The constructor `HiveCleaning_ParameterSet()`, with the connector block that is set
afterwards. -/
def HiveCleaning_ParameterSet.new (Connected : AbsHit → AbsHit → Bool) :
    HiveCleaning_ParameterSet :=
  { multiplicity := 1, max_tresidual_early := .ninf, max_tresidual_late := .pinf,
    Connected := Connected }

namespace HiveCleaning

/-- The first `while` loop of `Clean`, over the hits before `hit` from the latest to the
earliest; `n` is `connected_neighbors`. -/
def pastLoop (p : HiveCleaning_ParameterSet) (hit : AbsHit) : List AbsHit → Nat → Nat
  | [], n => n
  | x :: xs, n =>
    if hivesplitter.Time.finLe (hit.time - x.time) p.max_tresidual_early then
      pastLoop p hit xs (if p.Connected hit x then n + 1 else n)
    else n

/-- The second `while` loop of `Clean`, over the hits from `hit` itself onwards. -/
def futureLoop (p : HiveCleaning_ParameterSet) (hit : AbsHit) : List AbsHit → Nat → Nat
  | [], n => n
  | x :: xs, n =>
    if hivesplitter.Time.finLe (x.time - hit.time) p.max_tresidual_late then
      futureLoop p hit xs (if p.Connected x hit then n + 1 else n)
    else n

/-- The `for` loop of `Clean`: the hits before `hit_iter` (latest first), the hits from
`hit_iter` onwards, and `outhits`. -/
def cleanLoop (p : HiveCleaning_ParameterSet) :
    List AbsHit → List AbsHit → AbsHitSet → AbsHitSet
  | _, [], outhits => outhits
  | past, hit :: rest, outhits =>
    let connected_neighbors := futureLoop p hit (hit :: rest) (pastLoop p hit past 0)
    cleanLoop p (hit :: past) rest
      (if connected_neighbors ≥ p.multiplicity then AbsHitSet.insert hit outhits else outhits)

/-- The method `HiveCleaning::Clean` on a time-ordered hit set. -/
def Clean (p : HiveCleaning_ParameterSet) (hits : AbsHitSet) : AbsHitSet :=
  if hits.length = 0 then [] else cleanLoop p [] hits []

end HiveCleaning

/-! ## The rings of strings around a string -/

namespace hive

/-- The type `StringNbr` is `unsigned int`. -/
abbrev StringNbr := Nat

/-- A `Ring` is a `std::set<StringNbr>`: a list kept in increasing order. -/
abbrev Ring := List StringNbr

/-- Insertion into a `std::set<StringNbr>`. -/
def Ring.insert (s : StringNbr) : Ring → Ring
  | [] => [s]
  | x :: xs =>
    if s < x then s :: x :: xs
    else if x < s then x :: Ring.insert s xs
    else x :: xs

/-- The class `StringRings`: the vector `rings_`, the ring at position 0 being the center. -/
structure StringRings where
  rings_ : List Ring
deriving DecidableEq, Repr

/-- The constructor `StringRings(center)`. -/
def StringRings.new (center : StringNbr) : StringRings :=
  { rings_ := [[center]] }

/-- The method `GetNRings`: `rings_.size()-1` in `size_t`, returned as `unsigned int`. -/
def StringRings.GetNRings (sr : StringRings) : Nat :=
  (sr.rings_.length + 2 ^ 64 - 1) % 2 ^ 64 % 2 ^ 32

/-- The method `GetRing`. -/
def StringRings.GetRing (sr : StringRings) (ringnbr : Nat) : Ring :=
  if sr.rings_.length ≤ ringnbr then [] else sr.rings_.getD ringnbr []

/-- The method `SetRing`: the vector is resized with empty rings where it is too short. -/
def StringRings.SetRing (sr : StringRings) (ringnbr : Nat) (ring : Ring) : StringRings :=
  let resized :=
    if sr.rings_.length ≤ ringnbr then
      sr.rings_ ++ List.replicate (ringnbr + 1 - sr.rings_.length) []
    else sr.rings_
  { rings_ := resized.set ringnbr ring }

/-- The method `AddStringToRing`. -/
def StringRings.AddStringToRing (sr : StringRings) (string : StringNbr) (ringnbr : Nat) :
    StringRings :=
  if ringnbr < sr.GetNRings then
    { rings_ := sr.rings_.set ringnbr (Ring.insert string (sr.rings_.getD ringnbr [])) }
  else sr.SetRing ringnbr (Ring.insert string [])

end hive

namespace Scenario

/-- The parameter set left by the constructor `HiveSplitter_ParameterSet()`: multiplicity 3,
window 1000 ns, accept window `NAN`, reject window `INFINITY`, merge overlap 1; its
connector block is a null pointer, so `Connected` is never asked. -/
def splitterDefaults : hivesplitter.HiveSplitter_ParameterSet :=
  { multiplicity := 3, multiplicityTimeWindow := 1000, acceptTimeWindow := none,
    rejectTimeWindow := none, Connected := fun _ _ => false, mergeOverlap := 1 }

/-- The parameter set of the concrete scenario with a multiplicity of zero. -/
def paramsNoMultiplicity : hivesplitter.HiveSplitter_ParameterSet :=
  { params with multiplicity := 0 }

/-- The trigger parameter set `triggerParams` with a reject window below the accept
window. -/
def triggerRejectFirst : hivetrigger.HiveTrigger_ParameterSet :=
  { triggerParams with acceptTimeWindow := some 50, rejectTimeWindow := some 20 }

/-- The parameter set of the concrete scenario with a merge overlap of zero. -/
def paramsMergeAll : hivesplitter.HiveSplitter_ParameterSet :=
  { params with mergeOverlap := 0 }

end Scenario

namespace hivesplitter

/-- Two calls of `AddSubEvent`, with the set `first` and then with the set `second`, on an
engine that has no live cluster and no partial subevent: the partial subevents and the
completed subevents afterwards. -/
def AddSubEventTwice (p : HiveSplitter_ParameterSet) (first second : AbsHitSet)
    (subEvents : AbsHitSetSequence) : List AbsHitSet × AbsHitSetSequence :=
  let r := AddSubEvent p [] first [] subEvents
  AddSubEvent p [] second r.1 r.2

end hivesplitter

namespace Scenario

/-- The cluster that a splitter with the parameter set `params` holds after the hits
(0,0), (1,10) and (2,60). -/
def threeHitCluster : hivesplitter.detail.CausalCluster :=
  { sync_time := .fin 60, active_hits := [⟨0, 0⟩, ⟨1, 10⟩, ⟨2, 60⟩],
    active_doms := [(0, 1), (1, 1), (2, 1)], firstHitTimes := [(0, 0), (1, 10), (2, 60)],
    concluded_hits := [], established := true }

end Scenario

namespace hivesplitter
open detail

/-- The active hits of the cluster are strictly increasing, and none of them is older than
the multiplicity time window at the time `t`. -/
def ActiveWithin (p : HiveSplitter_ParameterSet) (t : Int) (c : CausalCluster) : Prop :=
  c.active_hits.Pairwise (fun a b => a.lt b = true) ∧
  ∀ x ∈ c.active_hits, t ≤ x.time + p.multiplicityTimeWindow

end hivesplitter

namespace Scenario
open hivetrigger

/-- A hit on sensor 0 whose tick lies one multiplicity time window of `triggerParams`
(100 ticks) below the largest tick. -/
def lateHit : AbsDAQHit := ⟨0, DAQTicks.max - 100⟩

/-- The trigger parameter set `triggerParams` with the accept and reject windows left at
their defaults `NAN` and `INFINITY`. -/
def triggerAcceptUnset : HiveTrigger_ParameterSet :=
  { triggerParams with acceptTimeWindow := none, rejectTimeWindow := none }

end Scenario

namespace hivesplitter
namespace detail

/-- The recursion of `CausallyConnected` with a bound on its depth: the pair of hits that is
handed to `connectorBlock->Connected`, or `none` if the bound is used up before the
connector block is asked. -/
def CausallyConnectedCall : Nat → AbsHit → AbsHit → Option (AbsHit × AbsHit)
  | 0, _, _ => none
  | fuel + 1, h1, h2 =>
    if h1.time > h2.time then CausallyConnectedCall fuel h2 h1 else some (h1, h2)

end detail
end hivesplitter

namespace Scenario

/-- A cluster of a splitter with the parameter set `paramsNone` (accept window 20, reject
window 60) that holds the single hit (0,0). -/
def singleHitCluster : hivesplitter.detail.CausalCluster :=
  hivesplitter.detail.CausalCluster.new.insertActiveHit paramsNone ⟨0, 0⟩

/-- Multiplicity 3, window 100, no accept and no reject window, an oracle that connects
everything. -/
def paramsAllThree : hivesplitter.HiveSplitter_ParameterSet :=
  { multiplicity := 3, multiplicityTimeWindow := 100, acceptTimeWindow := none,
    rejectTimeWindow := none, Connected := fun _ _ => true, mergeOverlap := 1 }

/-- The trigger counterpart of `paramsAllThree` (window 10 ns, 100 ticks). -/
def triggerAllThree : hivetrigger.HiveTrigger_ParameterSet :=
  { multiplicity := 3, multiplicityTimeWindow := 10, acceptTimeWindow := some 0,
    rejectTimeWindow := some 1000, Connected := fun _ _ => true, mergeOverlap := 1,
    indefinite := hivetrigger.DAQTicks.min }

/-- The cluster of a splitter with the parameter set `paramsAllThree` after the hits
(0,0), (0,50) and (0,80), all on sensor 0: it is not established. -/
def sameSensorCluster : hivesplitter.detail.CausalCluster :=
  ([⟨0, 0⟩, ⟨0, 50⟩, ⟨0, 80⟩] : List AbsHit).foldl
    (fun c x => c.insertActiveHit paramsAllThree x) hivesplitter.detail.CausalCluster.new

/-- The same cluster in a trigger with the parameter set `triggerAllThree`. -/
def triggerSameSensorCluster : hivetrigger.detail.CausalCluster :=
  ([⟨0, 0⟩, ⟨0, 50⟩, ⟨0, 80⟩] : List AbsHit).foldl
    (fun c x => c.insertActiveHit triggerAllThree x) hivetrigger.detail.CausalCluster.new

end Scenario

namespace hivesplitter
open detail

/-- The scan of `AddHitToCluster` over the active hits of the cluster: the FAST loop if the
sensor of the hit has no recorded first-hit time, the SLOW loop otherwise. -/
def scanCluster (p : HiveSplitter_ParameterSet) (c : CausalCluster) (h : AbsHit) : Scan :=
  if !DomMap.has c.firstHitTimes h.dom then scanFast p h c.active_hits.reverse [] [] true
  else scanSlow p h c.active_hits.reverse [] [] true

/-- The cluster `newSubCluster` that `AddHitToCluster` builds, if the call gets that far:
neither the immediate accept nor the early exit was taken, not all active hits are
connected to the hit, and some hit is. -/
def newSubClusterOf (p : HiveSplitter_ParameterSet) (c : CausalCluster) (h : AbsHit) :
    Option CausalCluster :=
  if fastAccept p c h then none
  else
    match scanCluster p c h with
    | .enough => none
    | .finished connectedHits allConnected =>
      if allConnected then none
      else if connectedHits.isEmpty then none
      else some (makeSubCluster p connectedHits h)

/-- The active set of the cluster `a` is included in the active set of the cluster `b`. -/
def activeSubset (a b : CausalCluster) : Prop :=
  ∀ x ∈ a.active_hits, x ∈ b.active_hits

/-- A list of clusters is reduced: no two members at different places of the list are
related by inclusion of their active sets. -/
def Reduced (l : List CausalCluster) : Prop :=
  l.Pairwise (fun a b => ¬ activeSubset a b ∧ ¬ activeSubset b a)

/-- The number of distinct sensors, other than the sensor of `h`, that carry an active hit
of the cluster that is causally connected to `h`. -/
def connectedSensors (p : HiveSplitter_ParameterSet) (c : CausalCluster) (h : AbsHit) : Nat :=
  ((c.active_hits.filter
    (fun x => decide (x.dom ≠ h.dom) && CausallyConnected p x h)).map (fun x => x.dom)).dedup.length

end hivesplitter

namespace Scenario

/-- The parameter set of the concrete scenario with a multiplicity of 3. -/
def paramsThree : hivesplitter.HiveSplitter_ParameterSet :=
  { params with multiplicity := 3 }

/-- The cluster of a splitter with the parameter set `paramsThree` after the hits (0,0)
and (1,40). The hit (2,80) is connected to (1,40) and not to (0,0). -/
def twoHitCluster : hivesplitter.detail.CausalCluster :=
  ([⟨0, 0⟩, ⟨1, 40⟩] : List AbsHit).foldl
    (fun c x => c.insertActiveHit paramsThree x) hivesplitter.detail.CausalCluster.new

/-- The sub-cluster of `twoHitCluster` for the hit (2,80): the hits (1,40) and (2,80). -/
def spawnedCluster : hivesplitter.detail.CausalCluster :=
  ([⟨1, 40⟩, ⟨2, 80⟩] : List AbsHit).foldl
    (fun c x => c.insertActiveHit paramsThree x) hivesplitter.detail.CausalCluster.new

end Scenario

namespace Scenario

/-- The parameter set `paramsNone` (an oracle that connects nothing) with a multiplicity
of 1. -/
def paramsNoneOne : hivesplitter.HiveSplitter_ParameterSet :=
  { paramsNone with multiplicity := 1 }

end Scenario

namespace Scenario

/-- A cluster of a trigger with the parameter set `triggerParams` that holds the single
hit (0,1000). -/
def triggerSingleHitCluster : hivetrigger.detail.CausalCluster :=
  hivetrigger.detail.CausalCluster.new.insertActiveHit triggerParams ⟨0, 1000⟩

end Scenario

namespace hivetrigger
open detail

/-- The number of distinct sensors, other than the sensor of `h`, that carry an active hit
of the trigger cluster that is causally connected to `h`. -/
def connectedSensors (p : HiveTrigger_ParameterSet) (c : CausalCluster) (h : AbsDAQHit) : Nat :=
  ((c.active_hits.filter
    (fun x => decide (x.dom ≠ h.dom) && CausallyConnected p x h)).map (fun x => x.dom)).dedup.length

end hivetrigger

namespace hivesplitter
open detail

/-- The connection of an active hit `x` of a cluster to a new hit `h` as the specification
words it: a hit on the sensor of `h` is connected if `h.time - x.time` is within the
accept window, is not connected if it is beyond the reject window, and otherwise, as
for every hit on another sensor, is connected iff the oracle connects the two hits. -/
def connectedToHit_spec (p : HiveSplitter_ParameterSet) (h x : AbsHit) : Bool :=
  if x.dom = h.dom then
    if leAccept p (h.time - x.time) then true
    else if gtReject p (h.time - x.time) then false
    else CausallyConnected p x h
  else CausallyConnected p x h

end hivesplitter

namespace hivesplitter
open detail

/-- The bookkeeping that holds in every cluster the engine builds, whatever hits are fed:
the active set is strictly increasing, the counter of a sensor is at least the number of
its active hits, and every sensor with an active hit has a recorded first-hit time. -/
def FirstHitsRecorded (c : CausalCluster) : Prop :=
  c.active_hits.Pairwise (fun a b => a.lt b = true) ∧
  (∀ d, hitsOn d c.active_hits ≤ (c.active_doms.get? d).getD 0) ∧
  ∀ x ∈ c.active_hits, DomMap.has c.firstHitTimes x.dom = true

end hivesplitter

/-! ## The connector block -/

namespace connector

/-- Modelled from the spec: the class `Relation` keeps an `AsymmetricIndexMatrix_Bool`, which
is declared in ToolZ and is not part of the sources; the matrix is taken as a boolean
function of an ordered pair of sensor indices. -/
structure Relation where
  relationMap_ : Nat → Nat → Bool

/-- The constructor `Relation(hasher)` with `setall = false`: the blank relation. -/
def Relation.new : Relation := { relationMap_ := fun _ _ => false }

/-- The method `Relation::AreRelated` on two sensor indices. -/
def Relation.AreRelated (r : Relation) (a b : Nat) : Bool := r.relationMap_ a b

/-- Modelled from the spec: the method `Relation::Join` is `relationMap_ |= r.relationMap_`;
the operator `|=` of the matrix is taken as the entry-wise or. -/
def Relation.Join (r other : Relation) : Relation :=
  { relationMap_ := fun a b => r.relationMap_ a b || other.relationMap_ a b }

/-- The class `Connector`: a connection, given by its method `AreConnected` on two hits, and
a relation. -/
structure Connector where
  connection_ : AbsHit → AbsHit → Bool
  relation_ : Relation

/-- The method `Connector::Connected`. The test `h1.TimeDiff(h2) == 0` is the equality of
the two hit times. -/
def Connector.Connected (c : Connector) (h1 h2 : AbsHit) : Bool :=
  let related := c.relation_.AreRelated h1.dom h2.dom
  let connected := c.connection_ h1 h2
  if h1.time = h2.time then
    (related || c.relation_.AreRelated h2.dom h1.dom) && (connected || c.connection_ h2 h1)
  else related && connected

/-- The class `ConnectorBlock`: the list of connectors and the cumulative relation. -/
structure ConnectorBlock where
  connectorlist_ : List Connector
  cumulativeRel_ : Relation

/-- The constructor `ConnectorBlock(hashedGeo)`: no connector, a blank cumulative relation. -/
def ConnectorBlock.new : ConnectorBlock :=
  { connectorlist_ := [], cumulativeRel_ := Relation.new }

/-- The method `ConnectorBlock::AddConnector`. -/
def ConnectorBlock.AddConnector (b : ConnectorBlock) (c : Connector) : ConnectorBlock :=
  { connectorlist_ := b.connectorlist_ ++ [c], cumulativeRel_ := b.cumulativeRel_.Join c.relation_ }

/-- The first loop of `ConnectorBlock::Connected`, run for hits at the same time: some
connector connects the hits in one of the two orders. -/
def connectedEitherWay : List Connector → AbsHit → AbsHit → Bool
  | [], _, _ => false
  | c :: cs, h1, h2 =>
    if c.Connected h1 h2 then true
    else if c.Connected h2 h1 then true
    else connectedEitherWay cs h1 h2

/-- The last loop of `ConnectorBlock::Connected`: some connector connects the hits in the
given order. -/
def connectedInOrder : List Connector → AbsHit → AbsHit → Bool
  | [], _, _ => false
  | c :: cs, h1, h2 => if c.Connected h1 h2 then true else connectedInOrder cs h1 h2

/-- The method `ConnectorBlock::Connected`. -/
def ConnectorBlock.Connected (b : ConnectorBlock) (h1 h2 : AbsHit) : Bool :=
  let any_relation := b.cumulativeRel_.AreRelated h1.dom h2.dom
  if h1.time = h2.time then
    let any_relation1 := any_relation || b.cumulativeRel_.AreRelated h2.dom h1.dom
    if connectedEitherWay b.connectorlist_ h1 h2 then true
    else if !any_relation1 then false
    else connectedInOrder b.connectorlist_ h1 h2
  else if !any_relation then false
  else connectedInOrder b.connectorlist_ h1 h2

/-- The answer of the block as the specification words it: some connector of the block
reports the two hits connected, or, when the two hits have equal times, reports them
connected in the reverse order. -/
def ConnectorBlock.Connected_spec (b : ConnectorBlock) (h1 h2 : AbsHit) : Bool :=
  b.connectorlist_.any
    (fun c => c.Connected h1 h2 || (decide (h1.time = h2.time) && c.Connected h2 h1))

/-- The cumulative relation of the block is the pointwise or of the relations of its
connectors. -/
def ConnectorBlock.Cumulative (b : ConnectorBlock) : Prop :=
  ∀ a c, b.cumulativeRel_.AreRelated a c =
    b.connectorlist_.any (fun k => k.relation_.AreRelated a c)

end connector

namespace Scenario

/-- A connector that relates neighbouring sensor indices and connects hits at most ten
time units apart. -/
def neighbours : connector.Connector :=
  { connection_ := fun h1 h2 => decide (h2.time - h1.time ≤ 10)
    relation_ := { relationMap_ := fun a b => decide (b = a + 1) } }

/-- A block holding the connector of neighbouring sensors. -/
def neighbourBlock : connector.ConnectorBlock :=
  connector.ConnectorBlock.new.AddConnector neighbours

end Scenario

namespace hivesplitter
open detail

/-- The clusters built from an empty cluster by `insertActiveHit` calls with pairwise
distinct hits, interleaved with `advanceInTime` calls; the list holds the hits inserted so
far. -/
inductive BuiltFrom (p : HiveSplitter_ParameterSet) : List AbsHit → CausalCluster → Prop where
  | new : BuiltFrom p [] CausalCluster.new
  | insert {l : List AbsHit} {c : CausalCluster} (h : AbsHit) :
      BuiltFrom p l c → h ∉ l → BuiltFrom p (h :: l) (c.insertActiveHit p h)
  | advance {l : List AbsHit} {c : CausalCluster} (time : Time) :
      BuiltFrom p l c → BuiltFrom p l (c.advanceInTime p time)

end hivesplitter

namespace Scenario

/-- A cluster built by two insertions and an advance in time that evicts the first hit. -/
def builtCluster : hivesplitter.detail.CausalCluster :=
  ((hivesplitter.detail.CausalCluster.new.insertActiveHit params ⟨0, 0⟩).insertActiveHit params
    ⟨1, 10⟩).advanceInTime params (.fin 105)

end Scenario

namespace hivesplitter
namespace detail

/-- The body of the loop of `CausallyOverlaps` at the hits common to both sets, given as a
list: the loop of `overlapsLoop` with the steps that only move an iterator left out. -/
def overlapsSweep (multiplicity : Nat) (window : Int) : List AbsHit → DomMap Int → Bool
  | [], _ => false
  | x :: xs, common =>
    let kept := common.filter (fun e => !decide (e.2 < x.time - window))
    let common1 := DomMap.set kept x.dom x.time
    if common1.length ≥ multiplicity then true
    else overlapsSweep multiplicity window xs common1

/-- The number of distinct sensors that carry a hit common to both sets with a time in
`[c.time - window, c.time]`. -/
def commonSensorsUpTo (set1 set2 : AbsHitSet) (window : Int) (c : AbsHit) : Nat :=
  ((set1.filter (fun y => decide (y ∈ set2) && (decide (c.time - window ≤ y.time) &&
    decide (y.time ≤ c.time)))).map (fun y => y.dom)).dedup.length

/-- The overlap test as the specification words it: some hit `c` common to both sets has
at least `multiplicity` distinct sensors carrying a common hit with a time in
`[c.time - window, c.time]`. -/
def CausallyOverlaps_spec (set1 set2 : AbsHitSet) (multiplicity : Nat) (window : Int) : Bool :=
  set1.any (fun c => decide (c ∈ set2) &&
    decide (multiplicity ≤ commonSensorsUpTo set1 set2 window c))

/-- The sensors of the hits of a list that are not earlier than the time `lo`. -/
def sensorsSince (l : List AbsHit) (lo : Int) : Finset Nat :=
  ((l.filter (fun y => decide (lo ≤ y.time))).map (fun y => y.dom)).toFinset

/-- The state of `common_hitdoms` after the common hits `done` were handled, the last of
them at the time `t`: one entry per sensor with a common hit not earlier than
`t - window`, holding the latest time of a common hit on the sensor. -/
def CommonKept (window : Int) (common : DomMap Int) (done : List AbsHit) (t : Int) : Prop :=
  (common.map Prod.fst).Nodup ∧
  (∀ d v, common.get? d = some v →
    t - window ≤ v ∧ (∃ y ∈ done, y.dom = d ∧ y.time = v) ∧
      ∀ y ∈ done, y.dom = d → y.time ≤ v) ∧
  ∀ y ∈ done, t - window ≤ y.time → (common.get? y.dom).isSome = true

end detail
end hivesplitter

namespace hivesplitter

/-- Two hit sets share no hit. -/
def disjointSets (a b : AbsHitSet) : Prop := ∀ x ∈ a, x ∉ b

end hivesplitter

namespace hivesplitter
open detail

/-- An established cluster holds a hit, in its active set or in its concluded set. -/
def Stocked (c : CausalCluster) : Prop :=
  c.established = true → c.active_hits ≠ [] ∨ c.concluded_hits ≠ []

end hivesplitter

namespace hivesplitter
open detail

/-- The state of `AddHit` after its first loop over the clusters. -/
def HiveSplitter.afterFirstLoop (p : HiveSplitter_ParameterSet) (s : HiveSplitter)
    (h : AbsHit) : AddHitLoop :=
  addHitLoop p h s.clusters_
    { visited := [], newClusters := [], partialSubEvents := s.partialSubEvents_,
      subEvents := s.subEvents_, addedToCluster := false }

/-- A cluster that was offered the hit `h`: its active set is strictly increasing, and
either `h` is its latest active hit or one of its active hits is not connected to `h`. -/
def Offered (p : HiveSplitter_ParameterSet) (h : AbsHit) (c : CausalCluster) : Prop :=
  c.active_hits.Pairwise (fun a b => a.lt b = true) ∧
  (c.getLatestActiveHit = some h ∨
    ∃ x ∈ c.active_hits, x ≠ h ∧ connectedToHit_spec p h x = false)

/-- A new sub-cluster spawned for the hit `h`: no concluded hit, a strictly increasing
active set with `h` as its latest hit, every other active hit connected to `h`. -/
def Spawned (p : HiveSplitter_ParameterSet) (h : AbsHit) (n : CausalCluster) : Prop :=
  n.active_hits.Pairwise (fun a b => a.lt b = true) ∧ n.concluded_hits = [] ∧
  n.getLatestActiveHit = some h ∧
  ∀ x ∈ n.active_hits, x = h ∨ connectedToHit_spec p h x = true

end hivesplitter

namespace hivesplitter
open detail

/-- The invariant of a cluster in a run over the hits `fed` so far: the bookkeeping of the
first-hit times, no concluded hit before the cluster is established, every held hit is a
fed hit, and the concluded hits followed by the active hits are strictly increasing. -/
def Sound (fed : List AbsHit) (c : CausalCluster) : Prop :=
  FirstHitsRecorded c ∧ (c.established = false → c.concluded_hits = []) ∧
  (∀ x ∈ c.concluded_hits ++ c.active_hits, x ∈ fed) ∧
  (c.concluded_hits ++ c.active_hits).Pairwise (fun a b => a.lt b = true)

/-- The hit `x` is secured in the state `s`: an established cluster holds it, or it lies in
a partial or in a completed subevent. -/
def Secured (s : HiveSplitter) (x : AbsHit) : Prop :=
  (∃ c ∈ s.clusters_, c.established = true ∧ (x ∈ c.active_hits ∨ x ∈ c.concluded_hits)) ∨
  (∃ e ∈ s.partialSubEvents_, x ∈ e) ∨ ∃ e ∈ s.subEvents_, x ∈ e

end hivesplitter

namespace Scenario

/-- The cluster of the concrete scenario after its first two hits. -/
def pairCluster : hivesplitter.detail.CausalCluster :=
  ((hivesplitter.detail.CausalCluster.new.insertActiveHit params ⟨0, 0⟩).advanceInTime params
    (.fin 10)).insertActiveHit params ⟨1, 10⟩

end Scenario

/-! ## The assertion of `getEarliestTime` -/

namespace hivesplitter
namespace detail

/-- The method `getEarliestTime` together with its assertion: `none` where the source runs
into `assert(false)`, that is on a cluster with no concluded and no active hit. -/
def CausalCluster.getEarliestTime_checked (c : CausalCluster) : Option Time :=
  match c.concluded_hits with
  | x :: _ => some (.fin x.time)
  | [] =>
    match c.active_hits with
    | y :: _ => some (.fin y.time)
    | [] => none

end detail

open detail

/-- The loop of `AddSubEvent` over `clusters_` that takes the minimum of the earliest times,
with the assertion of `getEarliestTime`. -/
def earliestUpcomingTime_checked : List CausalCluster → Time → Option Time
  | [], t => some t
  | c :: cs, t =>
    match c.getEarliestTime_checked with
    | none => none
    | some e => earliestUpcomingTime_checked cs (Time.min t e)

/-- The method `HiveSplitter::AddSubEvent` with the assertion of `getEarliestTime`. -/
def AddSubEvent_checked (p : HiveSplitter_ParameterSet) (clusters : List CausalCluster)
    (newSet : AbsHitSet) (partialSubEvents : List AbsHitSet) (subEvents : AbsHitSetSequence) :
    Option (List AbsHitSet × AbsHitSetSequence) :=
  let m := mergeLoop p newSet partialSubEvents
  let pool := m.2 ++ [m.1]
  match earliestUpcomingTime_checked clusters Time.pinf with
  | none => none
  | some earliest =>
    if earliest ≠ Time.pinf then
      some (pool.filter (fun s => !endsBefore earliest s),
        subEvents ++ pool.filter (fun s => endsBefore earliest s))
    else some (pool, subEvents)

/-- The first loop of `HiveSplitter::AddHit` with the assertion of `getEarliestTime`. -/
def addHitLoop_checked (p : HiveSplitter_ParameterSet) (h : AbsHit) :
    List CausalCluster → AddHitLoop → Option AddHitLoop
  | [], st => some st
  | c :: rest, st =>
    let c1 := c.advanceInTime p (.fin h.time)
    let ev :=
      if c1.isEstablished && !c1.isActive p then
        AddSubEvent_checked p (st.visited ++ c1 :: rest) c1.concluded_hits st.partialSubEvents
          st.subEvents
      else some (st.partialSubEvents, st.subEvents)
    match ev with
    | none => none
    | some ev =>
      if c1.isActive p then
        let r := AddHitToCluster p c1 h st.newClusters
        addHitLoop_checked p h rest
          { visited := st.visited ++ [r.1], newClusters := r.2.1, partialSubEvents := ev.1,
            subEvents := ev.2, addedToCluster := st.addedToCluster || r.2.2 }
      else
        addHitLoop_checked p h rest { st with partialSubEvents := ev.1, subEvents := ev.2 }

/-- The method `HiveSplitter::AddHit` with the assertion of `getEarliestTime`. -/
def HiveSplitter.AddHit_checked (p : HiveSplitter_ParameterSet) (s : HiveSplitter)
    (h : AbsHit) : Option HiveSplitter :=
  match addHitLoop_checked p h s.clusters_
    { visited := [], newClusters := [], partialSubEvents := s.partialSubEvents_,
      subEvents := s.subEvents_, addedToCluster := false } with
  | none => none
  | some st =>
    let clusters := reconcile h st.newClusters st.visited
    some
      { clusters_ :=
          if !st.addedToCluster then clusters ++ [CausalCluster.new.insertActiveHit p h]
          else clusters
        newClusters_ := []
        partialSubEvents_ := st.partialSubEvents
        subEvents_ := st.subEvents }

/-- The loop of `HiveSplitter::FinalizeSubEvents` with the assertion of `getEarliestTime`. -/
def finalizeLoop_checked (p : HiveSplitter_ParameterSet) :
    List CausalCluster → List AbsHitSet → AbsHitSetSequence →
      Option (List AbsHitSet × AbsHitSetSequence)
  | [], partialSubEvents, subEvents => some (partialSubEvents, subEvents)
  | c :: rest, partialSubEvents, subEvents =>
    let c1 := c.advanceInTime p .pinf
    let ev :=
      if c1.isEstablished then
        AddSubEvent_checked p (c1 :: rest) c1.concluded_hits partialSubEvents subEvents
      else some (partialSubEvents, subEvents)
    match ev with
    | none => none
    | some ev => finalizeLoop_checked p rest ev.1 ev.2

/-- The method `HiveSplitter::FinalizeSubEvents` with the assertion of `getEarliestTime`. -/
def HiveSplitter.FinalizeSubEvents_checked (p : HiveSplitter_ParameterSet) (s : HiveSplitter) :
    Option HiveSplitter :=
  match finalizeLoop_checked p s.clusters_ s.partialSubEvents_ s.subEvents_ with
  | none => none
  | some ev =>
    some { clusters_ := [], newClusters_ := s.newClusters_, partialSubEvents_ := [],
           subEvents_ := ev.2 ++ ev.1 }

/-- The loop of `Split` over the hits with the assertion of `getEarliestTime`. -/
def feed_checked (p : HiveSplitter_ParameterSet) : List AbsHit → HiveSplitter →
    Option HiveSplitter
  | [], s => some s
  | h :: t, s =>
    match s.AddHit_checked p h with
    | none => none
    | some s1 => feed_checked p t s1

/-- The method `HiveSplitter::Split` on a time-ordered hit set with the assertion of
`getEarliestTime`: `none` if a call of `getEarliestTime` runs into `assert(false)`. -/
def HiveSplitter.Split_checked (p : HiveSplitter_ParameterSet) (inhits : AbsHitSet) :
    Option AbsHitSetSequence :=
  match feed_checked p inhits HiveSplitter.cleared with
  | none => none
  | some s =>
    match s.FinalizeSubEvents_checked p with
    | none => none
    | some s1 => some s1.subEvents_

/-- The cluster holds a hit, active or concluded. -/
def Holding (c : CausalCluster) : Prop := c.active_hits ≠ [] ∨ c.concluded_hits ≠ []

/-- The invariant behind the assertion: consistent counters, first-hit times only on
sensors with an active hit while the cluster is not established, and a held hit. -/
def Alive (c : CausalCluster) : Prop :=
  Bookkept c.active_hits c.active_doms ∧
  (c.established = false → FirstHitsActive c.active_hits c.firstHitTimes) ∧ Holding c

end hivesplitter

namespace hivesplitter
open detail

/-- Every hit of a completed subevent is strictly earlier than every hit held by a
cluster of the list. -/
def FinalsBefore (subEvents : AbsHitSetSequence) (clusters : List CausalCluster) : Prop :=
  ∀ e ∈ subEvents, ∀ z ∈ e, ∀ c ∈ clusters, ∀ y ∈ c.concluded_hits ++ c.active_hits,
    z.time < y.time

/-- The completed and the partial subevents are time-ordered sets, and no two of them share
a hit. -/
def Separated (subEvents : AbsHitSetSequence) (partialSubEvents : List AbsHitSet) : Prop :=
  (subEvents ++ partialSubEvents).Pairwise disjointSets ∧
  ∀ e ∈ subEvents ++ partialSubEvents, e.Pairwise (fun a b => a.lt b = true)

end hivesplitter

namespace hivesplitter
open detail

/-- The invariant of the engine in a run over the hits `fed` so far, behind the absence of
duplicates: the clusters are sound, the subevents are separated, the completed subevents
end before every hit still held and before some fed hit. -/
def Apart (fed : List AbsHit) (s : HiveSplitter) : Prop :=
  (∀ c ∈ s.clusters_, Sound fed c) ∧ Separated s.subEvents_ s.partialSubEvents_ ∧
  FinalsBefore s.subEvents_ s.clusters_ ∧
  ∀ e ∈ s.subEvents_, ∀ z ∈ e, ∃ y ∈ fed, z.time < y.time

end hivesplitter

namespace hivesplitter.detail

/-- The sweep of `CausallyOverlaps` with the erasure as the source performs it: at a common
hit the loop over `common_hitdoms` calls `erase(it)` on an entry whose time has run out and
then increments the iterator that this call invalidated. The result is `none` (undefined
behaviour) as soon as some entry has run out at a common hit; while no entry has run out the
loop changes nothing. -/
def overlapsLoop_checked (multiplicity : Nat) (window : Int) :
    AbsHitSet → AbsHitSet → DomMap Int → Option Bool
  | [], _, _ => some false
  | x :: xs, s2, common =>
    match skipLess x s2 with
    | [] => some false
    | y :: ys =>
      if x.lt y then overlapsLoop_checked multiplicity window xs (y :: ys) common
      else
        if common.any (fun e => decide (e.2 < x.time - window)) then none
        else
          let common1 := DomMap.set common x.dom x.time
          if common1.length ≥ multiplicity then some true
          else overlapsLoop_checked multiplicity window xs ys common1

/-- The test `CausallyOverlaps` of the source, `none` where its behaviour is undefined. -/
def CausallyOverlaps_checked (set1 set2 : AbsHitSet) (multiplicity : Nat) (window : Int) :
    Option Bool :=
  overlapsLoop_checked multiplicity window set1 set2 []

end hivesplitter.detail

namespace Scenario

/-- Multiplicity 3, window 100, merge overlap 2; the connected pairs of sensors are those
listed. -/
def paramsExpire : hivesplitter.HiveSplitter_ParameterSet :=
  { multiplicity := 3, multiplicityTimeWindow := 100, acceptTimeWindow := none,
    rejectTimeWindow := none,
    Connected := linked [(0, 1), (0, 2), (1, 2), (0, 3), (0, 4), (3, 4), (1, 5), (2, 5),
      (3, 6), (4, 6), (5, 7), (6, 7), (3, 7), (4, 7)],
    mergeOverlap := 2 }

/-- A time-ordered run of eight hits on eight sensors. -/
def hitsExpire : List HitSorting.AbsHit :=
  [⟨0, 0⟩, ⟨1, 1⟩, ⟨2, 2⟩, ⟨3, 50⟩, ⟨4, 60⟩, ⟨5, 90⟩, ⟨6, 95⟩, ⟨7, 150⟩]

end Scenario

namespace Scenario

/-- The engine state after the run `hitsExpire` under `paramsExpire`. -/
def stateExpire : hivesplitter.HiveSplitter :=
  hitsExpire.foldl (fun s h => s.AddHit paramsExpire h) hivesplitter.HiveSplitter.cleared

/-- The hits of the first cluster of `stateExpire`. -/
def firstExpire : HitSorting.AbsHitSet := [⟨0, 0⟩, ⟨1, 1⟩, ⟨2, 2⟩, ⟨5, 90⟩, ⟨7, 150⟩]

/-- The hits of the second cluster of `stateExpire`. -/
def secondExpire : HitSorting.AbsHitSet := [⟨0, 0⟩, ⟨3, 50⟩, ⟨4, 60⟩, ⟨6, 95⟩, ⟨7, 150⟩]

end Scenario

/-! ## Basic facts about hits, hit sets and maps -/

namespace HitSorting

theorem AbsHit_lt_iff (a b : AbsHit) :
    a.lt b = true ↔ a.time < b.time ∨ (a.time = b.time ∧ a.dom < b.dom) := by
  simp [AbsHit.lt]

theorem AbsHit_lt_irrefl (a : AbsHit) : a.lt a = false := by
  cases h : a.lt a
  · rfl
  · rw [AbsHit_lt_iff] at h; omega

theorem AbsHit_lt_trans {a b c : AbsHit} (h1 : a.lt b = true) (h2 : b.lt c = true) :
    a.lt c = true := by
  rw [AbsHit_lt_iff] at *; omega

theorem AbsHit_lt_asymm {a b : AbsHit} (h1 : a.lt b = true) : b.lt a = false := by
  cases h : b.lt a
  · rfl
  · rw [AbsHit_lt_iff] at *; omega

theorem AbsHit_eq_of_not_lt {a b : AbsHit} (h1 : a.lt b = false) (h2 : b.lt a = false) :
    a = b := by
  have e1 : ¬ (a.lt b = true) := by simp [h1]
  have e2 : ¬ (b.lt a = true) := by simp [h2]
  rw [AbsHit_lt_iff] at e1 e2
  cases a; cases b
  simp only [AbsHit.mk.injEq] at *
  omega

theorem AbsHit_time_le_of_lt {a b : AbsHit} (h : a.lt b = true) : a.time ≤ b.time := by
  rw [AbsHit_lt_iff] at h; omega

theorem AbsHitSet_mem_insert {h x : AbsHit} {l : AbsHitSet} :
    x ∈ AbsHitSet.insert h l ↔ x = h ∨ x ∈ l := by
  induction l with
  | nil => simp [AbsHitSet.insert]
  | cons y ys ih =>
    unfold AbsHitSet.insert
    by_cases h1 : h.lt y = true
    · rw [if_pos h1]; simp
    · rw [if_neg h1]
      by_cases h2 : y.lt h = true
      · rw [if_pos h2, List.mem_cons, ih, List.mem_cons]
        tauto
      · rw [if_neg h2]
        have e : h = y := AbsHit_eq_of_not_lt (by simpa using h1) (by simpa using h2)
        subst e
        simp

theorem AbsHitSet_insert_perm {h : AbsHit} {l : AbsHitSet} (hn : h ∉ l) :
    (AbsHitSet.insert h l).Perm (h :: l) := by
  induction l with
  | nil => simp [AbsHitSet.insert]
  | cons y ys ih =>
    unfold AbsHitSet.insert
    by_cases h1 : h.lt y = true
    · rw [if_pos h1]
    · rw [if_neg h1]
      by_cases h2 : y.lt h = true
      · rw [if_pos h2]
        have : h ∉ ys := fun hh => hn (List.mem_cons_of_mem _ hh)
        exact ((ih this).cons y).trans (List.Perm.swap h y ys)
      · have e : h = y := AbsHit_eq_of_not_lt (by simpa using h1) (by simpa using h2)
        exact absurd (e ▸ List.mem_cons_self _ _) hn

theorem AbsHitSet_insert_of_mem_sorted {h : AbsHit} {l : AbsHitSet}
    (hs : l.Pairwise (fun a b => a.lt b = true)) (hm : h ∈ l) :
    AbsHitSet.insert h l = l := by
  induction l with
  | nil => simp at hm
  | cons y ys ih =>
    unfold AbsHitSet.insert
    rw [List.pairwise_cons] at hs
    rcases List.mem_cons.1 hm with e | hm2
    · subst e; simp [AbsHit_lt_irrefl]
    · have h1 : y.lt h = true := hs.1 h hm2
      simp [AbsHit_lt_asymm h1, h1, ih hs.2 hm2]

theorem AbsHitSet_insert_sorted {h : AbsHit} {l : AbsHitSet}
    (hs : l.Pairwise (fun a b => a.lt b = true)) :
    (AbsHitSet.insert h l).Pairwise (fun a b => a.lt b = true) := by
  induction l with
  | nil => simp [AbsHitSet.insert]
  | cons y ys ih =>
    unfold AbsHitSet.insert
    rw [List.pairwise_cons] at hs
    by_cases h1 : h.lt y = true
    · rw [if_pos h1]
      refine List.pairwise_cons.2 ⟨?_, List.pairwise_cons.2 hs⟩
      intro z hz
      rcases List.mem_cons.1 hz with e | hz2
      · subst e; exact h1
      · exact AbsHit_lt_trans h1 (hs.1 z hz2)
    · rw [if_neg h1]
      by_cases h2 : y.lt h = true
      · rw [if_pos h2]
        refine List.pairwise_cons.2 ⟨?_, ih hs.2⟩
        intro z hz
        rcases AbsHitSet_mem_insert.1 hz with e | hz2
        · subst e; exact h2
        · exact hs.1 z hz2
      · rw [if_neg h2]
        exact List.pairwise_cons.2 hs

theorem sorted_nodup {l : AbsHitSet} (hs : l.Pairwise (fun a b => a.lt b = true)) :
    l.Nodup := by
  refine List.Pairwise.imp ?_ hs
  intro a b hab e
  subst e
  simp [AbsHit_lt_irrefl] at hab

theorem AbsHitSet_mem_insertAll {s t : AbsHitSet} {x : AbsHit} :
    x ∈ AbsHitSet.insertAll s t ↔ x ∈ s ∨ x ∈ t := by
  unfold AbsHitSet.insertAll
  induction t generalizing s with
  | nil => simp
  | cons y ys ih =>
    rw [List.foldl_cons, ih, AbsHitSet_mem_insert, List.mem_cons]
    tauto

theorem AbsHitSet_insertAll_sorted {s t : AbsHitSet}
    (hs : s.Pairwise (fun a b => a.lt b = true)) :
    (AbsHitSet.insertAll s t).Pairwise (fun a b => a.lt b = true) := by
  unfold AbsHitSet.insertAll
  induction t generalizing s with
  | nil => simpa using hs
  | cons y ys ih =>
    rw [List.foldl_cons]
    exact ih (AbsHitSet_insert_sorted hs)

end HitSorting

namespace DomMap

theorem get?_set {V : Type} (m : DomMap V) (k k1 : Nat) (v : V) :
    (set m k v).get? k1 = if k1 = k then some v else m.get? k1 := by
  induction m with
  | nil =>
    by_cases e : k1 = k
    · simp [set, get?, e]
    · have : ¬ k = k1 := fun h => e h.symm
      simp [set, get?, e, this]
  | cons a rest ih =>
    obtain ⟨ka, va⟩ := a
    by_cases e1 : ka = k
    · subst e1
      by_cases e : k1 = ka
      · simp [set, get?, e]
      · have : ¬ ka = k1 := fun h => e h.symm
        simp [set, get?, e, this]
    · by_cases e : k1 = k
      · subst e
        simp [set, get?, e1, ih]
      · simp [set, get?, e1, ih, e]

theorem get?_erase {V : Type} (m : DomMap V) (k k1 : Nat) :
    (erase m k).get? k1 = if k1 = k then none else m.get? k1 := by
  induction m with
  | nil => simp [erase, get?]
  | cons a rest ih =>
    obtain ⟨ka, va⟩ := a
    unfold erase at ih ⊢
    by_cases e1 : ka = k
    · have hf : List.filter (fun e => decide (e.1 ≠ k)) ((ka, va) :: rest)
          = List.filter (fun e => decide (e.1 ≠ k)) rest := by
        simp [List.filter_cons, e1]
      rw [hf, ih]
      by_cases e : k1 = k
      · simp [e]
      · have : ¬ ka = k1 := fun h => e (h.symm.trans e1)
        simp [get?, e, this]
    · have hf : List.filter (fun e => decide (e.1 ≠ k)) ((ka, va) :: rest)
          = (ka, va) :: List.filter (fun e => decide (e.1 ≠ k)) rest := by
        simp [List.filter_cons, e1]
      rw [hf]
      by_cases e2 : ka = k1
      · have : ¬ k1 = k := fun h => e1 (e2.trans h)
        simp [get?, e2, this]
      · simp only [get?, e2, if_false]
        exact ih

theorem mem_keys_iff {V : Type} (m : DomMap V) (k : Nat) :
    k ∈ m.map Prod.fst ↔ (m.get? k).isSome = true := by
  induction m with
  | nil => simp [get?]
  | cons a rest ih =>
    obtain ⟨ka, va⟩ := a
    by_cases e : ka = k
    · simp [get?, e]
    · have : ¬ k = ka := fun h => e h.symm
      simp [get?, e, this, ih]

theorem keys_set {V : Type} (m : DomMap V) (k : Nat) (v : V) :
    (set m k v).map Prod.fst = if (m.get? k).isSome then m.map Prod.fst
      else m.map Prod.fst ++ [k] := by
  induction m with
  | nil => simp [set, get?]
  | cons a rest ih =>
    obtain ⟨ka, va⟩ := a
    by_cases e : ka = k
    · simp [set, get?, e]
    · simp only [set, e, if_false, List.map_cons, get?, ih]
      split <;> simp

theorem keys_nodup_set {V : Type} (m : DomMap V) (k : Nat) (v : V)
    (h : (m.map Prod.fst).Nodup) : ((set m k v).map Prod.fst).Nodup := by
  rw [keys_set]
  split
  · exact h
  · rename_i hk
    have : k ∉ m.map Prod.fst := by
      rw [mem_keys_iff]; exact hk
    exact List.Nodup.append h (List.nodup_singleton k) (by
      intro x hx hx2
      simp only [List.mem_singleton] at hx2
      subst hx2
      exact this hx)

theorem keys_nodup_erase {V : Type} (m : DomMap V) (k : Nat)
    (h : (m.map Prod.fst).Nodup) : ((erase m k).map Prod.fst).Nodup := by
  unfold erase
  exact (List.Nodup.sublist ((List.filter_sublist _).map Prod.fst) h)

theorem length_set {V : Type} (m : DomMap V) (k : Nat) (v : V) :
    (set m k v).length = if (m.get? k).isSome then m.length else m.length + 1 := by
  have := congrArg List.length (keys_set m k v)
  rw [List.length_map] at this
  rw [this]
  split <;> simp

end DomMap

/-! ## Invariants of the loops of `AddHit` -/

namespace hivesplitter
open detail

theorem pruneNew_subset (n : CausalCluster) (nc : List CausalCluster) :
    ∀ c ∈ (pruneNew n nc).1, c ∈ nc := by
  induction nc with
  | nil => simp [pruneNew]
  | cons a rest ih =>
    intro c hc
    unfold pruneNew at hc
    by_cases h1 : a.isSubsetOf n = true
    · rw [if_pos h1] at hc
      exact List.mem_cons_of_mem _ (ih c hc)
    · rw [if_neg h1] at hc
      by_cases h2 : n.isSubsetOf a = true
      · rw [if_pos h2] at hc; exact hc
      · rw [if_neg h2] at hc
        rcases List.mem_cons.1 hc with e | hc2
        · exact e ▸ List.mem_cons_self _ _
        · exact List.mem_cons_of_mem _ (ih c hc2)

theorem addHitLoop_forall (PV PN : CausalCluster → Prop) (p : HiveSplitter_ParameterSet)
    (h : AbsHit) :
    ∀ (todo : List CausalCluster) (st : AddHitLoop),
      (∀ c ∈ todo, ∀ nc, (c.advanceInTime p (.fin h.time)).isActive p = true →
        (∀ n ∈ nc, PN n) →
        PV (AddHitToCluster p (c.advanceInTime p (.fin h.time)) h nc).1 ∧
        ∀ n ∈ (AddHitToCluster p (c.advanceInTime p (.fin h.time)) h nc).2.1, PN n) →
      (∀ c ∈ st.visited, PV c) → (∀ n ∈ st.newClusters, PN n) →
      (∀ c ∈ (addHitLoop p h todo st).visited, PV c) ∧
      (∀ n ∈ (addHitLoop p h todo st).newClusters, PN n) := by
  intro todo
  induction todo with
  | nil => intro st _ hv hn; exact ⟨hv, hn⟩
  | cons c rest ih =>
    intro st hstep hv hn
    unfold addHitLoop
    by_cases ha : (c.advanceInTime p (.fin h.time)).isActive p = true
    · simp only [ha, if_true]
      have hs := hstep c (List.mem_cons_self _ _) st.newClusters ha hn
      apply ih
      · intro c2 hc2; exact hstep c2 (List.mem_cons_of_mem _ hc2)
      · intro c2 hc2
        rcases List.mem_append.1 hc2 with h1 | h1
        · exact hv c2 h1
        · simp only [List.mem_singleton] at h1; subst h1; exact hs.1
      · exact hs.2
    · simp only [ha]
      apply ih
      · intro c2 hc2; exact hstep c2 (List.mem_cons_of_mem _ hc2)
      · exact hv
      · exact hn

theorem addHitLoop_pools_of_not_established (p : HiveSplitter_ParameterSet) (h : AbsHit) :
    ∀ (todo : List CausalCluster) (st : AddHitLoop),
      (∀ c ∈ todo, c.established = false) →
      (addHitLoop p h todo st).partialSubEvents = st.partialSubEvents ∧
      (addHitLoop p h todo st).subEvents = st.subEvents := by
  intro todo
  induction todo with
  | nil => intro st _; exact ⟨rfl, rfl⟩
  | cons c rest ih =>
    intro st hne
    have hc : (c.advanceInTime p (.fin h.time)).isEstablished = false := by
      simp [CausalCluster.isEstablished, CausalCluster.advanceInTime,
        hne c (List.mem_cons_self _ _)]
    have hr : ∀ c2 ∈ rest, c2.established = false :=
      fun c2 hc2 => hne c2 (List.mem_cons_of_mem _ hc2)
    unfold addHitLoop
    by_cases ha : (c.advanceInTime p (.fin h.time)).isActive p = true
    · simp only [ha, hc, if_true, Bool.false_and]
      have := ih { visited := st.visited ++ [(AddHitToCluster p (c.advanceInTime p (.fin h.time)) h st.newClusters).1],
                   newClusters := (AddHitToCluster p (c.advanceInTime p (.fin h.time)) h st.newClusters).2.1,
                   partialSubEvents := st.partialSubEvents, subEvents := st.subEvents,
                   addedToCluster := st.addedToCluster || (AddHitToCluster p (c.advanceInTime p (.fin h.time)) h st.newClusters).2.2 } hr
      simpa using this
    · simp only [ha, hc, Bool.false_and]
      have := ih { st with partialSubEvents := st.partialSubEvents, subEvents := st.subEvents } hr
      simpa using this

theorem reconcileOne_forall (PV PN : CausalCluster → Prop) (h : AbsHit)
    (htake : ∀ n c, PN n → PV c → c.isSubsetOf n = true → PN (n.takeConcludedHits c)) :
    ∀ (cl : List CausalCluster) (n : CausalCluster), PN n → (∀ c ∈ cl, PV c) →
      PN (reconcileOne h n cl).1 ∧ ∀ c ∈ (reconcileOne h n cl).2.1, PV c := by
  intro cl
  induction cl with
  | nil => intro n hn _; simp [reconcileOne, hn]
  | cons c cs ih =>
    intro n hn hcl
    have hc := hcl c (List.mem_cons_self _ _)
    have hcs : ∀ c2 ∈ cs, PV c2 := fun c2 hc2 => hcl c2 (List.mem_cons_of_mem _ hc2)
    unfold reconcileOne
    by_cases h1 : c.getLatestActiveHit = some h
    · rw [if_pos h1]
      by_cases h2 : n.isSubsetOf c = true
      · rw [if_pos h2]; exact ⟨hn, hcl⟩
      · rw [if_neg h2]
        refine ⟨(ih n hn hcs).1, ?_⟩
        intro c2 hc2
        rcases List.mem_cons.1 hc2 with e | h3
        · exact e ▸ hc
        · exact (ih n hn hcs).2 c2 h3
    · rw [if_neg h1]
      by_cases h2 : c.isSubsetOf n = true
      · rw [if_pos h2]
        exact ih _ (htake n c hn hc h2) hcs
      · rw [if_neg h2]
        refine ⟨(ih n hn hcs).1, ?_⟩
        intro c2 hc2
        rcases List.mem_cons.1 hc2 with e | h3
        · exact e ▸ hc
        · exact (ih n hn hcs).2 c2 h3

theorem reconcile_forall (PV PN : CausalCluster → Prop) (h : AbsHit)
    (htake : ∀ n c, PN n → PV c → c.isSubsetOf n = true → PN (n.takeConcludedHits c))
    (hpromote : ∀ n, PN n → PV n) :
    ∀ (ns cl : List CausalCluster), (∀ n ∈ ns, PN n) → (∀ c ∈ cl, PV c) →
      ∀ c ∈ reconcile h ns cl, PV c := by
  intro ns
  induction ns with
  | nil => intro cl _ hcl; simpa [reconcile] using hcl
  | cons n rest ih =>
    intro cl hns hcl
    unfold reconcile
    have hr := reconcileOne_forall PV PN h htake cl n (hns n (List.mem_cons_self _ _)) hcl
    apply ih
    · intro n2 hn2; exact hns n2 (List.mem_cons_of_mem _ hn2)
    · intro c hc
      by_cases hadd : (reconcileOne h n cl).2.2 = true
      · simp only [hadd, if_true] at hc
        rcases List.mem_append.1 hc with h1 | h1
        · exact hr.2 c h1
        · simp only [List.mem_singleton] at h1; subst h1; exact hpromote _ hr.1
      · simp only [hadd] at hc
        exact hr.2 c hc

theorem AddHit_clusters_forall (PV PN : CausalCluster → Prop) (p : HiveSplitter_ParameterSet)
    (s : HiveSplitter) (h : AbsHit)
    (hstep : ∀ c ∈ s.clusters_, ∀ nc, (c.advanceInTime p (.fin h.time)).isActive p = true →
        (∀ n ∈ nc, PN n) →
        PV (AddHitToCluster p (c.advanceInTime p (.fin h.time)) h nc).1 ∧
        ∀ n ∈ (AddHitToCluster p (c.advanceInTime p (.fin h.time)) h nc).2.1, PN n)
    (htake : ∀ n c, PN n → PV c → c.isSubsetOf n = true → PN (n.takeConcludedHits c))
    (hpromote : ∀ n, PN n → PV n)
    (hsingle : PV (CausalCluster.new.insertActiveHit p h)) :
    ∀ c ∈ (s.AddHit p h).clusters_, PV c := by
  have hl := addHitLoop_forall PV PN p h s.clusters_
    { visited := [], newClusters := [], partialSubEvents := s.partialSubEvents_,
      subEvents := s.subEvents_, addedToCluster := false } hstep (by simp) (by simp)
  have hr := reconcile_forall PV PN h htake hpromote _ _ hl.2 hl.1
  intro c hc
  unfold HiveSplitter.AddHit at hc
  simp only at hc
  split at hc
  · rcases List.mem_append.1 hc with h1 | h1
    · exact hr c h1
    · simp only [List.mem_singleton] at h1; subst h1; exact hsingle
  · exact hr c hc

end hivesplitter

/-! ## The bookkeeping of a cluster -/

namespace hivesplitter
open detail

theorem hitsOn_pos_iff (d : Nat) (l : AbsHitSet) : 0 < hitsOn d l ↔ ∃ x ∈ l, x.dom = d := by
  unfold hitsOn
  rw [List.countP_pos_iff]
  simp

theorem hitsOn_cons (d : Nat) (x : AbsHit) (l : AbsHitSet) :
    hitsOn d (x :: l) = hitsOn d l + if x.dom = d then 1 else 0 := by
  unfold hitsOn
  rw [List.countP_cons]
  simp

theorem hitsOn_insert (d : Nat) {h : AbsHit} {l : AbsHitSet} (hn : h ∉ l) :
    hitsOn d (AbsHitSet.insert h l) = hitsOn d l + if h.dom = d then 1 else 0 := by
  rw [← hitsOn_cons]
  exact List.Perm.countP_eq _ (AbsHitSet_insert_perm hn)

theorem Bookkept_nil : Bookkept [] [] :=
  ⟨List.Pairwise.nil, List.nodup_nil, fun d => by simp [DomMap.get?, hitsOn],
    fun d => by simp [DomMap.get?]⟩

theorem Bookkept_isSome_iff {active : AbsHitSet} {doms : DomMap Nat} (bk : Bookkept active doms)
    (d : Nat) : (doms.get? d).isSome = true ↔ 0 < hitsOn d active := by
  have h1 := bk.counts d
  have h2 := bk.nonzero d
  cases hg : doms.get? d with
  | none => rw [hg] at h1; simp at h1; simp [← h1]
  | some v =>
    rw [hg] at h1 h2
    simp only [Option.getD_some] at h1
    have : v ≠ 0 := fun e => h2 (by rw [e])
    simp only [Option.isSome_some, true_iff]
    omega

theorem Bookkept_insert {active : AbsHitSet} {doms : DomMap Nat} (bk : Bookkept active doms)
    {h : AbsHit} (hn : h ∉ active) :
    Bookkept (AbsHitSet.insert h active)
      (DomMap.set doms h.dom (((doms.get? h.dom).getD 0) + 1)) := by
  refine ⟨AbsHitSet_insert_sorted bk.sorted, DomMap.keys_nodup_set _ _ _ bk.keys, ?_, ?_⟩
  · intro d
    rw [DomMap.get?_set, hitsOn_insert d hn]
    by_cases e : d = h.dom
    · subst e; simp [bk.counts]
    · have e2 : ¬ h.dom = d := fun x => e x.symm
      simp [e, e2, bk.counts]
  · intro d
    rw [DomMap.get?_set]
    by_cases e : d = h.dom
    · simp [e]
    · simp only [e, if_false]; exact bk.nonzero d

theorem Bookkept_length_le_one {active : AbsHitSet} {doms : DomMap Nat}
    (bk : Bookkept active doms) (d : Nat) (hd : ∀ x ∈ active, x.dom = d) : doms.length ≤ 1 := by
  have hsub : doms.map Prod.fst ⊆ [d] := by
    intro k hk
    rw [DomMap.mem_keys_iff, (Bookkept_isSome_iff bk), hitsOn_pos_iff] at hk
    obtain ⟨x, hx, hxd⟩ := hk
    rw [List.mem_singleton, ← hxd, hd x hx]
  have := (List.subperm_of_subset bk.keys hsub).length_le
  simpa using this

theorem Bookkept_decr {h : AbsHit} {rest : AbsHitSet} {doms : DomMap Nat}
    (bk : Bookkept (h :: rest) doms) : Bookkept rest (decrDom doms h.dom) := by
  have hc := bk.counts h.dom
  rw [hitsOn_cons] at hc
  simp only [if_true] at hc
  have hx : (doms.get? h.dom).getD 0 ≠ 0 := by omega
  have hs : rest.Pairwise (fun a b => a.lt b = true) := (List.pairwise_cons.1 bk.sorted).2
  unfold decrDom
  simp only [hx, if_false]
  by_cases hz : (doms.get? h.dom).getD 0 - 1 ≤ 0
  · rw [if_pos hz]
    refine ⟨hs, DomMap.keys_nodup_erase _ _ bk.keys, ?_, ?_⟩
    · intro d
      rw [DomMap.get?_erase]
      by_cases e : d = h.dom
      · subst e; simp; omega
      · have e2 : ¬ h.dom = d := fun x => e x.symm
        have := bk.counts d
        rw [hitsOn_cons] at this
        simp only [e, e2, if_false] at this ⊢
        simpa using this
    · intro d
      rw [DomMap.get?_erase]
      by_cases e : d = h.dom
      · simp [e]
      · simp only [e, if_false]; exact bk.nonzero d
  · rw [if_neg hz]
    refine ⟨hs, DomMap.keys_nodup_set _ _ _ bk.keys, ?_, ?_⟩
    · intro d
      rw [DomMap.get?_set]
      by_cases e : d = h.dom
      · subst e; simp; omega
      · have e2 : ¬ h.dom = d := fun x => e x.symm
        have := bk.counts d
        rw [hitsOn_cons] at this
        simp only [e, e2, if_false] at this ⊢
        simpa using this
    · intro d
      rw [DomMap.get?_set]
      by_cases e : d = h.dom
      · simp only [e, if_true]
        intro hh
        simp only [Option.some.injEq] at hh
        omega
      · simp only [e, if_false]; exact bk.nonzero d

theorem resyncFirstHit_isSome (h : AbsHit) (active : AbsHitSet) (fht : DomMap Int) (d : Nat) :
    ((resyncFirstHit h active fht).get? d).isSome = true →
      (fht.get? d).isSome = true ∨ d = h.dom := by
  unfold resyncFirstHit
  induction active generalizing fht with
  | nil => intro hh; exact Or.inl hh
  | cons x xs ih =>
    intro hh
    rw [List.foldl_cons] at hh
    rcases ih _ hh with h1 | h1
    · by_cases e : h.dom = x.dom
      · rw [if_pos e, DomMap.get?_set] at h1
        by_cases e2 : d = h.dom
        · exact Or.inr e2
        · rw [if_neg e2] at h1; exact Or.inl h1
      · rw [if_neg e] at h1; exact Or.inl h1
    · exact Or.inr h1

theorem advanceLoop_active_subset (p : HiveSplitter_ParameterSet) (time : Time) (est : Bool) :
    ∀ (active : AbsHitSet) (doms : DomMap Nat) (fht : DomMap Int) (concluded : AbsHitSet),
      ∀ x ∈ (advanceLoop p time est active doms fht concluded).1, x ∈ active := by
  intro active
  induction active with
  | nil => intro doms fht concluded x hx; simp [advanceLoop] at hx
  | cons h rest ih =>
    intro doms fht concluded x hx
    unfold advanceLoop at hx
    by_cases hg : time.gtFin (h.time + p.multiplicityTimeWindow) = true
    · rw [if_pos hg] at hx
      cases est with
      | true => exact List.mem_cons_of_mem _ (ih _ _ _ x (by simp at hx; exact hx))
      | false => exact List.mem_cons_of_mem _ (ih _ _ _ x (by simp at hx; exact hx))
    · rw [if_neg hg] at hx; exact hx

theorem advanceLoop_bookkept (p : HiveSplitter_ParameterSet) (time : Time) (est : Bool) :
    ∀ (active : AbsHitSet) (doms : DomMap Nat) (fht : DomMap Int) (concluded : AbsHitSet),
      Bookkept active doms →
      Bookkept (advanceLoop p time est active doms fht concluded).1
        (advanceLoop p time est active doms fht concluded).2.1 := by
  intro active
  induction active with
  | nil => intro doms fht concluded bk; simpa [advanceLoop] using bk
  | cons h rest ih =>
    intro doms fht concluded bk
    unfold advanceLoop
    by_cases hg : time.gtFin (h.time + p.multiplicityTimeWindow) = true
    · rw [if_pos hg]
      cases est with
      | true => simpa using ih _ _ _ (Bookkept_decr bk)
      | false => simpa using ih _ _ _ (Bookkept_decr bk)
    · rw [if_neg hg]; exact bk

theorem advanceLoop_firstHits (p : HiveSplitter_ParameterSet) (time : Time) :
    ∀ (active : AbsHitSet) (doms : DomMap Nat) (fht : DomMap Int) (concluded : AbsHitSet),
      Bookkept active doms → FirstHitsActive active fht →
      FirstHitsActive (advanceLoop p time false active doms fht concluded).1
        (advanceLoop p time false active doms fht concluded).2.2.1 := by
  intro active
  induction active with
  | nil => intro doms fht concluded _ fh; simpa [advanceLoop] using fh
  | cons h rest ih =>
    intro doms fht concluded bk fh
    unfold advanceLoop
    by_cases hg : time.gtFin (h.time + p.multiplicityTimeWindow) = true
    · rw [if_pos hg]
      simp only [Bool.false_eq_true, if_false]
      apply ih _ _ _ (Bookkept_decr bk)
      intro d hd
      by_cases hh : DomMap.has (decrDom doms h.dom) h.dom = true
      · simp only [hh, Bool.not_true, Bool.false_eq_true, if_false] at hd
        have hpos : 0 < hitsOn h.dom rest := (Bookkept_isSome_iff (Bookkept_decr bk) h.dom).1 hh
        rcases resyncFirstHit_isSome _ _ _ _ hd with h1 | h1
        · have := fh d h1
          rw [hitsOn_cons] at this
          by_cases e : h.dom = d
          · subst e; exact hpos
          · simpa [e] using this
        · subst h1; exact hpos
      · simp only [hh, Bool.not_false, if_true] at hd
        rw [DomMap.get?_erase] at hd
        by_cases e : d = h.dom
        · simp [e] at hd
        · rw [if_neg e] at hd
          have := fh d hd
          rw [hitsOn_cons] at this
          have e2 : ¬ h.dom = d := fun x => e x.symm
          simpa [e2] using this
    · rw [if_neg hg]; exact fh

end hivesplitter

/-! ## Clusters on a single sensor -/

namespace hivesplitter
open detail

theorem OneSensor_new (d : Nat) : OneSensor d CausalCluster.new := by
  refine ⟨rfl, Bookkept_nil, ?_, ?_⟩
  · intro k hk; simp [CausalCluster.new, DomMap.get?] at hk
  · intro x hx; simp [CausalCluster.new] at hx

theorem insertActiveHit_active (p : HiveSplitter_ParameterSet) (c : CausalCluster) (h : AbsHit) :
    (c.insertActiveHit p h).active_hits = AbsHitSet.insert h c.active_hits := rfl

theorem insertActiveHit_firstHits_isSome (p : HiveSplitter_ParameterSet) (c : CausalCluster)
    (h : AbsHit) (d : Nat) :
    ((c.insertActiveHit p h).firstHitTimes.get? d).isSome = true →
      (c.firstHitTimes.get? d).isSome = true ∨ d = h.dom := by
  unfold CausalCluster.insertActiveHit
  simp only
  cases hg : c.firstHitTimes.get? h.dom with
  | none =>
    simp only [DomMap.get?_set]
    by_cases e : d = h.dom
    · exact fun _ => Or.inr e
    · rw [if_neg e]; exact fun hh => Or.inl hh
  | some t =>
    simp only
    split
    · rw [DomMap.get?_set]
      by_cases e : d = h.dom
      · exact fun _ => Or.inr e
      · rw [if_neg e]; exact fun hh => Or.inl hh
    · exact fun hh => Or.inl hh

theorem insertActiveHit_firstHitsActive (p : HiveSplitter_ParameterSet) (c : CausalCluster)
    (h : AbsHit) (hn : h ∉ c.active_hits)
    (fh : FirstHitsActive c.active_hits c.firstHitTimes) :
    FirstHitsActive (c.insertActiveHit p h).active_hits (c.insertActiveHit p h).firstHitTimes := by
  intro d hd
  rw [insertActiveHit_active, hitsOn_insert d hn]
  rcases insertActiveHit_firstHits_isSome p c h d hd with h1 | h1
  · have := fh d h1; omega
  · simp [h1]

theorem OneSensor_insert {p : HiveSplitter_ParameterSet} {d : Nat} {c : CausalCluster}
    (hc : OneSensor d c) {h : AbsHit} (hn : h ∉ c.active_hits) (hd : h.dom = d)
    (hm : 2 ≤ p.multiplicity) : OneSensor d (c.insertActiveHit p h) := by
  obtain ⟨he, bk, fh, hs⟩ := hc
  have bk2 := Bookkept_insert bk hn
  have hs2 : ∀ x ∈ AbsHitSet.insert h c.active_hits, x.dom = d := by
    intro x hx
    rcases AbsHitSet_mem_insert.1 hx with e | hx2
    · rw [e, hd]
    · exact hs x hx2
  refine ⟨?_, bk2, insertActiveHit_firstHitsActive p c h hn fh, hs2⟩
  have := Bookkept_length_le_one bk2 d hs2
  simp only [CausalCluster.insertActiveHit, he, Bool.false_or, decide_eq_false_iff_not, not_le,
    ge_iff_le]
  omega

theorem OneSensor_advance {p : HiveSplitter_ParameterSet} {d : Nat} {c : CausalCluster}
    (hc : OneSensor d c) (time : Time) : OneSensor d (c.advanceInTime p time) := by
  obtain ⟨he, bk, fh, hs⟩ := hc
  unfold CausalCluster.advanceInTime
  refine ⟨he, ?_, ?_, ?_⟩
  · exact advanceLoop_bookkept p time _ _ _ _ _ bk
  · simp only [he]
    exact advanceLoop_firstHits p time _ _ _ _ bk fh
  · intro x hx
    exact hs x (advanceLoop_active_subset p time _ _ _ _ _ x hx)

theorem OneSensor_takeConcludedHits {d : Nat} {c : CausalCluster} (hc : OneSensor d c)
    (other : CausalCluster) : OneSensor d (c.takeConcludedHits other) := hc

theorem foldl_insertActiveHit_oneSensor (p : HiveSplitter_ParameterSet) (d : Nat)
    (hm : 2 ≤ p.multiplicity) :
    ∀ (l : List AbsHit) (c : CausalCluster), OneSensor d c → l.Nodup →
      (∀ x ∈ l, x ∉ c.active_hits ∧ x.dom = d) →
      OneSensor d (l.foldl (fun c x => c.insertActiveHit p x) c) ∧
      ∀ x, x ∈ (l.foldl (fun c x => c.insertActiveHit p x) c).active_hits ↔
        x ∈ c.active_hits ∨ x ∈ l := by
  intro l
  induction l with
  | nil => intro c hc _ _; simpa using hc
  | cons y ys ih =>
    intro c hc hnd hl
    rw [List.foldl_cons]
    have hy := hl y (List.mem_cons_self _ _)
    rw [List.nodup_cons] at hnd
    have := ih (c.insertActiveHit p y) (OneSensor_insert hc hy.1 hy.2 hm) hnd.2 (by
      intro x hx
      refine ⟨?_, (hl x (List.mem_cons_of_mem _ hx)).2⟩
      rw [insertActiveHit_active, AbsHitSet_mem_insert]
      rintro (e | h2)
      · exact hnd.1 (e ▸ hx)
      · exact (hl x (List.mem_cons_of_mem _ hx)).1 h2)
    refine ⟨this.1, ?_⟩
    intro x
    rw [this.2, insertActiveHit_active, AbsHitSet_mem_insert, List.mem_cons]
    tauto

theorem makeSubCluster_oneSensor (p : HiveSplitter_ParameterSet) (d : Nat)
    (hm : 2 ≤ p.multiplicity) (hits : AbsHitSet) (h : AbsHit) (hnd : hits.Nodup)
    (hd : ∀ x ∈ hits, x.dom = d) (hh : h.dom = d) (hn : h ∉ hits) :
    OneSensor d (makeSubCluster p hits h) ∧
    ∀ x, x ∈ (makeSubCluster p hits h).active_hits ↔ x = h ∨ x ∈ hits := by
  have := foldl_insertActiveHit_oneSensor p d hm hits CausalCluster.new (OneSensor_new d) hnd
    (by intro x hx; exact ⟨by simp [CausalCluster.new], hd x hx⟩)
  unfold makeSubCluster
  have hn2 : h ∉ (hits.foldl (fun c x => c.insertActiveHit p x) CausalCluster.new).active_hits := by
    rw [this.2]; simp [CausalCluster.new, hn]
  refine ⟨OneSensor_insert this.1 hn2 hh hm, ?_⟩
  intro x
  rw [insertActiveHit_active, AbsHitSet_mem_insert, this.2]
  simp [CausalCluster.new]

/-- The connected hits collected by the SLOW scan come from the scanned hits, and the scan
over hits on the sensor of the new hit never takes the early exit. -/
theorem scanSlow_same_dom (p : HiveSplitter_ParameterSet) (h : AbsHit) :
    ∀ (l : List AbsHit) (doms : List Nat) (hits : AbsHitSet) (ac : Bool),
      (∀ x ∈ l, x.dom = h.dom) → hits.Pairwise (fun a b => a.lt b = true) →
      ∃ hits2 ac2, scanSlow p h l doms hits ac = .finished hits2 ac2 ∧
        hits2.Pairwise (fun a b => a.lt b = true) ∧ ∀ x ∈ hits2, x ∈ hits ∨ x ∈ l := by
  intro l
  induction l with
  | nil => intro doms hits ac _ hs; exact ⟨hits, ac, rfl, hs, fun x hx => Or.inl hx⟩
  | cons y ys ih =>
    intro doms hits ac hl hs
    have hy := hl y (List.mem_cons_self _ _)
    have hys : ∀ x ∈ ys, x.dom = h.dom := fun x hx => hl x (List.mem_cons_of_mem _ hx)
    have key : ∀ (hitsA : AbsHitSet) (acA : Bool), hitsA.Pairwise (fun a b => a.lt b = true) →
        (∀ x ∈ hitsA, x ∈ hits ∨ x = y) →
        ∃ hits2 ac2, scanSlow p h ys doms hitsA acA = .finished hits2 ac2 ∧
          hits2.Pairwise (fun a b => a.lt b = true) ∧ ∀ x ∈ hits2, x ∈ hits ∨ x ∈ y :: ys := by
      intro hitsA acA hsA hsub
      obtain ⟨h2, a2, e, s2, m2⟩ := ih doms hitsA acA hys hsA
      refine ⟨h2, a2, e, s2, ?_⟩
      intro x hx
      rcases m2 x hx with h3 | h3
      · rcases hsub x h3 with h4 | h4
        · exact Or.inl h4
        · exact Or.inr (h4 ▸ List.mem_cons_self _ _)
      · exact Or.inr (List.mem_cons_of_mem _ h3)
    have hins : ∀ x ∈ AbsHitSet.insert y hits, x ∈ hits ∨ x = y := by
      intro x hx
      rcases AbsHitSet_mem_insert.1 hx with e | e
      · exact Or.inr e
      · exact Or.inl e
    unfold scanSlow
    rw [if_pos hy]
    simp only
    split
    · exact key _ _ (AbsHitSet_insert_sorted hs) hins
    · split
      · exact key _ _ hs (fun x hx => Or.inl hx)
      · split
        · exact key _ _ (AbsHitSet_insert_sorted hs) hins
        · exact key _ _ hs (fun x hx => Or.inl hx)

theorem scanFast_disconnected (p : HiveSplitter_ParameterSet) (h : AbsHit)
    (hfalse : ∀ a b, p.Connected a b = false) :
    ∀ (l : List AbsHit) (doms : List Nat) (hits : AbsHitSet) (ac : Bool),
      scanFast p h l doms hits ac = .finished hits (ac && l.isEmpty) := by
  intro l
  induction l with
  | nil => intro doms hits ac; simp [scanFast]
  | cons y ys ih =>
    intro doms hits ac
    have : CausallyConnected p y h = false := by
      unfold CausallyConnected; split <;> exact hfalse _ _
    unfold scanFast
    simp [this, ih]

theorem OneSensor_of_empty {d : Nat} {c : CausalCluster} (hc : OneSensor d c)
    (he : c.active_hits = []) (d2 : Nat) : OneSensor d2 c :=
  ⟨hc.1, hc.2.1, hc.2.2.1, by intro x hx; rw [he] at hx; simp at hx⟩

theorem OneSensor_dom_of_firstHit {d : Nat} {c : CausalCluster} (hc : OneSensor d c) {k : Nat}
    (hk : (c.firstHitTimes.get? k).isSome = true) : k = d := by
  obtain ⟨x, hx, hxk⟩ := (hitsOn_pos_iff k c.active_hits).1 (hc.2.2.1 k hk)
  rw [← hxk]; exact hc.2.2.2 x hx

theorem AddHitToCluster_oneSensor (p : HiveSplitter_ParameterSet)
    (hfalse : ∀ a b, p.Connected a b = false) (hm : 2 ≤ p.multiplicity)
    (G : AbsHit → Prop) (c : CausalCluster) (h : AbsHit) (nc : List CausalCluster) (d : Nat)
    (hc : OneSensor d c) (hn : h ∉ c.active_hits) (hG : ∀ x ∈ c.active_hits, G x) (hGh : G h)
    (hnc : ∀ n ∈ nc, (∃ d, OneSensor d n) ∧ ∀ x ∈ n.active_hits, G x) :
    ((∃ d, OneSensor d (AddHitToCluster p c h nc).1) ∧
      ∀ x ∈ (AddHitToCluster p c h nc).1.active_hits, G x) ∧
    ∀ n ∈ (AddHitToCluster p c h nc).2.1, (∃ d, OneSensor d n) ∧ ∀ x ∈ n.active_hits, G x := by
  have hGins : ∀ x ∈ (c.insertActiveHit p h).active_hits, G x := by
    intro x hx
    rw [insertActiveHit_active, AbsHitSet_mem_insert] at hx
    rcases hx with e | hx
    · exact e ▸ hGh
    · exact hG x hx
  unfold AddHitToCluster
  by_cases hfa : fastAccept p c h = true
  · rw [if_pos hfa]
    have hk : (c.firstHitTimes.get? h.dom).isSome = true := by
      unfold fastAccept at hfa
      cases hg : c.firstHitTimes.get? h.dom with
      | none => rw [hg] at hfa; simp at hfa
      | some t => rfl
    have hd := OneSensor_dom_of_firstHit hc hk
    exact ⟨⟨⟨d, OneSensor_insert hc hn hd hm⟩, hGins⟩, hnc⟩
  · rw [if_neg hfa]
    by_cases hhas : DomMap.has c.firstHitTimes h.dom = true
    · have hd : h.dom = d := OneSensor_dom_of_firstHit hc hhas
      have hall : ∀ x ∈ c.active_hits.reverse, x.dom = h.dom := by
        intro x hx; rw [hd]; exact hc.2.2.2 x (List.mem_reverse.1 hx)
      obtain ⟨hits2, ac2, e, s2, m2⟩ :=
        scanSlow_same_dom p h c.active_hits.reverse [] [] true hall List.Pairwise.nil
      simp only [hhas, Bool.not_true, Bool.false_eq_true, if_false, e]
      cases ac2 with
      | true => exact ⟨⟨⟨d, OneSensor_insert hc hn hd hm⟩, hGins⟩, hnc⟩
      | false =>
        simp only [Bool.false_eq_true, if_false]
        by_cases hemp : hits2.isEmpty = true
        · rw [if_pos hemp]; exact ⟨⟨⟨d, hc⟩, hG⟩, hnc⟩
        · rw [if_neg hemp]
          refine ⟨⟨⟨d, hc⟩, hG⟩, ?_⟩
          have hsub : ∀ x ∈ hits2, x ∈ c.active_hits := by
            intro x hx
            rcases m2 x hx with h1 | h1
            · simp at h1
            · exact List.mem_reverse.1 h1
          have hsc := makeSubCluster_oneSensor p d hm hits2 h (sorted_nodup s2)
            (fun x hx => hc.2.2.2 x (hsub x hx)) hd (fun hh => hn (hsub h hh))
          have hnew : (∃ d, OneSensor d (makeSubCluster p hits2 h)) ∧
              ∀ x ∈ (makeSubCluster p hits2 h).active_hits, G x := by
            refine ⟨⟨d, hsc.1⟩, ?_⟩
            intro x hx
            rcases (hsc.2 x).1 hx with e2 | h2
            · exact e2 ▸ hGh
            · exact hG x (hsub x h2)
          intro n hn2
          have hp := pruneNew_subset (makeSubCluster p hits2 h) nc
          split at hn2
          · rcases List.mem_append.1 hn2 with h3 | h3
            · exact hnc n (hp n h3)
            · simp only [List.mem_singleton] at h3; subst h3; exact hnew
          · exact hnc n (hp n hn2)
    · have e := scanFast_disconnected p h hfalse c.active_hits.reverse [] [] true
      simp only [hhas, Bool.not_false, if_true, e, Bool.true_and]
      by_cases hemp : c.active_hits = []
      · simp only [hemp, List.reverse_nil, List.isEmpty_nil, if_true]
        refine ⟨⟨⟨h.dom, OneSensor_insert (OneSensor_of_empty hc hemp h.dom) hn rfl hm⟩, hGins⟩, hnc⟩
      · have : c.active_hits.reverse.isEmpty = false := by
          cases hr : c.active_hits with
          | nil => exact absurd hr hemp
          | cons a b => simp
        simp only [this, Bool.false_eq_true, if_false, List.isEmpty_nil, if_true]
        exact ⟨⟨⟨d, hc⟩, hG⟩, hnc⟩

theorem AddHit_oneSensor (p : HiveSplitter_ParameterSet)
    (hfalse : ∀ a b, p.Connected a b = false) (hm : 2 ≤ p.multiplicity)
    (G : AbsHit → Prop) (s : HiveSplitter) (h : AbsHit) (hGh : G h)
    (hs : ∀ c ∈ s.clusters_, (∃ d, OneSensor d c) ∧
      ∀ x ∈ c.active_hits, x.lt h = true ∧ G x) :
    ∀ c ∈ (s.AddHit p h).clusters_, (∃ d, OneSensor d c) ∧ ∀ x ∈ c.active_hits, G x := by
  apply AddHit_clusters_forall
    (fun c => (∃ d, OneSensor d c) ∧ ∀ x ∈ c.active_hits, G x)
    (fun c => (∃ d, OneSensor d c) ∧ ∀ x ∈ c.active_hits, G x)
  · intro c hc nc _ hnc
    obtain ⟨⟨d, hd⟩, hx⟩ := hs c hc
    have hsub : ∀ x ∈ (c.advanceInTime p (.fin h.time)).active_hits, x ∈ c.active_hits :=
      fun x hx2 => advanceLoop_active_subset p _ _ _ _ _ _ x hx2
    apply AddHitToCluster_oneSensor p hfalse hm G _ h nc d (OneSensor_advance hd _)
    · intro hh
      have := (hx h (hsub h hh)).1
      rw [AbsHit_lt_irrefl] at this
      exact Bool.noConfusion this
    · intro x hx2; exact (hx x (hsub x hx2)).2
    · exact hGh
    · exact hnc
  · intro n c hn _ _
    obtain ⟨⟨d, hd⟩, hx⟩ := hn
    exact ⟨⟨d, OneSensor_takeConcludedHits hd c⟩, hx⟩
  · intro n hn; exact hn
  · refine ⟨⟨h.dom, OneSensor_insert (OneSensor_new h.dom) (by simp [CausalCluster.new]) rfl hm⟩, ?_⟩
    intro x hx
    rw [insertActiveHit_active, AbsHitSet_mem_insert] at hx
    rcases hx with e | hx
    · exact e ▸ hGh
    · simp [CausalCluster.new] at hx

theorem AddHit_pools_of_not_established (p : HiveSplitter_ParameterSet) (s : HiveSplitter)
    (h : AbsHit) (hs : ∀ c ∈ s.clusters_, c.established = false) :
    (s.AddHit p h).partialSubEvents_ = s.partialSubEvents_ ∧
    (s.AddHit p h).subEvents_ = s.subEvents_ := by
  have := addHitLoop_pools_of_not_established p h s.clusters_
    { visited := [], newClusters := [], partialSubEvents := s.partialSubEvents_,
      subEvents := s.subEvents_, addedToCluster := false } hs
  exact this

theorem finalizeLoop_of_not_established (p : HiveSplitter_ParameterSet) :
    ∀ (cl : List CausalCluster) (pa : List AbsHitSet) (su : AbsHitSetSequence),
      (∀ c ∈ cl, c.established = false) → finalizeLoop p cl pa su = (pa, su) := by
  intro cl
  induction cl with
  | nil => intro pa su _; rfl
  | cons c rest ih =>
    intro pa su hne
    have hc : (c.advanceInTime p .pinf).isEstablished = false := by
      simp [CausalCluster.isEstablished, CausalCluster.advanceInTime,
        hne c (List.mem_cons_self _ _)]
    unfold finalizeLoop
    simp only [hc, Bool.false_eq_true, if_false]
    exact ih pa su (fun c2 hc2 => hne c2 (List.mem_cons_of_mem _ hc2))

theorem foldl_AddHit_oneSensor (p : HiveSplitter_ParameterSet)
    (hfalse : ∀ a b, p.Connected a b = false) (hm : 2 ≤ p.multiplicity) :
    ∀ (l : List AbsHit) (s : HiveSplitter), l.Pairwise (fun a b => a.lt b = true) →
      s.partialSubEvents_ = [] → s.subEvents_ = [] →
      (∀ c ∈ s.clusters_, (∃ d, OneSensor d c) ∧
        ∀ x ∈ c.active_hits, ∀ h ∈ l, x.lt h = true) →
      (l.foldl (fun s h => s.AddHit p h) s).partialSubEvents_ = [] ∧
      (l.foldl (fun s h => s.AddHit p h) s).subEvents_ = [] ∧
      ∀ c ∈ (l.foldl (fun s h => s.AddHit p h) s).clusters_, c.established = false := by
  intro l
  induction l with
  | nil =>
    intro s _ h1 h2 h3
    refine ⟨h1, h2, ?_⟩
    intro c hc
    obtain ⟨⟨d, hd⟩, _⟩ := h3 c hc
    exact hd.1
  | cons h t ih =>
    intro s hl h1 h2 h3
    rw [List.foldl_cons]
    rw [List.pairwise_cons] at hl
    have hne : ∀ c ∈ s.clusters_, c.established = false := by
      intro c hc
      obtain ⟨⟨d, hd⟩, _⟩ := h3 c hc
      exact hd.1
    have hp := AddHit_pools_of_not_established p s h hne
    apply ih _ hl.2 (hp.1.trans h1) (hp.2.trans h2)
    apply AddHit_oneSensor p hfalse hm (fun x => ∀ h2 ∈ t, x.lt h2 = true) s h hl.1
    intro c hc
    refine ⟨(h3 c hc).1, ?_⟩
    intro x hx
    exact ⟨(h3 c hc).2 x hx h (List.mem_cons_self _ _),
      fun h2 hh2 => (h3 c hc).2 x hx h2 (List.mem_cons_of_mem _ hh2)⟩

end hivesplitter

/-! ## A single cluster growing along a chain of hits -/

namespace hivesplitter
open detail

theorem AbsHitSet_insert_append {h : AbsHit} {l : AbsHitSet} (hl : ∀ x ∈ l, x.lt h = true) :
    AbsHitSet.insert h l = l ++ [h] := by
  induction l with
  | nil => rfl
  | cons y ys ih =>
    have hy := hl y (List.mem_cons_self _ _)
    unfold AbsHitSet.insert
    rw [if_neg (by rw [AbsHit_lt_asymm hy]; simp), if_pos hy,
      ih (fun x hx => hl x (List.mem_cons_of_mem _ hx))]
    rfl

/-- The loop of `advanceInTime` on an established cluster whose concluded hits precede its
active hits: a prefix of the active set, made of expired hits, moves to the end of
the concluded set; the first-hit times are left alone. -/
theorem advanceLoop_established (p : HiveSplitter_ParameterSet) (time : Time) :
    ∀ (active : AbsHitSet) (doms : DomMap Nat) (fht : DomMap Int) (concluded : AbsHitSet),
      (concluded ++ active).Pairwise (fun a b => a.lt b = true) →
      ∃ pre suf, active = pre ++ suf ∧
        (advanceLoop p time true active doms fht concluded).1 = suf ∧
        (advanceLoop p time true active doms fht concluded).2.2.1 = fht ∧
        (advanceLoop p time true active doms fht concluded).2.2.2 = concluded ++ pre ∧
        (∀ x ∈ pre, time.gtFin (x.time + p.multiplicityTimeWindow) = true) ∧
        (∀ y, suf.head? = some y → time.gtFin (y.time + p.multiplicityTimeWindow) = false) := by
  intro active
  induction active with
  | nil =>
    intro doms fht concluded _
    exact ⟨[], [], rfl, rfl, rfl, by simp [advanceLoop], by simp, by simp⟩
  | cons h rest ih =>
    intro doms fht concluded hs
    unfold advanceLoop
    by_cases hg : time.gtFin (h.time + p.multiplicityTimeWindow) = true
    · rw [if_pos hg]
      simp only [if_true]
      have hins : AbsHitSet.insert h concluded = concluded ++ [h] := by
        apply AbsHitSet_insert_append
        intro x hx
        exact (List.pairwise_append.1 hs).2.2 x hx h (List.mem_cons_self _ _)
      rw [hins]
      have hs2 : ((concluded ++ [h]) ++ rest).Pairwise (fun a b => a.lt b = true) := by
        simpa using hs
      obtain ⟨pre, suf, e1, e2, e3, e4, e5, e6⟩ := ih (decrDom doms h.dom) fht _ hs2
      refine ⟨h :: pre, suf, by rw [e1]; rfl, e2, e3, by rw [e4]; simp, ?_, e6⟩
      intro x hx
      rcases List.mem_cons.1 hx with e | hx2
      · rw [e]; exact hg
      · exact e5 x hx2
    · rw [if_neg hg]
      refine ⟨[], h :: rest, rfl, rfl, rfl, by simp, by simp, ?_⟩
      intro y hy
      simp only [List.head?_cons, Option.some.injEq] at hy
      rw [← hy]
      simpa using hg

theorem multMinusOne_of_one {p : HiveSplitter_ParameterSet} (hm : p.multiplicity = 1) :
    multMinusOne p = 0 := by
  unfold multMinusOne
  rw [hm]
  norm_num

theorem scanFast_enough_of_one (p : HiveSplitter_ParameterSet) (hm : p.multiplicity = 1)
    (h y : AbsHit) (ys : List AbsHit) (hc : CausallyConnected p y h = true) :
    scanFast p h (y :: ys) [] [] true = .enough := by
  unfold scanFast
  simp [hc, multMinusOne_of_one hm]

theorem CausallyConnected_of_all (p : HiveSplitter_ParameterSet)
    (htrue : ∀ a b, p.Connected a b = true) (a b : AbsHit) : CausallyConnected p a b = true := by
  unfold CausallyConnected; split <;> exact htrue _ _

theorem Chained_advance (p : HiveSplitter_ParameterSet) (c : CausalCluster) (done : AbsHitSet)
    (prev : AbsHit) (hc : Chained c done prev)
    (hs : done.Pairwise (fun a b => a.lt b = true)) (t : Int)
    (hgap : t ≤ prev.time + p.multiplicityTimeWindow) :
    Chained (c.advanceInTime p (.fin t)) done prev ∧
    (c.advanceInTime p (.fin t)).firstHitTimes = c.firstHitTimes := by
  have hs2 : (c.concluded_hits ++ c.active_hits).Pairwise (fun a b => a.lt b = true) := by
    rw [hc.hits]; exact hs
  obtain ⟨pre, suf, e1, e2, e3, e4, e5, _⟩ :=
    advanceLoop_established p (.fin t) c.active_hits c.active_doms c.firstHitTimes
      c.concluded_hits hs2
  have hest := hc.est
  have hlast := hc.last
  have hsuf : suf ≠ [] := by
    intro hnil
    rw [hnil, List.append_nil] at e1
    have : prev ∈ pre := by
      rw [← e1]; exact List.mem_of_getLast?_eq_some hlast
    have := e5 prev this
    simp only [Time.gtFin, decide_eq_true_eq] at this
    omega
  unfold CausalCluster.advanceInTime
  rw [hest] at *
  refine ⟨⟨rfl, ?_, ?_, ?_⟩, e3⟩
  · simp only [e2, e4]
    rw [List.append_assoc, ← e1]; exact hc.hits
  · simp only [e2]
    rw [e1, List.getLast?_append_of_ne_nil _ hsuf] at hlast
    exact hlast
  · simp only [e3]; exact hc.fht

theorem Chained_insert (p : HiveSplitter_ParameterSet) (c : CausalCluster) (done : AbsHitSet)
    (prev h : AbsHit) (hc : Chained c done prev)
    (hs : (done ++ [h]).Pairwise (fun a b => a.lt b = true)) :
    Chained (c.insertActiveHit p h) (done ++ [h]) h := by
  have hlt : ∀ x ∈ c.active_hits, x.lt h = true := by
    intro x hx
    apply (List.pairwise_append.1 hs).2.2 x _ h (List.mem_singleton_self _)
    rw [← hc.hits]; exact List.mem_append_right _ hx
  refine ⟨?_, ?_, ?_, ?_⟩
  · simp [CausalCluster.insertActiveHit, hc.est]
  · rw [insertActiveHit_active, AbsHitSet_insert_append hlt]
    show c.concluded_hits ++ (c.active_hits ++ [h]) = done ++ [h]
    rw [← List.append_assoc, hc.hits]
  · rw [insertActiveHit_active, AbsHitSet_insert_append hlt]
    simp
  · intro d hd
    rcases insertActiveHit_firstHits_isSome p c h d hd with h1 | h1
    · obtain ⟨x, hx, hxd⟩ := hc.fht d h1
      exact ⟨x, List.mem_append_left _ hx, hxd⟩
    · exact ⟨h, by simp, h1.symm⟩

theorem AddHitToCluster_chained (p : HiveSplitter_ParameterSet) (hm : p.multiplicity = 1)
    (htrue : ∀ a b, p.Connected a b = true) (c : CausalCluster) (done : AbsHitSet)
    (prev h : AbsHit) (hc : Chained c done prev) (hd : ∀ x ∈ done, x.dom ≠ h.dom)
    (nc : List CausalCluster) :
    AddHitToCluster p c h nc = (c.insertActiveHit p h, nc, true) := by
  have hnone : c.firstHitTimes.get? h.dom = none := by
    cases hg : c.firstHitTimes.get? h.dom with
    | none => rfl
    | some t =>
      obtain ⟨x, hx, hxd⟩ := hc.fht h.dom (by rw [hg]; rfl)
      exact absurd hxd (hd x hx)
  have hrev : ∃ y ys, c.active_hits.reverse = y :: ys := by
    cases hr : c.active_hits.reverse with
    | nil =>
      have := hc.last
      rw [List.reverse_eq_nil_iff.1 hr] at this
      simp at this
    | cons y ys => exact ⟨y, ys, rfl⟩
  obtain ⟨y, ys, hr⟩ := hrev
  unfold AddHitToCluster
  simp only [fastAccept, hnone, DomMap.has, Option.isSome_none, Bool.not_false, if_true, hr,
    scanFast_enough_of_one p hm h y ys (CausallyConnected_of_all p htrue y h),
    Bool.false_eq_true, if_false]

theorem isActive_of_chained (p : HiveSplitter_ParameterSet) (c : CausalCluster)
    (done : AbsHitSet) (prev : AbsHit) (hc : Chained c done prev) : c.isActive p = true := by
  have : c.active_hits ≠ [] := by
    intro hnil
    have := hc.last
    rw [hnil] at this
    simp at this
  simp [CausalCluster.isActive, this]

theorem AddHit_chained (p : HiveSplitter_ParameterSet) (hm : p.multiplicity = 1)
    (htrue : ∀ a b, p.Connected a b = true) (c : CausalCluster) (done : AbsHitSet)
    (prev h : AbsHit) (nc : List CausalCluster) (hc : Chained c done prev)
    (hs : (done ++ [h]).Pairwise (fun a b => a.lt b = true))
    (hd : ∀ x ∈ done, x.dom ≠ h.dom)
    (hgap : h.time ≤ prev.time + p.multiplicityTimeWindow) :
    ∃ c2, Chained c2 (done ++ [h]) h ∧
      HiveSplitter.AddHit p
        { clusters_ := [c], newClusters_ := nc, partialSubEvents_ := [], subEvents_ := [] } h
      = { clusters_ := [c2], newClusters_ := [], partialSubEvents_ := [], subEvents_ := [] } := by
  have hs1 : done.Pairwise (fun a b => a.lt b = true) := (List.pairwise_append.1 hs).1
  obtain ⟨hadv, hfht⟩ := Chained_advance p c done prev hc hs1 h.time hgap
  have hact := isActive_of_chained p _ done prev hadv
  have hadd := AddHitToCluster_chained p hm htrue _ done prev h hadv hd []
  refine ⟨(c.advanceInTime p (.fin h.time)).insertActiveHit p h,
    Chained_insert p _ done prev h hadv hs, ?_⟩
  unfold HiveSplitter.AddHit
  simp only [addHitLoop, hact, hadd, Bool.not_true, Bool.and_false, Bool.false_eq_true,
    if_false, if_true, List.nil_append, Bool.false_or, reconcile]

theorem foldl_AddHit_chained (p : HiveSplitter_ParameterSet) (hm : p.multiplicity = 1)
    (htrue : ∀ a b, p.Connected a b = true) :
    ∀ (t : List AbsHit) (c : CausalCluster) (done : AbsHitSet) (prev : AbsHit),
      Chained c done prev →
      (done ++ t).Pairwise (fun a b => a.lt b = true) →
      (done ++ t).Pairwise (fun a b => a.dom ≠ b.dom) →
      List.Chain (fun a b => b.time ≤ a.time + p.multiplicityTimeWindow) prev t →
      ∃ c2 last, Chained c2 (done ++ t) last ∧
        t.foldl (fun (s : HiveSplitter) h => s.AddHit p h)
          ({ clusters_ := [c], newClusters_ := [], partialSubEvents_ := [],
             subEvents_ := [] } : HiveSplitter)
        = ({ clusters_ := [c2], newClusters_ := [], partialSubEvents_ := [],
             subEvents_ := [] } : HiveSplitter) := by
  intro t
  induction t with
  | nil =>
    intro c done prev hc _ _ _
    exact ⟨c, prev, by simpa using hc, rfl⟩
  | cons h t ih =>
    intro c done prev hc hs hd hgap
    rw [List.chain_cons] at hgap
    have hs1 : (done ++ [h]).Pairwise (fun a b => a.lt b = true) := by
      have : done ++ h :: t = (done ++ [h]) ++ t := by simp
      rw [this] at hs
      exact (List.pairwise_append.1 hs).1
    have hd1 : ∀ x ∈ done, x.dom ≠ h.dom := by
      intro x hx
      exact (List.pairwise_append.1 hd).2.2 x hx h (List.mem_cons_self _ _)
    obtain ⟨c2, hc2, e⟩ := AddHit_chained p hm htrue c done prev h [] hc hs1 hd1 hgap.1
    rw [List.foldl_cons, e]
    have e2 : done ++ h :: t = (done ++ [h]) ++ t := by simp
    rw [e2] at hs hd ⊢
    exact ih c2 (done ++ [h]) h hc2 hs hd hgap.2

theorem sorted_head_le_last {x z : AbsHit} {l : AbsHitSet}
    (hs : (x :: l).Pairwise (fun a b => a.lt b = true))
    (hz : (x :: l).getLast? = some z) : x.time ≤ z.time := by
  have hm : z ∈ x :: l := List.mem_of_getLast?_eq_some hz
  rcases List.mem_cons.1 hm with e | h2
  · rw [e]
  · exact AbsHit_time_le_of_lt ((List.pairwise_cons.1 hs).1 z h2)

theorem Finalize_chained (p : HiveSplitter_ParameterSet) (c : CausalCluster)
    (done : AbsHitSet) (prev : AbsHit) (hc : Chained c done prev)
    (hs : done.Pairwise (fun a b => a.lt b = true)) :
    (HiveSplitter.FinalizeSubEvents p
      { clusters_ := [c], newClusters_ := [], partialSubEvents_ := [],
        subEvents_ := [] }).subEvents_ = [done] := by
  have hs2 : (c.concluded_hits ++ c.active_hits).Pairwise (fun a b => a.lt b = true) := by
    rw [hc.hits]; exact hs
  obtain ⟨pre, suf, e1, e2, _, e4, _, e6⟩ :=
    advanceLoop_established p .pinf c.active_hits c.active_doms c.firstHitTimes
      c.concluded_hits hs2
  have hsuf : suf = [] := by
    cases suf with
    | nil => rfl
    | cons y ys => have := e6 y rfl; simp [Time.gtFin] at this
  rw [hsuf, List.append_nil] at e1
  have hconc : (c.advanceInTime p .pinf).concluded_hits = done := by
    unfold CausalCluster.advanceInTime
    simp only [hc.est, e4]
    rw [← e1]; exact hc.hits
  have hest : (c.advanceInTime p .pinf).isEstablished = true := by
    simp [CausalCluster.isEstablished, CausalCluster.advanceInTime, hc.est]
  have hmem : prev ∈ done := by
    rw [← hc.hits]
    exact List.mem_append_right _ (List.mem_of_getLast?_eq_some hc.last)
  obtain ⟨x, l, hdone⟩ : ∃ x l, done = x :: l := by
    cases hd : done with
    | nil => rw [hd] at hmem; simp at hmem
    | cons x l => exact ⟨x, l, rfl⟩
  obtain ⟨z, hz⟩ : ∃ z, done.getLast? = some z := by
    rw [hdone]
    exact ⟨(x :: l).getLast (by simp), List.getLast?_eq_getLast _ _⟩
  have hle : x.time ≤ z.time := by
    rw [hdone] at hs hz; exact sorted_head_le_last hs hz
  have hearly : earliestUpcomingTime [c.advanceInTime p .pinf] = .fin x.time := by
    simp [earliestUpcomingTime, CausalCluster.getEarliestTime, hconc, hdone, Time.min]
  have hends : endsBefore (.fin x.time) done = false := by
    simp only [endsBefore, hz, Time.finLt, decide_eq_false_iff_not, not_lt]
    exact hle
  unfold HiveSplitter.FinalizeSubEvents
  simp only [finalizeLoop, hest, if_true, AddSubEvent, hconc, mergeLoop, hearly,
    List.nil_append, ne_eq, reduceCtorEq, not_false_eq_true, List.filter_cons, hends,
    List.filter_nil, Bool.not_false, Bool.false_eq_true, if_false, List.append_nil]

end hivesplitter

/-! ## The outcomes of `AddHitToCluster` -/

namespace hivesplitter
open detail

/-- The connected hits collected by the FAST scan are strictly increasing and come from
the scanned hits. -/
theorem scanFast_finished (p : HiveSplitter_ParameterSet) (h : AbsHit) :
    ∀ (l : List AbsHit) (doms : List Nat) (hits : AbsHitSet) (ac : Bool) (hits2 : AbsHitSet)
      (ac2 : Bool), hits.Pairwise (fun a b => a.lt b = true) →
      scanFast p h l doms hits ac = .finished hits2 ac2 →
      hits2.Pairwise (fun a b => a.lt b = true) ∧ ∀ x ∈ hits2, x ∈ hits ∨ x ∈ l := by
  intro l
  induction l with
  | nil =>
    intro doms hits ac hits2 ac2 hs e
    simp only [scanFast, Scan.finished.injEq] at e
    rw [← e.1]
    exact ⟨hs, fun x hx => Or.inl hx⟩
  | cons y ys ih =>
    intro doms hits ac hits2 ac2 hs e
    unfold scanFast at e
    split at e
    · simp only at e
      split at e
      · exact Scan.noConfusion e
      · obtain ⟨s2, m2⟩ := ih _ _ _ _ _ (AbsHitSet_insert_sorted hs) e
        refine ⟨s2, ?_⟩
        intro x hx
        rcases m2 x hx with h1 | h1
        · rcases AbsHitSet_mem_insert.1 h1 with e2 | h2
          · exact Or.inr (e2 ▸ List.mem_cons_self _ _)
          · exact Or.inl h2
        · exact Or.inr (List.mem_cons_of_mem _ h1)
    · obtain ⟨s2, m2⟩ := ih _ _ _ _ _ hs e
      refine ⟨s2, ?_⟩
      intro x hx
      rcases m2 x hx with h1 | h1
      · exact Or.inl h1
      · exact Or.inr (List.mem_cons_of_mem _ h1)

/-- The connected hits collected by the SLOW scan are strictly increasing and come from
the scanned hits. -/
theorem scanSlow_finished (p : HiveSplitter_ParameterSet) (h : AbsHit) :
    ∀ (l : List AbsHit) (doms : List Nat) (hits : AbsHitSet) (ac : Bool) (hits2 : AbsHitSet)
      (ac2 : Bool), hits.Pairwise (fun a b => a.lt b = true) →
      scanSlow p h l doms hits ac = .finished hits2 ac2 →
      hits2.Pairwise (fun a b => a.lt b = true) ∧ ∀ x ∈ hits2, x ∈ hits ∨ x ∈ l := by
  intro l
  induction l with
  | nil =>
    intro doms hits ac hits2 ac2 hs e
    simp only [scanSlow, Scan.finished.injEq] at e
    rw [← e.1]
    exact ⟨hs, fun x hx => Or.inl hx⟩
  | cons y ys ih =>
    intro doms hits ac hits2 ac2 hs e
    have keyIns : ∀ (d : List Nat) (a : Bool),
        scanSlow p h ys d (AbsHitSet.insert y hits) a = .finished hits2 ac2 →
        hits2.Pairwise (fun a b => a.lt b = true) ∧ ∀ x ∈ hits2, x ∈ hits ∨ x ∈ y :: ys := by
      intro d a e2
      obtain ⟨s2, m2⟩ := ih _ _ _ _ _ (AbsHitSet_insert_sorted hs) e2
      refine ⟨s2, ?_⟩
      intro x hx
      rcases m2 x hx with h1 | h1
      · rcases AbsHitSet_mem_insert.1 h1 with e3 | h2
        · exact Or.inr (e3 ▸ List.mem_cons_self _ _)
        · exact Or.inl h2
      · exact Or.inr (List.mem_cons_of_mem _ h1)
    have keySame : ∀ (d : List Nat) (a : Bool),
        scanSlow p h ys d hits a = .finished hits2 ac2 →
        hits2.Pairwise (fun a b => a.lt b = true) ∧ ∀ x ∈ hits2, x ∈ hits ∨ x ∈ y :: ys := by
      intro d a e2
      obtain ⟨s2, m2⟩ := ih _ _ _ _ _ hs e2
      refine ⟨s2, ?_⟩
      intro x hx
      rcases m2 x hx with h1 | h1
      · exact Or.inl h1
      · exact Or.inr (List.mem_cons_of_mem _ h1)
    unfold scanSlow at e
    split at e
    · simp only at e
      split at e
      · exact keyIns _ _ e
      · split at e
        · exact keySame _ _ e
        · split at e
          · exact keyIns _ _ e
          · exact keySame _ _ e
    · split at e
      · simp only at e
        split at e
        · exact Scan.noConfusion e
        · exact keyIns _ _ e
      · exact keySame _ _ e

/-- The three outcomes of `AddHitToCluster`: the hit is inserted into the cluster, the hit
is rejected, or a sub-cluster of connected active hits plus the hit is registered. -/
theorem AddHitToCluster_cases (p : HiveSplitter_ParameterSet) (c : CausalCluster) (h : AbsHit)
    (nc : List CausalCluster) :
    (AddHitToCluster p c h nc = (c.insertActiveHit p h, nc, true)) ∨
    (AddHitToCluster p c h nc = (c, nc, false)) ∨
    (∃ hits : AbsHitSet, hits ≠ [] ∧ hits.Pairwise (fun a b => a.lt b = true) ∧
      (∀ x ∈ hits, x ∈ c.active_hits) ∧
      AddHitToCluster p c h nc =
        (c, (if (pruneNew (makeSubCluster p hits h) nc).2
              then (pruneNew (makeSubCluster p hits h) nc).1 ++ [makeSubCluster p hits h]
              else (pruneNew (makeSubCluster p hits h) nc).1), true)) := by
  unfold AddHitToCluster
  by_cases hfa : fastAccept p c h = true
  · rw [if_pos hfa]; exact Or.inl rfl
  · rw [if_neg hfa]
    simp only
    generalize hscan : (if (!DomMap.has c.firstHitTimes h.dom) = true
        then scanFast p h c.active_hits.reverse [] [] true
        else scanSlow p h c.active_hits.reverse [] [] true) = scan
    cases scan with
    | enough => exact Or.inl rfl
    | finished hits2 ac2 =>
      have hprop : hits2.Pairwise (fun a b => a.lt b = true) ∧
          ∀ x ∈ hits2, x ∈ c.active_hits := by
        split at hscan
        · obtain ⟨s2, m2⟩ := scanFast_finished p h _ _ _ _ _ _ List.Pairwise.nil hscan
          refine ⟨s2, fun x hx => ?_⟩
          rcases m2 x hx with h1 | h1
          · simp at h1
          · exact List.mem_reverse.1 h1
        · obtain ⟨s2, m2⟩ := scanSlow_finished p h _ _ _ _ _ _ List.Pairwise.nil hscan
          refine ⟨s2, fun x hx => ?_⟩
          rcases m2 x hx with h1 | h1
          · simp at h1
          · exact List.mem_reverse.1 h1
      simp only
      cases ac2 with
      | true => exact Or.inl rfl
      | false =>
        simp only [Bool.false_eq_true, if_false]
        by_cases hemp : hits2.isEmpty = true
        · rw [if_pos hemp]; exact Or.inr (Or.inl rfl)
        · rw [if_neg hemp]
          refine Or.inr (Or.inr ⟨hits2, ?_, hprop.1, hprop.2, rfl⟩)
          intro hnil
          rw [hnil] at hemp
          simp at hemp

/-- A step of `AddHitToCluster` keeps a predicate on the visited cluster and a predicate on
the new clusters, if the insertion of the hit does and every sub-cluster of connected
active hits satisfies the latter. -/
theorem AddHitToCluster_forall (PV PN : CausalCluster → Prop) (p : HiveSplitter_ParameterSet)
    (c : CausalCluster) (h : AbsHit) (nc : List CausalCluster)
    (hc : PV c) (hins : PV (c.insertActiveHit p h))
    (hsub : ∀ hits : AbsHitSet, hits ≠ [] → hits.Pairwise (fun a b => a.lt b = true) →
      (∀ x ∈ hits, x ∈ c.active_hits) → PN (makeSubCluster p hits h))
    (hnc : ∀ n ∈ nc, PN n) :
    PV (AddHitToCluster p c h nc).1 ∧ ∀ n ∈ (AddHitToCluster p c h nc).2.1, PN n := by
  rcases AddHitToCluster_cases p c h nc with e | e | ⟨hits, h1, h2, h3, e⟩
  · rw [e]; exact ⟨hins, hnc⟩
  · rw [e]; exact ⟨hc, hnc⟩
  · rw [e]
    refine ⟨hc, ?_⟩
    intro n hn
    have hp := pruneNew_subset (makeSubCluster p hits h) nc
    simp only at hn
    split at hn
    · rcases List.mem_append.1 hn with h4 | h4
      · exact hnc n (hp n h4)
      · simp only [List.mem_singleton] at h4; subst h4; exact hsub hits h1 h2 h3
    · exact hnc n (hp n hn)

end hivesplitter

/-! ## The multiplicity invariant -/

namespace hivesplitter
open detail

theorem distinctDoms_mono {a b : AbsHitSet} (h : ∀ x ∈ a, x ∈ b) :
    distinctDoms a ≤ distinctDoms b := by
  unfold distinctDoms
  apply List.Subperm.length_le
  apply List.subperm_of_subset (List.nodup_dedup _)
  intro d hd
  rw [List.mem_dedup, List.mem_map] at hd ⊢
  obtain ⟨x, hx, hxd⟩ := hd
  exact ⟨x, h x hx, hxd⟩

theorem Bookkept_length_le_distinctDoms {active : AbsHitSet} {doms : DomMap Nat}
    (bk : Bookkept active doms) : doms.length ≤ distinctDoms active := by
  have hsub : doms.map Prod.fst ⊆ (active.map (fun x => x.dom)).dedup := by
    intro k hk
    rw [DomMap.mem_keys_iff, Bookkept_isSome_iff bk, hitsOn_pos_iff] at hk
    obtain ⟨x, hx, hxd⟩ := hk
    rw [List.mem_dedup, List.mem_map]
    exact ⟨x, hx, hxd⟩
  have := (List.subperm_of_subset bk.keys hsub).length_le
  simpa [distinctDoms] using this

/-- The loop of `advanceInTime` loses no concluded hit, and on an established cluster it
loses no hit at all. -/
theorem advanceLoop_mem (p : HiveSplitter_ParameterSet) (time : Time) (est : Bool) :
    ∀ (active : AbsHitSet) (doms : DomMap Nat) (fht : DomMap Int) (concluded : AbsHitSet),
      (∀ x ∈ concluded, x ∈ (advanceLoop p time est active doms fht concluded).2.2.2) ∧
      (∀ x ∈ (advanceLoop p time est active doms fht concluded).2.2.2,
        x ∈ concluded ∨ x ∈ active) ∧
      (est = true → ∀ x ∈ active,
        x ∈ (advanceLoop p time est active doms fht concluded).2.2.2 ∨
        x ∈ (advanceLoop p time est active doms fht concluded).1) := by
  intro active
  induction active with
  | nil =>
    intro doms fht concluded
    simp [advanceLoop]
  | cons h rest ih =>
    intro doms fht concluded
    unfold advanceLoop
    by_cases hg : time.gtFin (h.time + p.multiplicityTimeWindow) = true
    · rw [if_pos hg]
      cases est with
      | true =>
        simp only [if_true]
        obtain ⟨i1, i2, i3⟩ := ih (decrDom doms h.dom) fht (AbsHitSet.insert h concluded)
        refine ⟨?_, ?_, ?_⟩
        · intro x hx
          exact i1 x (AbsHitSet_mem_insert.2 (Or.inr hx))
        · intro x hx
          rcases i2 x hx with h1 | h1
          · rcases AbsHitSet_mem_insert.1 h1 with e | h2
            · exact Or.inr (e ▸ List.mem_cons_self _ _)
            · exact Or.inl h2
          · exact Or.inr (List.mem_cons_of_mem _ h1)
        · intro _ x hx
          rcases List.mem_cons.1 hx with e | h1
          · exact Or.inl (i1 x (AbsHitSet_mem_insert.2 (Or.inl e)))
          · exact i3 rfl x h1
      | false =>
        simp only [Bool.false_eq_true, if_false]
        obtain ⟨i1, i2, _⟩ := ih (decrDom doms h.dom)
          (if (!DomMap.has (decrDom doms h.dom) h.dom) = true then DomMap.erase fht h.dom
            else resyncFirstHit h (h :: rest) fht) concluded
        refine ⟨i1, ?_, fun hf => absurd hf (by simp)⟩
        intro x hx
        rcases i2 x hx with h1 | h1
        · exact Or.inl h1
        · exact Or.inr (List.mem_cons_of_mem _ h1)
    · rw [if_neg hg]
      refine ⟨fun x hx => hx, fun x hx => Or.inl hx, fun _ x hx => Or.inr hx⟩

/-- Advancing to infinite time empties the active set. -/
theorem advanceLoop_pinf (p : HiveSplitter_ParameterSet) (est : Bool) :
    ∀ (active : AbsHitSet) (doms : DomMap Nat) (fht : DomMap Int) (concluded : AbsHitSet),
      (advanceLoop p .pinf est active doms fht concluded).1 = [] := by
  intro active
  induction active with
  | nil => intro doms fht concluded; rfl
  | cons h rest ih =>
    intro doms fht concluded
    unfold advanceLoop
    simp only [Time.gtFin, if_true]
    cases est with
    | true => simpa using ih _ _ _
    | false => simpa using ih _ _ _

theorem MultOk_new (p : HiveSplitter_ParameterSet) : MultOk p CausalCluster.new :=
  ⟨Bookkept_nil, fun h => Bool.noConfusion h⟩

theorem MultOk_insert {p : HiveSplitter_ParameterSet} {c : CausalCluster} (hc : MultOk p c)
    {h : AbsHit} (hn : h ∉ c.active_hits) : MultOk p (c.insertActiveHit p h) := by
  obtain ⟨bk, he⟩ := hc
  have bk2 := Bookkept_insert bk hn
  refine ⟨bk2, ?_⟩
  intro hest
  have hsub : ∀ x ∈ c.concluded_hits ++ c.active_hits,
      x ∈ (c.insertActiveHit p h).concluded_hits ++ (c.insertActiveHit p h).active_hits := by
    intro x hx
    rcases List.mem_append.1 hx with h1 | h1
    · exact List.mem_append_left _ h1
    · exact List.mem_append_right _ (AbsHitSet_mem_insert.2 (Or.inr h1))
  by_cases hold : c.established = true
  · exact le_trans (he hold) (distinctDoms_mono hsub)
  · have hnew : p.multiplicity ≤
        (DomMap.set c.active_doms h.dom (((c.active_doms.get? h.dom).getD 0) + 1)).length := by
      simp only [CausalCluster.insertActiveHit, Bool.or_eq_true, decide_eq_true_eq] at hest
      rcases hest with h1 | h1
      · exact absurd h1 hold
      · exact h1
    have h2 := Bookkept_length_le_distinctDoms bk2
    have h3 : distinctDoms (AbsHitSet.insert h c.active_hits) ≤
        distinctDoms ((c.insertActiveHit p h).concluded_hits ++
          (c.insertActiveHit p h).active_hits) :=
      distinctDoms_mono (fun x hx => List.mem_append_right _ hx)
    omega

theorem MultOk_advance {p : HiveSplitter_ParameterSet} {c : CausalCluster} (hc : MultOk p c)
    (time : Time) : MultOk p (c.advanceInTime p time) := by
  obtain ⟨bk, he⟩ := hc
  unfold CausalCluster.advanceInTime
  refine ⟨advanceLoop_bookkept p time _ _ _ _ _ bk, ?_⟩
  intro hest
  simp only at hest
  refine le_trans (he hest) (distinctDoms_mono ?_)
  obtain ⟨i1, _, i3⟩ := advanceLoop_mem p time c.established c.active_hits c.active_doms
    c.firstHitTimes c.concluded_hits
  intro x hx
  simp only [List.mem_append]
  rcases List.mem_append.1 hx with h1 | h1
  · exact Or.inl (i1 x h1)
  · exact i3 hest x h1

theorem MultOk_takeConcludedHits {p : HiveSplitter_ParameterSet} {c : CausalCluster}
    (hc : MultOk p c) (other : CausalCluster) : MultOk p (c.takeConcludedHits other) := by
  obtain ⟨bk, he⟩ := hc
  refine ⟨bk, ?_⟩
  intro hest
  refine le_trans (he hest) (distinctDoms_mono ?_)
  intro x hx
  simp only [CausalCluster.takeConcludedHits, List.mem_append, AbsHitSet_mem_insertAll]
  rcases List.mem_append.1 hx with h1 | h1
  · exact Or.inl (Or.inl h1)
  · exact Or.inr h1

theorem foldl_insertActiveHit_multOk (p : HiveSplitter_ParameterSet) :
    ∀ (l : List AbsHit) (c : CausalCluster), MultOk p c → l.Nodup →
      (∀ x ∈ l, x ∉ c.active_hits) →
      MultOk p (l.foldl (fun c x => c.insertActiveHit p x) c) ∧
      ∀ x, x ∈ (l.foldl (fun c x => c.insertActiveHit p x) c).active_hits ↔
        x ∈ c.active_hits ∨ x ∈ l := by
  intro l
  induction l with
  | nil => intro c hc _ _; simpa using hc
  | cons y ys ih =>
    intro c hc hnd hl
    rw [List.foldl_cons]
    have hy := hl y (List.mem_cons_self _ _)
    rw [List.nodup_cons] at hnd
    have := ih (c.insertActiveHit p y) (MultOk_insert hc hy) hnd.2 (by
      intro x hx
      rw [insertActiveHit_active, AbsHitSet_mem_insert]
      rintro (e | h2)
      · exact hnd.1 (e ▸ hx)
      · exact hl x (List.mem_cons_of_mem _ hx) h2)
    refine ⟨this.1, ?_⟩
    intro x
    rw [this.2, insertActiveHit_active, AbsHitSet_mem_insert, List.mem_cons]
    tauto

theorem makeSubCluster_multOk (p : HiveSplitter_ParameterSet) (hits : AbsHitSet) (h : AbsHit)
    (hnd : hits.Nodup) (hn : h ∉ hits) :
    MultOk p (makeSubCluster p hits h) ∧
    ∀ x, x ∈ (makeSubCluster p hits h).active_hits ↔ x = h ∨ x ∈ hits := by
  have := foldl_insertActiveHit_multOk p hits CausalCluster.new (MultOk_new p) hnd
    (by intro x _; simp [CausalCluster.new])
  unfold makeSubCluster
  have hn2 : h ∉ (hits.foldl (fun c x => c.insertActiveHit p x) CausalCluster.new).active_hits := by
    rw [this.2]; simp [CausalCluster.new, hn]
  refine ⟨MultOk_insert this.1 hn2, ?_⟩
  intro x
  rw [insertActiveHit_active, AbsHitSet_mem_insert, this.2]
  simp [CausalCluster.new]

end hivesplitter

/-! ## Invariants of the subevent pools -/

namespace hivesplitter
open detail

theorem mergeLoop_forall (R : AbsHitSet → Prop) (p : HiveSplitter_ParameterSet)
    (hU : ∀ a b, R a → R b → R (AbsHitSet.insertAll a b)) :
    ∀ (l : List AbsHitSet) (newSet : AbsHitSet), R newSet → (∀ e ∈ l, R e) →
      R (mergeLoop p newSet l).1 ∧ ∀ e ∈ (mergeLoop p newSet l).2, R e := by
  intro l
  induction l with
  | nil => intro newSet hn _; simp [mergeLoop, hn]
  | cons s rest ih =>
    intro newSet hn hl
    have hs := hl s (List.mem_cons_self _ _)
    have hr : ∀ e ∈ rest, R e := fun e he => hl e (List.mem_cons_of_mem _ he)
    unfold mergeLoop
    split
    · exact ih _ (hU _ _ hn hs) hr
    · refine ⟨(ih newSet hn hr).1, ?_⟩
      intro e he
      rcases List.mem_cons.1 he with e1 | h1
      · exact e1 ▸ hs
      · exact (ih newSet hn hr).2 e h1

theorem AddSubEvent_forall (R : AbsHitSet → Prop) (p : HiveSplitter_ParameterSet)
    (hU : ∀ a b, R a → R b → R (AbsHitSet.insertAll a b))
    (clusters : List CausalCluster) (newSet : AbsHitSet) (pa : List AbsHitSet)
    (su : AbsHitSetSequence) (hn : R newSet) (hpa : ∀ e ∈ pa, R e) (hsu : ∀ e ∈ su, R e) :
    (∀ e ∈ (AddSubEvent p clusters newSet pa su).1, R e) ∧
    (∀ e ∈ (AddSubEvent p clusters newSet pa su).2, R e) := by
  obtain ⟨m1, m2⟩ := mergeLoop_forall R p hU pa newSet hn hpa
  have hpool : ∀ e ∈ (mergeLoop p newSet pa).2 ++ [(mergeLoop p newSet pa).1], R e := by
    intro e he
    rcases List.mem_append.1 he with h1 | h1
    · exact m2 e h1
    · simp only [List.mem_singleton] at h1; exact h1 ▸ m1
  unfold AddSubEvent
  simp only
  split
  · refine ⟨fun e he => hpool e (List.mem_of_mem_filter he), ?_⟩
    intro e he
    rcases List.mem_append.1 he with h1 | h1
    · exact hsu e h1
    · exact hpool e (List.mem_of_mem_filter h1)
  · exact ⟨hpool, hsu⟩

theorem addHitLoop_pools_forall (R : AbsHitSet → Prop) (p : HiveSplitter_ParameterSet)
    (h : AbsHit) (hU : ∀ a b, R a → R b → R (AbsHitSet.insertAll a b)) :
    ∀ (todo : List CausalCluster) (st : AddHitLoop),
      (∀ c ∈ todo, (c.advanceInTime p (.fin h.time)).established = true →
        (c.advanceInTime p (.fin h.time)).isActive p = false →
        R (c.advanceInTime p (.fin h.time)).concluded_hits) →
      (∀ e ∈ st.partialSubEvents, R e) → (∀ e ∈ st.subEvents, R e) →
      (∀ e ∈ (addHitLoop p h todo st).partialSubEvents, R e) ∧
      (∀ e ∈ (addHitLoop p h todo st).subEvents, R e) := by
  intro todo
  induction todo with
  | nil => intro st _ h1 h2; exact ⟨h1, h2⟩
  | cons c rest ih =>
    intro st hcl h1 h2
    have hrest : ∀ c2 ∈ rest, (c2.advanceInTime p (.fin h.time)).established = true →
        (c2.advanceInTime p (.fin h.time)).isActive p = false →
        R (c2.advanceInTime p (.fin h.time)).concluded_hits :=
      fun c2 hc2 => hcl c2 (List.mem_cons_of_mem _ hc2)
    have hev : (∀ e ∈ (if ((c.advanceInTime p (.fin h.time)).isEstablished &&
          !(c.advanceInTime p (.fin h.time)).isActive p) = true then
            AddSubEvent p (st.visited ++ c.advanceInTime p (.fin h.time) :: rest)
              (c.advanceInTime p (.fin h.time)).concluded_hits st.partialSubEvents st.subEvents
          else (st.partialSubEvents, st.subEvents)).1, R e) ∧
        (∀ e ∈ (if ((c.advanceInTime p (.fin h.time)).isEstablished &&
          !(c.advanceInTime p (.fin h.time)).isActive p) = true then
            AddSubEvent p (st.visited ++ c.advanceInTime p (.fin h.time) :: rest)
              (c.advanceInTime p (.fin h.time)).concluded_hits st.partialSubEvents st.subEvents
          else (st.partialSubEvents, st.subEvents)).2, R e) := by
      split
      · rename_i hcond
        simp only [CausalCluster.isEstablished, Bool.and_eq_true, Bool.not_eq_true',
          ] at hcond
        exact AddSubEvent_forall R p hU _ _ _ _
          (hcl c (List.mem_cons_self _ _) hcond.1 hcond.2) h1 h2
      · exact ⟨h1, h2⟩
    unfold addHitLoop
    simp only
    split
    · exact ih _ hrest hev.1 hev.2
    · exact ih _ hrest hev.1 hev.2

theorem AddHit_pools_forall (R : AbsHitSet → Prop) (p : HiveSplitter_ParameterSet)
    (s : HiveSplitter) (h : AbsHit) (hU : ∀ a b, R a → R b → R (AbsHitSet.insertAll a b))
    (hcl : ∀ c ∈ s.clusters_, (c.advanceInTime p (.fin h.time)).established = true →
        (c.advanceInTime p (.fin h.time)).isActive p = false →
        R (c.advanceInTime p (.fin h.time)).concluded_hits)
    (h1 : ∀ e ∈ s.partialSubEvents_, R e) (h2 : ∀ e ∈ s.subEvents_, R e) :
    (∀ e ∈ (s.AddHit p h).partialSubEvents_, R e) ∧
    (∀ e ∈ (s.AddHit p h).subEvents_, R e) :=
  addHitLoop_pools_forall R p h hU s.clusters_
    { visited := [], newClusters := [], partialSubEvents := s.partialSubEvents_,
      subEvents := s.subEvents_, addedToCluster := false } hcl h1 h2

theorem finalizeLoop_forall (R : AbsHitSet → Prop) (p : HiveSplitter_ParameterSet)
    (hU : ∀ a b, R a → R b → R (AbsHitSet.insertAll a b)) :
    ∀ (cl : List CausalCluster) (pa : List AbsHitSet) (su : AbsHitSetSequence),
      (∀ c ∈ cl, (c.advanceInTime p .pinf).established = true →
        R (c.advanceInTime p .pinf).concluded_hits) →
      (∀ e ∈ pa, R e) → (∀ e ∈ su, R e) →
      (∀ e ∈ (finalizeLoop p cl pa su).1, R e) ∧ (∀ e ∈ (finalizeLoop p cl pa su).2, R e) := by
  intro cl
  induction cl with
  | nil => intro pa su _ h1 h2; exact ⟨h1, h2⟩
  | cons c rest ih =>
    intro pa su hcl h1 h2
    have hrest : ∀ c2 ∈ rest, (c2.advanceInTime p .pinf).established = true →
        R (c2.advanceInTime p .pinf).concluded_hits :=
      fun c2 hc2 => hcl c2 (List.mem_cons_of_mem _ hc2)
    unfold finalizeLoop
    simp only
    split
    · rename_i hcond
      have := AddSubEvent_forall R p hU (c.advanceInTime p .pinf :: rest) _ pa su
        (hcl c (List.mem_cons_self _ _) hcond) h1 h2
      exact ih _ _ hrest this.1 this.2
    · exact ih _ _ hrest h1 h2

theorem FinalizeSubEvents_forall (R : AbsHitSet → Prop) (p : HiveSplitter_ParameterSet) (s : HiveSplitter)
    (hU : ∀ a b, R a → R b → R (AbsHitSet.insertAll a b))
    (hcl : ∀ c ∈ s.clusters_, (c.advanceInTime p .pinf).established = true →
        R (c.advanceInTime p .pinf).concluded_hits)
    (h1 : ∀ e ∈ s.partialSubEvents_, R e) (h2 : ∀ e ∈ s.subEvents_, R e) :
    ∀ e ∈ (s.FinalizeSubEvents p).subEvents_, R e := by
  have := finalizeLoop_forall R p hU s.clusters_ s.partialSubEvents_ s.subEvents_ hcl h1 h2
  intro e he
  unfold HiveSplitter.FinalizeSubEvents at he
  rcases List.mem_append.1 he with h3 | h3
  · exact this.2 e h3
  · exact this.1 e h3

end hivesplitter

/-! ## The multiplicity threshold along a run of `Split` -/

namespace hivesplitter
open detail

theorem active_nil_of_not_isActive (p : HiveSplitter_ParameterSet) (c : CausalCluster)
    (h : c.isActive p = false) : c.active_hits = [] := by
  by_contra hne
  simp [CausalCluster.isActive, hne] at h

theorem AddHit_multOk (p : HiveSplitter_ParameterSet) (G : AbsHit → Prop) (s : HiveSplitter)
    (h : AbsHit) (hGh : G h)
    (hs : ∀ c ∈ s.clusters_, MultOk p c ∧ ∀ x ∈ c.active_hits, x.lt h = true ∧ G x) :
    ∀ c ∈ (s.AddHit p h).clusters_, MultOk p c ∧ ∀ x ∈ c.active_hits, G x := by
  apply AddHit_clusters_forall
    (fun c => MultOk p c ∧ ∀ x ∈ c.active_hits, G x)
    (fun c => MultOk p c ∧ ∀ x ∈ c.active_hits, G x)
  · intro c hc nc _ hnc
    obtain ⟨hm, hx⟩ := hs c hc
    have hsub : ∀ x ∈ (c.advanceInTime p (.fin h.time)).active_hits, x ∈ c.active_hits :=
      fun x hx2 => advanceLoop_active_subset p _ _ _ _ _ _ x hx2
    have hn : h ∉ (c.advanceInTime p (.fin h.time)).active_hits := by
      intro hh
      have := (hx h (hsub h hh)).1
      rw [AbsHit_lt_irrefl] at this
      exact Bool.noConfusion this
    have hG : ∀ x ∈ (c.advanceInTime p (.fin h.time)).active_hits, G x :=
      fun x hx2 => (hx x (hsub x hx2)).2
    refine AddHitToCluster_forall (fun c => MultOk p c ∧ ∀ x ∈ c.active_hits, G x)
      (fun c => MultOk p c ∧ ∀ x ∈ c.active_hits, G x) p _ h nc ⟨MultOk_advance hm _, hG⟩
      ?_ ?_ hnc
    · refine ⟨MultOk_insert (MultOk_advance hm _) hn, ?_⟩
      intro x hx2
      rw [insertActiveHit_active, AbsHitSet_mem_insert] at hx2
      rcases hx2 with e | hx2
      · exact e ▸ hGh
      · exact hG x hx2
    · intro hits _ hsorted hmem
      have := makeSubCluster_multOk p hits h (sorted_nodup hsorted) (fun hh => hn (hmem h hh))
      refine ⟨this.1, ?_⟩
      intro x hx2
      rcases (this.2 x).1 hx2 with e | h2
      · exact e ▸ hGh
      · exact hG x (hmem x h2)
  · intro n c hn _ _
    exact ⟨MultOk_takeConcludedHits hn.1 c, hn.2⟩
  · intro n hn; exact hn
  · refine ⟨MultOk_insert (MultOk_new p) (by simp [CausalCluster.new]), ?_⟩
    intro x hx
    rw [insertActiveHit_active, AbsHitSet_mem_insert] at hx
    rcases hx with e | hx
    · exact e ▸ hGh
    · simp [CausalCluster.new] at hx

theorem concluded_multOk (p : HiveSplitter_ParameterSet) (c : CausalCluster) (hc : MultOk p c)
    (hest : c.established = true) (hact : c.active_hits = []) :
    p.multiplicity ≤ distinctDoms c.concluded_hits := by
  have := hc.2 hest
  rw [hact, List.append_nil] at this
  exact this

theorem foldl_AddHit_multOk (p : HiveSplitter_ParameterSet) :
    ∀ (l : List AbsHit) (s : HiveSplitter), l.Pairwise (fun a b => a.lt b = true) →
      (∀ c ∈ s.clusters_, MultOk p c ∧ ∀ x ∈ c.active_hits, ∀ h ∈ l, x.lt h = true) →
      (∀ e ∈ s.partialSubEvents_, p.multiplicity ≤ distinctDoms e) →
      (∀ e ∈ s.subEvents_, p.multiplicity ≤ distinctDoms e) →
      (∀ c ∈ (l.foldl (fun s h => s.AddHit p h) s).clusters_, MultOk p c) ∧
      (∀ e ∈ (l.foldl (fun s h => s.AddHit p h) s).partialSubEvents_,
        p.multiplicity ≤ distinctDoms e) ∧
      (∀ e ∈ (l.foldl (fun s h => s.AddHit p h) s).subEvents_,
        p.multiplicity ≤ distinctDoms e) := by
  intro l
  induction l with
  | nil => intro s _ h1 h2 h3; exact ⟨fun c hc => (h1 c hc).1, h2, h3⟩
  | cons h t ih =>
    intro s hl h1 h2 h3
    rw [List.foldl_cons]
    rw [List.pairwise_cons] at hl
    have hU : ∀ a b : AbsHitSet, p.multiplicity ≤ distinctDoms a →
        p.multiplicity ≤ distinctDoms b →
        p.multiplicity ≤ distinctDoms (AbsHitSet.insertAll a b) := by
      intro a b ha _
      exact le_trans ha (distinctDoms_mono (fun x hx => AbsHitSet_mem_insertAll.2 (Or.inl hx)))
    have hp := AddHit_pools_forall (fun e => p.multiplicity ≤ distinctDoms e) p s h hU
      (by
        intro c hc hest hact
        exact concluded_multOk p _ (MultOk_advance (h1 c hc).1 _) hest
          (active_nil_of_not_isActive p _ hact))
      h2 h3
    apply ih _ hl.2 _ hp.1 hp.2
    apply AddHit_multOk p (fun x => ∀ h2 ∈ t, x.lt h2 = true) s h hl.1
    intro c hc
    refine ⟨(h1 c hc).1, ?_⟩
    intro x hx
    exact ⟨(h1 c hc).2 x hx h (List.mem_cons_self _ _),
      fun h2 hh2 => (h1 c hc).2 x hx h2 (List.mem_cons_of_mem _ hh2)⟩

end hivesplitter

/-! ## The hits held by the engine are input hits -/

namespace hivesplitter
open detail

theorem advanceLoop_concluded_sorted (p : HiveSplitter_ParameterSet) (time : Time)
    (est : Bool) :
    ∀ (active : AbsHitSet) (doms : DomMap Nat) (fht : DomMap Int) (concluded : AbsHitSet),
      concluded.Pairwise (fun a b => a.lt b = true) →
      (advanceLoop p time est active doms fht concluded).2.2.2.Pairwise
        (fun a b => a.lt b = true) := by
  intro active
  induction active with
  | nil => intro doms fht concluded hs; simpa [advanceLoop] using hs
  | cons h rest ih =>
    intro doms fht concluded hs
    unfold advanceLoop
    by_cases hg : time.gtFin (h.time + p.multiplicityTimeWindow) = true
    · rw [if_pos hg]
      cases est with
      | true => simpa using ih _ _ _ (AbsHitSet_insert_sorted hs)
      | false => simpa using ih _ _ _ hs
    · rw [if_neg hg]; exact hs

theorem foldl_insertActiveHit_mem (p : HiveSplitter_ParameterSet) :
    ∀ (l : List AbsHit) (c : CausalCluster),
      (∀ x, x ∈ (l.foldl (fun c x => c.insertActiveHit p x) c).active_hits ↔
        x ∈ c.active_hits ∨ x ∈ l) ∧
      (l.foldl (fun c x => c.insertActiveHit p x) c).concluded_hits = c.concluded_hits := by
  intro l
  induction l with
  | nil => intro c; simp
  | cons y ys ih =>
    intro c
    rw [List.foldl_cons]
    refine ⟨?_, (ih (c.insertActiveHit p y)).2⟩
    intro x
    rw [(ih (c.insertActiveHit p y)).1, insertActiveHit_active, AbsHitSet_mem_insert,
      List.mem_cons]
    tauto

theorem makeSubCluster_mem (p : HiveSplitter_ParameterSet) (hits : AbsHitSet) (h : AbsHit) :
    (∀ x, x ∈ (makeSubCluster p hits h).active_hits ↔ x = h ∨ x ∈ hits) ∧
    (makeSubCluster p hits h).concluded_hits = [] := by
  have := foldl_insertActiveHit_mem p hits CausalCluster.new
  unfold makeSubCluster
  refine ⟨?_, this.2⟩
  intro x
  rw [insertActiveHit_active, AbsHitSet_mem_insert, this.1]
  simp [CausalCluster.new]

theorem HitsIn_advance {P : AbsHit → Prop} {p : HiveSplitter_ParameterSet} {c : CausalCluster}
    (hc : HitsIn P c) (time : Time) : HitsIn P (c.advanceInTime p time) := by
  obtain ⟨h1, h2, h3⟩ := hc
  obtain ⟨_, i2, _⟩ := advanceLoop_mem p time c.established c.active_hits c.active_doms
    c.firstHitTimes c.concluded_hits
  refine ⟨?_, ?_, advanceLoop_concluded_sorted p time _ _ _ _ _ h3⟩
  · intro x hx
    exact h1 x (advanceLoop_active_subset p time _ _ _ _ _ x hx)
  · intro x hx
    rcases i2 x hx with h4 | h4
    · exact h2 x h4
    · exact h1 x h4

theorem HitsIn_insert {P : AbsHit → Prop} {p : HiveSplitter_ParameterSet} {c : CausalCluster}
    (hc : HitsIn P c) {h : AbsHit} (hP : P h) : HitsIn P (c.insertActiveHit p h) := by
  refine ⟨?_, hc.2.1, hc.2.2⟩
  intro x hx
  rw [insertActiveHit_active, AbsHitSet_mem_insert] at hx
  rcases hx with e | hx
  · exact e ▸ hP
  · exact hc.1 x hx

theorem HitsIn_takeConcludedHits {P : AbsHit → Prop} {c other : CausalCluster}
    (hc : HitsIn P c) (ho : HitsIn P other) : HitsIn P (c.takeConcludedHits other) := by
  refine ⟨hc.1, ?_, AbsHitSet_insertAll_sorted hc.2.2⟩
  intro x hx
  rcases AbsHitSet_mem_insertAll.1 hx with h1 | h1
  · exact hc.2.1 x h1
  · exact ho.2.1 x h1

theorem AddHit_hitsIn (p : HiveSplitter_ParameterSet) (P : AbsHit → Prop) (s : HiveSplitter)
    (h : AbsHit) (hP : P h) (hs : ∀ c ∈ s.clusters_, HitsIn P c) :
    ∀ c ∈ (s.AddHit p h).clusters_, HitsIn P c := by
  apply AddHit_clusters_forall (HitsIn P) (HitsIn P)
  · intro c hc nc _ hnc
    refine AddHitToCluster_forall (HitsIn P) (HitsIn P) p _ h nc (HitsIn_advance (hs c hc) _)
      (HitsIn_insert (HitsIn_advance (hs c hc) _) hP) ?_ hnc
    intro hits _ _ hmem
    obtain ⟨m1, m2⟩ := makeSubCluster_mem p hits h
    refine ⟨?_, ?_, ?_⟩
    · intro x hx
      rcases (m1 x).1 hx with e | h2
      · exact e ▸ hP
      · exact (HitsIn_advance (hs c hc) _).1 x (hmem x h2)
    · rw [m2]; intro x hx; simp at hx
    · rw [m2]; exact List.Pairwise.nil
  · intro n c hn hc _
    exact HitsIn_takeConcludedHits hn hc
  · intro n hn; exact hn
  · refine HitsIn_insert ⟨?_, ?_, List.Pairwise.nil⟩ hP <;>
      (intro x hx; simp [CausalCluster.new] at hx)

theorem foldl_AddHit_hitsIn (p : HiveSplitter_ParameterSet) (P : AbsHit → Prop) :
    ∀ (l : List AbsHit) (s : HiveSplitter), (∀ h ∈ l, P h) →
      (∀ c ∈ s.clusters_, HitsIn P c) →
      (∀ e ∈ s.partialSubEvents_, (∀ x ∈ e, P x) ∧ e.Pairwise (fun a b => a.lt b = true)) →
      (∀ e ∈ s.subEvents_, (∀ x ∈ e, P x) ∧ e.Pairwise (fun a b => a.lt b = true)) →
      (∀ c ∈ (l.foldl (fun s h => s.AddHit p h) s).clusters_, HitsIn P c) ∧
      (∀ e ∈ (l.foldl (fun s h => s.AddHit p h) s).partialSubEvents_,
        (∀ x ∈ e, P x) ∧ e.Pairwise (fun a b => a.lt b = true)) ∧
      (∀ e ∈ (l.foldl (fun s h => s.AddHit p h) s).subEvents_,
        (∀ x ∈ e, P x) ∧ e.Pairwise (fun a b => a.lt b = true)) := by
  intro l
  induction l with
  | nil => intro s _ h1 h2 h3; exact ⟨h1, h2, h3⟩
  | cons h t ih =>
    intro s hl h1 h2 h3
    rw [List.foldl_cons]
    have hU : ∀ a b : AbsHitSet,
        ((∀ x ∈ a, P x) ∧ a.Pairwise (fun a b => a.lt b = true)) →
        ((∀ x ∈ b, P x) ∧ b.Pairwise (fun a b => a.lt b = true)) →
        ((∀ x ∈ AbsHitSet.insertAll a b, P x) ∧
          (AbsHitSet.insertAll a b).Pairwise (fun a b => a.lt b = true)) := by
      intro a b ha hb
      refine ⟨?_, AbsHitSet_insertAll_sorted ha.2⟩
      intro x hx
      rcases AbsHitSet_mem_insertAll.1 hx with h4 | h4
      · exact ha.1 x h4
      · exact hb.1 x h4
    have hp := AddHit_pools_forall
      (fun e => (∀ x ∈ e, P x) ∧ e.Pairwise (fun a b => a.lt b = true)) p s h hU
      (by
        intro c hc _ _
        exact ⟨(HitsIn_advance (h1 c hc) _).2.1, (HitsIn_advance (h1 c hc) _).2.2⟩)
      h2 h3
    exact ih _ (fun h2 hh2 => hl h2 (List.mem_cons_of_mem _ hh2))
      (AddHit_hitsIn p P s h (hl h (List.mem_cons_self _ _)) h1) hp.1 hp.2

end hivesplitter

/-! ## HiveTrigger: invariants of the loops of `AddHit` and `AdvanceTime` -/

namespace hivetrigger
open detail

theorem trig_pruneNew_subset (n : CausalCluster) (nc : List CausalCluster) :
    ∀ c ∈ (pruneNew n nc).1, c ∈ nc := by
  induction nc with
  | nil => simp [pruneNew]
  | cons a rest ih =>
    intro c hc
    unfold pruneNew at hc
    by_cases h1 : a.isSubsetOf n = true
    · rw [if_pos h1] at hc
      exact List.mem_cons_of_mem _ (ih c hc)
    · rw [if_neg h1] at hc
      by_cases h2 : n.isSubsetOf a = true
      · rw [if_pos h2] at hc; exact hc
      · rw [if_neg h2] at hc
        rcases List.mem_cons.1 hc with e | hc2
        · exact e ▸ List.mem_cons_self _ _
        · exact List.mem_cons_of_mem _ (ih c hc2)

theorem trig_scanFast_finished (p : HiveTrigger_ParameterSet) (h : AbsDAQHit) :
    ∀ (l : List AbsDAQHit) (doms : List Nat) (hits : AbsDAQHitSet) (ac : Bool)
      (hits2 : AbsDAQHitSet) (ac2 : Bool),
      scanFast p h l doms hits ac = .finished hits2 ac2 →
      ∀ x ∈ hits2, x ∈ hits ∨ x ∈ l := by
  intro l
  induction l with
  | nil =>
    intro doms hits ac hits2 ac2 e
    simp only [scanFast, hivesplitter.Scan.finished.injEq] at e
    rw [← e.1]
    exact fun x hx => Or.inl hx
  | cons y ys ih =>
    intro doms hits ac hits2 ac2 e
    unfold scanFast at e
    split at e
    · simp only at e
      split at e
      · exact hivesplitter.Scan.noConfusion e
      · intro x hx
        rcases ih _ _ _ _ _ e x hx with h1 | h1
        · rcases AbsHitSet_mem_insert.1 h1 with e2 | h2
          · exact Or.inr (e2 ▸ List.mem_cons_self _ _)
          · exact Or.inl h2
        · exact Or.inr (List.mem_cons_of_mem _ h1)
    · intro x hx
      rcases ih _ _ _ _ _ e x hx with h1 | h1
      · exact Or.inl h1
      · exact Or.inr (List.mem_cons_of_mem _ h1)

theorem trig_scanSlow_finished (p : HiveTrigger_ParameterSet) (h : AbsDAQHit) :
    ∀ (l : List AbsDAQHit) (doms : List Nat) (hits : AbsDAQHitSet) (ac : Bool)
      (hits2 : AbsDAQHitSet) (ac2 : Bool),
      scanSlow p h l doms hits ac = .finished hits2 ac2 →
      ∀ x ∈ hits2, x ∈ hits ∨ x ∈ l := by
  intro l
  induction l with
  | nil =>
    intro doms hits ac hits2 ac2 e
    simp only [scanSlow, hivesplitter.Scan.finished.injEq] at e
    rw [← e.1]
    exact fun x hx => Or.inl hx
  | cons y ys ih =>
    intro doms hits ac hits2 ac2 e
    have keyIns : ∀ (d : List Nat) (a : Bool),
        scanSlow p h ys d (AbsHitSet.insert y hits) a = .finished hits2 ac2 →
        ∀ x ∈ hits2, x ∈ hits ∨ x ∈ y :: ys := by
      intro d a e2 x hx
      rcases ih _ _ _ _ _ e2 x hx with h1 | h1
      · rcases AbsHitSet_mem_insert.1 h1 with e3 | h2
        · exact Or.inr (e3 ▸ List.mem_cons_self _ _)
        · exact Or.inl h2
      · exact Or.inr (List.mem_cons_of_mem _ h1)
    have keySame : ∀ (d : List Nat) (a : Bool),
        scanSlow p h ys d hits a = .finished hits2 ac2 →
        ∀ x ∈ hits2, x ∈ hits ∨ x ∈ y :: ys := by
      intro d a e2 x hx
      rcases ih _ _ _ _ _ e2 x hx with h1 | h1
      · exact Or.inl h1
      · exact Or.inr (List.mem_cons_of_mem _ h1)
    unfold scanSlow at e
    split at e
    · simp only at e
      split at e
      · exact keyIns _ _ e
      · split at e
        · exact keySame _ _ e
        · split at e
          · exact keyIns _ _ e
          · exact keySame _ _ e
    · split at e
      · simp only at e
        split at e
        · exact hivesplitter.Scan.noConfusion e
        · exact keyIns _ _ e
      · exact keySame _ _ e

theorem trig_AddHitToCluster_cases (p : HiveTrigger_ParameterSet) (c : CausalCluster)
    (h : AbsDAQHit) (nc : List CausalCluster) :
    (AddHitToCluster p c h nc = (c.insertActiveHit p h, nc, true)) ∨
    (AddHitToCluster p c h nc = (c, nc, false)) ∨
    (∃ hits : AbsDAQHitSet, (∀ x ∈ hits, x ∈ c.active_hits) ∧
      AddHitToCluster p c h nc =
        (c, (if (pruneNew (makeSubCluster p hits h) nc).2
              then (pruneNew (makeSubCluster p hits h) nc).1 ++ [makeSubCluster p hits h]
              else (pruneNew (makeSubCluster p hits h) nc).1), true)) := by
  unfold AddHitToCluster
  by_cases hfa : fastAccept p c h = true
  · rw [if_pos hfa]; exact Or.inl rfl
  · rw [if_neg hfa]
    simp only
    generalize hscan : (if (!DomMap.has c.firstHitTimes h.dom) = true
        then scanFast p h c.active_hits.reverse [] [] true
        else scanSlow p h c.active_hits.reverse [] [] true) = scan
    cases scan with
    | enough => exact Or.inl rfl
    | finished hits2 ac2 =>
      have hprop : ∀ x ∈ hits2, x ∈ c.active_hits := by
        split at hscan
        · intro x hx
          rcases trig_scanFast_finished p h _ _ _ _ _ _ hscan x hx with h1 | h1
          · simp at h1
          · exact List.mem_reverse.1 h1
        · intro x hx
          rcases trig_scanSlow_finished p h _ _ _ _ _ _ hscan x hx with h1 | h1
          · simp at h1
          · exact List.mem_reverse.1 h1
      simp only
      cases ac2 with
      | true => exact Or.inl rfl
      | false =>
        simp only [Bool.false_eq_true, if_false]
        by_cases hemp : hits2.isEmpty = true
        · rw [if_pos hemp]; exact Or.inr (Or.inl rfl)
        · rw [if_neg hemp]
          exact Or.inr (Or.inr ⟨hits2, hprop, rfl⟩)

theorem trig_AddHitToCluster_forall (PV PN : CausalCluster → Prop)
    (p : HiveTrigger_ParameterSet) (c : CausalCluster) (h : AbsDAQHit)
    (nc : List CausalCluster) (hc : PV c) (hins : PV (c.insertActiveHit p h))
    (hsub : ∀ hits : AbsDAQHitSet, (∀ x ∈ hits, x ∈ c.active_hits) →
      PN (makeSubCluster p hits h))
    (hnc : ∀ n ∈ nc, PN n) :
    PV (AddHitToCluster p c h nc).1 ∧ ∀ n ∈ (AddHitToCluster p c h nc).2.1, PN n := by
  rcases trig_AddHitToCluster_cases p c h nc with e | e | ⟨hits, h3, e⟩
  · rw [e]; exact ⟨hins, hnc⟩
  · rw [e]; exact ⟨hc, hnc⟩
  · rw [e]
    refine ⟨hc, ?_⟩
    intro n hn
    have hp := trig_pruneNew_subset (makeSubCluster p hits h) nc
    simp only at hn
    split at hn
    · rcases List.mem_append.1 hn with h4 | h4
      · exact hnc n (hp n h4)
      · simp only [List.mem_singleton] at h4; subst h4; exact hsub hits h3
    · exact hnc n (hp n hn)

theorem trig_addHitLoop_forall (PV PN : CausalCluster → Prop) (p : HiveTrigger_ParameterSet)
    (h : AbsDAQHit) :
    ∀ (todo : List CausalCluster) (st : ClusterLoop),
      (∀ c ∈ todo, ∀ nc, (∀ n ∈ nc, PN n) →
        PV (AddHitToCluster p (c.advanceInTime p h.time) h nc).1 ∧
        ∀ n ∈ (AddHitToCluster p (c.advanceInTime p h.time) h nc).2.1, PN n) →
      (∀ c ∈ st.visited, PV c) → (∀ n ∈ st.newClusters, PN n) →
      (∀ c ∈ (addHitLoop p h todo st).visited, PV c) ∧
      (∀ n ∈ (addHitLoop p h todo st).newClusters, PN n) := by
  intro todo
  induction todo with
  | nil => intro st _ hv hn; exact ⟨hv, hn⟩
  | cons c rest ih =>
    intro st hstep hv hn
    have hrest : ∀ c2 ∈ rest, ∀ nc, (∀ n ∈ nc, PN n) →
        PV (AddHitToCluster p (c2.advanceInTime p h.time) h nc).1 ∧
        ∀ n ∈ (AddHitToCluster p (c2.advanceInTime p h.time) h nc).2.1, PN n :=
      fun c2 hc2 => hstep c2 (List.mem_cons_of_mem _ hc2)
    unfold addHitLoop
    simp only
    split
    · have hs := hstep c (List.mem_cons_self _ _) st.newClusters hn
      apply ih _ hrest
      · intro c2 hc2
        rcases List.mem_append.1 hc2 with h1 | h1
        · exact hv c2 h1
        · simp only [List.mem_singleton] at h1; subst h1; exact hs.1
      · exact hs.2
    · split
      · exact ih _ hrest hv hn
      · exact ih _ hrest hv hn

theorem trig_reconcileOne_forall (PV PN : CausalCluster → Prop) (h : AbsDAQHit)
    (htake : ∀ n c, PN n → PV c → PN (n.takeConcludedHits c)) :
    ∀ (cl : List CausalCluster) (n : CausalCluster), PN n → (∀ c ∈ cl, PV c) →
      PN (reconcileOne h n cl).1 ∧ ∀ c ∈ (reconcileOne h n cl).2.1, PV c := by
  intro cl
  induction cl with
  | nil => intro n hn _; simp [reconcileOne, hn]
  | cons c cs ih =>
    intro n hn hcl
    have hc := hcl c (List.mem_cons_self _ _)
    have hcs : ∀ c2 ∈ cs, PV c2 := fun c2 hc2 => hcl c2 (List.mem_cons_of_mem _ hc2)
    have hkeep : PN (reconcileOne h n cs).1 ∧
        ∀ c2 ∈ c :: (reconcileOne h n cs).2.1, PV c2 := by
      refine ⟨(ih n hn hcs).1, ?_⟩
      intro c2 hc2
      rcases List.mem_cons.1 hc2 with e | h3
      · exact e ▸ hc
      · exact (ih n hn hcs).2 c2 h3
    unfold reconcileOne
    by_cases h1 : c.getLatestActiveHit = some h
    · rw [if_pos h1]
      by_cases h2 : n.isSubsetOf c = true
      · rw [if_pos h2]; exact ⟨hn, hcl⟩
      · rw [if_neg h2]; exact hkeep
    · rw [if_neg h1]
      by_cases h2 : c.isSubsetOf n = true
      · rw [if_pos h2]
        exact ih _ (htake n c hn hc) hcs
      · rw [if_neg h2]; exact hkeep

theorem trig_reconcile_forall (PV PN : CausalCluster → Prop) (h : AbsDAQHit)
    (htake : ∀ n c, PN n → PV c → PN (n.takeConcludedHits c))
    (hpromote : ∀ n, PN n → PV n) :
    ∀ (ns cl : List CausalCluster), (∀ n ∈ ns, PN n) → (∀ c ∈ cl, PV c) →
      ∀ c ∈ reconcile h ns cl, PV c := by
  intro ns
  induction ns with
  | nil => intro cl _ hcl; simpa [reconcile] using hcl
  | cons n rest ih =>
    intro cl hns hcl
    unfold reconcile
    have hr := trig_reconcileOne_forall PV PN h htake cl n (hns n (List.mem_cons_self _ _)) hcl
    apply ih
    · intro n2 hn2; exact hns n2 (List.mem_cons_of_mem _ hn2)
    · intro c hc
      by_cases hadd : (reconcileOne h n cl).2.2 = true
      · simp only [hadd, if_true] at hc
        rcases List.mem_append.1 hc with h1 | h1
        · exact hr.2 c h1
        · simp only [List.mem_singleton] at h1; subst h1; exact hpromote _ hr.1
      · simp only [hadd] at hc
        exact hr.2 c hc

theorem trig_AddHit_clusters_forall (PV PN : CausalCluster → Prop)
    (p : HiveTrigger_ParameterSet) (s : HiveTrigger) (h : AbsDAQHit)
    (hstep : ∀ c ∈ s.clusters_, ∀ nc, (∀ n ∈ nc, PN n) →
        PV (AddHitToCluster p (c.advanceInTime p h.time) h nc).1 ∧
        ∀ n ∈ (AddHitToCluster p (c.advanceInTime p h.time) h nc).2.1, PN n)
    (htake : ∀ n c, PN n → PV c → PN (n.takeConcludedHits c))
    (hpromote : ∀ n, PN n → PV n)
    (hsingle : PV (CausalCluster.new.insertActiveHit p h)) :
    ∀ c ∈ (s.AddHit p h).clusters_, PV c := by
  have hl := trig_addHitLoop_forall PV PN p h s.clusters_
    { visited := [], newClusters := [], partialSubEvents := s.partialSubEvents_,
      subEvents := s.subEvents_, addedToCluster := false } hstep (by simp) (by simp)
  have hr := trig_reconcile_forall PV PN h htake hpromote _ _ hl.2 hl.1
  intro c hc
  unfold HiveTrigger.AddHit at hc
  simp only at hc
  split at hc
  · rcases List.mem_append.1 hc with h1 | h1
    · exact hr c h1
    · simp only [List.mem_singleton] at h1; subst h1; exact hsingle
  · exact hr c hc

theorem trig_advanceTimeLoop_forall (PV : CausalCluster → Prop) (p : HiveTrigger_ParameterSet)
    (ticks : DAQTicks) :
    ∀ (todo : List CausalCluster) (st : ClusterLoop),
      (∀ c ∈ todo, PV (c.advanceInTime p ticks)) → (∀ c ∈ st.visited, PV c) →
      ∀ c ∈ (advanceTimeLoop p ticks todo st).visited, PV c := by
  intro todo
  induction todo with
  | nil => intro st _ hv; exact hv
  | cons c rest ih =>
    intro st hstep hv
    have hrest : ∀ c2 ∈ rest, PV (c2.advanceInTime p ticks) :=
      fun c2 hc2 => hstep c2 (List.mem_cons_of_mem _ hc2)
    unfold advanceTimeLoop
    simp only
    split
    · apply ih _ hrest
      intro c2 hc2
      rcases List.mem_append.1 hc2 with h1 | h1
      · exact hv c2 h1
      · simp only [List.mem_singleton] at h1; subst h1
        exact hstep c (List.mem_cons_self _ _)
    · split
      · exact ih _ hrest hv
      · exact ih _ hrest hv

end hivetrigger

/-! ## HiveTrigger: the time order of the hits held by the clusters -/

namespace hivetrigger
open detail

/-- The loop of the trigger's `advanceInTime`: an expired prefix of the active set is
removed; the concluded set only receives hits of that prefix. -/
theorem trig_advanceLoop_split (p : HiveTrigger_ParameterSet) (ticks : DAQTicks) (est : Bool) :
    ∀ (active : AbsDAQHitSet) (doms : DomMap Nat) (fht : DomMap DAQTicks)
      (concluded : AbsDAQHitSet),
      ∃ pre suf, active = pre ++ suf ∧
        (advanceLoop p ticks est active doms fht concluded).1 = suf ∧
        (∀ x ∈ pre, ticks > x.time + windowTicks p) ∧
        (∀ y, suf.head? = some y → ¬ ticks > y.time + windowTicks p) ∧
        (∀ x ∈ (advanceLoop p ticks est active doms fht concluded).2.2.2,
          x ∈ concluded ∨ x ∈ pre) ∧
        (concluded.Pairwise (fun a b => a.lt b = true) →
          (advanceLoop p ticks est active doms fht concluded).2.2.2.Pairwise
            (fun a b => a.lt b = true)) := by
  intro active
  induction active with
  | nil =>
    intro doms fht concluded
    exact ⟨[], [], rfl, rfl, by simp, by simp, by simp [advanceLoop], by simp [advanceLoop]⟩
  | cons h rest ih =>
    intro doms fht concluded
    unfold advanceLoop
    by_cases hg : ticks > h.time + NsToTicks p (some p.multiplicityTimeWindow)
    · rw [if_pos hg]
      cases est with
      | true =>
        simp only [if_true]
        obtain ⟨pre, suf, e1, e2, e3, e4, e5, e6⟩ :=
          ih (hivesplitter.detail.decrDom doms h.dom) fht (AbsHitSet.insert h concluded)
        refine ⟨h :: pre, suf, by rw [e1]; rfl, e2, ?_, e4, ?_, ?_⟩
        · intro x hx
          rcases List.mem_cons.1 hx with e | hx2
          · rw [e]; exact hg
          · exact e3 x hx2
        · intro x hx
          rcases e5 x hx with h1 | h1
          · rcases AbsHitSet_mem_insert.1 h1 with e | h2
            · exact Or.inr (e ▸ List.mem_cons_self _ _)
            · exact Or.inl h2
          · exact Or.inr (List.mem_cons_of_mem _ h1)
        · intro hs; exact e6 (AbsHitSet_insert_sorted hs)
      | false =>
        simp only [Bool.false_eq_true, if_false]
        obtain ⟨pre, suf, e1, e2, e3, e4, e5, e6⟩ :=
          ih (hivesplitter.detail.decrDom doms h.dom)
            (if (!DomMap.has (hivesplitter.detail.decrDom doms h.dom) h.dom) = true
              then DomMap.erase fht h.dom
              else hivesplitter.detail.resyncFirstHit h (h :: rest) fht) concluded
        refine ⟨h :: pre, suf, by rw [e1]; rfl, e2, ?_, e4, ?_, e6⟩
        · intro x hx
          rcases List.mem_cons.1 hx with e | hx2
          · rw [e]; exact hg
          · exact e3 x hx2
        · intro x hx
          rcases e5 x hx with h1 | h1
          · exact Or.inl h1
          · exact Or.inr (List.mem_cons_of_mem _ h1)
    · rw [if_neg hg]
      refine ⟨[], h :: rest, rfl, rfl, by simp, ?_, fun x hx => Or.inl hx, fun hs => hs⟩
      intro y hy
      simp only [List.head?_cons, Option.some.injEq] at hy
      rw [← hy]
      exact hg

theorem trig_insertActiveHit_active (p : HiveTrigger_ParameterSet) (c : CausalCluster)
    (h : AbsDAQHit) :
    (c.insertActiveHit p h).active_hits = AbsHitSet.insert h c.active_hits := rfl

theorem Held_mono {C A C2 A2 : AbsDAQHit → Prop} {c : CausalCluster}
    (hC : ∀ x, C x → C2 x) (hA : ∀ y, A y → A2 y) (hc : Held C A c) : Held C2 A2 c :=
  ⟨fun x hx => hC x (hc.1 x hx), fun y hy => hA y (hc.2.1 y hy), hc.2.2.1, hc.2.2.2⟩

theorem Held_advance {C A : AbsDAQHit → Prop} (p : HiveTrigger_ParameterSet)
    {c : CausalCluster} (hc : Held C A c) (t : DAQTicks) :
    Held (fun x => C x ∨ (A x ∧ t > x.time + windowTicks p))
      (fun y => A y ∧ ¬ t > y.time + windowTicks p) (c.advanceInTime p t) := by
  obtain ⟨h1, h2, h3, h4⟩ := hc
  obtain ⟨pre, suf, e1, e2, e3, e4, e5, e6⟩ :=
    trig_advanceLoop_split p t c.established c.active_hits c.active_doms c.firstHitTimes
      c.concluded_hits
  have hsufs : suf.Pairwise (fun a b => a.lt b = true) := by
    rw [e1] at h4; exact (List.pairwise_append.1 h4).2.1
  unfold CausalCluster.advanceInTime
  refine ⟨?_, ?_, e6 h3, ?_⟩
  · intro x hx
    rcases e5 x hx with h5 | h5
    · exact Or.inl (h1 x h5)
    · exact Or.inr ⟨h2 x (by rw [e1]; exact List.mem_append_left _ h5), e3 x h5⟩
  · intro y hy
    simp only [e2] at hy
    refine ⟨h2 y (by rw [e1]; exact List.mem_append_right _ hy), ?_⟩
    cases suf with
    | nil => simp at hy
    | cons y0 ys =>
      have h0 := e4 y0 rfl
      rcases List.mem_cons.1 hy with e | hy2
      · rw [e]; exact h0
      · have := AbsHit_time_le_of_lt ((List.pairwise_cons.1 hsufs).1 y hy2)
        exact fun hcon => h0 (lt_of_le_of_lt (add_le_add_right this _) hcon)
  · simp only [e2]; exact hsufs

theorem Held_insert {C A : AbsDAQHit → Prop} (p : HiveTrigger_ParameterSet)
    {c : CausalCluster} (hc : Held C A c) {h : AbsDAQHit} (hA : A h) :
    Held C A (c.insertActiveHit p h) := by
  refine ⟨hc.1, ?_, hc.2.2.1, ?_⟩
  · intro y hy
    rw [trig_insertActiveHit_active, AbsHitSet_mem_insert] at hy
    rcases hy with e | hy
    · exact e ▸ hA
    · exact hc.2.1 y hy
  · rw [trig_insertActiveHit_active]; exact AbsHitSet_insert_sorted hc.2.2.2

theorem Held_takeConcludedHits {C A : AbsDAQHit → Prop} {c other : CausalCluster}
    (hc : Held C A c) (ho : Held C A other) : Held C A (c.takeConcludedHits other) := by
  refine ⟨?_, hc.2.1, AbsHitSet_insertAll_sorted hc.2.2.1, hc.2.2.2⟩
  intro x hx
  rcases AbsHitSet_mem_insertAll.1 hx with h1 | h1
  · exact hc.1 x h1
  · exact ho.1 x h1

theorem Held_foldl_insert {C A : AbsDAQHit → Prop} (p : HiveTrigger_ParameterSet) :
    ∀ (l : List AbsDAQHit) (c : CausalCluster), Held C A c → (∀ x ∈ l, A x) →
      Held C A (l.foldl (fun c x => c.insertActiveHit p x) c) := by
  intro l
  induction l with
  | nil => intro c hc _; exact hc
  | cons y ys ih =>
    intro c hc hl
    rw [List.foldl_cons]
    exact ih _ (Held_insert p hc (hl y (List.mem_cons_self _ _)))
      (fun x hx => hl x (List.mem_cons_of_mem _ hx))

theorem Held_new (C A : AbsDAQHit → Prop) : Held C A CausalCluster.new :=
  ⟨by intro x hx; simp [CausalCluster.new] at hx, by intro x hx; simp [CausalCluster.new] at hx,
    List.Pairwise.nil, List.Pairwise.nil⟩

theorem Held_makeSubCluster {C A : AbsDAQHit → Prop} (p : HiveTrigger_ParameterSet)
    (hits : AbsDAQHitSet) (h : AbsDAQHit) (hh : ∀ x ∈ hits, A x) (hA : A h) :
    Held C A (makeSubCluster p hits h) :=
  Held_insert p (Held_foldl_insert p hits _ (Held_new C A) hh) hA

theorem trig_AddHit_held (C A : AbsDAQHit → Prop) (p : HiveTrigger_ParameterSet)
    (s : HiveTrigger) (h : AbsDAQHit) (hs : ∀ c ∈ s.clusters_, Held C A c) :
    ∀ c ∈ (s.AddHit p h).clusters_,
      Held (fun x => C x ∨ (A x ∧ h.time > x.time + windowTicks p))
        (fun y => (A y ∧ ¬ h.time > y.time + windowTicks p) ∨ y = h) c := by
  apply trig_AddHit_clusters_forall
    (Held (fun x => C x ∨ (A x ∧ h.time > x.time + windowTicks p))
        (fun y => (A y ∧ ¬ h.time > y.time + windowTicks p) ∨ y = h))
    (Held (fun x => C x ∨ (A x ∧ h.time > x.time + windowTicks p))
        (fun y => (A y ∧ ¬ h.time > y.time + windowTicks p) ∨ y = h))
  · intro c hc nc hnc
    have hadv := Held_mono (fun x hx => hx)
      (fun y (hy : A y ∧ ¬ h.time > y.time + windowTicks p) =>
        (Or.inl hy : (A y ∧ ¬ h.time > y.time + windowTicks p) ∨ y = h))
      (Held_advance p (hs c hc) h.time)
    refine trig_AddHitToCluster_forall _ _ p _ h nc hadv (Held_insert p hadv (Or.inr rfl)) ?_ hnc
    intro hits hmem
    exact Held_makeSubCluster p hits h (fun x hx => hadv.2.1 x (hmem x hx)) (Or.inr rfl)
  · intro n c hn hc
    exact Held_takeConcludedHits hn hc
  · intro n hn; exact hn
  · exact Held_insert p (Held_new _ _) (Or.inr rfl)

theorem trig_AdvanceTime_held (C A : AbsDAQHit → Prop) (p : HiveTrigger_ParameterSet)
    (s : HiveTrigger) (t : DAQTicks) (hs : ∀ c ∈ s.clusters_, Held C A c) :
    ∀ c ∈ (s.AdvanceTime p t).clusters_,
      Held (fun x => C x ∨ (A x ∧ t > x.time + windowTicks p))
        (fun y => A y ∧ ¬ t > y.time + windowTicks p) c := by
  intro c hc
  unfold HiveTrigger.AdvanceTime at hc
  exact trig_advanceTimeLoop_forall _ p t s.clusters_ _
    (fun c2 hc2 => Held_advance p (hs c2 hc2) t) (by simp) c hc

end hivetrigger

namespace hivetrigger
open detail

theorem Ordered_held {s : HiveTrigger} {T : DAQTicks} (ho : Ordered s T) :
    ∀ c ∈ s.clusters_, Held (fun x => ∃ c0 ∈ s.clusters_, x ∈ c0.concluded_hits)
      (fun y => ∃ c0 ∈ s.clusters_, y ∈ c0.active_hits) c :=
  fun c hc => ⟨fun _ hx => ⟨c, hc, hx⟩, fun _ hy => ⟨c, hc, hy⟩, (ho.sorted c hc).1,
    (ho.sorted c hc).2⟩

theorem Ordered_AddHit (p : HiveTrigger_ParameterSet) {s : HiveTrigger} {T : DAQTicks}
    (ho : Ordered s T) (h : AbsDAQHit) (hT : T ≤ h.time) : Ordered (s.AddHit p h) h.time := by
  have hh := trig_AddHit_held _ _ p s h (Ordered_held ho)
  have hb1 : ∀ x, (∃ c0 ∈ s.clusters_, x ∈ c0.concluded_hits) → x.time ≤ T := by
    rintro x ⟨c0, hc0, hx⟩
    exact ho.bound c0 hc0 x (List.mem_append_left _ hx)
  have hb2 : ∀ x, (∃ c0 ∈ s.clusters_, x ∈ c0.active_hits) → x.time ≤ T := by
    rintro x ⟨c0, hc0, hx⟩
    exact ho.bound c0 hc0 x (List.mem_append_right _ hx)
  refine ⟨fun c hc => ⟨(hh c hc).2.2.1, (hh c hc).2.2.2⟩, ?_, ?_⟩
  · intro c hc x hx
    rcases List.mem_append.1 hx with h1 | h1
    · rcases (hh c hc).1 x h1 with h2 | h2
      · exact le_trans (hb1 x h2) hT
      · exact le_trans (hb2 x h2.1) hT
    · rcases (hh c hc).2.1 x h1 with h2 | h2
      · exact le_trans (hb2 x h2.1) hT
      · rw [h2]
  · intro c hc c3 hc3 x hx y hy
    rcases (hh c3 hc3).2.1 y hy with hy2 | hy2
    · rcases (hh c hc).1 x hx with hx2 | hx2
      · obtain ⟨c0, hc0, hx0⟩ := hx2
        obtain ⟨c1, hc1, hy1⟩ := hy2.1
        exact ho.before c0 hc0 c1 hc1 x hx0 y hy1
      · have h1 := hx2.2
        have h2 := hy2.2
        have : x.time + windowTicks p < y.time + windowTicks p :=
          lt_of_lt_of_le h1 (not_lt.1 h2)
        exact le_of_lt (lt_of_add_lt_add_right this)
    · rw [hy2]
      rcases (hh c hc).1 x hx with hx2 | hx2
      · exact le_trans (hb1 x hx2) hT
      · exact le_trans (hb2 x hx2.1) hT

theorem Ordered_AdvanceTime (p : HiveTrigger_ParameterSet) {s : HiveTrigger} {T : DAQTicks}
    (ho : Ordered s T) (t : DAQTicks) : Ordered (s.AdvanceTime p t) T := by
  have hh := trig_AdvanceTime_held _ _ p s t (Ordered_held ho)
  have hb1 : ∀ x, (∃ c0 ∈ s.clusters_, x ∈ c0.concluded_hits) → x.time ≤ T := by
    rintro x ⟨c0, hc0, hx⟩
    exact ho.bound c0 hc0 x (List.mem_append_left _ hx)
  have hb2 : ∀ x, (∃ c0 ∈ s.clusters_, x ∈ c0.active_hits) → x.time ≤ T := by
    rintro x ⟨c0, hc0, hx⟩
    exact ho.bound c0 hc0 x (List.mem_append_right _ hx)
  refine ⟨fun c hc => ⟨(hh c hc).2.2.1, (hh c hc).2.2.2⟩, ?_, ?_⟩
  · intro c hc x hx
    rcases List.mem_append.1 hx with h1 | h1
    · rcases (hh c hc).1 x h1 with h2 | h2
      · exact hb1 x h2
      · exact hb2 x h2.1
    · exact hb2 x ((hh c hc).2.1 x h1).1
  · intro c hc c3 hc3 x hx y hy
    have hy2 := (hh c3 hc3).2.1 y hy
    rcases (hh c hc).1 x hx with hx2 | hx2
    · obtain ⟨c0, hc0, hx0⟩ := hx2
      obtain ⟨c1, hc1, hy1⟩ := hy2.1
      exact ho.before c0 hc0 c1 hc1 x hx0 y hy1
    · have h1 := hx2.2
      have h2 := hy2.2
      have : x.time + windowTicks p < y.time + windowTicks p :=
        lt_of_lt_of_le h1 (not_lt.1 h2)
      exact le_of_lt (lt_of_add_lt_add_right this)

theorem Reachable_ordered (p : HiveTrigger_ParameterSet) {s : HiveTrigger} {T : DAQTicks}
    (hr : Reachable p s T) : Ordered s T := by
  induction hr with
  | fresh T =>
    exact ⟨by intro c hc; simp [HiveTrigger.fresh] at hc,
      by intro c hc; simp [HiveTrigger.fresh] at hc,
      by intro c hc; simp [HiveTrigger.fresh] at hc⟩
  | addHit h _ hT ih => exact Ordered_AddHit p ih h hT
  | advanceTime t _ ih => exact Ordered_AdvanceTime p ih t

/-- In an ordered state the earliest time of a cluster is not later than any of its hits. -/
theorem Ordered_earliest {s : HiveTrigger} {T : DAQTicks} (ho : Ordered s T) :
    ∀ c ∈ s.clusters_, ∀ x ∈ c.concluded_hits ++ c.active_hits,
      c.getEarliestTime ≤ x.time := by
  intro c hc x hx
  have hs := ho.sorted c hc
  unfold CausalCluster.getEarliestTime
  cases hcon : c.concluded_hits with
  | cons x0 xs =>
    simp only
    rw [hcon] at hs
    rcases List.mem_append.1 hx with h1 | h1
    · rw [hcon] at h1
      rcases List.mem_cons.1 h1 with e | h2
      · rw [e]
      · exact AbsHit_time_le_of_lt ((List.pairwise_cons.1 hs.1).1 x h2)
    · exact ho.before c hc c hc x0 (by rw [hcon]; exact List.mem_cons_self _ _) x h1
  | nil =>
    simp only
    rw [hcon] at hx
    simp only [List.nil_append] at hx
    cases hact : c.active_hits with
    | nil => rw [hact] at hx; simp at hx
    | cons y0 ys =>
      simp only
      rw [hact] at hx hs
      rcases List.mem_cons.1 hx with e | h2
      · rw [e]
      · exact AbsHit_time_le_of_lt ((List.pairwise_cons.1 hs.2).1 x h2)

/-- The earliest time of a cluster is the tick of one of its hits, or the maximal tick. -/
theorem getEarliestTime_cases (c : CausalCluster) :
    c.getEarliestTime = DAQTicks.max ∨
    ∃ x ∈ c.concluded_hits ++ c.active_hits, c.getEarliestTime = x.time := by
  unfold CausalCluster.getEarliestTime
  cases hcon : c.concluded_hits with
  | cons x0 xs => exact Or.inr ⟨x0, by simp, rfl⟩
  | nil =>
    cases hact : c.active_hits with
    | nil => exact Or.inl rfl
    | cons y0 ys => exact Or.inr ⟨y0, by simp, rfl⟩

theorem foldl_min_le_init (l : List CausalCluster) :
    ∀ init : DAQTicks, l.foldl (fun fa c => min fa c.getEarliestTime) init ≤ init := by
  induction l with
  | nil => intro init; exact le_refl _
  | cons c cs ih => intro init; exact le_trans (ih _) (min_le_left _ _)

theorem foldl_min_le_mem (l : List CausalCluster) :
    ∀ (init : DAQTicks), ∀ c ∈ l,
      l.foldl (fun fa c => min fa c.getEarliestTime) init ≤ c.getEarliestTime := by
  induction l with
  | nil => intro init c hc; simp at hc
  | cons c0 cs ih =>
    intro init c hc
    rw [List.foldl_cons]
    rcases List.mem_cons.1 hc with e | h2
    · rw [e]; exact le_trans (foldl_min_le_init cs _) (min_le_right _ _)
    · exact ih _ c h2

theorem le_foldl_min (b : DAQTicks) (l : List CausalCluster) :
    ∀ (init : DAQTicks), b ≤ init → (∀ c ∈ l, b ≤ c.getEarliestTime) →
      b ≤ l.foldl (fun fa c => min fa c.getEarliestTime) init := by
  induction l with
  | nil => intro init h1 _; exact h1
  | cons c0 cs ih =>
    intro init h1 h2
    rw [List.foldl_cons]
    exact ih _ (le_min h1 (h2 c0 (List.mem_cons_self _ _)))
      (fun c hc => h2 c (List.mem_cons_of_mem _ hc))

theorem le_foldl_max_last (l : List AbsDAQHitSet) :
    ∀ init : DAQTicks, init ≤ l.foldl (fun fb sub => max fb (lastTickOr fb sub)) init := by
  induction l with
  | nil => intro init; exact le_refl _
  | cons e es ih => intro init; exact le_trans (le_max_left _ _) (ih _)

end hivetrigger

/-! ## HiveTrigger: the watermark without partial subevents -/

namespace hivetrigger
open detail

theorem AddSubEvent_subEvents_prefix (p : HiveTrigger_ParameterSet)
    (clusters : List CausalCluster) (newSet : AbsDAQHitSet) (pa : List AbsDAQHitSet)
    (su : AbsDAQHitSetSequence) :
    ∃ ext, (AddSubEvent p clusters newSet pa su).2 = su ++ ext := by
  unfold AddSubEvent
  simp only
  split
  · exact ⟨_, rfl⟩
  · exact ⟨[], by simp⟩

theorem addHitLoop_subEvents_prefix (p : HiveTrigger_ParameterSet) (h : AbsDAQHit) :
    ∀ (todo : List CausalCluster) (st : ClusterLoop),
      ∃ ext, (addHitLoop p h todo st).subEvents = st.subEvents ++ ext := by
  intro todo
  induction todo with
  | nil => intro st; exact ⟨[], by simp [addHitLoop]⟩
  | cons c rest ih =>
    intro st
    unfold addHitLoop
    simp only
    split
    · exact ih _
    · split
      · obtain ⟨e1, h1⟩ := AddSubEvent_subEvents_prefix p (st.visited ++ rest)
          (c.advanceInTime p h.time).concluded_hits st.partialSubEvents st.subEvents
        obtain ⟨e2, h2⟩ := ih { st with
          partialSubEvents := (AddSubEvent p (st.visited ++ rest)
            (c.advanceInTime p h.time).concluded_hits st.partialSubEvents st.subEvents).1,
          subEvents := (AddSubEvent p (st.visited ++ rest)
            (c.advanceInTime p h.time).concluded_hits st.partialSubEvents st.subEvents).2 }
        refine ⟨e1 ++ e2, ?_⟩
        rw [h2]
        simp only
        rw [h1, List.append_assoc]
      · exact ih _

theorem advanceTimeLoop_subEvents_prefix (p : HiveTrigger_ParameterSet) (t : DAQTicks) :
    ∀ (todo : List CausalCluster) (st : ClusterLoop),
      ∃ ext, (advanceTimeLoop p t todo st).subEvents = st.subEvents ++ ext := by
  intro todo
  induction todo with
  | nil => intro st; exact ⟨[], by simp [advanceTimeLoop]⟩
  | cons c rest ih =>
    intro st
    unfold advanceTimeLoop
    simp only
    split
    · exact ih _
    · split
      · obtain ⟨e1, h1⟩ := AddSubEvent_subEvents_prefix p (st.visited ++ rest)
          (c.advanceInTime p t).concluded_hits st.partialSubEvents st.subEvents
        obtain ⟨e2, h2⟩ := ih { st with
          partialSubEvents := (AddSubEvent p (st.visited ++ rest)
            (c.advanceInTime p t).concluded_hits st.partialSubEvents st.subEvents).1,
          subEvents := (AddSubEvent p (st.visited ++ rest)
            (c.advanceInTime p t).concluded_hits st.partialSubEvents st.subEvents).2 }
        refine ⟨e1 ++ e2, ?_⟩
        rw [h2]
        simp only
        rw [h1, List.append_assoc]
      · exact ih _

theorem minusOneTick_mono (a b : Int) (h : a ≤ b) :
    (if a > 1 then a - 1 else 0) ≤ (if b > 1 then b - 1 else 0) := by
  split <;> split <;> omega

/-- The value of `FinalizedUntil` when no partial subevent is held. -/
theorem FinalizedUntil_when_settled (s : HiveTrigger) (hp : s.partialSubEvents_ = []) :
    s.FinalizedUntil =
      if max (s.subEvents_.foldl (fun fb sub => max fb (lastTickOr fb sub)) DAQTicks.min)
          (s.clusters_.foldl (fun fa c => min fa c.getEarliestTime) DAQTicks.max) > 1
      then max (s.subEvents_.foldl (fun fb sub => max fb (lastTickOr fb sub)) DAQTicks.min)
          (s.clusters_.foldl (fun fa c => min fa c.getEarliestTime) DAQTicks.max) - 1
      else 0 := by
  unfold HiveTrigger.FinalizedUntil
  rw [hp]
  rfl

/-- Without partial subevents, `FinalizedUntil` does not decrease from one state to another
whose completed subevents extend those of the first and each of whose clusters is not
earlier than all clusters of the first. -/
theorem FinalizedUntil_mono (s s2 : HiveTrigger) (hp : s.partialSubEvents_ = [])
    (hp2 : s2.partialSubEvents_ = []) (hsub : ∃ ext, s2.subEvents_ = s.subEvents_ ++ ext)
    (hcl : ∀ c ∈ s2.clusters_,
      s.clusters_.foldl (fun fa c => min fa c.getEarliestTime) DAQTicks.max
        ≤ c.getEarliestTime) :
    s.FinalizedUntil ≤ s2.FinalizedUntil := by
  rw [FinalizedUntil_when_settled s hp, FinalizedUntil_when_settled s2 hp2]
  obtain ⟨ext, he⟩ := hsub
  have h1 : s.subEvents_.foldl (fun fb sub => max fb (lastTickOr fb sub)) DAQTicks.min
      ≤ s2.subEvents_.foldl (fun fb sub => max fb (lastTickOr fb sub)) DAQTicks.min := by
    rw [he, List.foldl_append]
    exact le_foldl_max_last ext _
  have h2 : s.clusters_.foldl (fun fa c => min fa c.getEarliestTime) DAQTicks.max
      ≤ s2.clusters_.foldl (fun fa c => min fa c.getEarliestTime) DAQTicks.max :=
    le_foldl_min _ _ _ (foldl_min_le_init _ _) hcl
  have h3 := max_le_max h1 h2
  generalize max (s.subEvents_.foldl (fun fb sub => max fb (lastTickOr fb sub)) DAQTicks.min)
      (s.clusters_.foldl (fun fa c => min fa c.getEarliestTime) DAQTicks.max) = a at h3 ⊢
  generalize max (s2.subEvents_.foldl (fun fb sub => max fb (lastTickOr fb sub)) DAQTicks.min)
      (s2.clusters_.foldl (fun fa c => min fa c.getEarliestTime) DAQTicks.max) = b at h3 ⊢
  exact minusOneTick_mono a b h3

end hivetrigger

/-! ## HiveCleaning with an oracle that connects everything -/

namespace HiveCleaning

theorem futureLoop_all (p : HiveCleaning_ParameterSet)
    (hl : p.max_tresidual_late = hivesplitter.Time.pinf)
    (hall : ∀ a b, p.Connected a b = true) (hit : AbsHit) (l : List AbsHit) (n : Nat) :
    futureLoop p hit l n = n + l.length := by
  induction l generalizing n with
  | nil => rfl
  | cons x xs ih =>
    simp only [futureLoop, hl, hivesplitter.Time.finLe, hall, if_true, List.length_cons]
    rw [ih]
    omega

theorem cleanLoop_all (p : HiveCleaning_ParameterSet) (hm : p.multiplicity = 1)
    (hl : p.max_tresidual_late = hivesplitter.Time.pinf)
    (hall : ∀ a b, p.Connected a b = true) (todo : List AbsHit) :
    ∀ (past : List AbsHit) (outhits : AbsHitSet),
      (outhits ++ todo).Pairwise (fun a b => a.lt b = true) →
        cleanLoop p past todo outhits = outhits ++ todo := by
  induction todo with
  | nil => intro past outhits _; simp [cleanLoop]
  | cons hit rest ih =>
    intro past outhits hs
    have hins : AbsHitSet.insert hit outhits = outhits ++ [hit] := by
      apply hivesplitter.AbsHitSet_insert_append
      intro x hx
      exact (List.pairwise_append.mp hs).2.2 x hx hit (List.mem_cons_self _ _)
    have hn : futureLoop p hit (hit :: rest) (pastLoop p hit past 0) ≥ p.multiplicity := by
      rw [futureLoop_all p hl hall, hm, List.length_cons]
      omega
    simp only [cleanLoop]
    rw [if_pos hn, hins, ih (hit :: past) (outhits ++ [hit]) (by simpa using hs)]
    simp

end HiveCleaning

/-! ## The overlap test and the union of two hit sets do not depend on the order -/

namespace HitSorting

theorem sorted_ext {l1 l2 : AbsHitSet} (h1 : l1.Pairwise (fun a b => a.lt b = true))
    (h2 : l2.Pairwise (fun a b => a.lt b = true)) (hm : ∀ x, x ∈ l1 ↔ x ∈ l2) : l1 = l2 := by
  induction l1 generalizing l2 with
  | nil =>
    cases l2 with
    | nil => rfl
    | cons y ys => exact absurd ((hm y).mpr (List.mem_cons_self _ _)) (List.not_mem_nil _)
  | cons x xs ih =>
    cases l2 with
    | nil => exact absurd ((hm x).mp (List.mem_cons_self _ _)) (List.not_mem_nil _)
    | cons y ys =>
      rw [List.pairwise_cons] at h1 h2
      have hxy : x = y := by
        have hx := (hm x).mp (List.mem_cons_self _ _)
        have hy := (hm y).mpr (List.mem_cons_self _ _)
        rw [List.mem_cons] at hx hy
        rcases hx with hx | hx
        · exact hx
        · rcases hy with hy | hy
          · exact hy.symm
          · have a1 := h2.1 x hx
            have a2 := h1.1 y hy
            rw [AbsHit_lt_asymm a1] at a2
            exact absurd a2 (by simp)
      subst hxy
      congr 1
      apply ih h1.2 h2.2
      intro z
      constructor
      · intro hz
        have := (hm z).mp (List.mem_cons_of_mem _ hz)
        rw [List.mem_cons] at this
        rcases this with e | e
        · subst e
          have := h1.1 z hz
          rw [AbsHit_lt_irrefl] at this
          exact absurd this (by simp)
        · exact e
      · intro hz
        have := (hm z).mpr (List.mem_cons_of_mem _ hz)
        rw [List.mem_cons] at this
        rcases this with e | e
        · subst e
          have := h2.1 z hz
          rw [AbsHit_lt_irrefl] at this
          exact absurd this (by simp)
        · exact e

theorem AbsHitSet_insertAll_comm {a b : AbsHitSet}
    (ha : a.Pairwise (fun a b => a.lt b = true)) (hb : b.Pairwise (fun a b => a.lt b = true)) :
    AbsHitSet.insertAll a b = AbsHitSet.insertAll b a := by
  apply sorted_ext (AbsHitSet_insertAll_sorted ha) (AbsHitSet_insertAll_sorted hb)
  intro x
  rw [AbsHitSet_mem_insertAll, AbsHitSet_mem_insertAll]
  tauto

end HitSorting

namespace hivesplitter
open detail

theorem overlapsLoop_skip_right (m : Nat) (w : Int) (x y : AbsHit) (xs ys : AbsHitSet)
    (common : DomMap Int) (h : y.lt x = true) :
    overlapsLoop m w (x :: xs) (y :: ys) common = overlapsLoop m w (x :: xs) ys common := by
  simp only [overlapsLoop, skipLess, h, if_true]

theorem overlapsLoop_comm (m : Nat) (w : Int) (n : Nat) :
    ∀ (a b : AbsHitSet) (common : DomMap Int), a.length + b.length ≤ n →
      overlapsLoop m w a b common = overlapsLoop m w b a common := by
  induction n with
  | zero =>
    intro a b common hn
    have ha : a = [] := List.length_eq_zero.mp (by omega)
    have hb : b = [] := List.length_eq_zero.mp (by omega)
    subst ha; subst hb; rfl
  | succ n ih =>
    intro a b common hn
    cases a with
    | nil =>
      cases b with
      | nil => rfl
      | cons y ys => simp [overlapsLoop, skipLess]
    | cons x xs =>
      cases b with
      | nil => simp [overlapsLoop, skipLess]
      | cons y ys =>
        simp only [List.length_cons] at hn
        cases hxy : x.lt y with
        | true =>
          have hyx := AbsHit_lt_asymm hxy
          rw [overlapsLoop_skip_right m w y x ys xs common hxy,
            ← ih xs (y :: ys) common (by simp only [List.length_cons]; omega)]
          simp only [overlapsLoop, skipLess, hyx, hxy, if_true, Bool.false_eq_true, if_false]
        | false =>
          cases hyx : y.lt x with
          | true =>
            rw [overlapsLoop_skip_right m w x y xs ys common hyx,
              ih (x :: xs) ys common (by simp only [List.length_cons]; omega)]
            simp only [overlapsLoop, skipLess, hyx, hxy, if_true, Bool.false_eq_true, if_false]
          | false =>
            have e := AbsHit_eq_of_not_lt hxy hyx
            subst e
            simp only [overlapsLoop, skipLess, hxy, Bool.false_eq_true, if_false]
            rw [ih xs ys _ (by omega)]

theorem CausallyOverlaps_comm (a b : AbsHitSet) (m : Nat) (w : Int) :
    CausallyOverlaps a b m w = CausallyOverlaps b a m w :=
  overlapsLoop_comm m w _ a b [] (le_refl _)

theorem AddSubEventTwice_of_overlap (p : HiveSplitter_ParameterSet) (a b : AbsHitSet)
    (subEvents : AbsHitSetSequence)
    (h : CausallyOverlaps b a p.mergeOverlap p.multiplicityTimeWindow = true) :
    AddSubEventTwice p a b subEvents = ([AbsHitSet.insertAll b a], subEvents) := by
  simp [AddSubEventTwice, AddSubEvent, mergeLoop, earliestUpcomingTime, h]

end hivesplitter

/-! ## The age of the active hits -/

namespace hivesplitter
open detail

theorem advanceLoop_active_suffix (p : HiveSplitter_ParameterSet) (time : Time) (est : Bool) :
    ∀ (active : AbsHitSet) (doms : DomMap Nat) (fht : DomMap Int) (concluded : AbsHitSet),
      (advanceLoop p time est active doms fht concluded).1 <:+ active := by
  intro active
  induction active with
  | nil => intro doms fht concluded; simp [advanceLoop]
  | cons h rest ih =>
    intro doms fht concluded
    unfold advanceLoop
    by_cases hg : time.gtFin (h.time + p.multiplicityTimeWindow) = true
    · rw [if_pos hg]
      cases est with
      | true => exact List.IsSuffix.trans (by simpa using ih _ _ _) (List.suffix_cons _ _)
      | false => exact List.IsSuffix.trans (by simpa using ih _ _ _) (List.suffix_cons _ _)
    · rw [if_neg hg]

theorem advanceLoop_active_head (p : HiveSplitter_ParameterSet) (time : Time) (est : Bool) :
    ∀ (active : AbsHitSet) (doms : DomMap Nat) (fht : DomMap Int) (concluded : AbsHitSet),
      ∀ x ∈ (advanceLoop p time est active doms fht concluded).1.head?,
        time.gtFin (x.time + p.multiplicityTimeWindow) = false := by
  intro active
  induction active with
  | nil => intro doms fht concluded x hx; simp [advanceLoop] at hx
  | cons h rest ih =>
    intro doms fht concluded x hx
    unfold advanceLoop at hx
    by_cases hg : time.gtFin (h.time + p.multiplicityTimeWindow) = true
    · rw [if_pos hg] at hx
      cases est with
      | true => exact ih _ _ _ x (by simpa using hx)
      | false => exact ih _ _ _ x (by simpa using hx)
    · rw [if_neg hg] at hx
      simp only [List.head?_cons, Option.mem_def, Option.some.injEq] at hx
      subst hx
      simpa using hg

theorem ActiveWithin_advance (p : HiveSplitter_ParameterSet) (t : Int) (c : CausalCluster)
    (hs : c.active_hits.Pairwise (fun a b => a.lt b = true)) :
    ActiveWithin p t (c.advanceInTime p (.fin t)) := by
  have hsuf := advanceLoop_active_suffix p (.fin t) c.established c.active_hits c.active_doms
    c.firstHitTimes c.concluded_hits
  have hhead := advanceLoop_active_head p (.fin t) c.established c.active_hits c.active_doms
    c.firstHitTimes c.concluded_hits
  have hsorted := List.Pairwise.sublist hsuf.sublist hs
  refine ⟨hsorted, ?_⟩
  intro x hx
  change x ∈ (advanceLoop p (.fin t) c.established c.active_hits c.active_doms
    c.firstHitTimes c.concluded_hits).1 at hx
  revert hhead hsorted hx
  generalize (advanceLoop p (.fin t) c.established c.active_hits c.active_doms
    c.firstHitTimes c.concluded_hits).1 = l
  intro hhead hsorted hx
  cases l with
  | nil => simp at hx
  | cons y ys =>
    have hy := hhead y (by simp)
    simp only [Time.gtFin, decide_eq_false_iff_not, not_lt] at hy
    rw [List.pairwise_cons] at hsorted
    rw [List.mem_cons] at hx
    rcases hx with e | hx
    · subst e; simpa using hy
    · have := AbsHit_time_le_of_lt (hsorted.1 x hx)
      have hy2 : t ≤ y.time + p.multiplicityTimeWindow := by simpa using hy
      omega

theorem ActiveWithin_insert {p : HiveSplitter_ParameterSet} {t : Int} {c : CausalCluster}
    (hc : ActiveWithin p t c) {h : AbsHit} (hh : t ≤ h.time + p.multiplicityTimeWindow) :
    ActiveWithin p t (c.insertActiveHit p h) := by
  refine ⟨?_, ?_⟩
  · rw [insertActiveHit_active]; exact AbsHitSet_insert_sorted hc.1
  · intro x hx
    rw [insertActiveHit_active, AbsHitSet_mem_insert] at hx
    rcases hx with e | hx
    · rw [e]; exact hh
    · exact hc.2 x hx

theorem ActiveWithin_new (p : HiveSplitter_ParameterSet) (t : Int) :
    ActiveWithin p t CausalCluster.new :=
  ⟨List.Pairwise.nil, fun x hx => by simp [CausalCluster.new] at hx⟩

theorem foldl_insertActiveHit_activeWithin (p : HiveSplitter_ParameterSet) (t : Int) :
    ∀ (l : List AbsHit) (c : CausalCluster), ActiveWithin p t c →
      (∀ x ∈ l, t ≤ x.time + p.multiplicityTimeWindow) →
      ActiveWithin p t (l.foldl (fun c x => c.insertActiveHit p x) c) := by
  intro l
  induction l with
  | nil => intro c hc _; exact hc
  | cons y ys ih =>
    intro c hc hl
    rw [List.foldl_cons]
    exact ih _ (ActiveWithin_insert hc (hl y (List.mem_cons_self _ _)))
      (fun x hx => hl x (List.mem_cons_of_mem _ hx))

theorem AddHit_activeWithin (p : HiveSplitter_ParameterSet) (hw : 0 ≤ p.multiplicityTimeWindow)
    (s : HiveSplitter) (h : AbsHit)
    (hs : ∀ c ∈ s.clusters_, c.active_hits.Pairwise (fun a b => a.lt b = true)) :
    ∀ c ∈ (s.AddHit p h).clusters_, ActiveWithin p h.time c := by
  have hh : h.time ≤ h.time + p.multiplicityTimeWindow := by omega
  apply AddHit_clusters_forall (ActiveWithin p h.time) (ActiveWithin p h.time)
  · intro c hc nc _ hnc
    have hadv := ActiveWithin_advance p h.time c (hs c hc)
    refine AddHitToCluster_forall (ActiveWithin p h.time) (ActiveWithin p h.time) p _ h nc
      hadv (ActiveWithin_insert hadv hh) ?_ hnc
    intro hits _ _ hmem
    unfold makeSubCluster
    exact ActiveWithin_insert
      (foldl_insertActiveHit_activeWithin p h.time hits _ (ActiveWithin_new p h.time)
        (fun x hx => hadv.2 x (hmem x hx))) hh
  · intro n c hn _ _
    exact hn
  · intro n hn; exact hn
  · exact ActiveWithin_insert (ActiveWithin_new p h.time) hh

theorem foldl_AddHit_active_sorted (p : HiveSplitter_ParameterSet)
    (hw : 0 ≤ p.multiplicityTimeWindow) :
    ∀ (l : List AbsHit) (s : HiveSplitter),
      (∀ c ∈ s.clusters_, c.active_hits.Pairwise (fun a b => a.lt b = true)) →
      ∀ c ∈ (l.foldl (fun s h => s.AddHit p h) s).clusters_,
        c.active_hits.Pairwise (fun a b => a.lt b = true) := by
  intro l
  induction l with
  | nil => intro s hs; exact hs
  | cons h t ih =>
    intro s hs
    rw [List.foldl_cons]
    exact ih _ (fun c hc => (AddHit_activeWithin p hw s h hs c hc).1)

theorem new_done {p : HiveSplitter_ParameterSet} {connectorBlock : Bool} {engine : HiveSplitter}
    {msgs : List String}
    (h : HiveSplitter.new p connectorBlock = Construction.done engine msgs) :
    engine = HiveSplitter.cleared ∧ 0 < p.multiplicity ∧ 0 < p.multiplicityTimeWindow := by
  unfold HiveSplitter.new at h
  split_ifs at h with h1 h2 h3 h4 h5 <;>
  · simp only [Construction.done.injEq] at h
    exact ⟨h.1.symm, by omega, by omega⟩

end hivesplitter

/-! ## `HiveSplitter::FinalizeSubEvents` loses no hit of an established cluster -/

namespace hivesplitter
open detail

theorem mergeLoop_cover (p : HiveSplitter_ParameterSet) (x : AbsHit) :
    ∀ (l : List AbsHitSet) (newSet : AbsHitSet), (x ∈ newSet ∨ ∃ e ∈ l, x ∈ e) →
      x ∈ (mergeLoop p newSet l).1 ∨ ∃ e ∈ (mergeLoop p newSet l).2, x ∈ e := by
  intro l
  induction l with
  | nil =>
    intro newSet h
    rcases h with h | ⟨e, he, _⟩
    · exact Or.inl h
    · simp at he
  | cons s rest ih =>
    intro newSet h
    unfold mergeLoop
    split
    · apply ih
      rcases h with h | ⟨e, he, hx⟩
      · exact Or.inl (AbsHitSet_mem_insertAll.2 (Or.inl h))
      · rcases List.mem_cons.1 he with e1 | h1
        · subst e1; exact Or.inl (AbsHitSet_mem_insertAll.2 (Or.inr hx))
        · exact Or.inr ⟨e, h1, hx⟩
    · rcases h with h | ⟨e, he, hx⟩
      · rcases ih newSet (Or.inl h) with h2 | ⟨e2, he2, hx2⟩
        · exact Or.inl h2
        · exact Or.inr ⟨e2, List.mem_cons_of_mem _ he2, hx2⟩
      · rcases List.mem_cons.1 he with e1 | h1
        · subst e1; exact Or.inr ⟨e, List.mem_cons_self _ _, hx⟩
        · rcases ih newSet (Or.inr ⟨e, h1, hx⟩) with h2 | ⟨e2, he2, hx2⟩
          · exact Or.inl h2
          · exact Or.inr ⟨e2, List.mem_cons_of_mem _ he2, hx2⟩

theorem AddSubEvent_cover (p : HiveSplitter_ParameterSet) (clusters : List CausalCluster)
    (newSet : AbsHitSet) (pa : List AbsHitSet) (su : AbsHitSetSequence) (x : AbsHit)
    (h : x ∈ newSet ∨ (∃ e ∈ pa, x ∈ e) ∨ ∃ e ∈ su, x ∈ e) :
    (∃ e ∈ (AddSubEvent p clusters newSet pa su).1, x ∈ e) ∨
    ∃ e ∈ (AddSubEvent p clusters newSet pa su).2, x ∈ e := by
  have hpool : (∃ e ∈ (mergeLoop p newSet pa).2 ++ [(mergeLoop p newSet pa).1], x ∈ e) ∨
      ∃ e ∈ su, x ∈ e := by
    rcases h with h | h | h
    · rcases mergeLoop_cover p x pa newSet (Or.inl h) with h2 | ⟨e, he, hx⟩
      · exact Or.inl ⟨_, by simp, h2⟩
      · exact Or.inl ⟨e, List.mem_append_left _ he, hx⟩
    · rcases mergeLoop_cover p x pa newSet (Or.inr h) with h2 | ⟨e, he, hx⟩
      · exact Or.inl ⟨_, by simp, h2⟩
      · exact Or.inl ⟨e, List.mem_append_left _ he, hx⟩
    · exact Or.inr h
  unfold AddSubEvent
  simp only
  split
  · rcases hpool with ⟨e, he, hx⟩ | ⟨e, he, hx⟩
    · by_cases hb : endsBefore (earliestUpcomingTime clusters) e = true
      · exact Or.inr ⟨e, List.mem_append_right _ (List.mem_filter.2 ⟨he, hb⟩), hx⟩
      · exact Or.inl ⟨e, List.mem_filter.2 ⟨he, by simpa using hb⟩, hx⟩
    · exact Or.inr ⟨e, List.mem_append_left _ he, hx⟩
  · rcases hpool with h1 | h1
    · exact Or.inl h1
    · exact Or.inr h1

theorem advanceInTime_pinf_concluded (p : HiveSplitter_ParameterSet) (c : CausalCluster)
    (hc : c.established = true) (x : AbsHit) (hx : x ∈ c.active_hits ∨ x ∈ c.concluded_hits) :
    x ∈ (c.advanceInTime p .pinf).concluded_hits := by
  obtain ⟨i1, _, i3⟩ := advanceLoop_mem p .pinf c.established c.active_hits c.active_doms
    c.firstHitTimes c.concluded_hits
  have hempty := advanceLoop_pinf p c.established c.active_hits c.active_doms c.firstHitTimes
    c.concluded_hits
  rcases hx with hx | hx
  · rcases i3 hc x hx with h1 | h1
    · exact h1
    · rw [hempty] at h1; simp at h1
  · exact i1 x hx

theorem finalizeLoop_cover (p : HiveSplitter_ParameterSet) (x : AbsHit) :
    ∀ (cl : List CausalCluster) (pa : List AbsHitSet) (su : AbsHitSetSequence),
      ((∃ c ∈ cl, c.established = true ∧ (x ∈ c.active_hits ∨ x ∈ c.concluded_hits)) ∨
        (∃ e ∈ pa, x ∈ e) ∨ ∃ e ∈ su, x ∈ e) →
      (∃ e ∈ (finalizeLoop p cl pa su).1, x ∈ e) ∨ ∃ e ∈ (finalizeLoop p cl pa su).2, x ∈ e := by
  intro cl
  induction cl with
  | nil =>
    intro pa su h
    rcases h with ⟨c, hc, _⟩ | h | h
    · simp at hc
    · exact Or.inl h
    · exact Or.inr h
  | cons c rest ih =>
    intro pa su h
    unfold finalizeLoop
    simp only
    apply ih
    by_cases hest : (c.advanceInTime p .pinf).isEstablished = true
    · rw [if_pos hest]
      rcases h with ⟨c2, hc2, he2, hx2⟩ | h | h
      · rcases List.mem_cons.1 hc2 with e1 | h1
        · subst e1
          exact Or.inr (AddSubEvent_cover p _ _ pa su x
            (Or.inl (advanceInTime_pinf_concluded p c2 he2 x hx2)))
        · exact Or.inl ⟨c2, h1, he2, hx2⟩
      · exact Or.inr (AddSubEvent_cover p _ _ pa su x (Or.inr (Or.inl h)))
      · exact Or.inr (AddSubEvent_cover p _ _ pa su x (Or.inr (Or.inr h)))
    · rw [if_neg hest]
      rcases h with ⟨c2, hc2, he2, hx2⟩ | h | h
      · rcases List.mem_cons.1 hc2 with e1 | h1
        · subst e1
          exact absurd he2 hest
        · exact Or.inl ⟨c2, h1, he2, hx2⟩
      · exact Or.inr (Or.inl h)
      · exact Or.inr (Or.inr h)

/-- The method `HiveSplitter::FinalizeSubEvents` flushes everything: no live cluster and no
partial subevent remains; every hit of an established cluster, of a partial subevent and
of a completed subevent is in a completed subevent afterwards; and every hit of a
completed subevent afterwards was in a completed subevent, in a partial subevent or in an
established cluster before. -/
theorem FinalizeSubEvents_flushes (p : HiveSplitter_ParameterSet) (s : HiveSplitter) :
    (s.FinalizeSubEvents p).clusters_ = [] ∧ (s.FinalizeSubEvents p).partialSubEvents_ = [] ∧
    (∀ x, ((∃ c ∈ s.clusters_, c.established = true ∧
              (x ∈ c.active_hits ∨ x ∈ c.concluded_hits)) ∨
            (∃ e ∈ s.partialSubEvents_, x ∈ e) ∨ ∃ e ∈ s.subEvents_, x ∈ e) →
        ∃ e ∈ (s.FinalizeSubEvents p).subEvents_, x ∈ e) ∧
    (∀ e ∈ (s.FinalizeSubEvents p).subEvents_, ∀ x ∈ e,
        (∃ c ∈ s.clusters_, c.established = true ∧
          (x ∈ c.active_hits ∨ x ∈ c.concluded_hits)) ∨
        (∃ e0 ∈ s.partialSubEvents_, x ∈ e0) ∨ ∃ e0 ∈ s.subEvents_, x ∈ e0) := by
  refine ⟨rfl, rfl, ?_, ?_⟩
  · intro x hx
    rcases finalizeLoop_cover p x s.clusters_ s.partialSubEvents_ s.subEvents_ hx with
      ⟨e, he, h⟩ | ⟨e, he, h⟩
    · exact ⟨e, List.mem_append_right _ he, h⟩
    · exact ⟨e, List.mem_append_left _ he, h⟩
  · apply FinalizeSubEvents_forall
      (fun e => ∀ x ∈ e, (∃ c ∈ s.clusters_, c.established = true ∧
          (x ∈ c.active_hits ∨ x ∈ c.concluded_hits)) ∨
        (∃ e0 ∈ s.partialSubEvents_, x ∈ e0) ∨ ∃ e0 ∈ s.subEvents_, x ∈ e0) p s
    · intro a b ha hb x hx
      rcases AbsHitSet_mem_insertAll.1 hx with h1 | h1
      · exact ha x h1
      · exact hb x h1
    · intro c hc hest x hx
      obtain ⟨_, i2, _⟩ := advanceLoop_mem p .pinf c.established c.active_hits c.active_doms
        c.firstHitTimes c.concluded_hits
      refine Or.inl ⟨c, hc, hest, ?_⟩
      rcases i2 x hx with h1 | h1
      · exact Or.inr h1
      · exact Or.inl h1
    · intro e he x hx
      exact Or.inr (Or.inl ⟨e, he, hx⟩)
    · intro e he x hx
      exact Or.inr (Or.inr ⟨e, he, hx⟩)

end hivesplitter

/-! ## `HiveTrigger::FinalizeSubEvents` with an accept window that is not set -/

namespace hivetrigger
open detail

/-- With the accept window left at `NAN`, and the conversion of `NAN` to ticks delivering
the smallest tick, the established cluster of the hits (0,1000) and (3,1010) counts as
active after all its hits were concluded: `FinalizeSubEvents` keeps the cluster, and its
two hits reach no completed subevent. -/
theorem trig_FinalizeSubEvents_accept_unset :
    (((Scenario.feed Scenario.triggerAcceptUnset [⟨0, 1000⟩, ⟨3, 1010⟩]).FinalizeSubEvents
        Scenario.triggerAcceptUnset).clusters_.map
      (fun c => (c.established, c.active_hits, c.concluded_hits))) =
      [(true, [], [⟨0, 1000⟩, ⟨3, 1010⟩])] ∧
    ((Scenario.feed Scenario.triggerAcceptUnset [⟨0, 1000⟩, ⟨3, 1010⟩]).FinalizeSubEvents
        Scenario.triggerAcceptUnset).subEvents_ = [] := by
  decide

end hivetrigger

/-! ## `isSubsetOf` is the inclusion of the active sets -/

namespace hivesplitter
open detail

theorem skipLess_split (x : AbsHit) :
    ∀ l : AbsHitSet, ∃ d, l = d ++ skipLess x l ∧ (∀ y ∈ d, y.lt x = true) ∧
      ∀ z ∈ (skipLess x l).head?, z.lt x = false := by
  intro l
  induction l with
  | nil => exact ⟨[], rfl, by simp, by simp [skipLess]⟩
  | cons y ys ih =>
    unfold skipLess
    by_cases hy : y.lt x = true
    · rw [if_pos hy]
      obtain ⟨d, h1, h2, h3⟩ := ih
      refine ⟨y :: d, by rw [List.cons_append, ← h1], ?_, h3⟩
      intro z hz
      rcases List.mem_cons.1 hz with e | hz
      · rw [e]; exact hy
      · exact h2 z hz
    · rw [if_neg hy]
      refine ⟨[], rfl, by simp, ?_⟩
      intro z hz
      simp only [List.head?_cons, Option.mem_def, Option.some.injEq] at hz
      subst hz
      simpa using hy

theorem isSubsetLoop_iff :
    ∀ (xs ys : AbsHitSet), xs.Pairwise (fun a b => a.lt b = true) →
      ys.Pairwise (fun a b => a.lt b = true) →
      (isSubsetLoop xs ys = true ↔ ∀ x ∈ xs, x ∈ ys) := by
  intro xs
  induction xs with
  | nil => intro ys _ _; simp [isSubsetLoop]
  | cons x xs ih =>
    intro ys hxs hys
    rw [List.pairwise_cons] at hxs
    cases ys with
    | nil =>
      simp only [isSubsetLoop, Bool.false_eq_true, false_iff, not_forall]
      exact ⟨x, List.mem_cons_self _ _, List.not_mem_nil _⟩
    | cons y ys =>
      obtain ⟨d, h1, h2, h3⟩ := skipLess_split x (y :: ys)
      have hnd : x ∉ d := by
        intro hx
        have := h2 x hx
        rw [AbsHit_lt_irrefl] at this
        exact absurd this (by simp)
      unfold isSubsetLoop
      revert h1 h3
      cases skipLess x (y :: ys) with
      | nil =>
        intro h1 _
        simp only [List.append_nil] at h1
        simp only [Bool.false_eq_true, false_iff, not_forall]
        exact ⟨x, List.mem_cons_self _ _, by rw [h1]; exact hnd⟩
      | cons z zs =>
        intro h1 h3
        have hzx := h3 z (by simp)
        rw [h1] at hys
        obtain ⟨_, hzs, hcross⟩ := List.pairwise_append.1 hys
        rw [List.pairwise_cons] at hzs
        by_cases hxz : x.lt z = true
        · simp only [hxz, if_true, Bool.false_eq_true, false_iff, not_forall]
          refine ⟨x, List.mem_cons_self _ _, ?_⟩
          rw [h1, List.mem_append, List.mem_cons]
          rintro (hx | hx | hx)
          · exact hnd hx
          · subst hx
            rw [AbsHit_lt_irrefl] at hxz
            exact absurd hxz (by simp)
          · have := AbsHit_lt_asymm (hzs.1 x hx)
            rw [hxz] at this
            exact absurd this (by simp)
        · have hxz2 : x.lt z = false := by simpa using hxz
          have e := AbsHit_eq_of_not_lt hxz2 hzx
          subst e
          simp only [hxz2, Bool.false_eq_true, if_false]
          rw [ih zs hxs.2 hzs.2, h1]
          constructor
          · intro hall a ha
            rcases List.mem_cons.1 ha with e | ha
            · subst e; simp
            · exact List.mem_append_right _ (List.mem_cons_of_mem _ (hall a ha))
          · intro hall a ha
            have := hall a (List.mem_cons_of_mem _ ha)
            rw [List.mem_append, List.mem_cons] at this
            have hxa := hxs.1 a ha
            rcases this with h4 | h4 | h4
            · have := AbsHit_lt_asymm (h2 a h4)
              rw [hxa] at this
              exact absurd this (by simp)
            · subst h4
              rw [AbsHit_lt_irrefl] at hxa
              exact absurd hxa (by simp)
            · exact h4

theorem length_le_of_sorted_subset {xs ys : AbsHitSet}
    (hxs : xs.Pairwise (fun a b => a.lt b = true)) (h : ∀ x ∈ xs, x ∈ ys) :
    xs.length ≤ ys.length :=
  (List.subperm_of_subset (sorted_nodup hxs) h).length_le

theorem isSubsetOf_iff (c1 c2 : CausalCluster)
    (h1 : c1.active_hits.Pairwise (fun a b => a.lt b = true))
    (h2 : c2.active_hits.Pairwise (fun a b => a.lt b = true)) :
    c1.isSubsetOf c2 = true ↔ ∀ x ∈ c1.active_hits, x ∈ c2.active_hits := by
  unfold CausalCluster.isSubsetOf
  split_ifs with hlen
  · simp only [Bool.false_eq_true, false_iff]
    intro hall
    have := length_le_of_sorted_subset h1 hall
    omega
  · exact isSubsetLoop_iff _ _ h1 h2

end hivesplitter

/-! ## `advanceInTime` removes exactly the expired hits -/

namespace hivesplitter
open detail

theorem gtFin_of_le (time : Time) {a b : Int} (hab : a ≤ b) (hb : time.gtFin b = true) :
    time.gtFin a = true := by
  cases time with
  | ninf => simp [Time.gtFin] at hb
  | fin t =>
    simp only [Time.gtFin, gt_iff_lt, decide_eq_true_eq] at hb ⊢
    omega
  | pinf => rfl

theorem advanceLoop_eq_filter (p : HiveSplitter_ParameterSet) (time : Time) (est : Bool) :
    ∀ (active : AbsHitSet) (doms : DomMap Nat) (fht : DomMap Int) (concluded : AbsHitSet),
      active.Pairwise (fun a b => a.lt b = true) →
      (advanceLoop p time est active doms fht concluded).1 =
        active.filter (fun x => !time.gtFin (x.time + p.multiplicityTimeWindow)) ∧
      (advanceLoop p time est active doms fht concluded).2.2.2 =
        if est then
          AbsHitSet.insertAll concluded
            (active.filter (fun x => time.gtFin (x.time + p.multiplicityTimeWindow)))
        else concluded := by
  intro active
  induction active with
  | nil => intro doms fht concluded _; cases est <;> simp [advanceLoop, AbsHitSet.insertAll]
  | cons h rest ih =>
    intro doms fht concluded hs
    rw [List.pairwise_cons] at hs
    unfold advanceLoop
    by_cases hg : time.gtFin (h.time + p.multiplicityTimeWindow) = true
    · rw [if_pos hg]
      cases est with
      | true =>
        obtain ⟨i1, i2⟩ := ih (decrDom doms h.dom) fht (AbsHitSet.insert h concluded) hs.2
        simp only [if_true] at i1 i2 ⊢
        rw [i1, i2]
        simp [List.filter_cons, hg, AbsHitSet.insertAll]
      | false =>
        simp only [Bool.false_eq_true, if_false]
        obtain ⟨i1, i2⟩ := ih (decrDom doms h.dom)
          (if !DomMap.has (decrDom doms h.dom) h.dom then DomMap.erase fht h.dom
            else resyncFirstHit h (h :: rest) fht) concluded hs.2
        simp only [Bool.false_eq_true, if_false] at i2
        rw [i1, i2]
        simp [List.filter_cons, hg]
    · rw [if_neg hg]
      have hall : ∀ x ∈ h :: rest, time.gtFin (x.time + p.multiplicityTimeWindow) = false := by
        intro x hx
        rcases List.mem_cons.1 hx with e | hx
        · rw [e]; simpa using hg
        · cases hgx : time.gtFin (x.time + p.multiplicityTimeWindow) with
          | false => rfl
          | true =>
            have hle := AbsHit_time_le_of_lt (hs.1 x hx)
            exact absurd (gtFin_of_le time (by omega) hgx) hg
      have f1 : (h :: rest).filter (fun x => !time.gtFin (x.time + p.multiplicityTimeWindow)) =
          h :: rest := by
        rw [List.filter_eq_self]
        intro x hx
        simp [hall x hx]
      have f2 : (h :: rest).filter (fun x => time.gtFin (x.time + p.multiplicityTimeWindow)) =
          [] := by
        rw [List.filter_eq_nil_iff]
        intro x hx
        simp [hall x hx]
      rw [f1, f2]
      cases est <;> simp [AbsHitSet.insertAll]

end hivesplitter

namespace hivetrigger
open detail

theorem trig_advanceLoop_eq_filter (p : HiveTrigger_ParameterSet) (ticks : DAQTicks)
    (est : Bool) :
    ∀ (active : AbsDAQHitSet) (doms : DomMap Nat) (fht : DomMap DAQTicks)
      (concluded : AbsDAQHitSet),
      active.Pairwise (fun a b => a.lt b = true) →
      (advanceLoop p ticks est active doms fht concluded).1 =
        active.filter (fun x => decide (ticks ≤ x.time + windowTicks p)) ∧
      (advanceLoop p ticks est active doms fht concluded).2.2.2 =
        if est then
          AbsHitSet.insertAll concluded
            (active.filter (fun x => decide (ticks > x.time + windowTicks p)))
        else concluded := by
  intro active
  induction active with
  | nil => intro doms fht concluded _; cases est <;> simp [advanceLoop, AbsHitSet.insertAll]
  | cons h rest ih =>
    intro doms fht concluded hs
    rw [List.pairwise_cons] at hs
    unfold advanceLoop
    by_cases hg : ticks > h.time + NsToTicks p (some p.multiplicityTimeWindow)
    · rw [if_pos hg]
      have hg2 : ticks > h.time + windowTicks p := hg
      have hg3 : ¬ ticks ≤ h.time + windowTicks p := not_le.mpr hg2
      cases est with
      | true =>
        obtain ⟨i1, i2⟩ := ih (hivesplitter.detail.decrDom doms h.dom) fht
          (AbsHitSet.insert h concluded) hs.2
        simp only [if_true] at i1 i2 ⊢
        rw [i1, i2]
        simp [List.filter_cons, hg2, hg3, AbsHitSet.insertAll]
      | false =>
        simp only [Bool.false_eq_true, if_false]
        obtain ⟨i1, i2⟩ := ih (hivesplitter.detail.decrDom doms h.dom)
          (if !DomMap.has (hivesplitter.detail.decrDom doms h.dom) h.dom then
            DomMap.erase fht h.dom
            else hivesplitter.detail.resyncFirstHit h (h :: rest) fht) concluded hs.2
        simp only [Bool.false_eq_true, if_false] at i2
        rw [i1, i2]
        simp [List.filter_cons, hg3]
    · rw [if_neg hg]
      have hg2 : ¬ ticks > h.time + windowTicks p := hg
      have hall : ∀ x ∈ h :: rest, ticks ≤ x.time + windowTicks p := by
        intro x hx
        rcases List.mem_cons.1 hx with e | hx
        · rw [e]; exact not_lt.mp hg2
        · have hle := AbsHit_time_le_of_lt (hs.1 x hx)
          exact le_trans (not_lt.mp hg2) (add_le_add_right hle _)
      have f1 : (h :: rest).filter (fun x => decide (ticks ≤ x.time + windowTicks p)) =
          h :: rest := by
        rw [List.filter_eq_self]
        intro x hx
        simpa using hall x hx
      have f2 : (h :: rest).filter (fun x => decide (ticks > x.time + windowTicks p)) = [] := by
        rw [List.filter_eq_nil_iff]
        intro x hx
        have := hall x hx
        simp only [gt_iff_lt, decide_eq_true_eq, not_lt]
        exact this
      rw [f1, f2]
      cases est <;> simp [AbsHitSet.insertAll]

end hivetrigger

/-! ## The sub-clusters of one hit: the pruning in `AddHitToCluster` -/

namespace hivesplitter
open detail

theorem AddHitToCluster_of_newSubCluster (p : HiveSplitter_ParameterSet) (c : CausalCluster)
    (h : AbsHit) (nc : List CausalCluster) (n : CausalCluster)
    (hn : newSubClusterOf p c h = some n) :
    AddHitToCluster p c h nc =
      (c, (if (pruneNew n nc).2 then (pruneNew n nc).1 ++ [n] else (pruneNew n nc).1), true) := by
  unfold newSubClusterOf scanCluster at hn
  unfold AddHitToCluster
  by_cases hf : fastAccept p c h = true
  · rw [if_pos hf] at hn; exact absurd hn (by simp)
  · rw [if_neg hf] at hn
    rw [if_neg hf]
    simp only
    revert hn
    cases (if (!DomMap.has c.firstHitTimes h.dom) = true then
        scanFast p h c.active_hits.reverse [] [] true
      else scanSlow p h c.active_hits.reverse [] [] true) with
    | enough => intro hn; exact absurd hn (by simp)
    | finished hits all =>
      intro hn
      simp only at hn ⊢
      by_cases ha : all = true
      · rw [if_pos ha] at hn; exact absurd hn (by simp)
      · rw [if_neg ha] at hn
        rw [if_neg ha]
        by_cases he : hits.isEmpty = true
        · rw [if_pos he] at hn; exact absurd hn (by simp)
        · rw [if_neg he] at hn
          rw [if_neg he]
          simp only [Option.some.injEq] at hn
          rw [hn]

theorem AddHitToCluster_of_no_newSubCluster (p : HiveSplitter_ParameterSet) (c : CausalCluster)
    (h : AbsHit) (nc : List CausalCluster) (hn : newSubClusterOf p c h = none) :
    AddHitToCluster p c h nc = (c.insertActiveHit p h, nc, true) ∨
    AddHitToCluster p c h nc = (c, nc, false) := by
  unfold newSubClusterOf scanCluster at hn
  unfold AddHitToCluster
  by_cases hf : fastAccept p c h = true
  · rw [if_pos hf]; exact Or.inl rfl
  · rw [if_neg hf] at hn
    rw [if_neg hf]
    simp only
    revert hn
    cases (if (!DomMap.has c.firstHitTimes h.dom) = true then
        scanFast p h c.active_hits.reverse [] [] true
      else scanSlow p h c.active_hits.reverse [] [] true) with
    | enough => intro _; exact Or.inl rfl
    | finished hits all =>
      intro hn
      simp only at hn ⊢
      by_cases ha : all = true
      · rw [if_pos ha]; exact Or.inl rfl
      · rw [if_neg ha] at hn
        rw [if_neg ha]
        by_cases he : hits.isEmpty = true
        · rw [if_pos he]; exact Or.inr rfl
        · rw [if_neg he] at hn; exact absurd hn (by simp)

end hivesplitter

namespace hivesplitter
open detail

theorem foldl_insertActiveHit_sorted (p : HiveSplitter_ParameterSet) :
    ∀ (l : List AbsHit) (c : CausalCluster),
      c.active_hits.Pairwise (fun a b => a.lt b = true) →
      (l.foldl (fun c x => c.insertActiveHit p x) c).active_hits.Pairwise
        (fun a b => a.lt b = true) := by
  intro l
  induction l with
  | nil => intro c hc; exact hc
  | cons y ys ih =>
    intro c hc
    rw [List.foldl_cons]
    apply ih
    rw [insertActiveHit_active]
    exact AbsHitSet_insert_sorted hc

theorem makeSubCluster_sorted (p : HiveSplitter_ParameterSet) (hits : AbsHitSet) (h : AbsHit) :
    (makeSubCluster p hits h).active_hits.Pairwise (fun a b => a.lt b = true) := by
  unfold makeSubCluster
  rw [insertActiveHit_active]
  exact AbsHitSet_insert_sorted
    (foldl_insertActiveHit_sorted p hits CausalCluster.new List.Pairwise.nil)

theorem newSubClusterOf_sorted {p : HiveSplitter_ParameterSet} {c : CausalCluster} {h : AbsHit}
    {n : CausalCluster} (hn : newSubClusterOf p c h = some n) :
    n.active_hits.Pairwise (fun a b => a.lt b = true) := by
  unfold newSubClusterOf at hn
  split_ifs at hn
  split at hn
  · exact absurd hn (by simp)
  · split_ifs at hn
    simp only [Option.some.injEq] at hn
    rw [← hn]
    exact makeSubCluster_sorted p _ h

/-- The list of new clusters after the pruning loop and the `push_back` behind it. -/
theorem pruneNew_reduced (n : CausalCluster)
    (hn : n.active_hits.Pairwise (fun a b => a.lt b = true)) :
    ∀ nc : List CausalCluster,
      (∀ m ∈ nc, m.active_hits.Pairwise (fun a b => a.lt b = true)) → Reduced nc →
      Reduced (if (pruneNew n nc).2 then (pruneNew n nc).1 ++ [n] else (pruneNew n nc).1) := by
  intro nc
  induction nc with
  | nil => intro _ _; simp [pruneNew, Reduced]
  | cons c cs ih =>
    intro hs hr
    have hcs : ∀ m ∈ cs, m.active_hits.Pairwise (fun a b => a.lt b = true) :=
      fun m hm => hs m (List.mem_cons_of_mem _ hm)
    have hc := hs c (List.mem_cons_self _ _)
    unfold Reduced at hr
    rw [List.pairwise_cons] at hr
    unfold pruneNew
    by_cases h1 : c.isSubsetOf n = true
    · rw [if_pos h1]; exact ih hcs hr.2
    · rw [if_neg h1]
      by_cases h2 : n.isSubsetOf c = true
      · rw [if_pos h2]
        simp only [Bool.false_eq_true, if_false]
        exact List.pairwise_cons.2 hr
      · rw [if_neg h2]
        have i1 : ¬ activeSubset c n := fun hh => h1 ((isSubsetOf_iff c n hc hn).2 hh)
        have i2 : ¬ activeSubset n c := fun hh => h2 ((isSubsetOf_iff n c hn hc).2 hh)
        have hi := ih hcs hr.2
        have hsub := pruneNew_subset n cs
        simp only
        by_cases hk : (pruneNew n cs).2 = true
        · rw [if_pos hk] at hi ⊢
          unfold Reduced at hi ⊢
          rw [List.cons_append, List.pairwise_cons]
          refine ⟨?_, hi⟩
          intro b hb
          rcases List.mem_append.1 hb with hb | hb
          · exact hr.1 b (hsub b hb)
          · simp only [List.mem_singleton] at hb; subst hb; exact ⟨i1, i2⟩
        · rw [if_neg hk] at hi ⊢
          unfold Reduced at hi ⊢
          rw [List.pairwise_cons]
          exact ⟨fun b hb => hr.1 b (hsub b hb), hi⟩

theorem pruneNew_of_incomparable (n : CausalCluster)
    (hn : n.active_hits.Pairwise (fun a b => a.lt b = true)) :
    ∀ nc : List CausalCluster,
      (∀ m ∈ nc, m.active_hits.Pairwise (fun a b => a.lt b = true)) →
      (∀ m ∈ nc, ¬ activeSubset m n ∧ ¬ activeSubset n m) → pruneNew n nc = (nc, true) := by
  intro nc
  induction nc with
  | nil => intro _ _; rfl
  | cons c cs ih =>
    intro hs hi
    have hc := hs c (List.mem_cons_self _ _)
    have h1 : ¬ c.isSubsetOf n = true :=
      fun hh => (hi c (List.mem_cons_self _ _)).1 ((isSubsetOf_iff c n hc hn).1 hh)
    have h2 : ¬ n.isSubsetOf c = true :=
      fun hh => (hi c (List.mem_cons_self _ _)).2 ((isSubsetOf_iff n c hn hc).1 hh)
    unfold pruneNew
    rw [if_neg h1, if_neg h2, ih (fun m hm => hs m (List.mem_cons_of_mem _ hm))
      (fun m hm => hi m (List.mem_cons_of_mem _ hm))]

/-- Registering a cluster whose active set is already the active set of a member of a
reduced list leaves the active sets of the list as they are. -/
theorem pruneNew_of_present (n : CausalCluster)
    (hn : n.active_hits.Pairwise (fun a b => a.lt b = true)) :
    ∀ nc : List CausalCluster,
      (∀ m ∈ nc, m.active_hits.Pairwise (fun a b => a.lt b = true)) → Reduced nc →
      (∃ c0 ∈ nc, c0.active_hits = n.active_hits) →
      ((if (pruneNew n nc).2 then (pruneNew n nc).1 ++ [n] else (pruneNew n nc).1).map
        (fun m => m.active_hits)).Perm (nc.map (fun m => m.active_hits)) := by
  intro nc
  induction nc with
  | nil => intro _ _ h; obtain ⟨c0, h0, _⟩ := h; simp at h0
  | cons c cs ih =>
    intro hs hr hex
    have hcs : ∀ m ∈ cs, m.active_hits.Pairwise (fun a b => a.lt b = true) :=
      fun m hm => hs m (List.mem_cons_of_mem _ hm)
    have hc := hs c (List.mem_cons_self _ _)
    unfold Reduced at hr
    rw [List.pairwise_cons] at hr
    by_cases hhead : c.active_hits = n.active_hits
    · have h1 : c.isSubsetOf n = true := by
        rw [isSubsetOf_iff c n hc hn, hhead]
        exact fun x hx => hx
      have hinc : ∀ m ∈ cs, ¬ activeSubset m n ∧ ¬ activeSubset n m := by
        intro m hm
        have := hr.1 m hm
        unfold activeSubset at this ⊢
        rw [← hhead]
        exact ⟨this.2, this.1⟩
      unfold pruneNew
      rw [if_pos h1, pruneNew_of_incomparable n hn cs hcs hinc]
      simp only [if_true, List.map_append, List.map_cons, List.map_nil]
      rw [← hhead]
      exact (List.perm_append_comm).trans (by simp)
    · obtain ⟨c0, h0, e0⟩ := hex
      have h0cs : c0 ∈ cs := by
        rcases List.mem_cons.1 h0 with e | h0
        · subst e; exact absurd e0 hhead
        · exact h0
      have hrel := hr.1 c0 h0cs
      have h1 : ¬ c.isSubsetOf n = true := by
        intro hh
        apply hrel.1
        have := (isSubsetOf_iff c n hc hn).1 hh
        unfold activeSubset
        rw [e0]; exact this
      have h2 : ¬ n.isSubsetOf c = true := by
        intro hh
        apply hrel.2
        have := (isSubsetOf_iff n c hn hc).1 hh
        unfold activeSubset
        rw [e0]; exact this
      have hi := ih hcs hr.2 ⟨c0, h0cs, e0⟩
      unfold pruneNew
      rw [if_neg h1, if_neg h2]
      simp only
      by_cases hk : (pruneNew n cs).2 = true
      · rw [if_pos hk] at hi ⊢
        rw [List.cons_append, List.map_cons, List.map_cons]
        exact List.Perm.cons _ hi
      · rw [if_neg hk] at hi ⊢
        rw [List.map_cons, List.map_cons]
        exact List.Perm.cons _ hi

theorem pruneNew_sorted (n : CausalCluster)
    (hn : n.active_hits.Pairwise (fun a b => a.lt b = true)) (nc : List CausalCluster)
    (hs : ∀ m ∈ nc, m.active_hits.Pairwise (fun a b => a.lt b = true)) :
    ∀ m ∈ (if (pruneNew n nc).2 then (pruneNew n nc).1 ++ [n] else (pruneNew n nc).1),
      m.active_hits.Pairwise (fun a b => a.lt b = true) := by
  intro m hm
  have hsub := pruneNew_subset n nc
  split_ifs at hm
  · rcases List.mem_append.1 hm with h1 | h1
    · exact hs m (hsub m h1)
    · simp only [List.mem_singleton] at h1; subst h1; exact hn
  · exact hs m (hsub m hm)

/-- A call of `AddHitToCluster` keeps the list of new clusters reduced. -/
theorem AddHitToCluster_reduced (p : HiveSplitter_ParameterSet) (c : CausalCluster)
    (h : AbsHit) (nc : List CausalCluster)
    (hs : ∀ m ∈ nc, m.active_hits.Pairwise (fun a b => a.lt b = true)) (hr : Reduced nc) :
    (∀ m ∈ (AddHitToCluster p c h nc).2.1,
      m.active_hits.Pairwise (fun a b => a.lt b = true)) ∧
    Reduced (AddHitToCluster p c h nc).2.1 := by
  cases hn : newSubClusterOf p c h with
  | none =>
    rcases AddHitToCluster_of_no_newSubCluster p c h nc hn with e | e <;>
    · rw [e]; exact ⟨hs, hr⟩
  | some n =>
    rw [AddHitToCluster_of_newSubCluster p c h nc n hn]
    exact ⟨pruneNew_sorted n (newSubClusterOf_sorted hn) nc hs,
      pruneNew_reduced n (newSubClusterOf_sorted hn) nc hs hr⟩

/-- The first loop of `AddHit` keeps the list of new clusters reduced. -/
theorem addHitLoop_reduced (p : HiveSplitter_ParameterSet) (h : AbsHit) :
    ∀ (cl : List CausalCluster) (st : AddHitLoop),
      (∀ m ∈ st.newClusters, m.active_hits.Pairwise (fun a b => a.lt b = true)) →
      Reduced st.newClusters →
      (∀ m ∈ (addHitLoop p h cl st).newClusters,
        m.active_hits.Pairwise (fun a b => a.lt b = true)) ∧
      Reduced (addHitLoop p h cl st).newClusters := by
  intro cl
  induction cl with
  | nil => intro st hs hr; exact ⟨hs, hr⟩
  | cons c rest ih =>
    intro st hs hr
    unfold addHitLoop
    simp only
    split
    · have := AddHitToCluster_reduced p (c.advanceInTime p (.fin h.time)) h st.newClusters hs hr
      exact ih _ this.1 this.2
    · exact ih _ hs hr

end hivesplitter

/-! ## The early exit of the scan in `AddHitToCluster` -/

namespace hivesplitter
open detail

theorem domSetInsert_nodup {d : Nat} {s : List Nat} (hs : s.Nodup) :
    (domSetInsert d s).Nodup := by
  unfold domSetInsert
  split_ifs with h
  · exact hs
  · exact List.nodup_cons.2 ⟨h, hs⟩

theorem domSetInsert_toFinset (d : Nat) (s : List Nat) :
    (domSetInsert d s).toFinset = insert d s.toFinset := by
  unfold domSetInsert
  split_ifs with h
  · rw [Finset.insert_eq_of_mem (List.mem_toFinset.2 h)]
  · rw [List.toFinset_cons]

theorem multMinusOne_le (p : HiveSplitter_ParameterSet) (hm : 1 ≤ p.multiplicity) :
    multMinusOne p ≤ p.multiplicity - 1 := by
  unfold multMinusOne
  have e : p.multiplicity + 2 ^ 64 - 1 = (p.multiplicity - 1) + 2 ^ 64 := by omega
  rw [e, Nat.add_mod_right]
  exact Nat.mod_le _ _

/-- The SLOW scan takes the early exit if enough distinct sensors other than the sensor of
the hit carry a connected hit. -/
theorem scanSlow_enough (p : HiveSplitter_ParameterSet) (h : AbsHit) (K : Nat)
    (hk : multMinusOne p ≤ K) :
    ∀ (l : List AbsHit) (doms : List Nat) (hits : AbsHitSet) (ac : Bool),
      doms.Nodup → doms.length < K →
      K ≤ (doms.toFinset ∪ ((l.filter
        (fun x => decide (x.dom ≠ h.dom) && CausallyConnected p x h)).map
          (fun x => x.dom)).toFinset).card →
      scanSlow p h l doms hits ac = .enough := by
  intro l
  induction l with
  | nil =>
    intro doms hits ac hnd hlt hcard
    simp only [List.filter_nil, List.map_nil, List.toFinset_nil, Finset.union_empty,
      List.toFinset_card_of_nodup hnd] at hcard
    omega
  | cons it rest ih =>
    intro doms hits ac hnd hlt hcard
    unfold scanSlow
    by_cases hd : it.dom = h.dom
    · have hf : (it :: rest).filter
          (fun x => decide (x.dom ≠ h.dom) && CausallyConnected p x h) =
          rest.filter (fun x => decide (x.dom ≠ h.dom) && CausallyConnected p x h) := by
        simp [List.filter_cons, hd]
      rw [hf] at hcard
      rw [if_pos hd]
      simp only
      split_ifs <;> exact ih _ _ _ hnd hlt hcard
    · rw [if_neg hd]
      by_cases hc : CausallyConnected p it h = true
      · rw [if_pos hc]
        simp only
        by_cases hex : (domSetInsert it.dom doms).length ≥ multMinusOne p
        · rw [if_pos hex]
        · rw [if_neg hex]
          apply ih _ _ _ (domSetInsert_nodup hnd) (lt_of_lt_of_le (not_le.mp hex) hk)
          have hf : (it :: rest).filter
              (fun x => decide (x.dom ≠ h.dom) && CausallyConnected p x h) =
              it :: rest.filter (fun x => decide (x.dom ≠ h.dom) && CausallyConnected p x h) := by
            simp [List.filter_cons, hd, hc]
          rw [hf, List.map_cons, List.toFinset_cons] at hcard
          rw [domSetInsert_toFinset]
          have e : insert it.dom doms.toFinset ∪ (List.map (fun x => x.dom)
              (List.filter (fun x => decide (x.dom ≠ h.dom) && CausallyConnected p x h)
                rest)).toFinset =
              doms.toFinset ∪ insert it.dom (List.map (fun x => x.dom)
                (List.filter (fun x => decide (x.dom ≠ h.dom) && CausallyConnected p x h)
                  rest)).toFinset := by
            rw [Finset.insert_union, Finset.union_insert]
          rw [e]
          exact hcard
      · rw [if_neg hc]
        have hf : (it :: rest).filter
            (fun x => decide (x.dom ≠ h.dom) && CausallyConnected p x h) =
            rest.filter (fun x => decide (x.dom ≠ h.dom) && CausallyConnected p x h) := by
          simp [List.filter_cons, hc]
        rw [hf] at hcard
        exact ih _ _ _ hnd hlt hcard

/-- The FAST scan takes the early exit if enough distinct sensors carry a connected hit. -/
theorem scanFast_enough (p : HiveSplitter_ParameterSet) (h : AbsHit) (K : Nat)
    (hk : multMinusOne p ≤ K) :
    ∀ (l : List AbsHit) (doms : List Nat) (hits : AbsHitSet) (ac : Bool),
      doms.Nodup → doms.length < K →
      K ≤ (doms.toFinset ∪ ((l.filter (fun x => CausallyConnected p x h)).map
          (fun x => x.dom)).toFinset).card →
      scanFast p h l doms hits ac = .enough := by
  intro l
  induction l with
  | nil =>
    intro doms hits ac hnd hlt hcard
    simp only [List.filter_nil, List.map_nil, List.toFinset_nil, Finset.union_empty,
      List.toFinset_card_of_nodup hnd] at hcard
    omega
  | cons it rest ih =>
    intro doms hits ac hnd hlt hcard
    unfold scanFast
    by_cases hc : CausallyConnected p it h = true
    · rw [if_pos hc]
      simp only
      by_cases hex : (domSetInsert it.dom doms).length ≥ multMinusOne p
      · rw [if_pos hex]
      · rw [if_neg hex]
        apply ih _ _ _ (domSetInsert_nodup hnd) (lt_of_lt_of_le (not_le.mp hex) hk)
        have hf : (it :: rest).filter (fun x => CausallyConnected p x h) =
            it :: rest.filter (fun x => CausallyConnected p x h) := by
          simp [List.filter_cons, hc]
        rw [hf, List.map_cons, List.toFinset_cons] at hcard
        rw [domSetInsert_toFinset]
        have e : insert it.dom doms.toFinset ∪ (List.map (fun x => x.dom)
            (List.filter (fun x => CausallyConnected p x h) rest)).toFinset =
            doms.toFinset ∪ insert it.dom (List.map (fun x => x.dom)
              (List.filter (fun x => CausallyConnected p x h) rest)).toFinset := by
          rw [Finset.insert_union, Finset.union_insert]
        rw [e]
        exact hcard
    · rw [if_neg hc]
      have hf : (it :: rest).filter (fun x => CausallyConnected p x h) =
          rest.filter (fun x => CausallyConnected p x h) := by
        simp [List.filter_cons, hc]
      rw [hf] at hcard
      exact ih _ _ _ hnd hlt hcard

theorem connectedSensors_eq_card (p : HiveSplitter_ParameterSet) (c : CausalCluster)
    (h : AbsHit) :
    connectedSensors p c h = ((c.active_hits.reverse.filter
      (fun x => decide (x.dom ≠ h.dom) && CausallyConnected p x h)).map
        (fun x => x.dom)).toFinset.card := by
  unfold connectedSensors
  rw [List.card_toFinset, List.filter_reverse, List.map_reverse]
  exact (List.Perm.dedup (List.reverse_perm _)).length_eq.symm

theorem scanCluster_enough (p : HiveSplitter_ParameterSet) (c : CausalCluster) (h : AbsHit)
    (hm : 1 ≤ p.multiplicity) (ht : p.multiplicity - 1 ≤ connectedSensors p c h)
    (h1 : 1 ≤ connectedSensors p c h) : scanCluster p c h = .enough := by
  have hk : multMinusOne p ≤ connectedSensors p c h := le_trans (multMinusOne_le p hm) ht
  unfold scanCluster
  split_ifs
  · apply scanFast_enough p h (connectedSensors p c h) hk _ [] [] true List.nodup_nil
      (by simpa using h1)
    rw [connectedSensors_eq_card]
    simp only [List.toFinset_nil, Finset.empty_union]
    apply Finset.card_le_card
    intro a ha
    simp only [List.mem_toFinset, List.mem_map, List.mem_filter, Bool.and_eq_true] at ha ⊢
    obtain ⟨x, ⟨hx, _, hc⟩, e⟩ := ha
    exact ⟨x, ⟨hx, hc⟩, e⟩
  · apply scanSlow_enough p h (connectedSensors p c h) hk _ [] [] true List.nodup_nil
      (by simpa using h1)
    rw [connectedSensors_eq_card]
    simp

end hivesplitter

/-! ## The early exit of the scan in `HiveTrigger::AddHitToCluster` -/

namespace hivetrigger
open detail

theorem trig_multMinusOne_le (p : HiveTrigger_ParameterSet) (hm : 1 ≤ p.multiplicity) :
    multMinusOne p ≤ p.multiplicity - 1 := by
  unfold multMinusOne
  have e : p.multiplicity + 2 ^ 64 - 1 = (p.multiplicity - 1) + 2 ^ 64 := by omega
  rw [e, Nat.add_mod_right]
  exact Nat.mod_le _ _

/-- The SLOW scan takes the early exit if enough distinct sensors other than the sensor of
the hit carry a connected hit. -/
theorem trig_scanSlow_enough (p : HiveTrigger_ParameterSet) (h : AbsDAQHit) (K : Nat)
    (hk : multMinusOne p ≤ K) :
    ∀ (l : List AbsDAQHit) (doms : List Nat) (hits : AbsDAQHitSet) (ac : Bool),
      doms.Nodup → doms.length < K →
      K ≤ (doms.toFinset ∪ ((l.filter
        (fun x => decide (x.dom ≠ h.dom) && CausallyConnected p x h)).map
          (fun x => x.dom)).toFinset).card →
      scanSlow p h l doms hits ac = .enough := by
  intro l
  induction l with
  | nil =>
    intro doms hits ac hnd hlt hcard
    simp only [List.filter_nil, List.map_nil, List.toFinset_nil, Finset.union_empty,
      List.toFinset_card_of_nodup hnd] at hcard
    omega
  | cons it rest ih =>
    intro doms hits ac hnd hlt hcard
    unfold scanSlow
    by_cases hd : it.dom = h.dom
    · have hf : (it :: rest).filter
          (fun x => decide (x.dom ≠ h.dom) && CausallyConnected p x h) =
          rest.filter (fun x => decide (x.dom ≠ h.dom) && CausallyConnected p x h) := by
        simp [List.filter_cons, hd]
      rw [hf] at hcard
      rw [if_pos hd]
      simp only
      split_ifs <;> exact ih _ _ _ hnd hlt hcard
    · rw [if_neg hd]
      by_cases hc : CausallyConnected p it h = true
      · rw [if_pos hc]
        simp only
        by_cases hex : (domSetInsert it.dom doms).length ≥ multMinusOne p
        · rw [if_pos hex]
        · rw [if_neg hex]
          apply ih _ _ _ (hivesplitter.domSetInsert_nodup hnd) (lt_of_lt_of_le (not_le.mp hex) hk)
          have hf : (it :: rest).filter
              (fun x => decide (x.dom ≠ h.dom) && CausallyConnected p x h) =
              it :: rest.filter (fun x => decide (x.dom ≠ h.dom) && CausallyConnected p x h) := by
            simp [List.filter_cons, hd, hc]
          rw [hf, List.map_cons, List.toFinset_cons] at hcard
          rw [hivesplitter.domSetInsert_toFinset]
          have e : insert it.dom doms.toFinset ∪ (List.map (fun x => x.dom)
              (List.filter (fun x => decide (x.dom ≠ h.dom) && CausallyConnected p x h)
                rest)).toFinset =
              doms.toFinset ∪ insert it.dom (List.map (fun x => x.dom)
                (List.filter (fun x => decide (x.dom ≠ h.dom) && CausallyConnected p x h)
                  rest)).toFinset := by
            rw [Finset.insert_union, Finset.union_insert]
          rw [e]
          exact hcard
      · rw [if_neg hc]
        have hf : (it :: rest).filter
            (fun x => decide (x.dom ≠ h.dom) && CausallyConnected p x h) =
            rest.filter (fun x => decide (x.dom ≠ h.dom) && CausallyConnected p x h) := by
          simp [List.filter_cons, hc]
        rw [hf] at hcard
        exact ih _ _ _ hnd hlt hcard

/-- The FAST scan takes the early exit if enough distinct sensors carry a connected hit. -/
theorem trig_scanFast_enough (p : HiveTrigger_ParameterSet) (h : AbsDAQHit) (K : Nat)
    (hk : multMinusOne p ≤ K) :
    ∀ (l : List AbsDAQHit) (doms : List Nat) (hits : AbsDAQHitSet) (ac : Bool),
      doms.Nodup → doms.length < K →
      K ≤ (doms.toFinset ∪ ((l.filter (fun x => CausallyConnected p x h)).map
          (fun x => x.dom)).toFinset).card →
      scanFast p h l doms hits ac = .enough := by
  intro l
  induction l with
  | nil =>
    intro doms hits ac hnd hlt hcard
    simp only [List.filter_nil, List.map_nil, List.toFinset_nil, Finset.union_empty,
      List.toFinset_card_of_nodup hnd] at hcard
    omega
  | cons it rest ih =>
    intro doms hits ac hnd hlt hcard
    unfold scanFast
    by_cases hc : CausallyConnected p it h = true
    · rw [if_pos hc]
      simp only
      by_cases hex : (domSetInsert it.dom doms).length ≥ multMinusOne p
      · rw [if_pos hex]
      · rw [if_neg hex]
        apply ih _ _ _ (hivesplitter.domSetInsert_nodup hnd) (lt_of_lt_of_le (not_le.mp hex) hk)
        have hf : (it :: rest).filter (fun x => CausallyConnected p x h) =
            it :: rest.filter (fun x => CausallyConnected p x h) := by
          simp [List.filter_cons, hc]
        rw [hf, List.map_cons, List.toFinset_cons] at hcard
        rw [hivesplitter.domSetInsert_toFinset]
        have e : insert it.dom doms.toFinset ∪ (List.map (fun x => x.dom)
            (List.filter (fun x => CausallyConnected p x h) rest)).toFinset =
            doms.toFinset ∪ insert it.dom (List.map (fun x => x.dom)
              (List.filter (fun x => CausallyConnected p x h) rest)).toFinset := by
          rw [Finset.insert_union, Finset.union_insert]
        rw [e]
        exact hcard
    · rw [if_neg hc]
      have hf : (it :: rest).filter (fun x => CausallyConnected p x h) =
          rest.filter (fun x => CausallyConnected p x h) := by
        simp [List.filter_cons, hc]
      rw [hf] at hcard
      exact ih _ _ _ hnd hlt hcard

theorem trig_connectedSensors_eq_card (p : HiveTrigger_ParameterSet) (c : CausalCluster)
    (h : AbsDAQHit) :
    connectedSensors p c h = ((c.active_hits.reverse.filter
      (fun x => decide (x.dom ≠ h.dom) && CausallyConnected p x h)).map
        (fun x => x.dom)).toFinset.card := by
  unfold connectedSensors
  rw [List.card_toFinset, List.filter_reverse, List.map_reverse]
  exact (List.Perm.dedup (List.reverse_perm _)).length_eq.symm

theorem trig_scan_enough (p : HiveTrigger_ParameterSet) (c : CausalCluster) (h : AbsDAQHit)
    (hm : 1 ≤ p.multiplicity) (ht : p.multiplicity - 1 ≤ connectedSensors p c h)
    (h1 : 1 ≤ connectedSensors p c h) :
    (if !DomMap.has c.firstHitTimes h.dom then scanFast p h c.active_hits.reverse [] [] true
      else scanSlow p h c.active_hits.reverse [] [] true) = .enough := by
  have hk : multMinusOne p ≤ connectedSensors p c h := le_trans (trig_multMinusOne_le p hm) ht
  split_ifs
  · apply trig_scanFast_enough p h (connectedSensors p c h) hk _ [] [] true List.nodup_nil
      (by simpa using h1)
    rw [trig_connectedSensors_eq_card]
    simp only [List.toFinset_nil, Finset.empty_union]
    apply Finset.card_le_card
    intro a ha
    simp only [List.mem_toFinset, List.mem_map, List.mem_filter, Bool.and_eq_true] at ha ⊢
    obtain ⟨x, ⟨hx, _, hc⟩, e⟩ := ha
    exact ⟨x, ⟨hx, hc⟩, e⟩
  · apply trig_scanSlow_enough p h (connectedSensors p c h) hk _ [] [] true List.nodup_nil
      (by simpa using h1)
    rw [trig_connectedSensors_eq_card]
    simp

end hivetrigger

/-! ## The hits collected by the scan of `AddHitToCluster` -/

namespace hivesplitter
open detail

theorem scanFast_finished_mem (p : HiveSplitter_ParameterSet) (h : AbsHit) :
    ∀ (l : List AbsHit) (doms : List Nat) (hits : AbsHitSet) (ac : Bool) (hits2 : AbsHitSet)
      (ac2 : Bool), scanFast p h l doms hits ac = .finished hits2 ac2 →
      ∀ x, x ∈ hits2 ↔ x ∈ hits ∨ (x ∈ l ∧ CausallyConnected p x h = true) := by
  intro l
  induction l with
  | nil =>
    intro doms hits ac hits2 ac2 e x
    simp only [scanFast, Scan.finished.injEq] at e
    rw [← e.1]
    simp
  | cons y ys ih =>
    intro doms hits ac hits2 ac2 e x
    unfold scanFast at e
    by_cases hc : CausallyConnected p y h = true
    · rw [if_pos hc] at e
      simp only at e
      split_ifs at e
      rw [ih _ _ _ _ _ e x, AbsHitSet_mem_insert, List.mem_cons]
      constructor
      · rintro ((h1 | h1) | ⟨h1, h2⟩)
        · exact Or.inr ⟨Or.inl h1, h1 ▸ hc⟩
        · exact Or.inl h1
        · exact Or.inr ⟨Or.inr h1, h2⟩
      · rintro (h1 | ⟨h1 | h1, h2⟩)
        · exact Or.inl (Or.inr h1)
        · exact Or.inl (Or.inl h1)
        · exact Or.inr ⟨h1, h2⟩
    · rw [if_neg hc] at e
      rw [ih _ _ _ _ _ e x, List.mem_cons]
      constructor
      · rintro (h1 | ⟨h1, h2⟩)
        · exact Or.inl h1
        · exact Or.inr ⟨Or.inr h1, h2⟩
      · rintro (h1 | ⟨h1 | h1, h2⟩)
        · exact Or.inl h1
        · exact absurd (h1 ▸ h2) hc
        · exact Or.inr ⟨h1, h2⟩

theorem mem_step_connected {x y : AbsHit} {hits ys : AbsHitSet} {R : AbsHit → Prop}
    (hy : R y) :
    ((x = y ∨ x ∈ hits) ∨ (x ∈ ys ∧ R x)) ↔ (x ∈ hits ∨ ((x = y ∨ x ∈ ys) ∧ R x)) := by
  constructor
  · rintro ((h1 | h1) | ⟨h1, h2⟩)
    · exact Or.inr ⟨Or.inl h1, h1 ▸ hy⟩
    · exact Or.inl h1
    · exact Or.inr ⟨Or.inr h1, h2⟩
  · rintro (h1 | ⟨h1 | h1, h2⟩)
    · exact Or.inl (Or.inr h1)
    · exact Or.inl (Or.inl h1)
    · exact Or.inr ⟨h1, h2⟩

theorem mem_step_disconnected {x y : AbsHit} {hits ys : AbsHitSet} {R : AbsHit → Prop}
    (hy : ¬ R y) :
    (x ∈ hits ∨ (x ∈ ys ∧ R x)) ↔ (x ∈ hits ∨ ((x = y ∨ x ∈ ys) ∧ R x)) := by
  constructor
  · rintro (h1 | ⟨h1, h2⟩)
    · exact Or.inl h1
    · exact Or.inr ⟨Or.inr h1, h2⟩
  · rintro (h1 | ⟨h1 | h1, h2⟩)
    · exact Or.inl h1
    · exact absurd (h1 ▸ h2) hy
    · exact Or.inr ⟨h1, h2⟩

theorem scanSlow_finished_mem (p : HiveSplitter_ParameterSet) (h : AbsHit) :
    ∀ (l : List AbsHit) (doms : List Nat) (hits : AbsHitSet) (ac : Bool) (hits2 : AbsHitSet)
      (ac2 : Bool), scanSlow p h l doms hits ac = .finished hits2 ac2 →
      ∀ x, x ∈ hits2 ↔ x ∈ hits ∨ (x ∈ l ∧ connectedToHit_spec p h x = true) := by
  intro l
  induction l with
  | nil =>
    intro doms hits ac hits2 ac2 e x
    simp only [scanSlow, Scan.finished.injEq] at e
    rw [← e.1]
    simp
  | cons y ys ih =>
    intro doms hits ac hits2 ac2 e x
    unfold scanSlow at e
    by_cases hd : y.dom = h.dom
    · rw [if_pos hd] at e
      simp only at e
      by_cases ha : leAccept p (h.time - y.time) = true
      · rw [if_pos ha] at e
        have hy : connectedToHit_spec p h y = true := by simp [connectedToHit_spec, hd, ha]
        rw [ih _ _ _ _ _ e x, AbsHitSet_mem_insert, List.mem_cons]
        exact mem_step_connected (R := fun z => connectedToHit_spec p h z = true) hy
      · rw [if_neg ha] at e
        by_cases hr : gtReject p (h.time - y.time) = true
        · rw [if_pos hr] at e
          have hy : ¬ connectedToHit_spec p h y = true := by
            simp [connectedToHit_spec, hd, ha, hr]
          rw [ih _ _ _ _ _ e x, List.mem_cons]
          exact mem_step_disconnected (R := fun z => connectedToHit_spec p h z = true) hy
        · rw [if_neg hr] at e
          by_cases hc : CausallyConnected p y h = true
          · rw [if_pos hc] at e
            have hy : connectedToHit_spec p h y = true := by
              simp [connectedToHit_spec, hd, ha, hr, hc]
            rw [ih _ _ _ _ _ e x, AbsHitSet_mem_insert, List.mem_cons]
            exact mem_step_connected (R := fun z => connectedToHit_spec p h z = true) hy
          · rw [if_neg hc] at e
            have hy : ¬ connectedToHit_spec p h y = true := by
              simp [connectedToHit_spec, hd, ha, hr, hc]
            rw [ih _ _ _ _ _ e x, List.mem_cons]
            exact mem_step_disconnected (R := fun z => connectedToHit_spec p h z = true) hy
    · rw [if_neg hd] at e
      by_cases hc : CausallyConnected p y h = true
      · rw [if_pos hc] at e
        simp only at e
        split_ifs at e
        have hy : connectedToHit_spec p h y = true := by simp [connectedToHit_spec, hd, hc]
        rw [ih _ _ _ _ _ e x, AbsHitSet_mem_insert, List.mem_cons]
        exact mem_step_connected (R := fun z => connectedToHit_spec p h z = true) hy
      · rw [if_neg hc] at e
        have hy : ¬ connectedToHit_spec p h y = true := by simp [connectedToHit_spec, hd, hc]
        rw [ih _ _ _ _ _ e x, List.mem_cons]
        exact mem_step_disconnected (R := fun z => connectedToHit_spec p h z = true) hy

/-- The active set of the sub-cluster that `AddHitToCluster` forms. -/
theorem newSubClusterOf_active (p : HiveSplitter_ParameterSet) (c : CausalCluster) (h : AbsHit)
    (n : CausalCluster)
    (hinv : ∀ x ∈ c.active_hits, DomMap.has c.firstHitTimes x.dom = true)
    (hn : newSubClusterOf p c h = some n) :
    ∀ x, x ∈ n.active_hits ↔
      x = h ∨ (x ∈ c.active_hits ∧ connectedToHit_spec p h x = true) := by
  intro x
  unfold newSubClusterOf at hn
  split_ifs at hn
  split at hn
  · exact absurd hn (by simp)
  · rename_i hits all hscan
    split_ifs at hn
    simp only [Option.some.injEq] at hn
    rw [← hn, (makeSubCluster_mem p hits h).1 x]
    unfold scanCluster at hscan
    split_ifs at hscan with hfast
    · rw [scanFast_finished_mem p h _ _ _ _ _ _ hscan x]
      simp only [List.not_mem_nil, false_or, List.mem_reverse]
      have hx : x ∈ c.active_hits → connectedToHit_spec p h x = CausallyConnected p x h := by
        intro hx
        have hne : x.dom ≠ h.dom := by
          intro e
          have := hinv x hx
          rw [e] at this
          rw [this] at hfast
          simp at hfast
        simp [connectedToHit_spec, hne]
      constructor
      · rintro (h1 | ⟨h1, h2⟩)
        · exact Or.inl h1
        · exact Or.inr ⟨h1, by rw [hx h1]; exact h2⟩
      · rintro (h1 | ⟨h1, h2⟩)
        · exact Or.inl h1
        · exact Or.inr ⟨h1, by rw [← hx h1]; exact h2⟩
    · rw [scanSlow_finished_mem p h _ _ _ _ _ _ hscan x]
      simp only [List.not_mem_nil, false_or, List.mem_reverse]

end hivesplitter

/-! ## Every sensor with an active hit has a recorded first-hit time -/

namespace hivesplitter
open detail

theorem FirstHitsRecorded_new : FirstHitsRecorded CausalCluster.new :=
  ⟨List.Pairwise.nil, fun d => by simp [CausalCluster.new, hitsOn],
    fun x hx => by simp [CausalCluster.new] at hx⟩

theorem FirstHitsRecorded_insert (p : HiveSplitter_ParameterSet) {c : CausalCluster}
    (hc : FirstHitsRecorded c) (h : AbsHit) : FirstHitsRecorded (c.insertActiveHit p h) := by
  obtain ⟨h1, h2, h3⟩ := hc
  refine ⟨?_, ?_, ?_⟩
  · rw [insertActiveHit_active]; exact AbsHitSet_insert_sorted h1
  · intro d
    have hd : (c.insertActiveHit p h).active_doms =
        DomMap.set c.active_doms h.dom (((c.active_doms.get? h.dom).getD 0) + 1) := rfl
    rw [insertActiveHit_active, hd, DomMap.get?_set]
    by_cases hm : h ∈ c.active_hits
    · rw [AbsHitSet_insert_of_mem_sorted h1 hm]
      by_cases e : d = h.dom
      · rw [if_pos e, Option.getD_some, e]
        exact Nat.le_succ_of_le (h2 h.dom)
      · rw [if_neg e]; exact h2 d
    · rw [hitsOn_insert d hm]
      by_cases e : d = h.dom
      · rw [if_pos e, Option.getD_some, if_pos e.symm, e]
        exact Nat.succ_le_succ (h2 h.dom)
      · rw [if_neg e, if_neg (fun e2 => e e2.symm)]; exact h2 d
  · intro x hx
    rw [insertActiveHit_active, AbsHitSet_mem_insert] at hx
    have hf : ∀ d, DomMap.has c.firstHitTimes d = true →
        DomMap.has (c.insertActiveHit p h).firstHitTimes d = true := by
      intro d hd
      unfold CausalCluster.insertActiveHit DomMap.has at *
      simp only
      split
      · rw [DomMap.get?_set]; split_ifs <;> simp [hd]
      · split_ifs
        · rw [DomMap.get?_set]; split_ifs <;> simp [hd]
        · exact hd
    have hh : DomMap.has (c.insertActiveHit p h).firstHitTimes h.dom = true := by
      unfold CausalCluster.insertActiveHit DomMap.has
      simp only
      split
      · rw [DomMap.get?_set]; simp
      · rename_i t ht
        split_ifs
        · rw [DomMap.get?_set]; simp
        · rw [ht]; rfl
    rcases hx with e | hx
    · rw [e]; exact hh
    · exact hf _ (h3 x hx)

theorem resyncFirstHit_has (h : AbsHit) (active : AbsHitSet) (fht : DomMap Int) (d : Nat)
    (hd : DomMap.has fht d = true) : DomMap.has (resyncFirstHit h active fht) d = true := by
  unfold resyncFirstHit
  induction active generalizing fht with
  | nil => exact hd
  | cons x xs ih =>
    rw [List.foldl_cons]
    apply ih
    split_ifs
    · unfold DomMap.has at *
      rw [DomMap.get?_set]
      split_ifs <;> simp [hd]
    · exact hd

theorem advanceLoop_firstHitsRecorded (p : HiveSplitter_ParameterSet) (time : Time)
    (est : Bool) :
    ∀ (active : AbsHitSet) (doms : DomMap Nat) (fht : DomMap Int) (concluded : AbsHitSet),
      (∀ d, hitsOn d active ≤ (doms.get? d).getD 0) →
      (∀ x ∈ active, DomMap.has fht x.dom = true) →
      (∀ d, hitsOn d (advanceLoop p time est active doms fht concluded).1 ≤
        ((advanceLoop p time est active doms fht concluded).2.1.get? d).getD 0) ∧
      ∀ x ∈ (advanceLoop p time est active doms fht concluded).1,
        DomMap.has (advanceLoop p time est active doms fht concluded).2.2.1 x.dom = true := by
  intro active
  induction active with
  | nil => intro doms fht concluded h2 h3; exact ⟨h2, h3⟩
  | cons h rest ih =>
    intro doms fht concluded h2 h3
    unfold advanceLoop
    by_cases hg : time.gtFin (h.time + p.multiplicityTimeWindow) = true
    · rw [if_pos hg]
      have hpos : 1 ≤ (doms.get? h.dom).getD 0 := by
        have := h2 h.dom
        rw [hitsOn_cons, if_pos rfl] at this
        omega
      have hcount : ∀ d, hitsOn d rest ≤ ((decrDom doms h.dom).get? d).getD 0 := by
        intro d
        have hd := h2 d
        rw [hitsOn_cons] at hd
        unfold decrDom
        simp only
        have hx0 : ¬ (doms.get? h.dom).getD 0 = 0 := by omega
        rw [if_neg hx0]
        by_cases e : d = h.dom
        · subst e
          rw [if_pos rfl] at hd
          split_ifs
          · rw [DomMap.get?_erase, if_pos rfl]
            simp only [Option.getD_none]
            omega
          · rw [DomMap.get?_set, if_pos rfl, Option.getD_some]
            omega
        · rw [if_neg (fun e2 => e e2.symm)] at hd
          split_ifs
          · rw [DomMap.get?_erase, if_neg e]; omega
          · rw [DomMap.get?_set, if_neg e]; omega
      have hrest : ∀ x ∈ rest, DomMap.has fht x.dom = true :=
        fun x hx => h3 x (List.mem_cons_of_mem _ hx)
      cases est with
      | true => exact ih _ _ _ hcount hrest
      | false =>
        simp only [Bool.false_eq_true, if_false]
        apply ih _ _ _ hcount
        intro x hx
        split_ifs with hhas
        · have hne : x.dom ≠ h.dom := by
            intro e
            have hc := hcount h.dom
            have hz : ((decrDom doms h.dom).get? h.dom).getD 0 = 0 := by
              unfold DomMap.has at hhas
              cases hq : (decrDom doms h.dom).get? h.dom with
              | none => rfl
              | some v => rw [hq] at hhas; simp at hhas
            have : 0 < hitsOn h.dom rest := (hitsOn_pos_iff _ _).2 ⟨x, hx, e⟩
            omega
          unfold DomMap.has
          rw [DomMap.get?_erase, if_neg hne]
          exact hrest x hx
        · exact resyncFirstHit_has h _ fht _ (hrest x hx)
    · rw [if_neg hg]; exact ⟨h2, h3⟩

theorem FirstHitsRecorded_advance (p : HiveSplitter_ParameterSet) {c : CausalCluster}
    (hc : FirstHitsRecorded c) (time : Time) : FirstHitsRecorded (c.advanceInTime p time) := by
  obtain ⟨h1, h2, h3⟩ := hc
  have hsuf := advanceLoop_active_suffix p time c.established c.active_hits c.active_doms
    c.firstHitTimes c.concluded_hits
  have := advanceLoop_firstHitsRecorded p time c.established c.active_hits c.active_doms
    c.firstHitTimes c.concluded_hits h2 h3
  exact ⟨List.Pairwise.sublist hsuf.sublist h1, this.1, this.2⟩

theorem FirstHitsRecorded_makeSubCluster (p : HiveSplitter_ParameterSet) (hits : AbsHitSet)
    (h : AbsHit) : FirstHitsRecorded (makeSubCluster p hits h) := by
  unfold makeSubCluster
  apply FirstHitsRecorded_insert
  have : ∀ (l : List AbsHit) (c : CausalCluster), FirstHitsRecorded c →
      FirstHitsRecorded (l.foldl (fun c x => c.insertActiveHit p x) c) := by
    intro l
    induction l with
    | nil => intro c hc; exact hc
    | cons y ys ih => intro c hc; exact ih _ (FirstHitsRecorded_insert p hc y)
  exact this hits _ FirstHitsRecorded_new

/-- A call of `AddHit` keeps the bookkeeping of the first-hit times, for every hit. -/
theorem AddHit_firstHitsRecorded (p : HiveSplitter_ParameterSet) (s : HiveSplitter)
    (h : AbsHit) (hs : ∀ c ∈ s.clusters_, FirstHitsRecorded c) :
    ∀ c ∈ (s.AddHit p h).clusters_, FirstHitsRecorded c := by
  apply AddHit_clusters_forall FirstHitsRecorded FirstHitsRecorded
  · intro c hc nc _ hnc
    have hadv := FirstHitsRecorded_advance p (hs c hc) (.fin h.time)
    exact AddHitToCluster_forall FirstHitsRecorded FirstHitsRecorded p _ h nc hadv
      (FirstHitsRecorded_insert p hadv h)
      (fun hits _ _ _ => FirstHitsRecorded_makeSubCluster p hits h) hnc
  · intro n c hn _ _
    exact hn
  · intro n hn; exact hn
  · exact FirstHitsRecorded_insert p FirstHitsRecorded_new h

/-- The bookkeeping of the first-hit times holds in every cluster of an engine that was
fed any list of hits, also after the cluster has been advanced in time. -/
theorem foldl_AddHit_firstHitsRecorded (p : HiveSplitter_ParameterSet) :
    ∀ (l : List AbsHit) (s : HiveSplitter), (∀ c ∈ s.clusters_, FirstHitsRecorded c) →
      ∀ c ∈ (l.foldl (fun s h => s.AddHit p h) s).clusters_, FirstHitsRecorded c := by
  intro l
  induction l with
  | nil => intro s hs; exact hs
  | cons h t ih =>
    intro s hs
    rw [List.foldl_cons]
    exact ih _ (AddHit_firstHitsRecorded p s h hs)

end hivesplitter

/-! ## The connector block and its cumulative relation -/

namespace connector

theorem Cumulative_new : ConnectorBlock.new.Cumulative := by
  intro a c
  rfl

theorem Cumulative_AddConnector {b : ConnectorBlock} (hb : b.Cumulative) (k : Connector) :
    (b.AddConnector k).Cumulative := by
  intro a c
  have h := hb a c
  simp only [ConnectorBlock.AddConnector, Relation.Join, Relation.AreRelated, List.any_append,
    List.any_cons, List.any_nil, Bool.or_false] at h ⊢
  rw [h]

theorem connectedEitherWay_eq_any (l : List Connector) (h1 h2 : AbsHit) :
    connectedEitherWay l h1 h2 = l.any (fun c => c.Connected h1 h2 || c.Connected h2 h1) := by
  induction l with
  | nil => rfl
  | cons c cs ih =>
    simp only [connectedEitherWay, List.any_cons, ih]
    cases c.Connected h1 h2 <;> cases c.Connected h2 h1 <;> simp

theorem connectedInOrder_eq_any (l : List Connector) (h1 h2 : AbsHit) :
    connectedInOrder l h1 h2 = l.any (fun c => c.Connected h1 h2) := by
  induction l with
  | nil => rfl
  | cons c cs ih =>
    simp only [connectedInOrder, List.any_cons, ih]
    cases c.Connected h1 h2 <;> simp

theorem Connected_related (c : Connector) (h1 h2 : AbsHit) (ht : h1.time ≠ h2.time)
    (hc : c.Connected h1 h2 = true) : c.relation_.AreRelated h1.dom h2.dom = true := by
  simp only [Connector.Connected, ht, if_false, Bool.and_eq_true] at hc
  exact hc.1

end connector

/-! ## The bookkeeping of a cluster built by insertions and advances -/

namespace hivesplitter
open detail

theorem BuiltFrom_invariant {p : HiveSplitter_ParameterSet} {l : List AbsHit}
    {c : CausalCluster} (hb : BuiltFrom p l c) :
    (∀ x ∈ c.active_hits, x ∈ l) ∧ Bookkept c.active_hits c.active_doms ∧
    FirstHitsRecorded c ∧
    (c.established = false → FirstHitsActive c.active_hits c.firstHitTimes) := by
  induction hb with
  | new =>
    refine ⟨fun x hx => by simp [CausalCluster.new] at hx, Bookkept_nil, FirstHitsRecorded_new,
      fun _ d hd => by simp [CausalCluster.new, DomMap.get?] at hd⟩
  | @insert l c h _ hn ih =>
    obtain ⟨hsub, hbk, hfr, hfa⟩ := ih
    have hna : h ∉ c.active_hits := fun hm => hn (hsub h hm)
    refine ⟨?_, Bookkept_insert hbk hna, FirstHitsRecorded_insert p hfr h, ?_⟩
    · intro x hx
      rw [insertActiveHit_active, AbsHitSet_mem_insert] at hx
      rcases hx with rfl | hx
      · exact List.mem_cons_self _ _
      · exact List.mem_cons_of_mem _ (hsub x hx)
    · intro hest
      have hc : c.established = false := by
        simp only [CausalCluster.insertActiveHit, Bool.or_eq_false_iff] at hest
        exact hest.1
      exact insertActiveHit_firstHitsActive p c h hna (hfa hc)
  | @advance l c time _ ih =>
    obtain ⟨hsub, hbk, hfr, hfa⟩ := ih
    refine ⟨fun x hx => hsub x (advanceLoop_active_subset p time _ _ _ _ _ x hx),
      advanceLoop_bookkept p time _ _ _ _ _ hbk, FirstHitsRecorded_advance p hfr time, ?_⟩
    intro hest
    have hc : c.established = false := hest
    have := advanceLoop_firstHits p time c.active_hits c.active_doms c.firstHitTimes
      c.concluded_hits hbk (hfa hc)
    simp only [CausalCluster.advanceInTime, hc]
    exact this

end hivesplitter

/-! ## Live clusters and their active sets -/

namespace hivesplitter
open detail

theorem active_of_isActive (p : HiveSplitter_ParameterSet)
    (hacc : ∀ a, p.acceptTimeWindow = some a → a ≤ p.multiplicityTimeWindow)
    (c : CausalCluster) (h : c.isActive p = true) : c.active_hits ≠ [] := by
  intro he
  unfold CausalCluster.isActive at h
  rw [if_neg (by simpa using he)] at h
  cases ha : p.acceptTimeWindow with
  | none => rw [ha] at h; simp at h
  | some a =>
    rw [ha] at h
    simp only [hacc a ha, if_true] at h
    exact absurd h (by simp)

theorem reconcile_append (h : AbsHit) :
    ∀ (ns1 ns2 cl : List CausalCluster),
      reconcile h (ns1 ++ ns2) cl = reconcile h ns2 (reconcile h ns1 cl) := by
  intro ns1
  induction ns1 with
  | nil => intro ns2 cl; rfl
  | cons n ns ih =>
    intro ns2 cl
    simp only [List.cons_append, reconcile]
    exact ih _ _

theorem insertActiveHit_active_ne_nil (p : HiveSplitter_ParameterSet) (c : CausalCluster)
    (h : AbsHit) : (c.insertActiveHit p h).active_hits ≠ [] := by
  intro he
  have : h ∈ (c.insertActiveHit p h).active_hits := by
    rw [insertActiveHit_active, AbsHitSet_mem_insert]
    exact Or.inl rfl
  rw [he] at this
  exact List.not_mem_nil _ this

theorem makeSubCluster_active_ne_nil (p : HiveSplitter_ParameterSet) (hits : AbsHitSet)
    (h : AbsHit) : (makeSubCluster p hits h).active_hits ≠ [] :=
  insertActiveHit_active_ne_nil p _ h

theorem addHitLoop_active_ne_nil (p : HiveSplitter_ParameterSet)
    (hacc : ∀ a, p.acceptTimeWindow = some a → a ≤ p.multiplicityTimeWindow) (h : AbsHit)
    (todo : List CausalCluster) (st : AddHitLoop)
    (hv : ∀ c ∈ st.visited, c.active_hits ≠ []) (hn : ∀ n ∈ st.newClusters, n.active_hits ≠ []) :
    (∀ c ∈ (addHitLoop p h todo st).visited, c.active_hits ≠ []) ∧
    (∀ n ∈ (addHitLoop p h todo st).newClusters, n.active_hits ≠ []) := by
  refine addHitLoop_forall (fun c => c.active_hits ≠ []) (fun c => c.active_hits ≠ []) p h todo
    st ?_ hv hn
  intro c _ nc hact hnc
  exact AddHitToCluster_forall (fun c => c.active_hits ≠ []) (fun c => c.active_hits ≠ []) p _ h
    nc (active_of_isActive p hacc _ hact) (insertActiveHit_active_ne_nil p _ h)
    (fun hits _ _ _ => makeSubCluster_active_ne_nil p hits h) hnc

end hivesplitter

/-! ## The overlap test of two hit sets -/

namespace DomMap

theorem get?_filter_of_nodup {V : Type} (f : Nat × V → Bool) :
    ∀ (m : DomMap V), (m.map Prod.fst).Nodup → ∀ k,
      get? (List.filter f m) k = (get? m k).filter (fun v => f (k, v)) := by
  intro m
  induction m with
  | nil => intro _ k; simp [get?]
  | cons a rest ih =>
    obtain ⟨ka, va⟩ := a
    intro hnd k
    rw [List.map_cons, List.nodup_cons] at hnd
    by_cases hf : f (ka, va) = true
    · rw [List.filter_cons_of_pos hf]
      by_cases e : ka = k
      · subst e
        simp [get?, Option.filter, hf]
      · simp only [get?, e, if_false]
        exact ih hnd.2 k
    · rw [List.filter_cons_of_neg hf]
      by_cases e : ka = k
      · subst e
        have hnone : get? rest ka = none := by
          cases hg : get? rest ka with
          | none => rfl
          | some v =>
            have := (mem_keys_iff rest ka).2 (by rw [hg]; rfl)
            exact absurd this hnd.1
        rw [ih hnd.2 ka, hnone]
        simp [get?, Option.filter, hf]
      · simp only [get?, e, if_false]
        exact ih hnd.2 k

theorem keys_nodup_filter {V : Type} (f : Nat × V → Bool) (m : DomMap V)
    (h : (m.map Prod.fst).Nodup) : ((List.filter f m).map Prod.fst).Nodup :=
  List.Nodup.sublist (List.Sublist.map _ (List.filter_sublist m)) h

theorem length_set_pos {V : Type} (m : DomMap V) (k : Nat) (v : V) : 1 ≤ (set m k v).length := by
  cases m with
  | nil => simp [set]
  | cons a rest =>
    obtain ⟨ka, va⟩ := a
    by_cases e : ka = k <;> simp [set, e]

end DomMap

namespace hivesplitter
namespace detail

theorem sorted_filter {l : AbsHitSet} (f : AbsHit → Bool)
    (hs : l.Pairwise (fun a b => a.lt b = true)) :
    (l.filter f).Pairwise (fun a b => a.lt b = true) :=
  List.Pairwise.sublist (List.filter_sublist l) hs

theorem overlapsLoop_eq_sweep (m : Nat) (w : Int) :
    ∀ (s1 s2 : AbsHitSet) (common : DomMap Int),
      s1.Pairwise (fun a b => a.lt b = true) → s2.Pairwise (fun a b => a.lt b = true) →
      overlapsLoop m w s1 s2 common =
        overlapsSweep m w (s1.filter (fun x => decide (x ∈ s2))) common := by
  intro s1
  induction s1 with
  | nil => intro s2 common _ _; rfl
  | cons x xs ih =>
    intro s2 common hxs hys
    rw [List.pairwise_cons] at hxs
    obtain ⟨d, h1, h2, h3⟩ := skipLess_split x s2
    have hnd : ∀ a, (a = x ∨ a ∈ xs) → a ∉ d := by
      intro a ha had
      have hlt := h2 a had
      rcases ha with rfl | ha
      · rw [AbsHit_lt_irrefl] at hlt
        exact absurd hlt (by simp)
      · have := AbsHit_lt_asymm (hxs.1 a ha)
        rw [hlt] at this
        exact absurd this (by simp)
    unfold overlapsLoop
    revert h1 h3
    cases skipLess x s2 with
    | nil =>
      intro h1 _
      simp only [List.append_nil] at h1
      have : (x :: xs).filter (fun x => decide (x ∈ s2)) = [] := by
        rw [List.filter_eq_nil_iff]
        intro a ha
        rw [List.mem_cons] at ha
        simpa [h1] using hnd a ha
      rw [this]
      rfl
    | cons z zs =>
      intro h1 h3
      have hzx := h3 z (by simp)
      rw [h1] at hys
      obtain ⟨_, hzs, _⟩ := List.pairwise_append.1 hys
      have hzs2 := hzs
      rw [List.pairwise_cons] at hzs2
      by_cases hxz : x.lt z = true
      · simp only [hxz, if_true]
        rw [ih (z :: zs) common hxs.2 hzs]
        have hx : x ∉ s2 := by
          rw [h1, List.mem_append, List.mem_cons]
          rintro (hx | hx | hx)
          · exact hnd x (Or.inl rfl) hx
          · subst hx
            rw [AbsHit_lt_irrefl] at hxz
            exact absurd hxz (by simp)
          · have := AbsHit_lt_asymm (hzs2.1 x hx)
            rw [hxz] at this
            exact absurd this (by simp)
        rw [List.filter_cons_of_neg (by simpa using hx)]
        congr 1
        apply List.filter_congr
        intro a ha
        have := hnd a (Or.inr ha)
        simp [h1, this]
      · have hxz2 : x.lt z = false := by simpa using hxz
        have e := AbsHit_eq_of_not_lt hxz2 hzx
        subst e
        simp only [hxz2, Bool.false_eq_true, if_false]
        have hx : x ∈ s2 := by rw [h1]; simp
        rw [List.filter_cons_of_pos (by simpa using hx)]
        have hfil : xs.filter (fun a => decide (a ∈ s2)) = xs.filter (fun a => decide (a ∈ zs)) := by
          apply List.filter_congr
          intro a ha
          have h4 := hnd a (Or.inr ha)
          have h5 : a ≠ x := by
            rintro rfl
            have := hxs.1 a ha
            rw [AbsHit_lt_irrefl] at this
            exact absurd this (by simp)
          simp [h1, h4, h5]
        rw [hfil]
        simp only [overlapsSweep]
        rw [ih zs _ hxs.2 hzs2.2]

theorem CommonKept_nil (w t : Int) : CommonKept w [] [] t :=
  ⟨List.nodup_nil, fun d v h => by simp [DomMap.get?] at h, fun y hy => by simp at hy⟩

theorem CommonKept_step {w : Int} (hw : 0 ≤ w) {common : DomMap Int} {done : List AbsHit}
    {t : Int} (hk : CommonKept w common done t) (x : AbsHit) (ht : t ≤ x.time)
    (hx : ∀ y ∈ done, y.time ≤ x.time) :
    CommonKept w
      (DomMap.set (common.filter (fun e => !decide (e.2 < x.time - w))) x.dom x.time)
      (done ++ [x]) x.time := by
  obtain ⟨hnd, hval, hall⟩ := hk
  have hget : ∀ d, (DomMap.set (common.filter (fun e => !decide (e.2 < x.time - w)))
        x.dom x.time).get? d =
      if d = x.dom then some x.time
      else (common.get? d).filter (fun v => !decide (v < x.time - w)) := by
    intro d
    rw [DomMap.get?_set, DomMap.get?_filter_of_nodup _ common hnd]
  refine ⟨DomMap.keys_nodup_set _ _ _ (DomMap.keys_nodup_filter _ _ hnd), ?_, ?_⟩
  · intro d v hg
    rw [hget] at hg
    by_cases e : d = x.dom
    · rw [if_pos e] at hg
      have hv : x.time = v := by simpa using hg
      subst hv
      refine ⟨by omega, ⟨x, by simp, e.symm, rfl⟩, ?_⟩
      intro y hy _
      rw [List.mem_append, List.mem_singleton] at hy
      rcases hy with hy | rfl
      · exact hx y hy
      · exact le_refl _
    · rw [if_neg e] at hg
      cases hc : common.get? d with
      | none => rw [hc] at hg; simp [Option.filter] at hg
      | some v0 =>
        rw [hc] at hg
        simp only [Option.filter] at hg
        split_ifs at hg with hf
        · have hv : v0 = v := by simpa using hg
          subst hv
          obtain ⟨_, ⟨y, hy, hyd, hyt⟩, hmax⟩ := hval d v0 hc
          refine ⟨by simpa using hf, ⟨y, by simp [hy], hyd, hyt⟩, ?_⟩
          intro y2 hy2 hd2
          rw [List.mem_append, List.mem_singleton] at hy2
          rcases hy2 with hy2 | rfl
          · exact hmax y2 hy2 hd2
          · exact absurd hd2.symm e
  · intro y hy hyt
    rw [hget]
    by_cases e : y.dom = x.dom
    · rw [if_pos e]; rfl
    · rw [if_neg e]
      rw [List.mem_append, List.mem_singleton] at hy
      rcases hy with hy | rfl
      · have h1 : t - w ≤ y.time := by omega
        have h2 := hall y hy h1
        cases hc : common.get? y.dom with
        | none => rw [hc] at h2; simp at h2
        | some v0 =>
          obtain ⟨_, _, hmax⟩ := hval y.dom v0 hc
          have := hmax y hy rfl
          have hf : (!decide (v0 < x.time - w)) = true := by
            simp only [Bool.not_eq_true', decide_eq_false_iff_not, not_lt]
            omega
          simp [Option.filter, hf]
      · exact absurd rfl e

theorem CommonKept_length {w : Int} {common : DomMap Int} {done : List AbsHit} {t : Int}
    (hk : CommonKept w common done t) : common.length = (sensorsSince done (t - w)).card := by
  obtain ⟨hnd, hval, hall⟩ := hk
  have h1 : common.length = (common.map Prod.fst).toFinset.card := by
    rw [List.toFinset_card_of_nodup hnd, List.length_map]
  rw [h1]
  congr 1
  ext d
  simp only [sensorsSince, List.mem_toFinset, List.mem_map, List.mem_filter,
    decide_eq_true_eq]
  rw [show (∃ a, a ∈ common ∧ a.1 = d) ↔ d ∈ common.map Prod.fst by simp [List.mem_map],
    DomMap.mem_keys_iff]
  constructor
  · intro hs
    cases hc : common.get? d with
    | none => rw [hc] at hs; simp at hs
    | some v =>
      obtain ⟨hv, ⟨y, hy, hyd, hyt⟩, _⟩ := hval d v hc
      exact ⟨y, ⟨hy, by omega⟩, hyd⟩
  · rintro ⟨y, ⟨hy, hyt⟩, rfl⟩
    exact hall y hy hyt

theorem overlapsSweep_iff (m : Nat) {w : Int} (hw : 0 ≤ w) :
    ∀ (l done : List AbsHit) (common : DomMap Int) (t : Int),
      CommonKept w common done t → (done ++ l).Pairwise (fun a b => a.lt b = true) →
      (∀ y ∈ l, t ≤ y.time) →
      (overlapsSweep m w l common = true ↔
        ∃ l1 x l2, l = l1 ++ x :: l2 ∧
          m ≤ (sensorsSince (done ++ l1 ++ [x]) (x.time - w)).card) := by
  intro l
  induction l with
  | nil =>
    intro done common t _ _ _
    simp [overlapsSweep]
  | cons x xs ih =>
    intro done common t hk hs ht
    have hxd : ∀ y ∈ done, y.time ≤ x.time := by
      intro y hy
      have := (List.pairwise_append.1 hs).2.2 y hy x (List.mem_cons_self _ _)
      exact AbsHit_time_le_of_lt this
    have hk1 := CommonKept_step hw hk x (ht x (List.mem_cons_self _ _)) hxd
    have hlen := CommonKept_length hk1
    have hs1 : ((done ++ [x]) ++ xs).Pairwise (fun a b => a.lt b = true) := by
      simpa using hs
    have ht1 : ∀ y ∈ xs, x.time ≤ y.time := by
      intro y hy
      have h2 := (List.pairwise_append.1 hs).2.1
      rw [List.pairwise_cons] at h2
      exact AbsHit_time_le_of_lt (h2.1 y hy)
    have ih1 := ih (done ++ [x]) _ x.time hk1 hs1 ht1
    simp only [overlapsSweep]
    by_cases hge : (DomMap.set (common.filter (fun e => !decide (e.2 < x.time - w)))
        x.dom x.time).length ≥ m
    · rw [if_pos hge]
      simp only [true_iff]
      refine ⟨[], x, xs, rfl, ?_⟩
      rw [hlen] at hge
      simpa using hge
    · rw [if_neg hge, ih1]
      constructor
      · rintro ⟨l1, y, l2, e, hc⟩
        refine ⟨x :: l1, y, l2, by rw [e]; rfl, ?_⟩
        simpa using hc
      · rintro ⟨l1, y, l2, e, hc⟩
        cases l1 with
        | nil =>
          simp only [List.nil_append, List.cons.injEq] at e
          obtain ⟨rfl, rfl⟩ := e
          rw [hlen] at hge
          simp only [List.append_nil] at hc
          exact absurd hc hge
        | cons a l1 =>
          simp only [List.cons_append, List.cons.injEq] at e
          obtain ⟨rfl, rfl⟩ := e
          exact ⟨l1, y, l2, rfl, by simpa using hc⟩

theorem sorted_split_at_time :
    ∀ (l : AbsHitSet), l.Pairwise (fun a b => a.lt b = true) → ∀ t : Int,
      (∃ c ∈ l, c.time = t) →
      ∃ l1 x l2, l = l1 ++ x :: l2 ∧ x.time = t ∧ ∀ y ∈ l2, t < y.time := by
  intro l
  induction l with
  | nil => intro _ t h; simp at h
  | cons a l ih =>
    intro hs t hc
    rw [List.pairwise_cons] at hs
    by_cases h : ∃ c ∈ l, c.time = t
    · obtain ⟨l1, x, l2, e, hx, hl2⟩ := ih hs.2 t h
      exact ⟨a :: l1, x, l2, by rw [e]; rfl, hx, hl2⟩
    · have ha : a.time = t := by
        obtain ⟨c, hc, hct⟩ := hc
        rcases List.mem_cons.1 hc with rfl | hc
        · exact hct
        · exact absurd ⟨c, hc, hct⟩ h
      refine ⟨[], a, l, rfl, ha, ?_⟩
      intro y hy
      have h1 := AbsHit_time_le_of_lt (hs.1 y hy)
      have h2 : y.time ≠ t := fun e => h ⟨y, hy, e⟩
      omega

theorem overlapsSweep_iff_spec (m : Nat) {w : Int} (hw : 0 ≤ w) (l : AbsHitSet)
    (hs : l.Pairwise (fun a b => a.lt b = true)) :
    overlapsSweep m w l [] = true ↔
      ∃ c ∈ l, m ≤ ((l.filter (fun y => decide (c.time - w ≤ y.time) &&
        decide (y.time ≤ c.time))).map (fun y => y.dom)).toFinset.card := by
  have hstart : ∃ t : Int, ∀ y ∈ l, t ≤ y.time := by
    cases l with
    | nil => exact ⟨0, fun y hy => by simp at hy⟩
    | cons a l =>
      rw [List.pairwise_cons] at hs
      refine ⟨a.time, fun y hy => ?_⟩
      rcases List.mem_cons.1 hy with rfl | hy
      · exact le_refl _
      · exact AbsHit_time_le_of_lt (hs.1 y hy)
  obtain ⟨t, ht⟩ := hstart
  rw [overlapsSweep_iff m hw l [] [] t (CommonKept_nil w t) (by simpa using hs) ht]
  constructor
  · rintro ⟨l1, x, l2, e, hc⟩
    refine ⟨x, by rw [e]; simp, le_trans hc (Finset.card_le_card ?_)⟩
    intro d hd
    simp only [sensorsSince, List.nil_append, List.mem_toFinset, List.mem_map, List.mem_filter,
      decide_eq_true_eq, Bool.and_eq_true] at hd ⊢
    obtain ⟨y, ⟨hy, hlo⟩, hyd⟩ := hd
    refine ⟨y, ⟨?_, hlo, ?_⟩, hyd⟩
    · rw [e]
      rw [List.mem_append, List.mem_singleton] at hy
      rcases hy with hy | rfl
      · simp [hy]
      · simp
    · rw [List.mem_append, List.mem_singleton] at hy
      rcases hy with hy | rfl
      · rw [e] at hs
        exact AbsHit_time_le_of_lt
          ((List.pairwise_append.1 hs).2.2 y hy x (List.mem_cons_self _ _))
      · exact le_refl _
  · rintro ⟨c, hc, hm⟩
    obtain ⟨l1, x, l2, e, hx, hl2⟩ := sorted_split_at_time l hs c.time ⟨c, hc, rfl⟩
    refine ⟨l1, x, l2, e, le_trans hm (Finset.card_le_card ?_)⟩
    intro d hd
    simp only [sensorsSince, List.nil_append, List.mem_toFinset, List.mem_map, List.mem_filter,
      decide_eq_true_eq, Bool.and_eq_true] at hd ⊢
    obtain ⟨y, ⟨hy, hlo, hhi⟩, hyd⟩ := hd
    refine ⟨y, ⟨?_, by rw [hx]; exact hlo⟩, hyd⟩
    rw [e, List.mem_append, List.mem_cons] at hy
    rcases hy with hy | rfl | hy
    · simp [hy]
    · simp
    · have := hl2 y hy
      omega

theorem overlapsSweep_one (w : Int) (l : List AbsHit) (common : DomMap Int) :
    overlapsSweep 1 w l common = true ↔ l ≠ [] := by
  cases l with
  | nil => simp [overlapsSweep]
  | cons x xs =>
    simp only [overlapsSweep, ge_iff_le, DomMap.length_set_pos, if_true, ne_eq,
      not_false_eq_true, reduceCtorEq]

theorem CausallyOverlaps_one_iff (s1 s2 : AbsHitSet) (w : Int)
    (h1 : s1.Pairwise (fun a b => a.lt b = true)) (h2 : s2.Pairwise (fun a b => a.lt b = true)) :
    CausallyOverlaps s1 s2 1 w = true ↔ ∃ c ∈ s1, c ∈ s2 := by
  unfold CausallyOverlaps
  rw [overlapsLoop_eq_sweep 1 w s1 s2 [] h1 h2, overlapsSweep_one, ne_eq,
    List.filter_eq_nil_iff]
  simp

theorem CausallyOverlaps_iff_spec (s1 s2 : AbsHitSet) (m : Nat) {w : Int} (hw : 0 ≤ w)
    (h1 : s1.Pairwise (fun a b => a.lt b = true)) (h2 : s2.Pairwise (fun a b => a.lt b = true)) :
    CausallyOverlaps s1 s2 m w = CausallyOverlaps_spec s1 s2 m w := by
  rw [Bool.eq_iff_iff]
  unfold CausallyOverlaps
  rw [overlapsLoop_eq_sweep m w s1 s2 [] h1 h2,
    overlapsSweep_iff_spec m hw _ (sorted_filter _ h1)]
  simp only [CausallyOverlaps_spec, commonSensorsUpTo, List.any_eq_true, Bool.and_eq_true,
    decide_eq_true_eq, List.mem_filter, List.filter_filter, ← List.card_toFinset]
  constructor
  · rintro ⟨c, ⟨hc1, hc2⟩, hm⟩
    refine ⟨c, hc1, hc2, ?_⟩
    convert hm using 5
    funext y
    cases decide (y ∈ s2) <;> cases decide (c.time - w ≤ y.time) <;>
      cases decide (y.time ≤ c.time) <;> rfl
  · rintro ⟨c, hc1, hc2, hm⟩
    refine ⟨c, ⟨hc1, hc2⟩, ?_⟩
    convert hm using 5
    funext y
    cases decide (y ∈ s2) <;> cases decide (c.time - w ≤ y.time) <;>
      cases decide (y.time ≤ c.time) <;> rfl

end detail
end hivesplitter

/-! ## Merging with overlap one keeps the subevents disjoint -/

namespace hivesplitter
open detail

theorem disjointSets_symm {a b : AbsHitSet} (h : disjointSets a b) : disjointSets b a :=
  fun x hx hxa => h x hxa hx

theorem or_insert_middle {A B C D S : Prop} (h : (A ∨ B) ↔ (C ∨ D)) :
    (A ∨ S ∨ B) ↔ (C ∨ S ∨ D) := by
  tauto

theorem mergeLoop_disjoint (p : HiveSplitter_ParameterSet) (hm : p.mergeOverlap = 1) :
    ∀ (l : List AbsHitSet) (newSet : AbsHitSet),
      newSet.Pairwise (fun a b => a.lt b = true) →
      (∀ e ∈ l, e.Pairwise (fun a b => a.lt b = true)) → l.Pairwise disjointSets →
      (mergeLoop p newSet l).1.Pairwise (fun a b => a.lt b = true) ∧
      (mergeLoop p newSet l).2.Sublist l ∧
      (∀ x, (x ∈ (mergeLoop p newSet l).1 ∨ ∃ e ∈ (mergeLoop p newSet l).2, x ∈ e) ↔
        (x ∈ newSet ∨ ∃ e ∈ l, x ∈ e)) ∧
      (∀ x ∈ (mergeLoop p newSet l).1, x ∈ newSet ∨ ∃ e ∈ l, x ∈ e) ∧
      (∀ x ∈ newSet, x ∈ (mergeLoop p newSet l).1) ∧
      ∀ e ∈ (mergeLoop p newSet l).2, disjointSets e (mergeLoop p newSet l).1 := by
  intro l
  induction l with
  | nil =>
    intro newSet hn _ _
    simp [mergeLoop, hn]
  | cons s rest ih =>
    intro newSet hn hl hd
    rw [List.pairwise_cons] at hd
    have hs := hl s (List.mem_cons_self _ _)
    have hrest : ∀ e ∈ rest, e.Pairwise (fun a b => a.lt b = true) :=
      fun e he => hl e (List.mem_cons_of_mem _ he)
    by_cases ho : CausallyOverlaps newSet s p.mergeOverlap p.multiplicityTimeWindow = true
    · have e1 : mergeLoop p newSet (s :: rest) =
          mergeLoop p (AbsHitSet.insertAll newSet s) rest := by
        simp [mergeLoop, ho]
      rw [e1]
      obtain ⟨h0, h1, h2, h3, h4, h5⟩ := ih (AbsHitSet.insertAll newSet s)
        (AbsHitSet_insertAll_sorted hn) hrest hd.2
      refine ⟨h0, List.Sublist.cons _ h1, ?_, ?_, ?_, h5⟩
      · intro x
        rw [h2 x, AbsHitSet_mem_insertAll]
        simp only [List.mem_cons, exists_eq_or_imp]
        tauto
      · intro x hx
        rcases h3 x hx with h | ⟨e, he, hxe⟩
        · rw [AbsHitSet_mem_insertAll] at h
          rcases h with h | h
          · exact Or.inl h
          · exact Or.inr ⟨s, List.mem_cons_self _ _, h⟩
        · exact Or.inr ⟨e, List.mem_cons_of_mem _ he, hxe⟩
      · intro x hx
        exact h4 x (AbsHitSet_mem_insertAll.2 (Or.inl hx))
    · have e1 : mergeLoop p newSet (s :: rest) =
          ((mergeLoop p newSet rest).1, s :: (mergeLoop p newSet rest).2) := by
        simp [mergeLoop, ho]
      rw [e1]
      obtain ⟨h0, h1, h2, h3, h4, h5⟩ := ih newSet hn hrest hd.2
      have hno : disjointSets s newSet := by
        intro x hxs hxn
        apply ho
        rw [hm, CausallyOverlaps_one_iff newSet s _ hn hs]
        exact ⟨x, hxn, hxs⟩
      refine ⟨h0, List.Sublist.cons₂ _ h1, ?_, ?_, h4, ?_⟩
      · intro x
        simp only [List.mem_cons, exists_eq_or_imp]
        exact or_insert_middle (h2 x)
      · intro x hx
        rcases h3 x hx with h | ⟨e, he, hxe⟩
        · exact Or.inl h
        · exact Or.inr ⟨e, List.mem_cons_of_mem _ he, hxe⟩
      · intro e he
        rcases List.mem_cons.1 he with rfl | he
        · intro x hxe hx
          rcases h3 x hx with h | ⟨e2, he2, hxe2⟩
          · exact hno x hxe h
          · exact hd.1 e2 he2 x hxe hxe2
        · exact h5 e he

theorem pairwise_disjoint_split (f : AbsHitSet → Bool) (l : List AbsHitSet)
    (h : l.Pairwise disjointSets) :
    (l.filter (fun s => !f s) ++ l.filter f).Pairwise disjointSets := by
  have hp : (l.filter (fun s => !f s) ++ l.filter f).Perm l := by
    have := List.filter_append_perm f l
    exact (List.perm_append_comm).trans this
  exact (List.Perm.pairwise_iff (fun {a b} hab => disjointSets_symm hab) hp).2 h

theorem AddSubEvent_disjoint (p : HiveSplitter_ParameterSet) (hm : p.mergeOverlap = 1)
    (clusters : List CausalCluster) (newSet : AbsHitSet) (pa : List AbsHitSet)
    (su : AbsHitSetSequence) (hn : newSet.Pairwise (fun a b => a.lt b = true))
    (hpa : ∀ e ∈ pa, e.Pairwise (fun a b => a.lt b = true)) (hd : pa.Pairwise disjointSets) :
    ∃ promoted, (AddSubEvent p clusters newSet pa su).2 = su ++ promoted ∧
      ((AddSubEvent p clusters newSet pa su).1 ++ promoted).Pairwise disjointSets ∧
      (∀ x, (∃ e ∈ (AddSubEvent p clusters newSet pa su).1 ++ promoted, x ∈ e) ↔
        (x ∈ newSet ∨ ∃ e ∈ pa, x ∈ e)) ∧
      (∀ e ∈ promoted, endsBefore (earliestUpcomingTime clusters) e = true ∧
        earliestUpcomingTime clusters ≠ Time.pinf) := by
  obtain ⟨_, h1, h2, _, _, h5⟩ := mergeLoop_disjoint p hm pa newSet hn hpa hd
  have hpool : ((mergeLoop p newSet pa).2 ++ [(mergeLoop p newSet pa).1]).Pairwise
      disjointSets := by
    rw [List.pairwise_append]
    refine ⟨List.Pairwise.sublist h1 hd, List.pairwise_singleton _ _, ?_⟩
    intro e he n hn2
    rw [List.mem_singleton] at hn2
    subst hn2
    exact h5 e he
  have hmem : ∀ x, (∃ e ∈ (mergeLoop p newSet pa).2 ++ [(mergeLoop p newSet pa).1], x ∈ e) ↔
      (x ∈ newSet ∨ ∃ e ∈ pa, x ∈ e) := by
    intro x
    rw [← h2 x]
    simp only [List.mem_append, List.mem_singleton]
    constructor
    · rintro ⟨e, he | rfl, hx⟩
      · exact Or.inr ⟨e, he, hx⟩
      · exact Or.inl hx
    · rintro (hx | ⟨e, he, hx⟩)
      · exact ⟨_, Or.inr rfl, hx⟩
      · exact ⟨e, Or.inl he, hx⟩
  unfold AddSubEvent
  by_cases he : earliestUpcomingTime clusters ≠ Time.pinf
  · rw [if_pos he]
    refine ⟨_, rfl, pairwise_disjoint_split _ _ hpool, ?_, ?_⟩
    · intro x
      rw [← hmem x]
      simp only [List.mem_append, List.mem_filter]
      constructor
      · rintro ⟨e, (⟨he1, _⟩ | ⟨he1, _⟩), hx⟩
        · exact ⟨e, he1, hx⟩
        · exact ⟨e, he1, hx⟩
      · rintro ⟨e, he1, hx⟩
        by_cases hf : endsBefore (earliestUpcomingTime clusters) e = true
        · exact ⟨e, Or.inr ⟨he1, hf⟩, hx⟩
        · exact ⟨e, Or.inl ⟨he1, by simpa using hf⟩, hx⟩
    · intro e he1
      exact ⟨(List.mem_filter.1 he1).2, he⟩
  · rw [if_neg he]
    refine ⟨[], by simp, by simpa using hpool, ?_, by simp⟩
    intro x
    rw [← hmem x]
    simp

end hivesplitter

/-! ## Established clusters hold hits -/

namespace hivesplitter
open detail

theorem hitSet_ne_nil_of_mem {x : AbsHit} {l : AbsHitSet} (h : x ∈ l) : l ≠ [] := by
  intro e
  rw [e] at h
  exact List.not_mem_nil _ h

theorem Stocked_advance {p : HiveSplitter_ParameterSet} {c : CausalCluster} (hc : Stocked c)
    (time : Time) : Stocked (c.advanceInTime p time) := by
  intro hest
  have hest2 : c.established = true := hest
  obtain ⟨h1, _, h3⟩ := advanceLoop_mem p time c.established c.active_hits c.active_doms
    c.firstHitTimes c.concluded_hits
  rcases hc hest2 with ha | hcn
  · obtain ⟨x, hx⟩ := List.exists_mem_of_ne_nil _ ha
    rcases h3 hest2 x hx with h | h
    · exact Or.inr (hitSet_ne_nil_of_mem h)
    · exact Or.inl (hitSet_ne_nil_of_mem h)
  · obtain ⟨x, hx⟩ := List.exists_mem_of_ne_nil _ hcn
    exact Or.inr (hitSet_ne_nil_of_mem (h1 x hx))

theorem Stocked_of_active {c : CausalCluster} (h : c.active_hits ≠ []) : Stocked c :=
  fun _ => Or.inl h

theorem Stocked_takeConcludedHits {c : CausalCluster} (hc : Stocked c) (other : CausalCluster) :
    Stocked (c.takeConcludedHits other) := by
  intro hest
  rcases hc hest with ha | hcn
  · exact Or.inl ha
  · obtain ⟨x, hx⟩ := List.exists_mem_of_ne_nil _ hcn
    refine Or.inr (hitSet_ne_nil_of_mem (x := x) ?_)
    simp only [CausalCluster.takeConcludedHits]
    exact AbsHitSet_mem_insertAll.2 (Or.inl hx)

theorem AddHit_stocked (p : HiveSplitter_ParameterSet) (s : HiveSplitter) (h : AbsHit)
    (hs : ∀ c ∈ s.clusters_, Stocked c) : ∀ c ∈ (s.AddHit p h).clusters_, Stocked c := by
  apply AddHit_clusters_forall Stocked Stocked
  · intro c hc nc _ hnc
    exact AddHitToCluster_forall Stocked Stocked p _ h nc (Stocked_advance (hs c hc) _)
      (Stocked_of_active (insertActiveHit_active_ne_nil p _ h))
      (fun hits _ _ _ => Stocked_of_active (makeSubCluster_active_ne_nil p hits h)) hnc
  · intro n c hn _ _
    exact Stocked_takeConcludedHits hn c
  · intro n hn; exact hn
  · exact Stocked_of_active (insertActiveHit_active_ne_nil p _ h)

theorem insertAll_ne_nil {a b : AbsHitSet} (ha : a ≠ []) : AbsHitSet.insertAll a b ≠ [] := by
  obtain ⟨x, hx⟩ := List.exists_mem_of_ne_nil _ ha
  exact hitSet_ne_nil_of_mem (AbsHitSet_mem_insertAll.2 (Or.inl hx))

theorem concluded_ne_nil_of_stocked {c : CausalCluster} (hc : Stocked c)
    (hest : c.established = true) (ha : c.active_hits = []) : c.concluded_hits ≠ [] := by
  rcases hc hest with h | h
  · exact absurd ha h
  · exact h

theorem foldl_AddHit_stocked (p : HiveSplitter_ParameterSet) :
    ∀ (l : List AbsHit) (s : HiveSplitter), (∀ c ∈ s.clusters_, Stocked c) →
      (∀ e ∈ s.partialSubEvents_, e ≠ []) → (∀ e ∈ s.subEvents_, e ≠ []) →
      (∀ c ∈ (l.foldl (fun s h => s.AddHit p h) s).clusters_, Stocked c) ∧
      (∀ e ∈ (l.foldl (fun s h => s.AddHit p h) s).partialSubEvents_, e ≠ []) ∧
      (∀ e ∈ (l.foldl (fun s h => s.AddHit p h) s).subEvents_, e ≠ []) := by
  intro l
  induction l with
  | nil => intro s h1 h2 h3; exact ⟨h1, h2, h3⟩
  | cons h t ih =>
    intro s h1 h2 h3
    rw [List.foldl_cons]
    have hp := AddHit_pools_forall (fun e => e ≠ []) p s h (fun a b ha _ => insertAll_ne_nil ha)
      (by
        intro c hc hest hact
        exact concluded_ne_nil_of_stocked (Stocked_advance (h1 c hc) _) hest
          (active_nil_of_not_isActive p _ hact))
      h2 h3
    exact ih _ (AddHit_stocked p s h h1) hp.1 hp.2

theorem Split_subevents_ne_nil (p : HiveSplitter_ParameterSet) (inhits : AbsHitSet) :
    ∀ e ∈ HiveSplitter.Split p inhits, e ≠ [] := by
  have := foldl_AddHit_stocked p inhits HiveSplitter.cleared
    (by intro c hc; simp [HiveSplitter.cleared] at hc)
    (by intro e he; simp [HiveSplitter.cleared] at he)
    (by intro e he; simp [HiveSplitter.cleared] at he)
  unfold HiveSplitter.Split
  apply FinalizeSubEvents_forall (fun e => e ≠ []) p _ (fun a b ha _ => insertAll_ne_nil ha) _
    this.2.1 this.2.2
  intro c hc hest
  refine concluded_ne_nil_of_stocked (Stocked_advance (this.1 c hc) _) hest ?_
  exact advanceLoop_pinf p _ _ _ _ _

theorem Split_hits_of_input (p : HiveSplitter_ParameterSet) (inhits : AbsHitSet) :
    ∀ e ∈ HiveSplitter.Split p inhits, ∀ x ∈ e, x ∈ inhits := by
  have := foldl_AddHit_hitsIn p (fun x => x ∈ inhits) inhits HiveSplitter.cleared
    (fun h hh => hh)
    (by intro c hc; simp [HiveSplitter.cleared] at hc)
    (by intro e he; simp [HiveSplitter.cleared] at he)
    (by intro e he; simp [HiveSplitter.cleared] at he)
  unfold HiveSplitter.Split
  intro e he
  refine (FinalizeSubEvents_forall
    (fun e => (∀ x ∈ e, x ∈ inhits) ∧ e.Pairwise (fun a b => a.lt b = true)) p _ ?_ ?_
    this.2.1 this.2.2 e he).1
  · intro a b ha hb
    refine ⟨?_, AbsHitSet_insertAll_sorted ha.2⟩
    intro x hx
    rcases AbsHitSet_mem_insertAll.1 hx with h4 | h4
    · exact ha.1 x h4
    · exact hb.1 x h4
  · intro c hc _
    exact ⟨(HitsIn_advance (this.1 c hc) _).2.1, (HitsIn_advance (this.1 c hc) _).2.2⟩

end hivesplitter

/-! ## The cluster list after `AddHit` -/

namespace hivesplitter
open detail

theorem scanFast_not_all (p : HiveSplitter_ParameterSet) (h : AbsHit) :
    ∀ (l : List AbsHit) (doms : List Nat) (hits : AbsHitSet) (ac : Bool) (hits2 : AbsHitSet),
      scanFast p h l doms hits ac = .finished hits2 false →
      ac = false ∨ ∃ x ∈ l, CausallyConnected p x h = false := by
  intro l
  induction l with
  | nil =>
    intro doms hits ac hits2 e
    simp only [scanFast, Scan.finished.injEq] at e
    exact Or.inl e.2
  | cons y ys ih =>
    intro doms hits ac hits2 e
    unfold scanFast at e
    by_cases hc : CausallyConnected p y h = true
    · rw [if_pos hc] at e
      simp only at e
      split_ifs at e
      rcases ih _ _ _ _ e with h1 | ⟨x, hx, h2⟩
      · exact Or.inl h1
      · exact Or.inr ⟨x, List.mem_cons_of_mem _ hx, h2⟩
    · exact Or.inr ⟨y, List.mem_cons_self _ _, by simpa using hc⟩

theorem scanSlow_not_all (p : HiveSplitter_ParameterSet) (h : AbsHit) :
    ∀ (l : List AbsHit) (doms : List Nat) (hits : AbsHitSet) (ac : Bool) (hits2 : AbsHitSet),
      scanSlow p h l doms hits ac = .finished hits2 false →
      ac = false ∨ ∃ x ∈ l, connectedToHit_spec p h x = false := by
  intro l
  induction l with
  | nil =>
    intro doms hits ac hits2 e
    simp only [scanSlow, Scan.finished.injEq] at e
    exact Or.inl e.2
  | cons y ys ih =>
    intro doms hits ac hits2 e
    have hrec : ∀ doms1 hits1, scanSlow p h ys doms1 hits1 ac = .finished hits2 false →
        ac = false ∨ ∃ x ∈ y :: ys, connectedToHit_spec p h x = false := by
      intro doms1 hits1 e1
      rcases ih _ _ _ _ e1 with h1 | ⟨x, hx, h2⟩
      · exact Or.inl h1
      · exact Or.inr ⟨x, List.mem_cons_of_mem _ hx, h2⟩
    unfold scanSlow at e
    by_cases hd : y.dom = h.dom
    · rw [if_pos hd] at e
      simp only at e
      by_cases ha : leAccept p (h.time - y.time) = true
      · rw [if_pos ha] at e
        exact hrec _ _ e
      · rw [if_neg ha] at e
        by_cases hr : gtReject p (h.time - y.time) = true
        · exact Or.inr ⟨y, List.mem_cons_self _ _, by simp [connectedToHit_spec, hd, ha, hr]⟩
        · rw [if_neg hr] at e
          by_cases hc : CausallyConnected p y h = true
          · rw [if_pos hc] at e
            exact hrec _ _ e
          · exact Or.inr ⟨y, List.mem_cons_self _ _,
              by simp [connectedToHit_spec, hd, ha, hr, hc]⟩
    · rw [if_neg hd] at e
      by_cases hc : CausallyConnected p y h = true
      · rw [if_pos hc] at e
        simp only at e
        split_ifs at e
        exact hrec _ _ e
      · exact Or.inr ⟨y, List.mem_cons_self _ _, by simp [connectedToHit_spec, hd, hc]⟩

theorem scanCluster_not_all (p : HiveSplitter_ParameterSet) (c : CausalCluster) (h : AbsHit)
    (hinv : ∀ x ∈ c.active_hits, DomMap.has c.firstHitTimes x.dom = true)
    (hits : AbsHitSet) (hs : scanCluster p c h = .finished hits false) :
    ∃ x ∈ c.active_hits, connectedToHit_spec p h x = false := by
  unfold scanCluster at hs
  split_ifs at hs with hfast
  · rcases scanFast_not_all p h _ _ _ _ _ hs with h1 | ⟨x, hx, h2⟩
    · exact absurd h1 (by simp)
    · rw [List.mem_reverse] at hx
      refine ⟨x, hx, ?_⟩
      have hne : x.dom ≠ h.dom := by
        intro e
        have := hinv x hx
        rw [e] at this
        rw [this] at hfast
        simp at hfast
      simpa [connectedToHit_spec, hne] using h2
  · rcases scanSlow_not_all p h _ _ _ _ _ hs with h1 | ⟨x, hx, h2⟩
    · exact absurd h1 (by simp)
    · exact ⟨x, List.mem_reverse.1 hx, h2⟩

theorem AddHitToCluster_fst (p : HiveSplitter_ParameterSet) (c : CausalCluster) (h : AbsHit)
    (nc : List CausalCluster) :
    (AddHitToCluster p c h nc).1 = c.insertActiveHit p h ∨
    ((AddHitToCluster p c h nc).1 = c ∧ ∃ hits, scanCluster p c h = .finished hits false) := by
  unfold AddHitToCluster scanCluster
  by_cases hf : fastAccept p c h = true
  · rw [if_pos hf]; exact Or.inl rfl
  · rw [if_neg hf]
    simp only
    cases (if (!DomMap.has c.firstHitTimes h.dom) = true then
        scanFast p h c.active_hits.reverse [] [] true
      else scanSlow p h c.active_hits.reverse [] [] true) with
    | enough => exact Or.inl rfl
    | finished hits all =>
      simp only
      by_cases ha : all = true
      · rw [if_pos ha]; exact Or.inl rfl
      · rw [if_neg ha]
        have ha2 : all = false := by simpa using ha
        subst ha2
        by_cases he : hits.isEmpty = true
        · rw [if_pos he]; exact Or.inr ⟨rfl, hits, rfl⟩
        · rw [if_neg he]; exact Or.inr ⟨rfl, hits, rfl⟩

theorem AddHitToCluster_new_mem (p : HiveSplitter_ParameterSet) (c : CausalCluster)
    (h : AbsHit) (nc : List CausalCluster) :
    ∀ n ∈ (AddHitToCluster p c h nc).2.1, n ∈ nc ∨ newSubClusterOf p c h = some n := by
  intro n hn
  cases hsub : newSubClusterOf p c h with
  | none =>
    rcases AddHitToCluster_of_no_newSubCluster p c h nc hsub with e | e <;>
      · rw [e] at hn; exact Or.inl hn
  | some n0 =>
    rw [AddHitToCluster_of_newSubCluster p c h nc n0 hsub] at hn
    simp only at hn
    split_ifs at hn
    · rw [List.mem_append, List.mem_singleton] at hn
      rcases hn with hn | rfl
      · exact Or.inl (pruneNew_subset n0 nc n hn)
      · exact Or.inr rfl
    · exact Or.inl (pruneNew_subset n0 nc n hn)

theorem getLast_of_sorted_max {l : AbsHitSet} {h : AbsHit}
    (hs : l.Pairwise (fun a b => a.lt b = true)) (hm : h ∈ l)
    (hmax : ∀ x ∈ l, x = h ∨ x.lt h = true) : l.getLast? = some h := by
  rcases List.eq_nil_or_concat l with e | ⟨init, z, e⟩
  · rw [e] at hm; exact absurd hm (List.not_mem_nil _)
  · rw [List.concat_eq_append] at e
    subst e
    rw [List.getLast?_concat, Option.some.injEq]
    rcases hmax z (by simp) with hz | hz
    · exact hz
    · rw [List.mem_append, List.mem_singleton] at hm
      rcases hm with hm | rfl
      · have := (List.pairwise_append.1 hs).2.2 h hm z (by simp)
        have h2 := AbsHit_lt_asymm this
        rw [hz] at h2
        exact absurd h2 (by simp)
      · rfl

theorem getLatest_insert_of_lt (p : HiveSplitter_ParameterSet) (c : CausalCluster) (h : AbsHit)
    (hlt : ∀ x ∈ c.active_hits, x.lt h = true) :
    (c.insertActiveHit p h).getLatestActiveHit = some h := by
  unfold CausalCluster.getLatestActiveHit
  rw [insertActiveHit_active, AbsHitSet_insert_append hlt]
  simp

end hivesplitter

namespace hivesplitter
open detail

theorem newSubClusterOf_concluded {p : HiveSplitter_ParameterSet} {c : CausalCluster}
    {h : AbsHit} {n : CausalCluster} (hn : newSubClusterOf p c h = some n) :
    n.concluded_hits = [] := by
  unfold newSubClusterOf at hn
  split_ifs at hn
  split at hn
  · exact absurd hn (by simp)
  · split_ifs at hn
    simp only [Option.some.injEq] at hn
    rw [← hn]
    exact (makeSubCluster_mem p _ h).2

theorem AddHitToCluster_offered (p : HiveSplitter_ParameterSet) (c : CausalCluster)
    (h : AbsHit) (nc : List CausalCluster) (hc : FirstHitsRecorded c)
    (hlt : ∀ x ∈ c.active_hits, x.lt h = true) (hnc : ∀ n ∈ nc, Spawned p h n) :
    Offered p h (AddHitToCluster p c h nc).1 ∧
    ∀ n ∈ (AddHitToCluster p c h nc).2.1, Spawned p h n := by
  constructor
  · rcases AddHitToCluster_fst p c h nc with e | ⟨e, hits, hscan⟩
    · rw [e]
      exact ⟨AbsHitSet_insert_sorted hc.1, Or.inl (getLatest_insert_of_lt p c h hlt)⟩
    · rw [e]
      obtain ⟨x, hx, hxc⟩ := scanCluster_not_all p c h hc.2.2 hits hscan
      refine ⟨hc.1, Or.inr ⟨x, hx, ?_, hxc⟩⟩
      rintro rfl
      have := hlt x hx
      rw [AbsHit_lt_irrefl] at this
      exact absurd this (by simp)
  · intro n hn
    rcases AddHitToCluster_new_mem p c h nc n hn with h1 | h1
    · exact hnc n h1
    · have hmem := newSubClusterOf_active p c h n hc.2.2 h1
      have hs := newSubClusterOf_sorted h1
      refine ⟨hs, newSubClusterOf_concluded h1, ?_, ?_⟩
      · apply getLast_of_sorted_max hs ((hmem h).2 (Or.inl rfl))
        intro x hx
        rcases (hmem x).1 hx with e | ⟨h2, _⟩
        · exact Or.inl e
        · exact Or.inr (hlt x h2)
      · intro x hx
        rcases (hmem x).1 hx with e | ⟨_, h2⟩
        · exact Or.inl e
        · exact Or.inr h2

theorem not_isSubsetOf_of_offered {p : HiveSplitter_ParameterSet} {h : AbsHit}
    {c n : CausalCluster} (hc : Offered p h c) (hn : Spawned p h n)
    (hl : c.getLatestActiveHit ≠ some h) : c.isSubsetOf n = false := by
  rcases hc.2 with h1 | ⟨x, hx, hne, hxc⟩
  · exact absurd h1 hl
  · cases hsub : c.isSubsetOf n with
    | false => rfl
    | true =>
      have := (isSubsetOf_iff c n hc.1 hn.1).1 hsub x hx
      rcases hn.2.2.2 x this with e | e
      · exact absurd e hne
      · rw [hxc] at e
        exact absurd e (by simp)

theorem reconcileOne_keeps (h : AbsHit) (n : CausalCluster) :
    ∀ cl : List CausalCluster,
      (∀ c ∈ cl, c.getLatestActiveHit = some h ∨ c.isSubsetOf n = false) →
      (reconcileOne h n cl).1 = n ∧ (reconcileOne h n cl).2.1 = cl ∧
      ((reconcileOne h n cl).2.2 = false → ∃ c ∈ cl, c.getLatestActiveHit = some h) := by
  intro cl
  induction cl with
  | nil => intro _; simp [reconcileOne]
  | cons c cs ih =>
    intro hcl
    have hcs := ih (fun c2 hc2 => hcl c2 (List.mem_cons_of_mem _ hc2))
    unfold reconcileOne
    by_cases h1 : c.getLatestActiveHit = some h
    · rw [if_pos h1]
      by_cases h2 : n.isSubsetOf c = true
      · rw [if_pos h2]
        exact ⟨rfl, rfl, fun _ => ⟨c, List.mem_cons_self _ _, h1⟩⟩
      · rw [if_neg h2]
        refine ⟨hcs.1, by rw [hcs.2.1], fun hadd => ?_⟩
        exact ⟨c, List.mem_cons_self _ _, h1⟩
    · rw [if_neg h1]
      have h2 : c.isSubsetOf n = false := by
        rcases hcl c (List.mem_cons_self _ _) with h3 | h3
        · exact absurd h3 h1
        · exact h3
      rw [h2]
      simp only [Bool.false_eq_true, if_false]
      refine ⟨hcs.1, by rw [hcs.2.1], fun hadd => ?_⟩
      obtain ⟨c2, hc2, h3⟩ := hcs.2.2 hadd
      exact ⟨c2, List.mem_cons_of_mem _ hc2, h3⟩

theorem reconcile_keeps (h : AbsHit) :
    ∀ (ns cl : List CausalCluster), (∀ n ∈ ns, n.getLatestActiveHit = some h) →
      (∀ c ∈ cl, c.getLatestActiveHit = some h ∨ ∀ n ∈ ns, c.isSubsetOf n = false) →
      ∃ kept, kept.Sublist ns ∧ reconcile h ns cl = cl ++ kept ∧
        ((∀ c ∈ cl, c.getLatestActiveHit ≠ some h) → ns ≠ [] → kept ≠ []) := by
  intro ns
  induction ns with
  | nil => intro cl _ _; exact ⟨[], List.Sublist.refl _, by simp [reconcile], fun _ h => absurd rfl h⟩
  | cons n rest ih =>
    intro cl hns hcl
    obtain ⟨e1, e2, e3⟩ := reconcileOne_keeps h n cl (fun c hc => by
      rcases hcl c hc with h1 | h1
      · exact Or.inl h1
      · exact Or.inr (h1 n (List.mem_cons_self _ _)))
    unfold reconcile
    simp only [e1, e2]
    have hrest : ∀ n2 ∈ rest, n2.getLatestActiveHit = some h :=
      fun n2 hn2 => hns n2 (List.mem_cons_of_mem _ hn2)
    by_cases hadd : (reconcileOne h n cl).2.2 = true
    · rw [if_pos hadd]
      obtain ⟨kept, hk1, hk2, _⟩ := ih (cl ++ [n]) hrest (by
        intro c hc
        rw [List.mem_append, List.mem_singleton] at hc
        rcases hc with hc | rfl
        · rcases hcl c hc with h1 | h1
          · exact Or.inl h1
          · exact Or.inr (fun n2 hn2 => h1 n2 (List.mem_cons_of_mem _ hn2))
        · exact Or.inl (hns c (List.mem_cons_self _ _)))
      refine ⟨n :: kept, List.Sublist.cons₂ _ hk1, by rw [hk2]; simp, fun _ _ => by simp⟩
    · rw [if_neg hadd]
      obtain ⟨kept, hk1, hk2, _⟩ := ih cl hrest (by
        intro c hc
        rcases hcl c hc with h1 | h1
        · exact Or.inl h1
        · exact Or.inr (fun n2 hn2 => h1 n2 (List.mem_cons_of_mem _ hn2)))
      refine ⟨kept, List.Sublist.cons _ hk1, hk2, fun hno _ => ?_⟩
      obtain ⟨c, hc, h1⟩ := e3 (by simpa using hadd)
      exact absurd h1 (hno c hc)

theorem afterFirstLoop_offered (p : HiveSplitter_ParameterSet) (s : HiveSplitter) (h : AbsHit)
    (hs : ∀ c ∈ s.clusters_, FirstHitsRecorded c ∧ ∀ x ∈ c.active_hits, x.lt h = true) :
    (∀ c ∈ (s.afterFirstLoop p h).visited, Offered p h c) ∧
    (∀ n ∈ (s.afterFirstLoop p h).newClusters, Spawned p h n) := by
  unfold HiveSplitter.afterFirstLoop
  apply addHitLoop_forall (Offered p h) (Spawned p h)
  · intro c hc nc _ hnc
    refine AddHitToCluster_offered p _ h nc (FirstHitsRecorded_advance p (hs c hc).1 _) ?_ hnc
    intro x hx
    exact (hs c hc).2 x (advanceLoop_active_subset p _ _ _ _ _ _ x hx)
  · intro c hc; simp at hc
  · intro c hc; simp at hc

theorem AddHit_clusters_eq (p : HiveSplitter_ParameterSet) (s : HiveSplitter) (h : AbsHit)
    (hs : ∀ c ∈ s.clusters_, FirstHitsRecorded c ∧ ∀ x ∈ c.active_hits, x.lt h = true) :
    ∃ kept, kept.Sublist (s.afterFirstLoop p h).newClusters ∧
      (s.AddHit p h).clusters_ = (s.afterFirstLoop p h).visited ++ kept ++
        (if (s.afterFirstLoop p h).addedToCluster then []
          else [CausalCluster.new.insertActiveHit p h]) ∧
      ((∀ c ∈ (s.afterFirstLoop p h).visited, c.getLatestActiveHit ≠ some h) →
        (s.afterFirstLoop p h).newClusters ≠ [] → kept ≠ []) := by
  obtain ⟨hv, hn⟩ := afterFirstLoop_offered p s h hs
  obtain ⟨kept, hk1, hk2, hk3⟩ := reconcile_keeps h (s.afterFirstLoop p h).newClusters
    (s.afterFirstLoop p h).visited (fun n hn2 => (hn n hn2).2.2.1) (by
      intro c hc
      by_cases hl : c.getLatestActiveHit = some h
      · exact Or.inl hl
      · exact Or.inr (fun n hn2 => not_isSubsetOf_of_offered (hv c hc) (hn n hn2) hl))
  refine ⟨kept, hk1, ?_, hk3⟩
  have e : (s.AddHit p h).clusters_ =
      if !(s.afterFirstLoop p h).addedToCluster then
        reconcile h (s.afterFirstLoop p h).newClusters (s.afterFirstLoop p h).visited ++
          [CausalCluster.new.insertActiveHit p h]
      else reconcile h (s.afterFirstLoop p h).newClusters (s.afterFirstLoop p h).visited := rfl
  rw [e, hk2]
  cases (s.afterFirstLoop p h).addedToCluster <;> simp

end hivesplitter

/-! ## An induction principle for the first loop of `AddHit` -/

namespace hivesplitter
open detail

theorem addHitLoop_induction (p : HiveSplitter_ParameterSet) (h : AbsHit)
    (I : AddHitLoop → List CausalCluster → Prop)
    (hlive : ∀ (st : AddHitLoop) (c : CausalCluster) (rest : List CausalCluster),
      I st (c :: rest) → (c.advanceInTime p (.fin h.time)).isActive p = true →
      I { visited := st.visited ++
            [(AddHitToCluster p (c.advanceInTime p (.fin h.time)) h st.newClusters).1]
          newClusters := (AddHitToCluster p (c.advanceInTime p (.fin h.time)) h
            st.newClusters).2.1
          partialSubEvents := st.partialSubEvents
          subEvents := st.subEvents
          addedToCluster := st.addedToCluster ||
            (AddHitToCluster p (c.advanceInTime p (.fin h.time)) h st.newClusters).2.2 } rest)
    (hdone : ∀ (st : AddHitLoop) (c : CausalCluster) (rest : List CausalCluster),
      I st (c :: rest) → (c.advanceInTime p (.fin h.time)).isActive p = false →
      (c.advanceInTime p (.fin h.time)).established = true →
      I { st with
          partialSubEvents := (AddSubEvent p (st.visited ++ c.advanceInTime p (.fin h.time) :: rest)
            (c.advanceInTime p (.fin h.time)).concluded_hits st.partialSubEvents
            st.subEvents).1
          subEvents := (AddSubEvent p (st.visited ++ c.advanceInTime p (.fin h.time) :: rest)
            (c.advanceInTime p (.fin h.time)).concluded_hits st.partialSubEvents
            st.subEvents).2 } rest)
    (hdrop : ∀ (st : AddHitLoop) (c : CausalCluster) (rest : List CausalCluster),
      I st (c :: rest) → (c.advanceInTime p (.fin h.time)).isActive p = false →
      (c.advanceInTime p (.fin h.time)).established = false → I st rest) :
    ∀ (todo : List CausalCluster) (st : AddHitLoop), I st todo →
      I (addHitLoop p h todo st) [] := by
  intro todo
  induction todo with
  | nil => intro st hI; exact hI
  | cons c rest ih =>
    intro st hI
    unfold addHitLoop
    by_cases ha : (c.advanceInTime p (.fin h.time)).isActive p = true
    · simp only [ha, if_true, Bool.not_true, Bool.and_false, Bool.false_eq_true, if_false]
      exact ih _ (hlive st c rest hI ha)
    · have ha2 : (c.advanceInTime p (.fin h.time)).isActive p = false := by simpa using ha
      by_cases he : (c.advanceInTime p (.fin h.time)).established = true
      · simp only [ha2, CausalCluster.isEstablished, he, Bool.not_false, Bool.and_self, if_true,
          Bool.false_eq_true, if_false]
        exact ih _ (hdone st c rest hI ha2 he)
      · have he2 : (c.advanceInTime p (.fin h.time)).established = false := by simpa using he
        simp only [ha2, CausalCluster.isEstablished, he2, Bool.not_false, Bool.and_true,
          Bool.false_eq_true, if_false]
        exact ih _ (hdrop st c rest hI ha2 he2)

theorem pruneNew_ne_nil (n : CausalCluster) :
    ∀ nc : List CausalCluster, (pruneNew n nc).2 = false → (pruneNew n nc).1 ≠ [] := by
  intro nc
  induction nc with
  | nil => intro h; simp [pruneNew] at h
  | cons c cs ih =>
    intro h
    unfold pruneNew at h ⊢
    by_cases h1 : c.isSubsetOf n = true
    · rw [if_pos h1] at h ⊢
      exact ih h
    · rw [if_neg h1] at h ⊢
      by_cases h2 : n.isSubsetOf c = true
      · rw [if_pos h2]; simp
      · rw [if_neg h2]; simp

theorem AddHitToCluster_added (p : HiveSplitter_ParameterSet) (c : CausalCluster) (h : AbsHit)
    (nc : List CausalCluster) (hlt : ∀ x ∈ c.active_hits, x.lt h = true) :
    ((AddHitToCluster p c h nc).2.2 = true →
      (AddHitToCluster p c h nc).1.getLatestActiveHit = some h ∨
      (AddHitToCluster p c h nc).2.1 ≠ []) ∧
    ((AddHitToCluster p c h nc).2.2 = false →
      (AddHitToCluster p c h nc).1 = c ∧ (AddHitToCluster p c h nc).2.1 = nc) ∧
    (nc ≠ [] → (AddHitToCluster p c h nc).2.1 ≠ []) := by
  rcases AddHitToCluster_cases p c h nc with e | e | ⟨hits, _, _, _, e⟩
  · rw [e]
    exact ⟨fun _ => Or.inl (getLatest_insert_of_lt p c h hlt), fun hf => by simp at hf,
      fun hn => hn⟩
  · rw [e]
    exact ⟨fun hf => by simp at hf, fun _ => ⟨rfl, rfl⟩, fun hn => hn⟩
  · rw [e]
    have hne : (if (pruneNew (makeSubCluster p hits h) nc).2 = true then
        (pruneNew (makeSubCluster p hits h) nc).1 ++ [makeSubCluster p hits h]
        else (pruneNew (makeSubCluster p hits h) nc).1) ≠ [] := by
      split_ifs with hk
      · simp
      · exact pruneNew_ne_nil _ nc (by simpa using hk)
    exact ⟨fun _ => Or.inr hne, fun hf => by simp at hf, fun _ => hne⟩

theorem addHitLoop_added (p : HiveSplitter_ParameterSet) (h : AbsHit)
    (todo : List CausalCluster) (st : AddHitLoop)
    (hlt : ∀ c ∈ todo, ∀ x ∈ c.active_hits, x.lt h = true)
    (h1 : st.addedToCluster = true →
      (∃ c ∈ st.visited, c.getLatestActiveHit = some h) ∨ st.newClusters ≠ [])
    (h2 : st.addedToCluster = false →
      st.newClusters = [] ∧ ∀ c ∈ st.visited, h ∉ c.active_hits) :
    ((addHitLoop p h todo st).addedToCluster = true →
      (∃ c ∈ (addHitLoop p h todo st).visited, c.getLatestActiveHit = some h) ∨
      (addHitLoop p h todo st).newClusters ≠ []) ∧
    ((addHitLoop p h todo st).addedToCluster = false →
      (addHitLoop p h todo st).newClusters = [] ∧
      ∀ c ∈ (addHitLoop p h todo st).visited, h ∉ c.active_hits) := by
  have key := addHitLoop_induction p h
    (fun st todo => (∀ c ∈ todo, ∀ x ∈ c.active_hits, x.lt h = true) ∧
      (st.addedToCluster = true →
        (∃ c ∈ st.visited, c.getLatestActiveHit = some h) ∨ st.newClusters ≠ []) ∧
      (st.addedToCluster = false →
        st.newClusters = [] ∧ ∀ c ∈ st.visited, h ∉ c.active_hits))
    ?_ ?_ ?_ todo st ⟨hlt, h1, h2⟩
  · exact key.2
  · intro st c rest hI _
    obtain ⟨hl, i1, i2⟩ := hI
    have hc1 : ∀ x ∈ (c.advanceInTime p (.fin h.time)).active_hits, x.lt h = true :=
      fun x hx => hl c (List.mem_cons_self _ _) x
        (advanceLoop_active_subset p _ _ _ _ _ _ x hx)
    obtain ⟨a1, a2, a3⟩ := AddHitToCluster_added p (c.advanceInTime p (.fin h.time)) h
      st.newClusters hc1
    refine ⟨fun c2 hc2 => hl c2 (List.mem_cons_of_mem _ hc2), ?_, ?_⟩
    · intro hadd
      simp only [Bool.or_eq_true] at hadd
      by_cases hr : (AddHitToCluster p (c.advanceInTime p (.fin h.time)) h
          st.newClusters).2.2 = true
      · rcases a1 hr with h3 | h3
        · exact Or.inl ⟨_, by simp, h3⟩
        · exact Or.inr h3
      · rcases hadd with hadd | hadd
        · rcases i1 hadd with ⟨c2, hc2, h3⟩ | h3
          · exact Or.inl ⟨c2, by simp [hc2], h3⟩
          · exact Or.inr (a3 h3)
        · exact absurd hadd hr
    · intro hadd
      simp only [Bool.or_eq_false_iff] at hadd
      obtain ⟨b1, b2⟩ := a2 hadd.2
      obtain ⟨j1, j2⟩ := i2 hadd.1
      refine ⟨by rw [b2]; exact j1, ?_⟩
      intro c2 hc2
      rw [List.mem_append, List.mem_singleton] at hc2
      rcases hc2 with hc2 | rfl
      · exact j2 c2 hc2
      · rw [b1]
        intro hm
        have := hc1 h hm
        rw [AbsHit_lt_irrefl] at this
        exact absurd this (by simp)
  · intro st c rest hI _ _
    exact ⟨fun c2 hc2 => hI.1 c2 (List.mem_cons_of_mem _ hc2), hI.2.1, hI.2.2⟩
  · intro st c rest hI _ _
    exact ⟨fun c2 hc2 => hI.1 c2 (List.mem_cons_of_mem _ hc2), hI.2.1, hI.2.2⟩

theorem afterFirstLoop_added (p : HiveSplitter_ParameterSet) (s : HiveSplitter) (h : AbsHit)
    (hlt : ∀ c ∈ s.clusters_, ∀ x ∈ c.active_hits, x.lt h = true) :
    ((s.afterFirstLoop p h).addedToCluster = true →
      (∃ c ∈ (s.afterFirstLoop p h).visited, c.getLatestActiveHit = some h) ∨
      (s.afterFirstLoop p h).newClusters ≠ []) ∧
    ((s.afterFirstLoop p h).addedToCluster = false →
      (s.afterFirstLoop p h).newClusters = [] ∧
      ∀ c ∈ (s.afterFirstLoop p h).visited, h ∉ c.active_hits) :=
  addHitLoop_added p h s.clusters_
    { visited := [], newClusters := [], partialSubEvents := s.partialSubEvents_,
      subEvents := s.subEvents_, addedToCluster := false }
    hlt (fun hf => by simp at hf) (fun _ => ⟨rfl, fun c hc => by simp at hc⟩)

theorem foldl_AddHit_before (p : HiveSplitter_ParameterSet) (pre : List AbsHit) (h : AbsHit)
    (hs : (pre ++ [h]).Pairwise (fun a b => a.lt b = true)) :
    ∀ c ∈ (pre.foldl (fun s h => s.AddHit p h) HiveSplitter.cleared).clusters_,
      FirstHitsRecorded c ∧ (∀ x ∈ c.active_hits, x.lt h = true) ∧
      (∀ x ∈ c.concluded_hits, x.lt h = true) := by
  intro c hc
  have h1 := foldl_AddHit_firstHitsRecorded p pre HiveSplitter.cleared
    (by intro c hc; simp [HiveSplitter.cleared] at hc) c hc
  have h2 := (foldl_AddHit_hitsIn p (fun x => x ∈ pre) pre HiveSplitter.cleared
    (fun h hh => hh)
    (by intro c hc; simp [HiveSplitter.cleared] at hc)
    (by intro e he; simp [HiveSplitter.cleared] at he)
    (by intro e he; simp [HiveSplitter.cleared] at he)).1 c hc
  have hlt : ∀ x ∈ pre, x.lt h = true := fun x hx =>
    (List.pairwise_append.1 hs).2.2 x hx h (List.mem_singleton_self _)
  exact ⟨h1, fun x hx => hlt x (h2.1 x hx), fun x hx => hlt x (h2.2.1 x hx)⟩

end hivesplitter

/-! ## The clusters along a run, and the hits they secure -/

namespace hivesplitter
open detail

theorem Sound_mono {fed : List AbsHit} {c : CausalCluster} (hc : Sound fed c) (h : AbsHit) :
    Sound (fed ++ [h]) c :=
  ⟨hc.1, hc.2.1, fun x hx => List.mem_append_left _ (hc.2.2.1 x hx), hc.2.2.2⟩

theorem Sound_advance {p : HiveSplitter_ParameterSet} {fed : List AbsHit} {c : CausalCluster}
    (hc : Sound fed c) (time : Time) : Sound fed (c.advanceInTime p time) := by
  obtain ⟨hfr, htidy, hmem, hsort⟩ := hc
  have hf := advanceLoop_eq_filter p time c.established c.active_hits c.active_doms
    c.firstHitTimes c.concluded_hits hfr.1
  obtain ⟨m1, m2, _⟩ := advanceLoop_mem p time c.established c.active_hits c.active_doms
    c.firstHitTimes c.concluded_hits
  have hsub := advanceLoop_active_subset p time c.established c.active_hits c.active_doms
    c.firstHitTimes c.concluded_hits
  have htidy2 : (c.advanceInTime p time).established = false →
      (c.advanceInTime p time).concluded_hits = [] := by
    intro hest
    have hest2 : c.established = false := hest
    simp only [CausalCluster.advanceInTime]
    rw [hf.2, hest2]
    simpa using htidy hest2
  have hact2 : (c.advanceInTime p time).active_hits.Pairwise (fun a b => a.lt b = true) :=
    List.Pairwise.sublist
      (advanceLoop_active_suffix p time c.established c.active_hits c.active_doms
        c.firstHitTimes c.concluded_hits).sublist hfr.1
  refine ⟨FirstHitsRecorded_advance p hfr time, htidy2, ?_, ?_⟩
  · intro x hx
    simp only [CausalCluster.advanceInTime, List.mem_append] at hx
    rcases hx with hx | hx
    · rcases m2 x hx with h1 | h1
      · exact hmem x (List.mem_append_left _ h1)
      · exact hmem x (List.mem_append_right _ h1)
    · exact hmem x (List.mem_append_right _ (hsub x hx))
  · cases hest : c.established with
    | true =>
      obtain ⟨pre, suf, e1, e2, _, e4, _, _⟩ := advanceLoop_established p time c.active_hits
        c.active_doms c.firstHitTimes c.concluded_hits hsort
      simp only [CausalCluster.advanceInTime, hest]
      rw [e2, e4, List.append_assoc, ← e1]
      exact hsort
    | false =>
      rw [htidy2 hest, List.nil_append]
      exact hact2

theorem Sound_insert {p : HiveSplitter_ParameterSet} {fed : List AbsHit} {c : CausalCluster}
    (hc : Sound fed c) {h : AbsHit} (hlt : ∀ x ∈ fed, x.lt h = true) :
    Sound (fed ++ [h]) (c.insertActiveHit p h) := by
  obtain ⟨hfr, htidy, hmem, hsort⟩ := hc
  have hact : ∀ x ∈ c.active_hits, x.lt h = true :=
    fun x hx => hlt x (hmem x (List.mem_append_right _ hx))
  have e : (c.insertActiveHit p h).active_hits = c.active_hits ++ [h] := by
    rw [insertActiveHit_active, AbsHitSet_insert_append hact]
  refine ⟨FirstHitsRecorded_insert p hfr h, ?_, ?_, ?_⟩
  · intro hest
    have : c.established = false := by
      simp only [CausalCluster.insertActiveHit, Bool.or_eq_false_iff] at hest
      exact hest.1
    exact htidy this
  · intro x hx
    rw [e] at hx
    have hcon : (c.insertActiveHit p h).concluded_hits = c.concluded_hits := rfl
    rw [hcon, ← List.append_assoc, List.mem_append, List.mem_singleton] at hx
    rcases hx with hx | rfl
    · exact List.mem_append_left _ (hmem x hx)
    · simp
  · rw [e]
    have hcon : (c.insertActiveHit p h).concluded_hits = c.concluded_hits := rfl
    rw [hcon, ← List.append_assoc, List.pairwise_append]
    refine ⟨hsort, List.pairwise_singleton _ _, ?_⟩
    intro x hx y hy
    rw [List.mem_singleton] at hy
    subst hy
    exact hlt x (hmem x hx)

theorem Sound_new (p : HiveSplitter_ParameterSet) (fed : List AbsHit) (h : AbsHit)
    (hlt : ∀ x ∈ fed, x.lt h = true) :
    Sound (fed ++ [h]) (CausalCluster.new.insertActiveHit p h) := by
  refine Sound_insert ⟨FirstHitsRecorded_new, fun _ => rfl, ?_, ?_⟩ hlt
  · intro x hx; simp [CausalCluster.new] at hx
  · simp [CausalCluster.new]

theorem Sound_makeSubCluster (p : HiveSplitter_ParameterSet) (fed : List AbsHit)
    (hits : AbsHitSet) (h : AbsHit) (hin : ∀ x ∈ hits, x ∈ fed) :
    Sound (fed ++ [h]) (makeSubCluster p hits h) := by
  obtain ⟨m1, m2⟩ := makeSubCluster_mem p hits h
  refine ⟨FirstHitsRecorded_makeSubCluster p hits h, fun _ => m2, ?_, ?_⟩
  · intro x hx
    rw [m2, List.nil_append, m1 x] at hx
    rcases hx with rfl | hx
    · simp
    · exact List.mem_append_left _ (hin x hx)
  · rw [m2, List.nil_append]
    exact makeSubCluster_sorted p hits h

theorem afterFirstLoop_sound (p : HiveSplitter_ParameterSet) (s : HiveSplitter) (h : AbsHit)
    (fed : List AbsHit) (hs : ∀ c ∈ s.clusters_, Sound fed c)
    (hlt : ∀ x ∈ fed, x.lt h = true) :
    (∀ c ∈ (s.afterFirstLoop p h).visited, Sound (fed ++ [h]) c) ∧
    (∀ n ∈ (s.afterFirstLoop p h).newClusters, Sound (fed ++ [h]) n) := by
  unfold HiveSplitter.afterFirstLoop
  apply addHitLoop_forall (Sound (fed ++ [h])) (Sound (fed ++ [h]))
  · intro c hc nc _ hnc
    have hc1 : Sound fed (c.advanceInTime p (.fin h.time)) := Sound_advance (hs c hc) _
    refine AddHitToCluster_forall (Sound (fed ++ [h])) (Sound (fed ++ [h])) p _ h nc
      (Sound_mono hc1 h) (Sound_insert hc1 hlt) ?_ hnc
    intro hits _ _ hmem
    exact Sound_makeSubCluster p fed hits h
      (fun x hx => hc1.2.2.1 x (List.mem_append_right _ (hmem x hx)))
  · intro c hc; simp at hc
  · intro c hc; simp at hc

theorem Sound_before {fed : List AbsHit} {c : CausalCluster} (hc : Sound fed c) {h : AbsHit}
    (hlt : ∀ x ∈ fed, x.lt h = true) :
    FirstHitsRecorded c ∧ ∀ x ∈ c.active_hits, x.lt h = true :=
  ⟨hc.1, fun x hx => hlt x (hc.2.2.1 x (List.mem_append_right _ hx))⟩

theorem AddHit_sound (p : HiveSplitter_ParameterSet) (s : HiveSplitter) (h : AbsHit)
    (fed : List AbsHit) (hs : ∀ c ∈ s.clusters_, Sound fed c)
    (hlt : ∀ x ∈ fed, x.lt h = true) :
    ∀ c ∈ (s.AddHit p h).clusters_, Sound (fed ++ [h]) c := by
  obtain ⟨kept, hk1, hk2, _⟩ := AddHit_clusters_eq p s h
    (fun c hc => Sound_before (hs c hc) hlt)
  obtain ⟨hv, hn⟩ := afterFirstLoop_sound p s h fed hs hlt
  intro c hc
  rw [hk2, List.mem_append, List.mem_append] at hc
  rcases hc with (hc | hc) | hc
  · exact hv c hc
  · exact hn c (hk1.subset hc)
  · split_ifs at hc
    · simp at hc
    · rw [List.mem_singleton] at hc
      subst hc
      exact Sound_new p fed h hlt

theorem foldl_AddHit_sound (p : HiveSplitter_ParameterSet) :
    ∀ (l fed : List AbsHit) (s : HiveSplitter),
      (fed ++ l).Pairwise (fun a b => a.lt b = true) → (∀ c ∈ s.clusters_, Sound fed c) →
      ∀ c ∈ (l.foldl (fun s h => s.AddHit p h) s).clusters_, Sound (fed ++ l) c := by
  intro l
  induction l with
  | nil => intro fed s _ hs; simpa using hs
  | cons h t ih =>
    intro fed s hsort hs
    rw [List.foldl_cons]
    have hlt : ∀ x ∈ fed, x.lt h = true :=
      fun x hx => (List.pairwise_append.1 hsort).2.2 x hx h (List.mem_cons_self _ _)
    have := ih (fed ++ [h]) (s.AddHit p h) (by simpa using hsort) (AddHit_sound p s h fed hs hlt)
    simpa using this

theorem addHitLoop_secures (p : HiveSplitter_ParameterSet) (h : AbsHit) (x : AbsHit)
    (todo : List CausalCluster) (st : AddHitLoop)
    (hx : (∃ c ∈ st.visited ++ todo,
        c.established = true ∧ (x ∈ c.active_hits ∨ x ∈ c.concluded_hits)) ∨
      (∃ e ∈ st.partialSubEvents, x ∈ e) ∨ ∃ e ∈ st.subEvents, x ∈ e) :
    (∃ c ∈ (addHitLoop p h todo st).visited,
        c.established = true ∧ (x ∈ c.active_hits ∨ x ∈ c.concluded_hits)) ∨
      (∃ e ∈ (addHitLoop p h todo st).partialSubEvents, x ∈ e) ∨
      ∃ e ∈ (addHitLoop p h todo st).subEvents, x ∈ e := by
  have key := addHitLoop_induction p h
    (fun st todo => (∃ c ∈ st.visited ++ todo,
        c.established = true ∧ (x ∈ c.active_hits ∨ x ∈ c.concluded_hits)) ∨
      (∃ e ∈ st.partialSubEvents, x ∈ e) ∨ ∃ e ∈ st.subEvents, x ∈ e)
    ?_ ?_ ?_ todo st hx
  · simpa using key
  · intro st c rest hI _
    rcases hI with ⟨c0, hc0, hest, hx0⟩ | hpool
    · left
      rw [List.mem_append, List.mem_cons] at hc0
      rcases hc0 with hc0 | rfl | hc0
      · exact ⟨c0, by simp [hc0], hest, hx0⟩
      · have hest1 : (c0.advanceInTime p (.fin h.time)).established = true := hest
        obtain ⟨m1, _, m3⟩ := advanceLoop_mem p (.fin h.time) c0.established c0.active_hits
          c0.active_doms c0.firstHitTimes c0.concluded_hits
        have hx1 : x ∈ (c0.advanceInTime p (.fin h.time)).active_hits ∨
            x ∈ (c0.advanceInTime p (.fin h.time)).concluded_hits := by
          rcases hx0 with hx0 | hx0
          · exact (m3 hest x hx0).symm
          · exact Or.inr (m1 x hx0)
        refine ⟨(AddHitToCluster p (c0.advanceInTime p (.fin h.time)) h st.newClusters).1,
          by simp, ?_⟩
        rcases AddHitToCluster_fst p (c0.advanceInTime p (.fin h.time)) h st.newClusters
          with e | ⟨e, _⟩
        · rw [e]
          refine ⟨by simp [CausalCluster.insertActiveHit, hest1], ?_⟩
          rcases hx1 with hx1 | hx1
          · exact Or.inl (by rw [insertActiveHit_active, AbsHitSet_mem_insert]; exact Or.inr hx1)
          · exact Or.inr hx1
        · rw [e]
          exact ⟨hest1, hx1⟩
      · exact ⟨c0, by simp [hc0], hest, hx0⟩
    · exact Or.inr hpool
  · intro st c rest hI hact hest1
    have hcover := fun hh => AddSubEvent_cover p
      (st.visited ++ c.advanceInTime p (.fin h.time) :: rest)
      (c.advanceInTime p (.fin h.time)).concluded_hits st.partialSubEvents st.subEvents x hh
    rcases hI with ⟨c0, hc0, hest, hx0⟩ | hpool
    · rw [List.mem_append, List.mem_cons] at hc0
      rcases hc0 with hc0 | rfl | hc0
      · exact Or.inl ⟨c0, by simp [hc0], hest, hx0⟩
      · right
        obtain ⟨m1, _, m3⟩ := advanceLoop_mem p (.fin h.time) c0.established c0.active_hits
          c0.active_doms c0.firstHitTimes c0.concluded_hits
        have hnil := active_nil_of_not_isActive p _ hact
        have hx1 : x ∈ (c0.advanceInTime p (.fin h.time)).concluded_hits := by
          rcases hx0 with hx0 | hx0
          · rcases m3 hest x hx0 with h1 | h1
            · exact h1
            · have h2 : x ∈ (c0.advanceInTime p (.fin h.time)).active_hits := h1
              rw [hnil] at h2
              exact absurd h2 (List.not_mem_nil _)
          · exact m1 x hx0
        exact hcover (Or.inl hx1)
      · exact Or.inl ⟨c0, by simp [hc0], hest, hx0⟩
    · exact Or.inr (hcover (Or.inr hpool))
  · intro st c rest hI _ hest1
    rcases hI with ⟨c0, hc0, hest, hx0⟩ | hpool
    · rw [List.mem_append, List.mem_cons] at hc0
      rcases hc0 with hc0 | rfl | hc0
      · exact Or.inl ⟨c0, by simp [hc0], hest, hx0⟩
      · have : (c0.advanceInTime p (.fin h.time)).established = c0.established := rfl
        rw [this, hest] at hest1
        exact absurd hest1 (by simp)
      · exact Or.inl ⟨c0, by simp [hc0], hest, hx0⟩
    · exact Or.inr hpool

theorem AddHit_secures (p : HiveSplitter_ParameterSet) (s : HiveSplitter) (h : AbsHit)
    (fed : List AbsHit) (hs : ∀ c ∈ s.clusters_, Sound fed c)
    (hlt : ∀ x ∈ fed, x.lt h = true) (x : AbsHit) (hx : Secured s x) :
    Secured (s.AddHit p h) x := by
  obtain ⟨kept, _, hk2, _⟩ := AddHit_clusters_eq p s h
    (fun c hc => Sound_before (hs c hc) hlt)
  have := addHitLoop_secures p h x s.clusters_
    { visited := [], newClusters := [], partialSubEvents := s.partialSubEvents_,
      subEvents := s.subEvents_, addedToCluster := false } (by simpa [Secured] using hx)
  rcases this with ⟨c, hc, h1⟩ | h1
  · left
    refine ⟨c, ?_, h1⟩
    rw [hk2]
    exact List.mem_append_left _ (List.mem_append_left _ hc)
  · exact Or.inr h1

theorem foldl_AddHit_secures (p : HiveSplitter_ParameterSet) (x : AbsHit) :
    ∀ (l fed : List AbsHit) (s : HiveSplitter),
      (fed ++ l).Pairwise (fun a b => a.lt b = true) → (∀ c ∈ s.clusters_, Sound fed c) →
      Secured s x → Secured (l.foldl (fun s h => s.AddHit p h) s) x := by
  intro l
  induction l with
  | nil => intro fed s _ _ hx; exact hx
  | cons h t ih =>
    intro fed s hsort hs hx
    rw [List.foldl_cons]
    have hlt : ∀ x ∈ fed, x.lt h = true :=
      fun x hx => (List.pairwise_append.1 hsort).2.2 x hx h (List.mem_cons_self _ _)
    exact ih (fed ++ [h]) (s.AddHit p h) (by simpa using hsort) (AddHit_sound p s h fed hs hlt)
      (AddHit_secures p s h fed hs hlt x hx)

end hivesplitter

/-! ## The assertion of `getEarliestTime` is not reached -/

namespace hivesplitter
open detail

theorem getEarliestTime_checked_eq {c : CausalCluster} (hc : Holding c) :
    c.getEarliestTime_checked = some c.getEarliestTime := by
  unfold CausalCluster.getEarliestTime_checked CausalCluster.getEarliestTime
  cases h1 : c.concluded_hits with
  | cons x xs => rfl
  | nil =>
    cases h2 : c.active_hits with
    | cons y ys => rfl
    | nil =>
      rcases hc with h | h
      · exact absurd h2 h
      · exact absurd h1 h

theorem earliestUpcomingTime_checked_eq :
    ∀ (cl : List CausalCluster) (t : Time), (∀ c ∈ cl, Holding c) →
      earliestUpcomingTime_checked cl t =
        some (cl.foldl (fun t c => Time.min t c.getEarliestTime) t) := by
  intro cl
  induction cl with
  | nil => intro t _; rfl
  | cons c cs ih =>
    intro t hcl
    unfold earliestUpcomingTime_checked
    rw [getEarliestTime_checked_eq (hcl c (List.mem_cons_self _ _))]
    simp only [List.foldl_cons]
    exact ih _ (fun c2 hc2 => hcl c2 (List.mem_cons_of_mem _ hc2))

theorem AddSubEvent_checked_eq (p : HiveSplitter_ParameterSet) (clusters : List CausalCluster)
    (newSet : AbsHitSet) (pa : List AbsHitSet) (su : AbsHitSetSequence)
    (hcl : ∀ c ∈ clusters, Holding c) :
    AddSubEvent_checked p clusters newSet pa su = some (AddSubEvent p clusters newSet pa su) := by
  unfold AddSubEvent_checked AddSubEvent earliestUpcomingTime
  rw [earliestUpcomingTime_checked_eq clusters Time.pinf hcl]
  simp only
  split_ifs <;> rfl

theorem Holding_of_stocked {c : CausalCluster} (hc : Stocked c) (hest : c.established = true) :
    Holding c := hc hest

theorem firstHitTimes_nil_of_no_active {c : CausalCluster}
    (hfa : FirstHitsActive c.active_hits c.firstHitTimes) (ha : c.active_hits = []) :
    c.firstHitTimes = [] := by
  cases hf : c.firstHitTimes with
  | nil => rfl
  | cons e rest =>
    obtain ⟨k, v⟩ := e
    have := hfa k (by rw [hf]; simp [DomMap.get?])
    rw [ha] at this
    simp [hitsOn] at this

theorem active_of_isActive_not_established (p : HiveSplitter_ParameterSet) {c : CausalCluster}
    (hfa : FirstHitsActive c.active_hits c.firstHitTimes) (hact : c.isActive p = true) :
    c.active_hits ≠ [] := by
  intro ha
  have hf := firstHitTimes_nil_of_no_active hfa ha
  unfold CausalCluster.isActive at hact
  rw [if_neg (by simpa using ha), hf] at hact
  cases hacc : p.acceptTimeWindow with
  | none => rw [hacc] at hact; simp at hact
  | some a =>
    rw [hacc] at hact
    simp only at hact
    split_ifs at hact
    cases hs : c.sync_time <;> rw [hs] at hact <;> simp at hact

theorem Alive_advance (p : HiveSplitter_ParameterSet) {c : CausalCluster} (hc : Alive c)
    (time : Time) (hact : (c.advanceInTime p time).isActive p = true ∨ c.established = true) :
    Alive (c.advanceInTime p time) := by
  obtain ⟨hbk, hfa, hh⟩ := hc
  have hbk1 : Bookkept (c.advanceInTime p time).active_hits (c.advanceInTime p time).active_doms :=
    advanceLoop_bookkept p time _ _ _ _ _ hbk
  have hfa1 : (c.advanceInTime p time).established = false →
      FirstHitsActive (c.advanceInTime p time).active_hits
        (c.advanceInTime p time).firstHitTimes := by
    intro hest
    have hest2 : c.established = false := hest
    have := advanceLoop_firstHits p time c.active_hits c.active_doms c.firstHitTimes
      c.concluded_hits hbk (hfa hest2)
    simp only [CausalCluster.advanceInTime, hest2]
    exact this
  refine ⟨hbk1, hfa1, ?_⟩
  cases hest : c.established with
  | true =>
    have hst : Stocked c := fun _ => hh
    exact Stocked_advance (p := p) hst time hest
  | false =>
    rcases hact with hact | hact
    · exact Or.inl (active_of_isActive_not_established p (hfa1 hest) hact)
    · rw [hest] at hact; exact absurd hact (by simp)

theorem Alive_insert (p : HiveSplitter_ParameterSet) {c : CausalCluster}
    (hbk : Bookkept c.active_hits c.active_doms)
    (hfa : c.established = false → FirstHitsActive c.active_hits c.firstHitTimes) {h : AbsHit}
    (hn : h ∉ c.active_hits) : Alive (c.insertActiveHit p h) := by
  refine ⟨Bookkept_insert hbk hn, ?_, Or.inl (insertActiveHit_active_ne_nil p c h)⟩
  intro hest
  have hc : c.established = false := by
    simp only [CausalCluster.insertActiveHit, Bool.or_eq_false_iff] at hest
    exact hest.1
  exact insertActiveHit_firstHitsActive p c h hn (hfa hc)

theorem foldl_insertActiveHit_alive (p : HiveSplitter_ParameterSet) :
    ∀ (l : List AbsHit) (c : CausalCluster), Bookkept c.active_hits c.active_doms →
      FirstHitsActive c.active_hits c.firstHitTimes → l.Nodup →
      (∀ x ∈ l, x ∉ c.active_hits) →
      Bookkept (l.foldl (fun c x => c.insertActiveHit p x) c).active_hits
        (l.foldl (fun c x => c.insertActiveHit p x) c).active_doms ∧
      FirstHitsActive (l.foldl (fun c x => c.insertActiveHit p x) c).active_hits
        (l.foldl (fun c x => c.insertActiveHit p x) c).firstHitTimes := by
  intro l
  induction l with
  | nil => intro c hbk hfa _ _; exact ⟨hbk, hfa⟩
  | cons y ys ih =>
    intro c hbk hfa hnd hn
    rw [List.nodup_cons] at hnd
    rw [List.foldl_cons]
    have hy := hn y (List.mem_cons_self _ _)
    apply ih _ (Bookkept_insert hbk hy) (insertActiveHit_firstHitsActive p c y hy hfa) hnd.2
    intro x hx
    rw [insertActiveHit_active, AbsHitSet_mem_insert]
    rintro (rfl | h2)
    · exact hnd.1 hx
    · exact hn x (List.mem_cons_of_mem _ hx) h2

theorem Alive_makeSubCluster (p : HiveSplitter_ParameterSet) (hits : AbsHitSet) (h : AbsHit)
    (hnd : hits.Nodup) (hn : h ∉ hits) : Alive (makeSubCluster p hits h) := by
  have hf := foldl_insertActiveHit_alive p hits CausalCluster.new Bookkept_nil
    (fun d hd => by simp [CausalCluster.new, DomMap.get?] at hd) hnd
    (fun x _ => by simp [CausalCluster.new])
  have hm := (foldl_insertActiveHit_mem p hits CausalCluster.new).1
  unfold makeSubCluster
  refine Alive_insert p hf.1 (fun _ => hf.2) ?_
  rw [hm h]
  simp [CausalCluster.new, hn]

theorem Alive_takeConcludedHits {c : CausalCluster} (hc : Alive c) (other : CausalCluster) :
    Alive (c.takeConcludedHits other) := by
  obtain ⟨hbk, hfa, hh⟩ := hc
  refine ⟨hbk, hfa, ?_⟩
  rcases hh with h | h
  · exact Or.inl h
  · obtain ⟨x, hx⟩ := List.exists_mem_of_ne_nil _ h
    refine Or.inr (hitSet_ne_nil_of_mem (x := x) ?_)
    simp only [CausalCluster.takeConcludedHits]
    exact AbsHitSet_mem_insertAll.2 (Or.inl hx)

theorem AddHitToCluster_alive (p : HiveSplitter_ParameterSet) (c : CausalCluster) (h : AbsHit)
    (nc : List CausalCluster) (hc : Alive c) (hlt : ∀ x ∈ c.active_hits, x.lt h = true)
    (hnc : ∀ n ∈ nc, Alive n) :
    Alive (AddHitToCluster p c h nc).1 ∧ ∀ n ∈ (AddHitToCluster p c h nc).2.1, Alive n := by
  have hn : h ∉ c.active_hits := by
    intro hm
    have := hlt h hm
    rw [AbsHit_lt_irrefl] at this
    exact absurd this (by simp)
  refine AddHitToCluster_forall Alive Alive p c h nc hc (Alive_insert p hc.1 hc.2.1 hn) ?_ hnc
  intro hits _ hs hmem
  exact Alive_makeSubCluster p hits h (sorted_nodup hs) (fun hm => hn (hmem h hm))

theorem AddHit_alive (p : HiveSplitter_ParameterSet) (s : HiveSplitter) (h : AbsHit)
    (hs : ∀ c ∈ s.clusters_, Alive c ∧ ∀ x ∈ c.active_hits, x.lt h = true) :
    ∀ c ∈ (s.AddHit p h).clusters_, Alive c := by
  apply AddHit_clusters_forall Alive Alive
  · intro c hc nc hact hnc
    refine AddHitToCluster_alive p _ h nc (Alive_advance p (hs c hc).1 _ (Or.inl hact)) ?_ hnc
    intro x hx
    exact (hs c hc).2 x (advanceLoop_active_subset p _ _ _ _ _ _ x hx)
  · intro n c hn _ _
    exact Alive_takeConcludedHits hn c
  · intro n hn; exact hn
  · exact Alive_insert p Bookkept_nil
      (fun _ d hd => by simp [CausalCluster.new, DomMap.get?] at hd)
      (by simp [CausalCluster.new])

theorem addHitLoop_checked_eq (p : HiveSplitter_ParameterSet) (h : AbsHit) :
    ∀ (todo : List CausalCluster) (st : AddHitLoop), (∀ c ∈ st.visited, Holding c) →
      (∀ c ∈ todo, Alive c ∧ ∀ x ∈ c.active_hits, x.lt h = true) →
      addHitLoop_checked p h todo st = some (addHitLoop p h todo st) := by
  intro todo
  induction todo with
  | nil => intro st _ _; rfl
  | cons c rest ih =>
    intro st hv htodo
    have hc := htodo c (List.mem_cons_self _ _)
    have hrest : ∀ c2 ∈ rest, Alive c2 ∧ ∀ x ∈ c2.active_hits, x.lt h = true :=
      fun c2 hc2 => htodo c2 (List.mem_cons_of_mem _ hc2)
    unfold addHitLoop_checked addHitLoop
    by_cases ha : (c.advanceInTime p (.fin h.time)).isActive p = true
    · simp only [ha, if_true, Bool.not_true, Bool.and_false, Bool.false_eq_true, if_false]
      have hal := Alive_advance p hc.1 (.fin h.time) (Or.inl ha)
      apply ih _ _ hrest
      intro c2 hc2
      rw [List.mem_append, List.mem_singleton] at hc2
      rcases hc2 with hc2 | rfl
      · exact hv c2 hc2
      · rcases AddHitToCluster_fst p (c.advanceInTime p (.fin h.time)) h st.newClusters
          with e | ⟨e, _⟩
        · rw [e]; exact Or.inl (insertActiveHit_active_ne_nil p _ h)
        · rw [e]; exact hal.2.2
    · have ha2 : (c.advanceInTime p (.fin h.time)).isActive p = false := by simpa using ha
      by_cases he : (c.advanceInTime p (.fin h.time)).established = true
      · have hal := Alive_advance p hc.1 (.fin h.time) (Or.inr he)
        have hcl : ∀ c2 ∈ st.visited ++ c.advanceInTime p (.fin h.time) :: rest, Holding c2 := by
          intro c2 hc2
          rw [List.mem_append, List.mem_cons] at hc2
          rcases hc2 with hc2 | rfl | hc2
          · exact hv c2 hc2
          · exact hal.2.2
          · exact (hrest c2 hc2).1.2.2
        simp only [ha2, CausalCluster.isEstablished, he, Bool.not_false, Bool.and_self, if_true,
          Bool.false_eq_true, if_false]
        rw [AddSubEvent_checked_eq p _ _ _ _ hcl]
        exact ih _ hv hrest
      · have he2 : (c.advanceInTime p (.fin h.time)).established = false := by simpa using he
        simp only [ha2, CausalCluster.isEstablished, he2, Bool.not_false, Bool.and_true,
          Bool.false_eq_true, if_false]
        exact ih _ hv hrest

theorem AddHit_checked_eq (p : HiveSplitter_ParameterSet) (s : HiveSplitter) (h : AbsHit)
    (hs : ∀ c ∈ s.clusters_, Alive c ∧ ∀ x ∈ c.active_hits, x.lt h = true) :
    s.AddHit_checked p h = some (s.AddHit p h) := by
  unfold HiveSplitter.AddHit_checked HiveSplitter.AddHit
  rw [addHitLoop_checked_eq p h s.clusters_ _ (fun c hc => by simp at hc) hs]

theorem finalizeLoop_checked_eq (p : HiveSplitter_ParameterSet) :
    ∀ (cl : List CausalCluster) (pa : List AbsHitSet) (su : AbsHitSetSequence),
      (∀ c ∈ cl, Holding c) → finalizeLoop_checked p cl pa su = some (finalizeLoop p cl pa su) := by
  intro cl
  induction cl with
  | nil => intro pa su _; rfl
  | cons c rest ih =>
    intro pa su hcl
    have hrest : ∀ c2 ∈ rest, Holding c2 := fun c2 hc2 => hcl c2 (List.mem_cons_of_mem _ hc2)
    unfold finalizeLoop_checked finalizeLoop
    by_cases he : (c.advanceInTime p .pinf).established = true
    · have hst : Stocked c := fun _ => hcl c (List.mem_cons_self _ _)
      have h1 : Holding (c.advanceInTime p .pinf) := Stocked_advance (p := p) hst .pinf he
      have hall : ∀ c2 ∈ c.advanceInTime p .pinf :: rest, Holding c2 := by
        intro c2 hc2
        rcases List.mem_cons.1 hc2 with rfl | hc2
        · exact h1
        · exact hrest c2 hc2
      simp only [CausalCluster.isEstablished, he, if_true]
      rw [AddSubEvent_checked_eq p _ _ _ _ hall]
      exact ih _ _ hrest
    · simp only [CausalCluster.isEstablished, he, if_false, Bool.false_eq_true]
      exact ih _ _ hrest

theorem foldl_AddHit_alive (p : HiveSplitter_ParameterSet) :
    ∀ (l fed : List AbsHit) (s : HiveSplitter),
      (fed ++ l).Pairwise (fun a b => a.lt b = true) →
      (∀ c ∈ s.clusters_, Sound fed c ∧ Alive c) →
      feed_checked p l s = some (l.foldl (fun s h => s.AddHit p h) s) ∧
      ∀ c ∈ (l.foldl (fun s h => s.AddHit p h) s).clusters_, Sound (fed ++ l) c ∧ Alive c := by
  intro l
  induction l with
  | nil => intro fed s _ hs; exact ⟨rfl, by simpa using hs⟩
  | cons h t ih =>
    intro fed s hsort hs
    have hlt : ∀ x ∈ fed, x.lt h = true :=
      fun x hx => (List.pairwise_append.1 hsort).2.2 x hx h (List.mem_cons_self _ _)
    have hal : ∀ c ∈ s.clusters_, Alive c ∧ ∀ x ∈ c.active_hits, x.lt h = true :=
      fun c hc => ⟨(hs c hc).2, (Sound_before (hs c hc).1 hlt).2⟩
    have h1 := AddHit_sound p s h fed (fun c hc => (hs c hc).1) hlt
    have h2 := AddHit_alive p s h hal
    have := ih (fed ++ [h]) (s.AddHit p h) (by simpa using hsort)
      (fun c hc => ⟨h1 c hc, h2 c hc⟩)
    rw [List.foldl_cons]
    unfold feed_checked
    rw [AddHit_checked_eq p s h hal]
    simpa using this

end hivesplitter

/-! ## Completed subevents end before the hits still held -/

namespace hivesplitter
open detail

theorem finLt_min (a : Int) (t e : Time) :
    Time.finLt a (Time.min t e) = (Time.finLt a t && Time.finLt a e) := by
  cases t <;> cases e <;> simp [Time.min, Time.finLt]

theorem min_attained (t e : Time) : Time.min t e = t ∨ Time.min t e = e := by
  cases t <;> cases e <;> simp [Time.min]
  rename_i a b
  exact le_total a b

theorem finLt_foldl_min (a : Int) :
    ∀ (cl : List CausalCluster) (t : Time),
      Time.finLt a (cl.foldl (fun t c => Time.min t c.getEarliestTime) t) = true →
      Time.finLt a t = true ∧ ∀ c ∈ cl, Time.finLt a c.getEarliestTime = true := by
  intro cl
  induction cl with
  | nil => intro t h; exact ⟨h, fun c hc => by simp at hc⟩
  | cons c cs ih =>
    intro t h
    rw [List.foldl_cons] at h
    obtain ⟨h1, h2⟩ := ih _ h
    rw [finLt_min, Bool.and_eq_true] at h1
    refine ⟨h1.1, ?_⟩
    intro c2 hc2
    rcases List.mem_cons.1 hc2 with rfl | hc2
    · exact h1.2
    · exact h2 c2 hc2

theorem foldl_min_attained :
    ∀ (cl : List CausalCluster) (t : Time),
      cl.foldl (fun t c => Time.min t c.getEarliestTime) t = t ∨
      ∃ c ∈ cl, cl.foldl (fun t c => Time.min t c.getEarliestTime) t = c.getEarliestTime := by
  intro cl
  induction cl with
  | nil => intro t; exact Or.inl rfl
  | cons c cs ih =>
    intro t
    rw [List.foldl_cons]
    rcases ih (Time.min t c.getEarliestTime) with h | ⟨c2, hc2, h⟩
    · rcases min_attained t c.getEarliestTime with h2 | h2
      · exact Or.inl (by rw [h, h2])
      · exact Or.inr ⟨c, List.mem_cons_self _ _, by rw [h, h2]⟩
    · exact Or.inr ⟨c2, List.mem_cons_of_mem _ hc2, h⟩

theorem getEarliestTime_attained (c : CausalCluster) :
    c.getEarliestTime = Time.pinf ∨
    ∃ y ∈ c.concluded_hits ++ c.active_hits, c.getEarliestTime = .fin y.time := by
  unfold CausalCluster.getEarliestTime
  cases h1 : c.concluded_hits with
  | cons x xs => exact Or.inr ⟨x, by simp, rfl⟩
  | nil =>
    cases h2 : c.active_hits with
    | cons y ys => exact Or.inr ⟨y, by simp, rfl⟩
    | nil => exact Or.inl rfl

theorem getEarliestTime_le {c : CausalCluster}
    (hs : (c.concluded_hits ++ c.active_hits).Pairwise (fun a b => a.lt b = true))
    {a : Int} (ha : Time.finLt a c.getEarliestTime = true) :
    ∀ y ∈ c.concluded_hits ++ c.active_hits, a < y.time := by
  intro y hy
  have key : ∀ (l : AbsHitSet) (x : AbsHit), (x :: l).Pairwise (fun a b => a.lt b = true) →
      a < x.time → ∀ y ∈ x :: l, a < y.time := by
    intro l x hl hax y hy
    rcases List.mem_cons.1 hy with rfl | hy
    · exact hax
    · have := AbsHit_time_le_of_lt ((List.pairwise_cons.1 hl).1 y hy)
      omega
  unfold CausalCluster.getEarliestTime at ha
  cases h1 : c.concluded_hits with
  | cons x xs =>
    rw [h1] at ha hs hy
    simp only [Time.finLt, decide_eq_true_eq] at ha
    exact key _ x hs ha y hy
  | nil =>
    rw [h1] at ha hs hy
    simp only [List.nil_append] at hs hy
    cases h2 : c.active_hits with
    | cons z zs =>
      rw [h2] at ha hs hy
      simp only [Time.finLt, decide_eq_true_eq] at ha
      exact key _ z hs ha y hy
    | nil => rw [h2] at hy; exact absurd hy (List.not_mem_nil _)

theorem endsBefore_all {earliest : Time} {e : AbsHitSet}
    (hs : e.Pairwise (fun a b => a.lt b = true)) (hb : endsBefore earliest e = true) :
    ∀ z ∈ e, Time.finLt z.time earliest = true := by
  intro z hz
  unfold endsBefore at hb
  rcases List.eq_nil_or_concat e with h | ⟨init, x, h⟩
  · rw [h] at hz; exact absurd hz (List.not_mem_nil _)
  · rw [List.concat_eq_append] at h
    subst h
    rw [List.getLast?_concat] at hb
    simp only at hb
    have hzx : z.time ≤ x.time := by
      rw [List.mem_append, List.mem_singleton] at hz
      rcases hz with hz | rfl
      · exact AbsHit_time_le_of_lt ((List.pairwise_append.1 hs).2.2 z hz x (by simp))
      · exact le_refl _
    cases earliest with
    | ninf => simp [Time.finLt] at hb
    | pinf => rfl
    | fin t =>
      simp only [Time.finLt, decide_eq_true_eq] at hb ⊢
      omega

theorem promoted_before {clusters : List CausalCluster} {e : AbsHitSet}
    (hcl : ∀ c ∈ clusters,
      (c.concluded_hits ++ c.active_hits).Pairwise (fun a b => a.lt b = true))
    (hs : e.Pairwise (fun a b => a.lt b = true))
    (hb : endsBefore (earliestUpcomingTime clusters) e = true)
    (hne : earliestUpcomingTime clusters ≠ Time.pinf) :
    ∀ z ∈ e, (∀ c ∈ clusters, ∀ y ∈ c.concluded_hits ++ c.active_hits, z.time < y.time) ∧
      ∃ c ∈ clusters, ∃ y ∈ c.concluded_hits ++ c.active_hits, z.time < y.time := by
  intro z hz
  have h1 := endsBefore_all hs hb z hz
  have h2 := (finLt_foldl_min z.time clusters Time.pinf h1).2
  have hall : ∀ c ∈ clusters, ∀ y ∈ c.concluded_hits ++ c.active_hits, z.time < y.time :=
    fun c hc => getEarliestTime_le (hcl c hc) (h2 c hc)
  refine ⟨hall, ?_⟩
  rcases foldl_min_attained clusters Time.pinf with h3 | ⟨c, hc, h3⟩
  · exact absurd h3 hne
  · rcases getEarliestTime_attained c with h4 | ⟨y, hy, _⟩
    · have : earliestUpcomingTime clusters = Time.pinf := by
        unfold earliestUpcomingTime; rw [h3, h4]
      exact absurd this hne
    · exact ⟨c, hc, y, hy, hall c hc y hy⟩

theorem AddSubEvent_separated (p : HiveSplitter_ParameterSet) (hm : p.mergeOverlap = 1)
    (clusters : List CausalCluster) (newSet : AbsHitSet) (pa : List AbsHitSet)
    (su : AbsHitSetSequence) (hn : newSet.Pairwise (fun a b => a.lt b = true))
    (hsep : Separated su pa) (hnew : ∀ e ∈ su, disjointSets e newSet) :
    Separated (AddSubEvent p clusters newSet pa su).2 (AddSubEvent p clusters newSet pa su).1 ∧
    (∀ e ∈ (AddSubEvent p clusters newSet pa su).2, e ∈ su ∨
      (e.Pairwise (fun a b => a.lt b = true) ∧
        endsBefore (earliestUpcomingTime clusters) e = true ∧
        earliestUpcomingTime clusters ≠ Time.pinf)) ∧
    ∀ e ∈ (AddSubEvent p clusters newSet pa su).2 ++ (AddSubEvent p clusters newSet pa su).1,
      ∀ x ∈ e, x ∈ newSet ∨ ∃ e0 ∈ su ++ pa, x ∈ e0 := by
  obtain ⟨hd, hsorted⟩ := hsep
  obtain ⟨hsu, hpa, hcross⟩ := List.pairwise_append.1 hd
  have hpas : ∀ e ∈ pa, e.Pairwise (fun a b => a.lt b = true) :=
    fun e he => hsorted e (List.mem_append_right _ he)
  obtain ⟨promoted, h1, h2, h3, h4⟩ := AddSubEvent_disjoint p hm clusters newSet pa su hn hpas hpa
  have hsort2 : ∀ e ∈ (AddSubEvent p clusters newSet pa su).1 ++ promoted,
      e.Pairwise (fun a b => a.lt b = true) := by
    intro e he
    have hR := AddSubEvent_forall (fun e => e.Pairwise (fun a b => a.lt b = true)) p
      (fun a b ha _ => AbsHitSet_insertAll_sorted ha) clusters newSet pa su hn hpas
      (fun e he => hsorted e (List.mem_append_left _ he))
    rw [List.mem_append] at he
    rcases he with he | he
    · exact hR.1 e he
    · exact hR.2 e (by rw [h1]; exact List.mem_append_right _ he)
  rw [h1]
  refine ⟨⟨?_, ?_⟩, ?_, ?_⟩
  · rw [List.append_assoc, List.pairwise_append]
    refine ⟨hsu, ?_, ?_⟩
    · exact (List.Perm.pairwise_iff (fun {a b} hab => disjointSets_symm hab)
        List.perm_append_comm).1 h2
    · intro e he f hf x hxe hxf
      have hx : x ∈ newSet ∨ ∃ e0 ∈ pa, x ∈ e0 :=
        (h3 x).1 ⟨f, by
          rw [List.mem_append] at hf ⊢
          exact hf.symm, hxf⟩
      rcases hx with hx | ⟨e0, he0, hx⟩
      · exact hnew e he x hxe hx
      · exact hcross e he e0 he0 x hxe hx
  · intro e he
    rw [List.append_assoc, List.mem_append] at he
    rcases he with he | he
    · exact hsorted e (List.mem_append_left _ he)
    · exact hsort2 e (by
        rw [List.mem_append] at he ⊢
        exact he.symm)
  · intro e he
    rw [List.mem_append] at he
    rcases he with he | he
    · exact Or.inl he
    · exact Or.inr ⟨hsort2 e (List.mem_append_right _ he), h4 e he⟩
  · intro e he x hx
    rw [List.append_assoc, List.mem_append] at he
    rcases he with he | he
    · exact Or.inr ⟨e, List.mem_append_left _ he, hx⟩
    · have := (h3 x).1 ⟨e, by
        rw [List.mem_append] at he ⊢
        exact he.symm, hx⟩
      rcases this with h5 | ⟨e0, he0, h5⟩
      · exact Or.inl h5
      · exact Or.inr ⟨e0, List.mem_append_right _ he0, h5⟩

end hivesplitter

/-! ## No hit in two subevents when the merge overlap is one -/

namespace hivesplitter
open detail

theorem advance_hits_subset (p : HiveSplitter_ParameterSet) (c : CausalCluster) (time : Time) :
    ∀ x ∈ (c.advanceInTime p time).concluded_hits ++ (c.advanceInTime p time).active_hits,
      x ∈ c.concluded_hits ++ c.active_hits := by
  intro x hx
  obtain ⟨_, m2, _⟩ := advanceLoop_mem p time c.established c.active_hits c.active_doms
    c.firstHitTimes c.concluded_hits
  have hsub := advanceLoop_active_subset p time c.established c.active_hits c.active_doms
    c.firstHitTimes c.concluded_hits
  simp only [CausalCluster.advanceInTime, List.mem_append] at hx
  rw [List.mem_append]
  rcases hx with hx | hx
  · exact m2 x hx
  · exact Or.inr (hsub x hx)

theorem insert_hits_subset (p : HiveSplitter_ParameterSet) (c : CausalCluster) (h : AbsHit) :
    ∀ x ∈ (c.insertActiveHit p h).concluded_hits ++ (c.insertActiveHit p h).active_hits,
      x = h ∨ x ∈ c.concluded_hits ++ c.active_hits := by
  intro x hx
  have hcon : (c.insertActiveHit p h).concluded_hits = c.concluded_hits := rfl
  rw [hcon, insertActiveHit_active, List.mem_append, AbsHitSet_mem_insert] at hx
  rw [List.mem_append]
  tauto

theorem Sound_concluded_sorted {fed : List AbsHit} {c : CausalCluster} (hc : Sound fed c) :
    c.concluded_hits.Pairwise (fun a b => a.lt b = true) :=
  (List.pairwise_append.1 hc.2.2.2).1

theorem time_le_of_fed {fed : List AbsHit} {h y : AbsHit} (hlt : ∀ x ∈ fed, x.lt h = true)
    (hy : y ∈ fed ++ [h]) : y.time ≤ h.time := by
  rw [List.mem_append, List.mem_singleton] at hy
  rcases hy with hy | rfl
  · exact AbsHit_time_le_of_lt (hlt y hy)
  · exact le_refl _

theorem addHitLoop_apart (p : HiveSplitter_ParameterSet) (hm : p.mergeOverlap = 1)
    (h : AbsHit) (fed : List AbsHit) (hlt : ∀ x ∈ fed, x.lt h = true)
    (todo : List CausalCluster) (st : AddHitLoop)
    (h1 : ∀ c ∈ todo, Sound fed c) (h2 : ∀ c ∈ st.visited, Sound (fed ++ [h]) c)
    (h3 : Separated st.subEvents st.partialSubEvents)
    (h4 : FinalsBefore st.subEvents (st.visited ++ todo))
    (h5 : ∀ e ∈ st.subEvents, ∀ z ∈ e, z.time < h.time) :
    Separated (addHitLoop p h todo st).subEvents (addHitLoop p h todo st).partialSubEvents ∧
    FinalsBefore (addHitLoop p h todo st).subEvents (addHitLoop p h todo st).visited ∧
    ∀ e ∈ (addHitLoop p h todo st).subEvents, ∀ z ∈ e, z.time < h.time := by
  have key := addHitLoop_induction p h
    (fun st todo => (∀ c ∈ todo, Sound fed c) ∧ (∀ c ∈ st.visited, Sound (fed ++ [h]) c) ∧
      Separated st.subEvents st.partialSubEvents ∧
      FinalsBefore st.subEvents (st.visited ++ todo) ∧
      ∀ e ∈ st.subEvents, ∀ z ∈ e, z.time < h.time)
    ?_ ?_ ?_ todo st ⟨h1, h2, h3, h4, h5⟩
  · obtain ⟨_, _, k3, k4, k5⟩ := key
    exact ⟨k3, by simpa using k4, k5⟩
  · intro st c rest hI _
    obtain ⟨i1, i2, i3, i4, i5⟩ := hI
    have hc1 : Sound fed (c.advanceInTime p (.fin h.time)) :=
      Sound_advance (i1 c (List.mem_cons_self _ _)) _
    refine ⟨fun c2 hc2 => i1 c2 (List.mem_cons_of_mem _ hc2), ?_, i3, ?_, i5⟩
    · intro c2 hc2
      rw [List.mem_append, List.mem_singleton] at hc2
      rcases hc2 with hc2 | rfl
      · exact i2 c2 hc2
      · rcases AddHitToCluster_fst p (c.advanceInTime p (.fin h.time)) h st.newClusters
          with e | ⟨e, _⟩
        · rw [e]; exact Sound_insert hc1 hlt
        · rw [e]; exact Sound_mono hc1 h
    · intro e he z hz c2 hc2 y hy
      simp only [List.append_assoc, List.mem_append, List.mem_singleton, List.mem_cons,
        List.singleton_append] at hc2
      rcases hc2 with hc2 | rfl | hc2
      · exact i4 e he z hz c2 (List.mem_append_left _ hc2) y hy
      · have hy2 : y = h ∨ y ∈ c.concluded_hits ++ c.active_hits := by
          rcases AddHitToCluster_fst p (c.advanceInTime p (.fin h.time)) h st.newClusters
            with e1 | ⟨e1, _⟩
          · rw [e1] at hy
            rcases insert_hits_subset p _ h y hy with h6 | h6
            · exact Or.inl h6
            · exact Or.inr (advance_hits_subset p c _ y h6)
          · rw [e1] at hy
            exact Or.inr (advance_hits_subset p c _ y hy)
        rcases hy2 with rfl | hy2
        · exact i5 e he z hz
        · exact i4 e he z hz c (by simp) y hy2
      · exact i4 e he z hz c2 (by simp [hc2]) y hy
  · intro st c rest hI hact hest
    obtain ⟨i1, i2, i3, i4, i5⟩ := hI
    have hc1 : Sound fed (c.advanceInTime p (.fin h.time)) :=
      Sound_advance (i1 c (List.mem_cons_self _ _)) _
    have hnew : ∀ e ∈ st.subEvents,
        disjointSets e (c.advanceInTime p (.fin h.time)).concluded_hits := by
      intro e he x hxe hx
      have := i4 e he x hxe c (by simp) x
        (advance_hits_subset p c _ x (List.mem_append_left _ hx))
      omega
    obtain ⟨s1, s2, _⟩ := AddSubEvent_separated p hm
      (st.visited ++ c.advanceInTime p (.fin h.time) :: rest)
      (c.advanceInTime p (.fin h.time)).concluded_hits st.partialSubEvents st.subEvents
      (Sound_concluded_sorted hc1) i3 hnew
    have hsorted : ∀ c2 ∈ st.visited ++ c.advanceInTime p (.fin h.time) :: rest,
        (c2.concluded_hits ++ c2.active_hits).Pairwise (fun a b => a.lt b = true) ∧
        ∀ y ∈ c2.concluded_hits ++ c2.active_hits, y ∈ fed ++ [h] := by
      intro c2 hc2
      rw [List.mem_append, List.mem_cons] at hc2
      rcases hc2 with hc2 | rfl | hc2
      · exact ⟨(i2 c2 hc2).2.2.2, (i2 c2 hc2).2.2.1⟩
      · exact ⟨hc1.2.2.2, (Sound_mono hc1 h).2.2.1⟩
      · have := i1 c2 (List.mem_cons_of_mem _ hc2)
        exact ⟨this.2.2.2, (Sound_mono this h).2.2.1⟩
    refine ⟨fun c2 hc2 => i1 c2 (List.mem_cons_of_mem _ hc2), i2, s1, ?_, ?_⟩
    · intro e he z hz c2 hc2 y hy
      have hc3 : c2 ∈ st.visited ++ c :: rest := by
        rw [List.mem_append] at hc2 ⊢
        rcases hc2 with hc2 | hc2
        · exact Or.inl hc2
        · exact Or.inr (List.mem_cons_of_mem _ hc2)
      have hc4 : c2 ∈ st.visited ++ c.advanceInTime p (.fin h.time) :: rest := by
        rw [List.mem_append] at hc2 ⊢
        rcases hc2 with hc2 | hc2
        · exact Or.inl hc2
        · exact Or.inr (List.mem_cons_of_mem _ hc2)
      rcases s2 e he with h6 | ⟨h6, h7, h8⟩
      · exact i4 e h6 z hz c2 hc3 y hy
      · exact (promoted_before (fun c3 hc3 => (hsorted c3 hc3).1) h6 h7 h8 z hz).1 c2 hc4 y hy
    · intro e he z hz
      rcases s2 e he with h6 | ⟨h6, h7, h8⟩
      · exact i5 e h6 z hz
      · obtain ⟨c3, hc3, y, hy, hzy⟩ :=
          (promoted_before (fun c3 hc3 => (hsorted c3 hc3).1) h6 h7 h8 z hz).2
        have := time_le_of_fed hlt ((hsorted c3 hc3).2 y hy)
        omega
  · intro st c rest hI _ _
    obtain ⟨i1, i2, i3, i4, i5⟩ := hI
    refine ⟨fun c2 hc2 => i1 c2 (List.mem_cons_of_mem _ hc2), i2, i3, ?_, i5⟩
    intro e he z hz c2 hc2 y hy
    refine i4 e he z hz c2 ?_ y hy
    rw [List.mem_append] at hc2 ⊢
    rcases hc2 with hc2 | hc2
    · exact Or.inl hc2
    · exact Or.inr (List.mem_cons_of_mem _ hc2)

theorem addHitLoop_provenance (p : HiveSplitter_ParameterSet) (h : AbsHit)
    (todo : List CausalCluster) (st : AddHitLoop)
    (h1 : ∀ n ∈ st.newClusters, ∀ y ∈ n.active_hits,
      y = h ∨ ∃ c ∈ st.visited, y ∈ c.active_hits) :
    ∀ n ∈ (addHitLoop p h todo st).newClusters, ∀ y ∈ n.active_hits,
      y = h ∨ ∃ c ∈ (addHitLoop p h todo st).visited, y ∈ c.active_hits := by
  refine addHitLoop_induction p h
    (fun st _ => ∀ n ∈ st.newClusters, ∀ y ∈ n.active_hits,
      y = h ∨ ∃ c ∈ st.visited, y ∈ c.active_hits) ?_ ?_ ?_ todo st h1
  · intro st c rest hI _
    have hold : ∀ n ∈ st.newClusters, ∀ y ∈ n.active_hits, y = h ∨
        ∃ c2 ∈ st.visited ++ [(AddHitToCluster p (c.advanceInTime p (.fin h.time)) h
          st.newClusters).1], y ∈ c2.active_hits := by
      intro n hn y hy
      rcases hI n hn y hy with h2 | ⟨c2, hc2, h2⟩
      · exact Or.inl h2
      · exact Or.inr ⟨c2, List.mem_append_left _ hc2, h2⟩
    intro n hn y hy
    simp only at hn hy ⊢
    rcases AddHitToCluster_cases p (c.advanceInTime p (.fin h.time)) h st.newClusters
      with e | e | ⟨hits, _, _, hsub, e⟩
    · rw [e] at hn; exact hold n hn y hy
    · rw [e] at hn; exact hold n hn y hy
    · have hn2 : n ∈ st.newClusters ∨ n = makeSubCluster p hits h := by
        rw [e] at hn
        simp only at hn
        split_ifs at hn
        · rw [List.mem_append, List.mem_singleton] at hn
          rcases hn with hn | hn
          · exact Or.inl (pruneNew_subset _ _ n hn)
          · exact Or.inr hn
        · exact Or.inl (pruneNew_subset _ _ n hn)
      rcases hn2 with hn2 | rfl
      · exact hold n hn2 y hy
      · rcases ((makeSubCluster_mem p hits h).1 y).1 hy with h3 | h3
        · exact Or.inl h3
        · refine Or.inr ⟨_, List.mem_append_right _ (List.mem_singleton_self _), ?_⟩
          rw [e]
          exact hsub y h3
  · intro st c rest hI _ _
    exact hI
  · intro st c rest hI _ _
    exact hI

theorem AddHit_apart (p : HiveSplitter_ParameterSet) (hm : p.mergeOverlap = 1)
    (s : HiveSplitter) (h : AbsHit) (fed : List AbsHit) (hs : Apart fed s)
    (hlt : ∀ x ∈ fed, x.lt h = true) : Apart (fed ++ [h]) (s.AddHit p h) := by
  obtain ⟨a1, a2, a3, a4⟩ := hs
  have hsound := AddHit_sound p s h fed a1 hlt
  obtain ⟨kept, hk1, hk2, _⟩ := AddHit_clusters_eq p s h
    (fun c hc => Sound_before (a1 c hc) hlt)
  obtain ⟨_, hsp⟩ := afterFirstLoop_offered p s h (fun c hc => Sound_before (a1 c hc) hlt)
  have hloop := addHitLoop_apart p hm h fed hlt s.clusters_
    { visited := [], newClusters := [], partialSubEvents := s.partialSubEvents_,
      subEvents := s.subEvents_, addedToCluster := false }
    a1 (fun c hc => by simp at hc) a2 (by simpa using a3)
    (by
      intro e he z hz
      obtain ⟨y, hy, hzy⟩ := a4 e he z hz
      have := AbsHit_time_le_of_lt (hlt y hy)
      omega)
  have hprov := addHitLoop_provenance p h s.clusters_
    { visited := [], newClusters := [], partialSubEvents := s.partialSubEvents_,
      subEvents := s.subEvents_, addedToCluster := false }
    (fun n hn => by simp at hn)
  change Separated (s.afterFirstLoop p h).subEvents (s.afterFirstLoop p h).partialSubEvents ∧
    FinalsBefore (s.afterFirstLoop p h).subEvents (s.afterFirstLoop p h).visited ∧
    ∀ e ∈ (s.afterFirstLoop p h).subEvents, ∀ z ∈ e, z.time < h.time at hloop
  change ∀ n ∈ (s.afterFirstLoop p h).newClusters, ∀ y ∈ n.active_hits,
    y = h ∨ ∃ c ∈ (s.afterFirstLoop p h).visited, y ∈ c.active_hits at hprov
  obtain ⟨l1, l2, l3⟩ := hloop
  have epa : (s.AddHit p h).partialSubEvents_ = (s.afterFirstLoop p h).partialSubEvents := rfl
  have esu : (s.AddHit p h).subEvents_ = (s.afterFirstLoop p h).subEvents := rfl
  refine ⟨hsound, by rw [epa, esu]; exact l1, ?_, ?_⟩
  · rw [esu, hk2]
    intro e he z hz c hc y hy
    rw [List.mem_append, List.mem_append] at hc
    rcases hc with (hc | hc) | hc
    · exact l2 e he z hz c hc y hy
    · have hn := hk1.subset hc
      rw [(hsp c hn).2.1, List.nil_append] at hy
      rcases hprov c hn y hy with rfl | ⟨c2, hc2, hy2⟩
      · exact l3 e he z hz
      · exact l2 e he z hz c2 hc2 y (List.mem_append_right _ hy2)
    · split_ifs at hc
      · simp at hc
      · rw [List.mem_singleton] at hc
        subst hc
        have : y = h := by
          simpa [CausalCluster.insertActiveHit, CausalCluster.new, AbsHitSet.insert] using hy
        rw [this]
        exact l3 e he z hz
  · rw [esu]
    intro e he z hz
    exact ⟨h, by simp, l3 e he z hz⟩

theorem foldl_AddHit_apart (p : HiveSplitter_ParameterSet) (hm : p.mergeOverlap = 1) :
    ∀ (l fed : List AbsHit) (s : HiveSplitter),
      (fed ++ l).Pairwise (fun a b => a.lt b = true) → Apart fed s →
      Apart (fed ++ l) (l.foldl (fun s h => s.AddHit p h) s) := by
  intro l
  induction l with
  | nil => intro fed s _ hs; simpa using hs
  | cons h t ih =>
    intro fed s hsort hs
    rw [List.foldl_cons]
    have hlt : ∀ x ∈ fed, x.lt h = true :=
      fun x hx => (List.pairwise_append.1 hsort).2.2 x hx h (List.mem_cons_self _ _)
    have := ih (fed ++ [h]) (s.AddHit p h) (by simpa using hsort)
      (AddHit_apart p hm s h fed hs hlt)
    simpa using this

theorem finalizeLoop_separated (p : HiveSplitter_ParameterSet) (hm : p.mergeOverlap = 1)
    (fed : List AbsHit) :
    ∀ (cl : List CausalCluster) (pa : List AbsHitSet) (su : AbsHitSetSequence),
      (∀ c ∈ cl, Sound fed c) → Separated su pa → FinalsBefore su cl →
      Separated (finalizeLoop p cl pa su).2 (finalizeLoop p cl pa su).1 := by
  intro cl
  induction cl with
  | nil => intro pa su _ hs _; exact hs
  | cons c rest ih =>
    intro pa su hcl hs hf
    have hrest : ∀ c2 ∈ rest, Sound fed c2 := fun c2 hc2 => hcl c2 (List.mem_cons_of_mem _ hc2)
    have hfrest : FinalsBefore su rest :=
      fun e he z hz c2 hc2 y hy => hf e he z hz c2 (List.mem_cons_of_mem _ hc2) y hy
    have hc1 : Sound fed (c.advanceInTime p .pinf) :=
      Sound_advance (hcl c (List.mem_cons_self _ _)) _
    unfold finalizeLoop
    simp only
    by_cases hest : (c.advanceInTime p .pinf).isEstablished = true
    · rw [if_pos hest]
      have hnew : ∀ e ∈ su, disjointSets e (c.advanceInTime p .pinf).concluded_hits := by
        intro e he x hxe hx
        have := hf e he x hxe c (List.mem_cons_self _ _) x
          (advance_hits_subset p c _ x (List.mem_append_left _ hx))
        omega
      obtain ⟨s1, s2, _⟩ := AddSubEvent_separated p hm (c.advanceInTime p .pinf :: rest)
        (c.advanceInTime p .pinf).concluded_hits pa su (Sound_concluded_sorted hc1) hs hnew
      apply ih _ _ hrest s1
      intro e he z hz c2 hc2 y hy
      rcases s2 e he with h6 | ⟨h6, h7, h8⟩
      · exact hfrest e h6 z hz c2 hc2 y hy
      · refine (promoted_before ?_ h6 h7 h8 z hz).1 c2 (List.mem_cons_of_mem _ hc2) y hy
        intro c3 hc3
        rcases List.mem_cons.1 hc3 with rfl | hc3
        · exact hc1.2.2.2
        · exact (hrest c3 hc3).2.2.2
    · rw [if_neg hest]
      exact ih _ _ hrest hs hfrest

theorem Split_pairwise_disjoint (p : HiveSplitter_ParameterSet) (hm : p.mergeOverlap = 1)
    (inhits : AbsHitSet) (hs : inhits.Pairwise (fun a b => a.lt b = true)) :
    (HiveSplitter.Split p inhits).Pairwise disjointSets := by
  have hclear : Apart [] HiveSplitter.cleared := by
    refine ⟨fun c hc => by simp [HiveSplitter.cleared] at hc, ⟨?_, ?_⟩, ?_, ?_⟩
    · simp [HiveSplitter.cleared]
    · intro e he; simp [HiveSplitter.cleared] at he
    · intro e he; simp [HiveSplitter.cleared] at he
    · intro e he; simp [HiveSplitter.cleared] at he
  obtain ⟨a1, a2, a3, _⟩ := foldl_AddHit_apart p hm inhits [] HiveSplitter.cleared
    (by simpa using hs) hclear
  exact (finalizeLoop_separated p hm _ _ _ _ a1 a2 a3).1

end hivesplitter
namespace hivesplitter
open detail

theorem occurrences_le_one (x : AbsHit) :
    ∀ l : AbsHitSetSequence, l.Pairwise disjointSets → occurrences x l ≤ 1 := by
  intro l
  induction l with
  | nil => intro _; simp [occurrences]
  | cons e t ih =>
    intro hl
    rw [List.pairwise_cons] at hl
    unfold occurrences
    by_cases hx : x ∈ e
    · have : t.filter (fun e => decide (x ∈ e)) = [] := by
        rw [List.filter_eq_nil_iff]
        intro f hf
        simpa using hl.1 f hf x hx
      rw [List.filter_cons_of_pos (by simpa using hx), this]
      simp
    · rw [List.filter_cons_of_neg (by simpa using hx)]
      exact ih hl.2

end hivesplitter

/-! ## The erasure inside the sweep of `CausallyOverlaps` -/

namespace hivesplitter.detail

/-- Wherever the sweep of the source is defined, it returns what the sweep with the clean
removal of the expired entries returns. -/
theorem overlapsLoop_checked_some (m : Nat) (w : Int) :
    ∀ (s1 s2 : AbsHitSet) (common : DomMap Int) (b : Bool),
      overlapsLoop_checked m w s1 s2 common = some b → overlapsLoop m w s1 s2 common = b := by
  intro s1
  induction s1 with
  | nil =>
    intro s2 common b hb
    simp only [overlapsLoop_checked, Option.some.injEq] at hb
    simpa [overlapsLoop] using hb
  | cons x xs ih =>
    intro s2 common b hb
    unfold overlapsLoop_checked at hb
    unfold overlapsLoop
    cases hsk : skipLess x s2 with
    | nil =>
      rw [hsk] at hb
      simpa using hb
    | cons y ys =>
      rw [hsk] at hb
      simp only at hb ⊢
      by_cases hxy : x.lt y = true
      · rw [if_pos hxy] at hb ⊢
        exact ih _ _ _ hb
      · rw [if_neg hxy] at hb ⊢
        by_cases hany : common.any (fun e => decide (e.2 < x.time - w)) = true
        · rw [if_pos hany] at hb
          exact absurd hb (by simp)
        · rw [if_neg hany] at hb
          have hkeep : common.filter (fun e => !decide (e.2 < x.time - w)) = common := by
            rw [List.filter_eq_self]
            intro e he
            rw [Bool.not_eq_true, List.any_eq_false] at hany
            have := hany e he
            simpa using this
          rw [hkeep]
          by_cases hlen : (DomMap.set common x.dom x.time).length ≥ m
          · rw [if_pos hlen] at hb ⊢
            simpa using hb
          · rw [if_neg hlen] at hb ⊢
            exact ih _ _ _ hb

/-- With a multiplicity of at most one the sweep of the source is defined: it returns at the
first common hit, where the map is still empty. -/
theorem overlapsLoop_checked_one {m : Nat} (hm : m ≤ 1) (w : Int) :
    ∀ (s1 s2 : AbsHitSet), overlapsLoop_checked m w s1 s2 [] ≠ none := by
  intro s1
  induction s1 with
  | nil => intro s2; simp [overlapsLoop_checked]
  | cons x xs ih =>
    intro s2
    unfold overlapsLoop_checked
    cases hsk : skipLess x s2 with
    | nil => simp
    | cons y ys =>
      simp only
      by_cases hxy : x.lt y = true
      · rw [if_pos hxy]
        exact ih _
      · rw [if_neg hxy]
        have hlen : (DomMap.set ([] : DomMap Int) x.dom x.time).length ≥ m :=
          le_trans hm (DomMap.length_set_pos _ _ _)
        simp only [List.any_nil, Bool.false_eq_true, if_false]
        rw [if_pos hlen]
        simp

/-- With a multiplicity of at most one `CausallyOverlaps` is defined and is the test of the
embedding. -/
theorem CausallyOverlaps_checked_one (s1 s2 : AbsHitSet) {m : Nat} (hm : m ≤ 1) (w : Int) :
    CausallyOverlaps_checked s1 s2 m w = some (CausallyOverlaps s1 s2 m w) := by
  cases hc : CausallyOverlaps_checked s1 s2 m w with
  | none => exact absurd hc (overlapsLoop_checked_one hm w s1 s2)
  | some b => rw [CausallyOverlaps, overlapsLoop_checked_some m w s1 s2 [] b hc]

/-- Wherever `CausallyOverlaps` is defined on time-ordered sets, it returns the worded
test. -/
theorem CausallyOverlaps_checked_spec (s1 s2 : AbsHitSet) (m : Nat) {w : Int} (hw : 0 ≤ w)
    (h1 : s1.Pairwise (fun a b => a.lt b = true)) (h2 : s2.Pairwise (fun a b => a.lt b = true))
    (b : Bool) (hb : CausallyOverlaps_checked s1 s2 m w = some b) :
    b = CausallyOverlaps_spec s1 s2 m w := by
  rw [← CausallyOverlaps_iff_spec s1 s2 m hw h1 h2, CausallyOverlaps,
    overlapsLoop_checked_some m w s1 s2 [] b hb]

end hivesplitter.detail

/-! ## The claims -/

open hivesplitter hivesplitter.detail

/-- C1: in the concrete scenario (multiplicity 2, window 100, accept window unset, reject
window infinite, merge overlap 1, oracle connecting hits at most 50 apart) `Split` on
`(A,0), (B,10), (C,200)` returns exactly the one subevent `(A,0), (B,10)`; the hit
`(C,200)` is in no subevent. -/
theorem C1_concrete_scenario :
    hivesplitter.HiveSplitter.Split Scenario.params [⟨0, 0⟩, ⟨1, 10⟩, ⟨2, 200⟩]
      = [[⟨0, 0⟩, ⟨1, 10⟩]] ∧
    ∀ s ∈ hivesplitter.HiveSplitter.Split Scenario.params [⟨0, 0⟩, ⟨1, 10⟩, ⟨2, 200⟩],
      (⟨2, 200⟩ : HitSorting.AbsHit) ∉ s := by
  decide

/-- C2: all-disconnected isolation. For a multiplicity above one and an oracle that connects
no pair of hits, `Split` returns no subevent, for every time-ordered set of hits. -/
theorem C2_all_disconnected_isolation (p : hivesplitter.HiveSplitter_ParameterSet)
    (hm : 1 < p.multiplicity) (hfalse : ∀ a b, p.Connected a b = false)
    (inhits : AbsHitSet) (hs : inhits.Pairwise (fun a b => a.lt b = true)) :
    hivesplitter.HiveSplitter.Split p inhits = [] := by
  have := foldl_AddHit_oneSensor p hfalse hm inhits HiveSplitter.cleared hs rfl rfl
    (by intro c hc; simp [HiveSplitter.cleared] at hc)
  unfold HiveSplitter.Split HiveSplitter.FinalizeSubEvents
  simp only
  rw [finalizeLoop_of_not_established p _ _ _ this.2.2, this.1, this.2.1]
  rfl

/-- Witness for C2 on a concrete parameter set and hit set. -/
theorem C2_all_disconnected_isolation_witness :
    1 < Scenario.paramsNone.multiplicity ∧
    hivesplitter.HiveSplitter.Split Scenario.paramsNone
      [⟨0, 0⟩, ⟨0, 10⟩, ⟨1, 10⟩, ⟨0, 50⟩, ⟨0, 400⟩] = [] :=
  ⟨by decide,
    C2_all_disconnected_isolation Scenario.paramsNone (by decide)
      (fun _ _ => rfl) [⟨0, 0⟩, ⟨0, 10⟩, ⟨1, 10⟩, ⟨0, 50⟩, ⟨0, 400⟩] (by decide)⟩

/-- C3, as amended: all-connected saturation. For multiplicity one, an oracle that connects
every pair of hits, and a non-empty time-ordered set of hits on pairwise distinct
sensors in which every hit lies at most `multiplicityTimeWindow` after the hit before
it, `Split` returns exactly one subevent, and this subevent is the whole input. -/
theorem C3_all_connected_chain (p : HiveSplitter_ParameterSet) (hm : p.multiplicity = 1)
    (htrue : ∀ a b, p.Connected a b = true) (inhits : AbsHitSet) (hne : inhits ≠ [])
    (hs : inhits.Pairwise (fun a b => a.lt b = true))
    (hd : inhits.Pairwise (fun a b => a.dom ≠ b.dom))
    (hgap : inhits.Chain' (fun a b => b.time ≤ a.time + p.multiplicityTimeWindow)) :
    HiveSplitter.Split p inhits = [inhits] := by
  cases inhits with
  | nil => exact absurd rfl hne
  | cons h0 t =>
    have hfirst : HiveSplitter.cleared.AddHit p h0 =
        { clusters_ := [CausalCluster.new.insertActiveHit p h0], newClusters_ := [],
          partialSubEvents_ := [], subEvents_ := [] } := by
      simp [HiveSplitter.AddHit, HiveSplitter.cleared, addHitLoop, reconcile]
    have hc0 : Chained (CausalCluster.new.insertActiveHit p h0) [h0] h0 := by
      refine ⟨?_, rfl, rfl, ?_⟩
      · simp [CausalCluster.insertActiveHit, CausalCluster.new, DomMap.get?, DomMap.set, hm]
      · intro d hd2
        rcases insertActiveHit_firstHits_isSome p _ h0 d hd2 with h1 | h1
        · simp [CausalCluster.new, DomMap.get?] at h1
        · exact ⟨h0, by simp, h1.symm⟩
    obtain ⟨c2, last, hc2, e⟩ := foldl_AddHit_chained p hm htrue t _ [h0] h0 hc0 hs hd hgap
    unfold HiveSplitter.Split
    rw [List.foldl_cons, hfirst, e]
    exact Finalize_chained p c2 _ last hc2 hs

/-- C3, counterexample: with multiplicity one and an oracle that connects everything, two
hits on distinct sensors that lie further apart than the multiplicity time window
end up in two subevents. -/
theorem C3_counterexample :
    hivesplitter.HiveSplitter.Split Scenario.paramsAll [⟨0, 0⟩, ⟨1, 500⟩]
      = [[⟨0, 0⟩], [⟨1, 500⟩]] ∧
    ¬ ∃ e, hivesplitter.HiveSplitter.Split Scenario.paramsAll [⟨0, 0⟩, ⟨1, 500⟩] = [e] := by
  have h : hivesplitter.HiveSplitter.Split Scenario.paramsAll [⟨0, 0⟩, ⟨1, 500⟩]
      = [[⟨0, 0⟩], [⟨1, 500⟩]] := by decide
  refine ⟨h, ?_⟩
  rintro ⟨e, he⟩
  rw [h] at he
  simp at he

/-- Witness for the amended C3 on three hits in a chain. -/
theorem C3_all_connected_chain_witness :
    hivesplitter.HiveSplitter.Split Scenario.paramsAll [⟨0, 0⟩, ⟨1, 100⟩, ⟨2, 150⟩]
      = [[⟨0, 0⟩, ⟨1, 100⟩, ⟨2, 150⟩]] :=
  C3_all_connected_chain Scenario.paramsAll rfl (fun _ _ => rfl)
    [⟨0, 0⟩, ⟨1, 100⟩, ⟨2, 150⟩] (by simp) (by decide) (by decide)
    (by simp [Scenario.paramsAll])

set_option maxRecDepth 100000 in
/-- C6 (code defect): the subevents returned by `Split` are not ordered by the time of their
first hit. On `fiveHits` the cluster on the even sensors is concluded first and is
filed first, although the cluster on the odd sensors starts earlier: the first-hit
times along the returned sequence are 5, 0. The queue of the trigger shows the same. -/
theorem C6_output_not_ordered_by_first_hit :
    HiveSplitter.Split Scenario.paramsParity Scenario.fiveHits
      = [[⟨2, 5⟩, ⟨4, 6⟩], [⟨1, 0⟩, ⟨3, 90⟩, ⟨5, 150⟩]] ∧
    ((Scenario.feed Scenario.triggerParity Scenario.fiveHits).FinalizeSubEvents
        Scenario.triggerParity).subEvents_
      = [[⟨2, 5⟩, ⟨4, 6⟩], [⟨1, 0⟩, ⟨3, 90⟩, ⟨5, 150⟩]] ∧
    ¬ (firstHitTimesOf (HiveSplitter.Split Scenario.paramsParity Scenario.fiveHits)).Chain'
        (fun a b => a ≤ b) := by
  have h1 : HiveSplitter.Split Scenario.paramsParity Scenario.fiveHits
      = [[⟨2, 5⟩, ⟨4, 6⟩], [⟨1, 0⟩, ⟨3, 90⟩, ⟨5, 150⟩]] := by decide
  have h2 : ((Scenario.feed Scenario.triggerParity Scenario.fiveHits).FinalizeSubEvents
        Scenario.triggerParity).subEvents_
      = [[⟨2, 5⟩, ⟨4, 6⟩], [⟨1, 0⟩, ⟨3, 90⟩, ⟨5, 150⟩]] := by decide
  refine ⟨h1, h2, ?_⟩
  rw [h1]
  simp [firstHitTimesOf]

set_option maxRecDepth 100000 in
/-- C8 (code defect): after the hits `fourHits` the trigger holds a live cluster with hits
at ticks 1000, 1100, 1190 and one partial subevent with a hit at tick 1050, and no
finalized subevent. `FinalizedUntil` returns 1049, while the watermark of the
definition is 999: the loop over the partial subevents writes into `ticks_frombelow`. -/
theorem C8_finalizedUntil_differs_from_definition :
    (Scenario.feed Scenario.triggerParams Scenario.fourHits).FinalizedUntil = 1049 ∧
    (Scenario.feed Scenario.triggerParams Scenario.fourHits).FinalizedUntil_spec = 999 := by
  decide

set_option maxRecDepth 100000 in
/-- C9 (code defect): after the hits `fourHits` the value of `FinalizedUntil` is 1049, and
the only live cluster still holds the hit `(0, 1000)` in its concluded set; the
partial subevent is `(2, 1050)`. -/
theorem C9_watermark_unsound :
    (Scenario.feed Scenario.triggerParams Scenario.fourHits).FinalizedUntil = 1049 ∧
    (Scenario.feed Scenario.triggerParams Scenario.fourHits).partialSubEvents_
      = [[⟨2, 1050⟩]] ∧
    (∃ c ∈ (Scenario.feed Scenario.triggerParams Scenario.fourHits).clusters_,
      (⟨0, 1000⟩ : AbsDAQHit) ∈ c.concluded_hits) ∧
    ¬ ∀ c ∈ (Scenario.feed Scenario.triggerParams Scenario.fourHits).clusters_,
        ∀ x ∈ c.active_hits ++ c.concluded_hits,
          (Scenario.feed Scenario.triggerParams Scenario.fourHits).FinalizedUntil < x.time := by
  decide

set_option maxRecDepth 100000 in
/-- C10 (code defect): with the parameters of `IceHiveTriggerTest`, after hits were fed,
the trigger was advanced to the maximal tick and the finished subevents were pulled,
`FinalizedUntil` returns the maximal tick minus one, not the maximal tick; the same
holds when no hit was fed at all. -/
theorem C10_finalizedUntil_after_advance_to_max :
    (((Scenario.feed Scenario.triggerTestParams [⟨5, 1000⟩, ⟨9, 1200⟩, ⟨5, 1300⟩]).AdvanceTime
        Scenario.triggerTestParams hivetrigger.DAQTicks.max).PullSubEvents.2).FinalizedUntil
      = hivetrigger.DAQTicks.max - 1 ∧
    (((Scenario.feed Scenario.triggerTestParams []).AdvanceTime
        Scenario.triggerTestParams hivetrigger.DAQTicks.max).PullSubEvents.2).FinalizedUntil
      = hivetrigger.DAQTicks.max - 1 ∧
    hivetrigger.DAQTicks.max - 1 ≠ hivetrigger.DAQTicks.max := by
  decide

/-- C5: multiplicity threshold of the output. For every parameter set, every oracle and
every time-ordered set of input hits, every subevent returned by `Split` contains hits
on at least `multiplicity` distinct sensors. -/
theorem C5_multiplicity_threshold (p : HiveSplitter_ParameterSet) (inhits : AbsHitSet)
    (hs : inhits.Pairwise (fun a b => a.lt b = true)) :
    ∀ e ∈ HiveSplitter.Split p inhits, p.multiplicity ≤ distinctDoms e := by
  have := foldl_AddHit_multOk p inhits HiveSplitter.cleared hs
    (by intro c hc; simp [HiveSplitter.cleared] at hc)
    (by intro e he; simp [HiveSplitter.cleared] at he)
    (by intro e he; simp [HiveSplitter.cleared] at he)
  unfold HiveSplitter.Split
  apply FinalizeSubEvents_forall (fun e => p.multiplicity ≤ distinctDoms e) p _ _ _ this.2.1
    this.2.2
  · intro a b ha _
    exact le_trans ha (distinctDoms_mono (fun x hx => AbsHitSet_mem_insertAll.2 (Or.inl hx)))
  · intro c hc hest
    apply concluded_multOk p _ (MultOk_advance (this.1 c hc) _) hest
    exact advanceLoop_pinf p _ _ _ _ _

set_option maxRecDepth 100000 in
/-- Witness for C5: the subevent on the sensors 2 and 4 of the output-order scenario. -/
theorem C5_multiplicity_threshold_witness :
    ([⟨2, 5⟩, ⟨4, 6⟩] : AbsHitSet) ∈ HiveSplitter.Split Scenario.paramsParity Scenario.fiveHits ∧
    Scenario.paramsParity.multiplicity ≤ distinctDoms [⟨2, 5⟩, ⟨4, 6⟩] :=
  ⟨by decide,
    C5_multiplicity_threshold Scenario.paramsParity Scenario.fiveHits (by decide)
      [⟨2, 5⟩, ⟨4, 6⟩] (by decide)⟩

set_option maxRecDepth 100000 in
/-- C4, counterexample: the subevents returned by `Split` do not partition the input. In
the scenario of C1 the hit `(C,200)` is in no subevent; and with a merge overlap of 2
the hit `(1,1)` is in two subevents, which share no other hit. -/
theorem C4_counterexample :
    occurrences ⟨2, 200⟩ (HiveSplitter.Split Scenario.params [⟨0, 0⟩, ⟨1, 10⟩, ⟨2, 200⟩]) = 0 ∧
    HiveSplitter.Split Scenario.paramsOverlapTwo [⟨0, 0⟩, ⟨1, 1⟩, ⟨2, 2⟩, ⟨3, 3⟩, ⟨4, 4⟩]
      = [[⟨0, 0⟩, ⟨1, 1⟩, ⟨3, 3⟩], [⟨1, 1⟩, ⟨2, 2⟩, ⟨4, 4⟩]] ∧
    occurrences ⟨1, 1⟩
      (HiveSplitter.Split Scenario.paramsOverlapTwo [⟨0, 0⟩, ⟨1, 1⟩, ⟨2, 2⟩, ⟨3, 3⟩, ⟨4, 4⟩])
      = 2 ∧
    ¬ ∀ x ∈ ([⟨0, 0⟩, ⟨1, 10⟩, ⟨2, 200⟩] : AbsHitSet),
        occurrences x (HiveSplitter.Split Scenario.params [⟨0, 0⟩, ⟨1, 10⟩, ⟨2, 200⟩]) = 1 := by
  decide

/-- C4, as amended: every subevent returned by `Split` consists of input hits only and
holds each of its hits once (it is strictly increasing in the order of hits). An input
hit can be missing from every subevent, and for a merge overlap above one it can be in
two subevents. -/
theorem C4_output_hits_are_input_hits (p : HiveSplitter_ParameterSet) (inhits : AbsHitSet) :
    ∀ e ∈ HiveSplitter.Split p inhits,
      (∀ x ∈ e, x ∈ inhits) ∧ e.Pairwise (fun a b => a.lt b = true) := by
  have := foldl_AddHit_hitsIn p (fun x => x ∈ inhits) inhits HiveSplitter.cleared
    (fun h hh => hh)
    (by intro c hc; simp [HiveSplitter.cleared] at hc)
    (by intro e he; simp [HiveSplitter.cleared] at he)
    (by intro e he; simp [HiveSplitter.cleared] at he)
  unfold HiveSplitter.Split
  apply FinalizeSubEvents_forall
    (fun e => (∀ x ∈ e, x ∈ inhits) ∧ e.Pairwise (fun a b => a.lt b = true)) p _ _ _
    this.2.1 this.2.2
  · intro a b ha hb
    refine ⟨?_, AbsHitSet_insertAll_sorted ha.2⟩
    intro x hx
    rcases AbsHitSet_mem_insertAll.1 hx with h4 | h4
    · exact ha.1 x h4
    · exact hb.1 x h4
  · intro c hc _
    exact ⟨(HitsIn_advance (this.1 c hc) _).2.1, (HitsIn_advance (this.1 c hc) _).2.2⟩

set_option maxRecDepth 100000 in
/-- Witness for the amended C4: the hit `(B,10)` of the subevent of the scenario of C1. -/
theorem C4_output_hits_are_input_hits_witness :
    ([⟨0, 0⟩, ⟨1, 10⟩] : AbsHitSet) ∈
      HiveSplitter.Split Scenario.params [⟨0, 0⟩, ⟨1, 10⟩, ⟨2, 200⟩] ∧
    (⟨1, 10⟩ : AbsHit) ∈ ([⟨0, 0⟩, ⟨1, 10⟩, ⟨2, 200⟩] : AbsHitSet) :=
  ⟨by decide,
    (C4_output_hits_are_input_hits Scenario.params [⟨0, 0⟩, ⟨1, 10⟩, ⟨2, 200⟩]
      [⟨0, 0⟩, ⟨1, 10⟩] (by decide)).1 ⟨1, 10⟩ (by decide)⟩

/-- C7, as amended: watermark monotonicity. In every state reached from a fresh trigger by
`AddHit` calls with non-decreasing ticks and `AdvanceTime` calls, if no partial subevent
is held before and after a further call, then `FinalizedUntil` after the call is not
smaller than before it: for every `AdvanceTime` call, and for every `AddHit` call with
a tick not below the latest one when a live cluster holds a hit. -/
theorem C7_watermark_monotone_when_settled (p : hivetrigger.HiveTrigger_ParameterSet)
    (s : hivetrigger.HiveTrigger) (T : hivetrigger.DAQTicks)
    (hr : hivetrigger.Reachable p s T)
    (hp : s.partialSubEvents_ = []) :
    (∀ t : hivetrigger.DAQTicks, (s.AdvanceTime p t).partialSubEvents_ = [] →
      s.FinalizedUntil ≤ (s.AdvanceTime p t).FinalizedUntil) ∧
    (∀ h : AbsDAQHit, T ≤ h.time →
      (∃ c ∈ s.clusters_, c.concluded_hits ++ c.active_hits ≠ []) →
      (s.AddHit p h).partialSubEvents_ = [] →
      s.FinalizedUntil ≤ (s.AddHit p h).FinalizedUntil) := by
  have ho := hivetrigger.Reachable_ordered p hr
  have hearly := hivetrigger.Ordered_earliest ho
  have hold : ∀ x, ((∃ c0 ∈ s.clusters_, x ∈ c0.concluded_hits) ∨
      (∃ c0 ∈ s.clusters_, x ∈ c0.active_hits)) →
      s.clusters_.foldl (fun fa c => min fa c.getEarliestTime) hivetrigger.DAQTicks.max ≤ x.time := by
    rintro x (⟨c0, hc0, hx⟩ | ⟨c0, hc0, hx⟩)
    · exact le_trans (hivetrigger.foldl_min_le_mem _ _ c0 hc0)
        (hearly c0 hc0 x (List.mem_append_left _ hx))
    · exact le_trans (hivetrigger.foldl_min_le_mem _ _ c0 hc0)
        (hearly c0 hc0 x (List.mem_append_right _ hx))
  constructor
  · intro t hp2
    apply hivetrigger.FinalizedUntil_mono s _ hp hp2
    · exact hivetrigger.advanceTimeLoop_subEvents_prefix p t s.clusters_ _
    · intro c hc
      have hh := hivetrigger.trig_AdvanceTime_held _ _ p s t (hivetrigger.Ordered_held ho) c hc
      rcases hivetrigger.getEarliestTime_cases c with e | ⟨x, hx, e⟩
      · rw [e]; exact hivetrigger.foldl_min_le_init _ _
      · rw [e]
        rcases List.mem_append.1 hx with h1 | h1
        · rcases hh.1 x h1 with h2 | h2
          · exact hold x (Or.inl h2)
          · exact hold x (Or.inr h2.1)
        · exact hold x (Or.inr (hh.2.1 x h1).1)
  · intro h hT hne hp2
    obtain ⟨c1, hc1, hne1⟩ := hne
    obtain ⟨z, hz⟩ := List.exists_mem_of_ne_nil _ hne1
    have hzT : z.time ≤ T := ho.bound c1 hc1 z hz
    have hfa : s.clusters_.foldl (fun fa c => min fa c.getEarliestTime) hivetrigger.DAQTicks.max
        ≤ h.time :=
      le_trans (le_trans (hivetrigger.foldl_min_le_mem _ _ c1 hc1) (hearly c1 hc1 z hz))
        (le_trans hzT hT)
    apply hivetrigger.FinalizedUntil_mono s _ hp hp2
    · exact hivetrigger.addHitLoop_subEvents_prefix p h s.clusters_ _
    · intro c hc
      have hh := hivetrigger.trig_AddHit_held _ _ p s h (hivetrigger.Ordered_held ho) c hc
      rcases hivetrigger.getEarliestTime_cases c with e | ⟨x, hx, e⟩
      · rw [e]; exact hivetrigger.foldl_min_le_init _ _
      · rw [e]
        rcases List.mem_append.1 hx with h1 | h1
        · rcases hh.1 x h1 with h2 | h2
          · exact hold x (Or.inl h2)
          · exact hold x (Or.inr h2.1)
        · rcases hh.2.1 x h1 with h2 | h2
          · exact hold x (Or.inr h2.1)
          · rw [h2]; exact hfa

set_option maxRecDepth 100000 in
/-- C7, counterexample: on a freshly constructed trigger `FinalizedUntil` returns the
maximal tick minus one; after the first hit, at tick 1000, it returns 999. -/
theorem C7_counterexample :
    hivetrigger.HiveTrigger.fresh.FinalizedUntil = hivetrigger.DAQTicks.max - 1 ∧
    (hivetrigger.HiveTrigger.fresh.AddHit Scenario.triggerParams ⟨0, 1000⟩).FinalizedUntil
      = 999 ∧
    ¬ hivetrigger.HiveTrigger.fresh.FinalizedUntil ≤
      (hivetrigger.HiveTrigger.fresh.AddHit Scenario.triggerParams ⟨0, 1000⟩).FinalizedUntil := by
  decide

set_option maxRecDepth 100000 in
/-- Witness for the amended C7: the second hit of a run, fed to a trigger that holds the
first hit in a live cluster. -/
theorem C7_watermark_monotone_when_settled_witness :
    (hivetrigger.HiveTrigger.fresh.AddHit Scenario.triggerParams ⟨0, 1000⟩).FinalizedUntil ≤
      ((hivetrigger.HiveTrigger.fresh.AddHit Scenario.triggerParams ⟨0, 1000⟩).AddHit
        Scenario.triggerParams ⟨2, 1050⟩).FinalizedUntil :=
  (C7_watermark_monotone_when_settled Scenario.triggerParams
    (hivetrigger.HiveTrigger.fresh.AddHit Scenario.triggerParams ⟨0, 1000⟩) 1000
    (hivetrigger.Reachable.addHit ⟨0, 1000⟩ (hivetrigger.Reachable.fresh 0) (by decide)) (by decide)).2
    ⟨2, 1050⟩ (by decide) (by decide) (by decide)

/-- C11: `HiveTrigger::PullSubEvents` returns the queued finalized subevents in queue order
and leaves the queue empty, so that a second call right after it returns the empty
sequence (and changes nothing); the live clusters and the partial subevents are not
changed by the call. -/
theorem C11_pullSubEvents_drains_queue (s : hivetrigger.HiveTrigger) :
    s.PullSubEvents.1 = s.subEvents_ ∧
    s.PullSubEvents.2.subEvents_ = [] ∧
    s.PullSubEvents.2.PullSubEvents.1 = [] ∧
    s.PullSubEvents.2.PullSubEvents.2 = s.PullSubEvents.2 ∧
    s.PullSubEvents.2.clusters_ = s.clusters_ ∧
    s.PullSubEvents.2.partialSubEvents_ = s.partialSubEvents_ :=
  ⟨rfl, rfl, rfl, rfl, rfl, rfl⟩

/-- C12: the construction of a `HiveSplitter`, and of a `HiveTrigger`, ends in a fatal
error whenever the multiplicity is below 1, or the multiplicity time window is not
positive, or the accept window is negative, or the reject window is negative, or the
reject window is not above the accept window; an accept window that is not set (`NAN`)
meets none of the conditions on the accept window. -/
theorem C12_construction_fails_on_bad_parameters (p : HiveSplitter_ParameterSet)
    (q : hivetrigger.HiveTrigger_ParameterSet) (connectorBlock : Bool) :
    ((p.multiplicity < 1 ∨ p.multiplicityTimeWindow ≤ 0 ∨
        (∃ a, p.acceptTimeWindow = some a ∧ a < 0) ∨
        (∃ r, p.rejectTimeWindow = some r ∧ r < 0) ∨
        (∃ a r, p.acceptTimeWindow = some a ∧ p.rejectTimeWindow = some r ∧ r ≤ a)) →
      ∃ msg, HiveSplitter.new p connectorBlock = Construction.fatal msg) ∧
    ((q.multiplicity < 1 ∨ q.multiplicityTimeWindow ≤ 0 ∨
        (∃ a, q.acceptTimeWindow = some a ∧ a < 0) ∨
        (∃ r, q.rejectTimeWindow = some r ∧ r < 0) ∨
        (∃ a r, q.acceptTimeWindow = some a ∧ q.rejectTimeWindow = some r ∧ r ≤ a)) →
      ∃ msg, hivetrigger.HiveTrigger.new q connectorBlock = Construction.fatal msg) := by
  constructor
  · intro h
    unfold HiveSplitter.new
    by_cases h1 : p.multiplicity ≤ 0
    · exact ⟨_, if_pos h1⟩
    rw [if_neg h1]
    by_cases h2 : p.multiplicityTimeWindow ≤ 0
    · exact ⟨_, if_pos h2⟩
    rw [if_neg h2]
    by_cases h3 : acceptNegative p = true
    · exact ⟨_, if_pos h3⟩
    rw [if_neg h3]
    by_cases h4 : rejectNegative p = true
    · exact ⟨_, if_pos h4⟩
    rw [if_neg h4]
    by_cases h5 : rejectLeAccept p = true
    · exact ⟨_, if_pos h5⟩
    exfalso
    rcases h with h | h | ⟨a, ha, h⟩ | ⟨r, hr, h⟩ | ⟨a, r, ha, hr, h⟩
    · omega
    · exact h2 h
    · exact h3 (by simp [acceptNegative, ha, h])
    · exact h4 (by simp [rejectNegative, hr, h])
    · exact h5 (by simp [rejectLeAccept, ha, hr, h])
  · intro h
    unfold hivetrigger.HiveTrigger.new
    by_cases h1 : q.multiplicity ≤ 0
    · exact ⟨_, if_pos h1⟩
    rw [if_neg h1]
    by_cases h2 : q.multiplicityTimeWindow ≤ 0
    · exact ⟨_, if_pos h2⟩
    rw [if_neg h2]
    by_cases h3 : hivetrigger.acceptNegative q = true
    · exact ⟨_, if_pos h3⟩
    rw [if_neg h3]
    by_cases h4 : hivetrigger.rejectNegative q = true
    · exact ⟨_, if_pos h4⟩
    rw [if_neg h4]
    by_cases h5 : hivetrigger.rejectLeAccept q = true
    · exact ⟨_, if_pos h5⟩
    exfalso
    rcases h with h | h | ⟨a, ha, h⟩ | ⟨r, hr, h⟩ | ⟨a, r, ha, hr, h⟩
    · omega
    · exact h2 h
    · exact h3 (by simp [hivetrigger.acceptNegative, ha, h])
    · exact h4 (by simp [hivetrigger.rejectNegative, hr, h])
    · exact h5 (by simp [hivetrigger.rejectLeAccept, ha, hr, h])

/-- C12, at a splitter parameter set with multiplicity 0 and a trigger parameter set whose
reject window (20 ns) lies below its accept window (50 ns). -/
theorem C12_construction_fails_on_bad_parameters_witness :
    (∃ msg, HiveSplitter.new Scenario.paramsNoMultiplicity true = Construction.fatal msg) ∧
    (∃ msg, hivetrigger.HiveTrigger.new Scenario.triggerRejectFirst true =
      Construction.fatal msg) :=
  ⟨(C12_construction_fails_on_bad_parameters Scenario.paramsNoMultiplicity
      Scenario.triggerRejectFirst true).1 (Or.inl (by decide)),
    (C12_construction_fails_on_bad_parameters Scenario.paramsNoMultiplicity
      Scenario.triggerRejectFirst true).2
      (Or.inr (Or.inr (Or.inr (Or.inr ⟨50, 20, rfl, rfl, by decide⟩))))⟩

/-- C13: constructed from a parameter set without a connector block (the null pointer the
constructor of the parameter set leaves), a `HiveSplitter` and a `HiveTrigger` are
constructed all the same: the constructor writes the error message and completes; and
for no parameter set does the missing connector block end the construction. -/
theorem C13_construction_without_connector_block :
    HiveSplitter.new Scenario.splitterDefaults false =
      Construction.done HiveSplitter.cleared ["No ConnectionBlock defined!"] ∧
    hivetrigger.HiveTrigger.new Scenario.triggerTestParams false =
      Construction.done hivetrigger.HiveTrigger.fresh ["No ConnectionBlock defined!"] ∧
    (∀ (p : HiveSplitter_ParameterSet) (msg : String),
      HiveSplitter.new p false = Construction.fatal msg →
        HiveSplitter.new p true = Construction.fatal msg) ∧
    (∀ (q : hivetrigger.HiveTrigger_ParameterSet) (msg : String),
      hivetrigger.HiveTrigger.new q false = Construction.fatal msg →
        hivetrigger.HiveTrigger.new q true = Construction.fatal msg) := by
  refine ⟨by decide, by decide, ?_, ?_⟩
  · intro p msg
    unfold HiveSplitter.new
    split_ifs <;> simp
  · intro q msg
    unfold hivetrigger.HiveTrigger.new
    split_ifs <;> simp

/-- C15: on the engine that holds one cluster with the hit (sensor 0, tick 1000), the
overload `AdvanceTime(Time)` at 500 ns leaves the state as it is (it calls `PushEvents`),
while `AdvanceTime(DAQTicks)` at the converted value, 5000 ticks, concludes the cluster:
the states after the two calls differ. -/
theorem C15_advanceTime_overloads_differ :
    hivetrigger.NsToTicks Scenario.triggerParams (some 500) = 5000 ∧
    (Scenario.feed Scenario.triggerParams [⟨0, 1000⟩]).AdvanceTime_Time Scenario.triggerParams
        (some 500) = Scenario.feed Scenario.triggerParams [⟨0, 1000⟩] ∧
    ((Scenario.feed Scenario.triggerParams [⟨0, 1000⟩]).AdvanceTime_Time Scenario.triggerParams
        (some 500)).clusters_.length = 1 ∧
    ((Scenario.feed Scenario.triggerParams [⟨0, 1000⟩]).AdvanceTime Scenario.triggerParams
        (hivetrigger.NsToTicks Scenario.triggerParams (some 500))).clusters_ = [] ∧
    (Scenario.feed Scenario.triggerParams [⟨0, 1000⟩]).AdvanceTime_Time Scenario.triggerParams
        (some 500) ≠
      (Scenario.feed Scenario.triggerParams [⟨0, 1000⟩]).AdvanceTime Scenario.triggerParams
        (hivetrigger.NsToTicks Scenario.triggerParams (some 500)) := by
  decide

/-- C18: with a merge overlap of 0 two disjoint hit sets do not overlap:
`CausallyOverlaps` of the sets with the single hits (sensor 0, time 0) and (sensor 1, time 10)
is false, and `AddSubEvent` keeps them as two partial subevents. -/
theorem C18_mergeOverlap_zero_keeps_disjoint_sets :
    CausallyOverlaps [⟨1, 10⟩] [⟨0, 0⟩] 0 100 = false ∧
    CausallyOverlaps [⟨0, 0⟩] [⟨1, 10⟩] 0 100 = false ∧
    AddSubEvent Scenario.paramsMergeAll [] [⟨1, 10⟩] [[⟨0, 0⟩]] [] =
      ([[⟨0, 0⟩], [⟨1, 10⟩]], []) := by
  decide

/-- C20: on the rings around string 1 whose ring 1 holds string 2, `AddStringToRing(3, 1)`
leaves ring 1 with string 3 only: string 2 is removed from the ring. -/
theorem C20_addStringToRing_replaces_outermost_ring :
    ((hive.StringRings.new 1).SetRing 1 [2]).GetNRings = 1 ∧
    ((hive.StringRings.new 1).SetRing 1 [2]).GetRing 1 = [2] ∧
    (((hive.StringRings.new 1).SetRing 1 [2]).AddStringToRing 3 1).GetRing 1 = [3] ∧
    2 ∉ (((hive.StringRings.new 1).SetRing 1 [2]).AddStringToRing 3 1).GetRing 1 := by
  decide

/-- C19: with the default parameters of `HiveCleaning_ParameterSet` (multiplicity 1, early
residual minus infinity, late residual plus infinity) and a connector block that connects
every pair of hits, a hit with itself included, `HiveCleaning::Clean` returns its input,
for every time-ordered hit set. -/
theorem C19_clean_keeps_all_connected_hits (Connected : AbsHit → AbsHit → Bool)
    (hall : ∀ a b, Connected a b = true) (hits : AbsHitSet)
    (hs : hits.Pairwise (fun a b => a.lt b = true)) :
    HiveCleaning.Clean (HiveCleaning_ParameterSet.new Connected) hits = hits := by
  unfold HiveCleaning.Clean
  split_ifs with h0
  · exact (List.length_eq_zero.mp h0).symm
  · have := HiveCleaning.cleanLoop_all (HiveCleaning_ParameterSet.new Connected) rfl rfl
      hall hits [] [] (by simpa using hs)
    simpa using this

/-- C19, at three hits, two of them at the same time. -/
theorem C19_clean_keeps_all_connected_hits_witness :
    HiveCleaning.Clean (HiveCleaning_ParameterSet.new (fun _ _ => true))
      [⟨1, 0⟩, ⟨0, 5⟩, ⟨2, 5⟩] = [⟨1, 0⟩, ⟨0, 5⟩, ⟨2, 5⟩] :=
  C19_clean_keeps_all_connected_hits (fun _ _ => true) (fun _ _ => rfl)
    [⟨1, 0⟩, ⟨0, 5⟩, ⟨2, 5⟩] (by decide)

/-- C17: for two hit sets `a` and `b` with sufficient overlap
(`CausallyOverlaps(a, b, mergeOverlap, multiplicityTimeWindow)` is true), on an engine
without live clusters and partial subevents, `AddSubEvent(a)` followed by `AddSubEvent(b)`
leaves the same pools as `AddSubEvent(b)` followed by `AddSubEvent(a)`: a single partial
subevent, the union of `a` and `b`, and the completed subevents as they were. -/
theorem C17_merge_does_not_depend_on_order (p : HiveSplitter_ParameterSet) (a b : AbsHitSet)
    (subEvents : AbsHitSetSequence)
    (ha : a.Pairwise (fun x y => x.lt y = true)) (hb : b.Pairwise (fun x y => x.lt y = true))
    (hov : CausallyOverlaps a b p.mergeOverlap p.multiplicityTimeWindow = true) :
    AddSubEventTwice p a b subEvents = AddSubEventTwice p b a subEvents ∧
    AddSubEventTwice p a b subEvents = ([AbsHitSet.insertAll a b], subEvents) ∧
    (∀ x, x ∈ AbsHitSet.insertAll a b ↔ x ∈ a ∨ x ∈ b) ∧
    (AbsHitSet.insertAll a b).Pairwise (fun x y => x.lt y = true) := by
  have hov2 : CausallyOverlaps b a p.mergeOverlap p.multiplicityTimeWindow = true := by
    rw [CausallyOverlaps_comm]; exact hov
  rw [AddSubEventTwice_of_overlap p a b subEvents hov2,
    AddSubEventTwice_of_overlap p b a subEvents hov, AbsHitSet_insertAll_comm hb ha]
  exact ⟨rfl, rfl, fun x => AbsHitSet_mem_insertAll, AbsHitSet_insertAll_sorted ha⟩

/-- C17, at the sets (0,0),(1,10) and (1,10),(2,20) with merge overlap 1, which share the
hit (1,10). -/
theorem C17_merge_does_not_depend_on_order_witness :
    AddSubEventTwice Scenario.params [⟨0, 0⟩, ⟨1, 10⟩] [⟨1, 10⟩, ⟨2, 20⟩] [] =
        AddSubEventTwice Scenario.params [⟨1, 10⟩, ⟨2, 20⟩] [⟨0, 0⟩, ⟨1, 10⟩] [] ∧
    AddSubEventTwice Scenario.params [⟨0, 0⟩, ⟨1, 10⟩] [⟨1, 10⟩, ⟨2, 20⟩] [] =
        ([AbsHitSet.insertAll [⟨0, 0⟩, ⟨1, 10⟩] [⟨1, 10⟩, ⟨2, 20⟩]], []) ∧
    (∀ x, x ∈ AbsHitSet.insertAll [⟨0, 0⟩, ⟨1, 10⟩] [⟨1, 10⟩, ⟨2, 20⟩] ↔
      x ∈ ([⟨0, 0⟩, ⟨1, 10⟩] : AbsHitSet) ∨ x ∈ ([⟨1, 10⟩, ⟨2, 20⟩] : AbsHitSet)) ∧
    (AbsHitSet.insertAll [⟨0, 0⟩, ⟨1, 10⟩] [⟨1, 10⟩, ⟨2, 20⟩]).Pairwise
      (fun x y => x.lt y = true) :=
  C17_merge_does_not_depend_on_order Scenario.params [⟨0, 0⟩, ⟨1, 10⟩] [⟨1, 10⟩, ⟨2, 20⟩] []
    (by decide) (by decide) (by decide)

/-- C16: on an engine that the constructor has produced, after every `AddHit(h)` every
active hit `x` of every live cluster satisfies `x.time + multiplicityTimeWindow >= h.time`
(in whatever order the hits before were fed, the non-decreasing order included). -/
theorem C16_active_hits_within_window (p : HiveSplitter_ParameterSet) (connectorBlock : Bool)
    (engine : HiveSplitter) (msgs : List String)
    (hnew : HiveSplitter.new p connectorBlock = Construction.done engine msgs)
    (hits : List AbsHit) (h : AbsHit) :
    ∀ c ∈ ((hits.foldl (fun s x => s.AddHit p x) engine).AddHit p h).clusters_,
      ∀ x ∈ c.active_hits, x.time + p.multiplicityTimeWindow ≥ h.time := by
  obtain ⟨he, _, hw⟩ := new_done hnew
  subst he
  intro c hc x hx
  have hs := foldl_AddHit_active_sorted p (le_of_lt hw) hits HiveSplitter.cleared
    (by intro c hc; simp [HiveSplitter.cleared] at hc)
  exact (AddHit_activeWithin p (le_of_lt hw) _ h hs c hc).2 x hx

/-- C16, at the hits (0,0), (1,10) and then (2,60) with the parameter set of the concrete
scenario (window 100): the cluster of the three hits still holds the hit (0,0). -/
theorem C16_active_hits_within_window_witness :
    Scenario.threeHitCluster ∈
      ((([⟨0, 0⟩, ⟨1, 10⟩] : List AbsHit).foldl (fun s x => s.AddHit Scenario.params x)
        HiveSplitter.cleared).AddHit Scenario.params ⟨2, 60⟩).clusters_ ∧
    (⟨0, 0⟩ : AbsHit) ∈ Scenario.threeHitCluster.active_hits ∧
    (⟨0, 0⟩ : AbsHit).time + Scenario.params.multiplicityTimeWindow ≥ (⟨2, 60⟩ : AbsHit).time :=
  ⟨by decide, by decide,
    C16_active_hits_within_window Scenario.params true HiveSplitter.cleared [] (by decide)
      [⟨0, 0⟩, ⟨1, 10⟩] ⟨2, 60⟩ Scenario.threeHitCluster (by decide) ⟨0, 0⟩ (by decide)⟩

/-- C14: a `HiveTrigger` (multiplicity 1, window 100 ticks) that was fed the hit on sensor 0
at the tick `INT64_MAX - 100` holds one established cluster with this hit in its active
set; `FinalizeSubEvents` leaves this cluster alive, with the hit still active, and the
hit is in no finalized subevent: the advance to the largest tick does not exceed the
tick of the hit plus the window. -/
theorem C14_trigger_finalize_keeps_late_cluster :
    ((Scenario.feed Scenario.triggerParams [Scenario.lateHit]).clusters_.map
      (fun c => (c.established, c.active_hits))) = [(true, [Scenario.lateHit])] ∧
    (((Scenario.feed Scenario.triggerParams [Scenario.lateHit]).FinalizeSubEvents
        Scenario.triggerParams).clusters_.map
      (fun c => (c.established, c.active_hits))) = [(true, [Scenario.lateHit])] ∧
    ((Scenario.feed Scenario.triggerParams [Scenario.lateHit]).FinalizeSubEvents
        Scenario.triggerParams).subEvents_ = [] ∧
    ((Scenario.feed Scenario.triggerParams [Scenario.lateHit]).FinalizeSubEvents
        Scenario.triggerParams).partialSubEvents_ = [] := by
  decide

/-- C22: a cluster that is established before a call of `insertActiveHit`, of
`advanceInTime` or of `takeConcludedHits` is established after the call. -/
theorem C22_established_is_sticky (p : HiveSplitter_ParameterSet) (c other : CausalCluster)
    (h : AbsHit) (time : Time) (hc : c.isEstablished = true) :
    (c.insertActiveHit p h).isEstablished = true ∧
    (c.advanceInTime p time).isEstablished = true ∧
    (c.takeConcludedHits other).isEstablished = true := by
  unfold CausalCluster.isEstablished at *
  refine ⟨?_, hc, hc⟩
  simp [CausalCluster.insertActiveHit, hc]

/-- C22, at the established cluster of the hits (0,0), (1,10), (2,60). -/
theorem C22_established_is_sticky_witness :
    (Scenario.threeHitCluster.insertActiveHit Scenario.params ⟨3, 70⟩).isEstablished = true ∧
    (Scenario.threeHitCluster.advanceInTime Scenario.params (.fin 500)).isEstablished = true ∧
    (Scenario.threeHitCluster.takeConcludedHits CausalCluster.new).isEstablished = true :=
  C22_established_is_sticky Scenario.params Scenario.threeHitCluster CausalCluster.new ⟨3, 70⟩
    (.fin 500) (by decide)

/-- C27: `CausallyConnected(h1, h2)` reaches the connector block after at most one recursive
call, asks it for a pair in which the first hit is not later than the second, and returns
its answer; the pair consists of `h1` and `h2`; for hits with different times the result
does not depend on the order of the arguments. The same holds for the trigger. -/
theorem C27_causallyConnected_orders_hits (p : HiveSplitter_ParameterSet)
    (q : hivetrigger.HiveTrigger_ParameterSet) (h1 h2 : AbsHit) :
    (∃ a b, CausallyConnectedCall 2 h1 h2 = some (a, b) ∧ a.time ≤ b.time ∧
        ((a = h1 ∧ b = h2) ∨ (a = h2 ∧ b = h1)) ∧
        CausallyConnected p h1 h2 = p.Connected a b ∧
        hivetrigger.detail.CausallyConnected q h1 h2 = q.Connected a b) ∧
    (h1.time ≠ h2.time →
      CausallyConnected p h1 h2 = CausallyConnected p h2 h1 ∧
      hivetrigger.detail.CausallyConnected q h1 h2 =
        hivetrigger.detail.CausallyConnected q h2 h1) := by
  constructor
  · by_cases h : h1.time > h2.time
    · refine ⟨h2, h1, ?_, by omega, Or.inr ⟨rfl, rfl⟩, ?_, ?_⟩
      · have h3 : ¬ h2.time > h1.time := by omega
        simp [CausallyConnectedCall, h, h3]
      · simp [CausallyConnected, h]
      · simp [hivetrigger.detail.CausallyConnected, h]
    · refine ⟨h1, h2, ?_, by omega, Or.inl ⟨rfl, rfl⟩, ?_, ?_⟩
      · simp [CausallyConnectedCall, h]
      · simp [CausallyConnected, h]
      · simp [hivetrigger.detail.CausallyConnected, h]
  · intro hne
    unfold CausallyConnected hivetrigger.detail.CausallyConnected
    by_cases h : h1.time > h2.time
    · have h3 : ¬ h2.time > h1.time := by omega
      simp [h, h3]
    · have h3 : h2.time > h1.time := by omega
      simp [h, h3]

/-- C27, at the hits (1,50) and (0,10), given in reverse time order. -/
theorem C27_causallyConnected_orders_hits_witness :
    CausallyConnected Scenario.params ⟨1, 50⟩ ⟨0, 10⟩ =
        CausallyConnected Scenario.params ⟨0, 10⟩ ⟨1, 50⟩ ∧
    hivetrigger.detail.CausallyConnected Scenario.triggerParams ⟨1, 50⟩ ⟨0, 10⟩ =
        hivetrigger.detail.CausallyConnected Scenario.triggerParams ⟨0, 10⟩ ⟨1, 50⟩ :=
  (C27_causallyConnected_orders_hits Scenario.params Scenario.triggerParams ⟨1, 50⟩ ⟨0, 10⟩).2
    (by decide)

/-- C21: with an accept window of 20 and a reject window of 60, a cluster whose sensor 0 has
the first-hit time 0 takes the hit (0,70) through the immediate accept, although the hit
is 70 after the first hit (beyond both windows) and the oracle connects nothing: the
test compares `firstHitTime - h.time = -70` with the windows. A splitter that is fed the
hits (0,0) and (0,70) ends with both in one cluster. -/
theorem C21_fast_accept_takes_late_hit :
    Scenario.singleHitCluster.firstHitTimes.get? 0 = some 0 ∧
    fastAccept Scenario.paramsNone Scenario.singleHitCluster ⟨0, 70⟩ = true ∧
    AddHitToCluster Scenario.paramsNone Scenario.singleHitCluster ⟨0, 70⟩ [] =
      (Scenario.singleHitCluster.insertActiveHit Scenario.paramsNone ⟨0, 70⟩, [], true) ∧
    (AddHitToCluster Scenario.paramsNone Scenario.singleHitCluster ⟨0, 70⟩ []).1.active_hits =
      [⟨0, 0⟩, ⟨0, 70⟩] ∧
    ((([⟨0, 0⟩, ⟨0, 70⟩] : List AbsHit).foldl (fun s x => s.AddHit Scenario.paramsNone x)
        HiveSplitter.cleared).clusters_.map (fun c => c.active_hits)) =
      [[⟨0, 0⟩, ⟨0, 70⟩]] := by
  decide

/-- C24: a cluster that is not established holds the hits (0,0), (0,50), (0,80) on sensor 0
(window 100). `advanceInTime(120)` discards the hit (0,0) and leaves (0,50) and (0,80)
active; the first-hit time of sensor 0 is 80 afterwards, the time of the latest active
hit on the sensor, not 50, the time of the next one. The same in the trigger, and in
the cluster a splitter holds after the hits (0,0), (0,50), (0,80), (1,120). -/
theorem C24_first_hit_time_set_to_latest_hit :
    Scenario.sameSensorCluster.established = false ∧
    Scenario.sameSensorCluster.firstHitTimes.get? 0 = some 0 ∧
    (Scenario.sameSensorCluster.advanceInTime Scenario.paramsAllThree (.fin 120)).active_hits =
      [⟨0, 50⟩, ⟨0, 80⟩] ∧
    (Scenario.sameSensorCluster.advanceInTime Scenario.paramsAllThree
      (.fin 120)).firstHitTimes.get? 0 = some 80 ∧
    (Scenario.triggerSameSensorCluster.advanceInTime Scenario.triggerAllThree 120).active_hits =
      [⟨0, 50⟩, ⟨0, 80⟩] ∧
    (Scenario.triggerSameSensorCluster.advanceInTime Scenario.triggerAllThree
      120).firstHitTimes.get? 0 = some 80 ∧
    ((([⟨0, 0⟩, ⟨0, 50⟩, ⟨0, 80⟩, ⟨1, 120⟩] : List AbsHit).foldl
        (fun s x => s.AddHit Scenario.paramsAllThree x) HiveSplitter.cleared).clusters_.map
      (fun c => (c.established, c.active_hits, c.firstHitTimes))) =
      [(false, [⟨0, 50⟩, ⟨0, 80⟩, ⟨1, 120⟩], [(0, 80), (1, 120)])] := by
  decide

/-- C26: for clusters `c1` and `c2` whose active sets are strictly ordered, `c1.isSubsetOf(c2)`
is true if and only if every hit of the active set of `c1` is in the active set of `c2`;
a cluster with an empty active set is a subset of every cluster. -/
theorem C26_isSubsetOf_is_inclusion (c1 c2 : CausalCluster)
    (h1 : c1.active_hits.Pairwise (fun a b => a.lt b = true))
    (h2 : c2.active_hits.Pairwise (fun a b => a.lt b = true)) :
    (c1.isSubsetOf c2 = true ↔ ∀ x ∈ c1.active_hits, x ∈ c2.active_hits) ∧
    (c1.active_hits = [] → c1.isSubsetOf c2 = true) := by
  refine ⟨isSubsetOf_iff c1 c2 h1 h2, ?_⟩
  intro he
  rw [isSubsetOf_iff c1 c2 h1 h2, he]
  simp

/-- C26, at the cluster with the single hit (0,0) and the cluster of the hits (0,0),
(1,10), (2,60), and at the empty cluster. -/
theorem C26_isSubsetOf_is_inclusion_witness :
    (Scenario.singleHitCluster.isSubsetOf Scenario.threeHitCluster = true ↔
      ∀ x ∈ Scenario.singleHitCluster.active_hits, x ∈ Scenario.threeHitCluster.active_hits) ∧
    (Scenario.threeHitCluster.isSubsetOf Scenario.singleHitCluster = true ↔
      ∀ x ∈ Scenario.threeHitCluster.active_hits, x ∈ Scenario.singleHitCluster.active_hits) ∧
    CausalCluster.new.isSubsetOf Scenario.threeHitCluster = true :=
  ⟨(C26_isSubsetOf_is_inclusion Scenario.singleHitCluster Scenario.threeHitCluster
      (by decide) (by decide)).1,
    (C26_isSubsetOf_is_inclusion Scenario.threeHitCluster Scenario.singleHitCluster
      (by decide) (by decide)).1,
    (C26_isSubsetOf_is_inclusion CausalCluster.new Scenario.threeHitCluster
      (by decide) (by decide)).2 rfl⟩

/-- C23: on a cluster whose active set is strictly ordered, `advanceInTime(t)` leaves as
active set the previously active hits `x` with `t <= x.time + multiplicityTimeWindow`
(those for which `t > x.time + multiplicityTimeWindow` is false), sets `sync_time` to `t`,
and leaves as concluded set the old concluded set united with the evicted hits if the
cluster was established at entry, and the old concluded set otherwise; in the splitter
(where `t` may be infinite) and in the trigger. -/
theorem C23_advanceInTime_evicts_expired_hits (p : HiveSplitter_ParameterSet)
    (c : CausalCluster) (time : Time)
    (q : hivetrigger.HiveTrigger_ParameterSet) (d : hivetrigger.detail.CausalCluster)
    (ticks : hivetrigger.DAQTicks)
    (hc : c.active_hits.Pairwise (fun a b => a.lt b = true))
    (hd : d.active_hits.Pairwise (fun a b => a.lt b = true)) :
    ((c.advanceInTime p time).active_hits =
        c.active_hits.filter (fun x => !time.gtFin (x.time + p.multiplicityTimeWindow)) ∧
      (c.advanceInTime p time).sync_time = time ∧
      (c.advanceInTime p time).concluded_hits =
        if c.established then
          AbsHitSet.insertAll c.concluded_hits
            (c.active_hits.filter (fun x => time.gtFin (x.time + p.multiplicityTimeWindow)))
        else c.concluded_hits) ∧
    ((d.advanceInTime q ticks).active_hits =
        d.active_hits.filter (fun x => decide (ticks ≤ x.time + hivetrigger.windowTicks q)) ∧
      (d.advanceInTime q ticks).sync_time = ticks ∧
      (d.advanceInTime q ticks).concluded_hits =
        if d.established then
          AbsHitSet.insertAll d.concluded_hits
            (d.active_hits.filter (fun x => decide (ticks > x.time + hivetrigger.windowTicks q)))
        else d.concluded_hits) := by
  obtain ⟨a1, a2⟩ := advanceLoop_eq_filter p time c.established c.active_hits c.active_doms
    c.firstHitTimes c.concluded_hits hc
  obtain ⟨b1, b2⟩ := hivetrigger.trig_advanceLoop_eq_filter q ticks d.established d.active_hits
    d.active_doms d.firstHitTimes d.concluded_hits hd
  exact ⟨⟨a1, rfl, a2⟩, ⟨b1, rfl, b2⟩⟩

/-- C23, at the established cluster of the hits (0,0), (1,10), (2,60) advanced to the time
105, and at the trigger cluster of the hits (0,0), (0,50), (0,80) advanced to the tick 120. -/
theorem C23_advanceInTime_evicts_expired_hits_witness :
    (Scenario.threeHitCluster.advanceInTime Scenario.params (.fin 105)).active_hits =
        Scenario.threeHitCluster.active_hits.filter
          (fun x => !(Time.fin 105).gtFin (x.time + Scenario.params.multiplicityTimeWindow)) ∧
    (Scenario.triggerSameSensorCluster.advanceInTime Scenario.triggerAllThree 120).active_hits =
        Scenario.triggerSameSensorCluster.active_hits.filter
          (fun x => decide (120 ≤ x.time + hivetrigger.windowTicks Scenario.triggerAllThree)) :=
  ⟨(C23_advanceInTime_evicts_expired_hits Scenario.params Scenario.threeHitCluster (.fin 105)
      Scenario.triggerAllThree Scenario.triggerSameSensorCluster 120
      (by decide) (by decide)).1.1,
    (C23_advanceInTime_evicts_expired_hits Scenario.params Scenario.threeHitCluster (.fin 105)
      Scenario.triggerAllThree Scenario.triggerSameSensorCluster 120
      (by decide) (by decide)).2.1⟩

/-- C25: the list of newly spawned sub-clusters stays reduced while a hit is processed: if
no two members of the list are related by inclusion of their active sets, this is so
after `AddHitToCluster` has registered a further sub-cluster, for every cluster and hit;
and the list is reduced at the end of the first loop of `AddHit` over any list of
clusters, started with any reduced list (the empty list at the begin of `AddHit`). -/
theorem C25_new_clusters_stay_reduced (p : HiveSplitter_ParameterSet) (h : AbsHit) :
    (∀ (c : CausalCluster) (nc : List CausalCluster),
      (∀ m ∈ nc, m.active_hits.Pairwise (fun a b => a.lt b = true)) → Reduced nc →
      (∀ m ∈ (AddHitToCluster p c h nc).2.1,
        m.active_hits.Pairwise (fun a b => a.lt b = true)) ∧
      Reduced (AddHitToCluster p c h nc).2.1) ∧
    (∀ (cl : List CausalCluster) (st : AddHitLoop),
      (∀ m ∈ st.newClusters, m.active_hits.Pairwise (fun a b => a.lt b = true)) →
      Reduced st.newClusters → Reduced (addHitLoop p h cl st).newClusters) :=
  ⟨fun c nc hs hr => AddHitToCluster_reduced p c h nc hs hr,
    fun cl st hs hr => (addHitLoop_reduced p h cl st hs hr).2⟩

/-- C25, at the cluster of the hits (0,0), (1,40) and the hit (2,80), with the sub-cluster
of (1,40), (2,80) already in the list. -/
theorem C25_new_clusters_stay_reduced_witness :
    Reduced (AddHitToCluster Scenario.paramsThree Scenario.twoHitCluster ⟨2, 80⟩
      [Scenario.spawnedCluster]).2.1 :=
  ((C25_new_clusters_stay_reduced Scenario.paramsThree ⟨2, 80⟩).1 Scenario.twoHitCluster
    [Scenario.spawnedCluster] (by decide) (by simp [Reduced])).2

/-- C28: if the list of newly spawned sub-clusters is reduced and `AddHitToCluster` forms a
sub-cluster whose active set is the active set of a member of the list, then the active
sets of the list after the call are those before it (up to their order in the list). -/
theorem C28_pruning_is_idempotent (p : HiveSplitter_ParameterSet) (c : CausalCluster)
    (h : AbsHit) (nc : List CausalCluster) (n : CausalCluster)
    (hn : newSubClusterOf p c h = some n)
    (hs : ∀ m ∈ nc, m.active_hits.Pairwise (fun a b => a.lt b = true)) (hr : Reduced nc)
    (hex : ∃ c0 ∈ nc, c0.active_hits = n.active_hits) :
    ((AddHitToCluster p c h nc).2.1.map (fun m => m.active_hits)).Perm
      (nc.map (fun m => m.active_hits)) := by
  rw [AddHitToCluster_of_newSubCluster p c h nc n hn]
  exact pruneNew_of_present n (newSubClusterOf_sorted hn) nc hs hr hex

/-- C28, at the cluster of the hits (0,0), (1,40) and the hit (2,80), with the sub-cluster
of (1,40), (2,80) already in the list. -/
theorem C28_pruning_is_idempotent_witness :
    ((AddHitToCluster Scenario.paramsThree Scenario.twoHitCluster ⟨2, 80⟩
      [Scenario.spawnedCluster]).2.1.map (fun m => m.active_hits)).Perm
      ([Scenario.spawnedCluster].map (fun m => m.active_hits)) :=
  C28_pruning_is_idempotent Scenario.paramsThree Scenario.twoHitCluster ⟨2, 80⟩
    [Scenario.spawnedCluster] Scenario.spawnedCluster (by decide) (by decide)
    (by simp [Reduced]) ⟨Scenario.spawnedCluster, by simp, rfl⟩

/-- C29, as stated, fails for multiplicity 1: with an oracle that connects nothing, the
cluster of the hit (0,0) and the hit (1,10), no sensor carries a connected hit, which is
at least `multiplicity - 1 = 0`, and the immediate accept is not taken; yet
`AddHitToCluster` rejects the hit and leaves the cluster as it is. -/
theorem C29_counterexample :
    1 ≤ Scenario.paramsNoneOne.multiplicity ∧
    fastAccept Scenario.paramsNoneOne Scenario.singleHitCluster ⟨1, 10⟩ = false ∧
    Scenario.paramsNoneOne.multiplicity - 1 ≤
      connectedSensors Scenario.paramsNoneOne Scenario.singleHitCluster ⟨1, 10⟩ ∧
    AddHitToCluster Scenario.paramsNoneOne Scenario.singleHitCluster ⟨1, 10⟩ [] =
      (Scenario.singleHitCluster, [], false) := by
  decide

/-- C29, amended: for every multiplicity of at least 1, every cluster `c` and every hit `h`
not taken by the immediate accept, if the number of distinct sensors other than the sensor
of `h` that carry an active hit of `c` causally connected to `h` is at least
`multiplicity - 1` and at least 1, then `AddHitToCluster(c, h)` inserts `h` into `c` (the
active set becomes the old one with `h` inserted), leaves the list of new clusters as it
is, and returns true; in the splitter and in the trigger. -/
theorem C29_early_exit_on_tally :
    (∀ (p : HiveSplitter_ParameterSet) (c : CausalCluster) (h : AbsHit)
        (nc : List CausalCluster), 1 ≤ p.multiplicity → fastAccept p c h = false →
      p.multiplicity - 1 ≤ connectedSensors p c h → 1 ≤ connectedSensors p c h →
      AddHitToCluster p c h nc = (c.insertActiveHit p h, nc, true) ∧
      (AddHitToCluster p c h nc).1.active_hits = AbsHitSet.insert h c.active_hits) ∧
    (∀ (q : hivetrigger.HiveTrigger_ParameterSet) (d : hivetrigger.detail.CausalCluster)
        (h : AbsDAQHit) (nc : List hivetrigger.detail.CausalCluster), 1 ≤ q.multiplicity →
      hivetrigger.fastAccept q d h = false →
      q.multiplicity - 1 ≤ hivetrigger.connectedSensors q d h →
      1 ≤ hivetrigger.connectedSensors q d h →
      hivetrigger.AddHitToCluster q d h nc = (d.insertActiveHit q h, nc, true) ∧
      (hivetrigger.AddHitToCluster q d h nc).1.active_hits =
        AbsHitSet.insert h d.active_hits) := by
  constructor
  · intro p c h nc hm hf ht h1
    have hs := scanCluster_enough p c h hm ht h1
    unfold scanCluster at hs
    have e : AddHitToCluster p c h nc = (c.insertActiveHit p h, nc, true) := by
      unfold AddHitToCluster
      rw [hf]
      simp only [Bool.false_eq_true, if_false]
      rw [hs]
    rw [e]
    exact ⟨rfl, rfl⟩
  · intro q d h nc hm hf ht h1
    have hs := hivetrigger.trig_scan_enough q d h hm ht h1
    have e : hivetrigger.AddHitToCluster q d h nc = (d.insertActiveHit q h, nc, true) := by
      unfold hivetrigger.AddHitToCluster
      rw [hf]
      simp only [Bool.false_eq_true, if_false]
      rw [hs]
    rw [e]
    exact ⟨rfl, rfl⟩

/-- C29, amended, at the splitter cluster of the hits (0,0), (1,10), (2,60) with
multiplicity 2 and the hit (3,70), which is connected to the hit on sensor 2, and at the
trigger cluster of the hit (0,1000) with multiplicity 1 and the hit (3,1010). -/
theorem C29_early_exit_on_tally_witness :
    AddHitToCluster Scenario.params Scenario.threeHitCluster ⟨3, 70⟩ [] =
      (Scenario.threeHitCluster.insertActiveHit Scenario.params ⟨3, 70⟩, [], true) ∧
    hivetrigger.AddHitToCluster Scenario.triggerParams Scenario.triggerSingleHitCluster
        ⟨3, 1010⟩ [] =
      (Scenario.triggerSingleHitCluster.insertActiveHit Scenario.triggerParams ⟨3, 1010⟩, [],
        true) :=
  ⟨(C29_early_exit_on_tally.1 Scenario.params Scenario.threeHitCluster ⟨3, 70⟩ [] (by decide)
      (by decide) (by decide) (by decide)).1,
    (C29_early_exit_on_tally.2 Scenario.triggerParams Scenario.triggerSingleHitCluster
      ⟨3, 1010⟩ [] (by decide) (by decide) (by decide) (by decide)).1⟩

/-- C30: on a cluster `c` in which every sensor with an active hit has a recorded first-hit
time, whenever `AddHitToCluster(c, h)` forms a sub-cluster (it neither inserts `h` into
`c` nor rejects `h`), the active set of the sub-cluster consists of `h` and of the active
hits of `c` that are connected to `h` (a hit on the sensor of `h` by the accept and
reject windows, and the oracle in between; a hit on another sensor by the oracle); `c`
is left as it is and the call returns true. -/
theorem C30_subcluster_content (p : HiveSplitter_ParameterSet) (c : CausalCluster) (h : AbsHit)
    (nc : List CausalCluster) (n : CausalCluster)
    (hinv : ∀ x ∈ c.active_hits, DomMap.has c.firstHitTimes x.dom = true)
    (hn : newSubClusterOf p c h = some n) :
    (∀ x, x ∈ n.active_hits ↔
      x = h ∨ (x ∈ c.active_hits ∧ connectedToHit_spec p h x = true)) ∧
    (AddHitToCluster p c h nc).1 = c ∧ (AddHitToCluster p c h nc).2.2 = true := by
  refine ⟨newSubClusterOf_active p c h n hinv hn, ?_, ?_⟩ <;>
  rw [AddHitToCluster_of_newSubCluster p c h nc n hn]

/-- C30, at the cluster of the hits (0,0), (1,40) and the hit (2,80), which is connected to
(1,40) only. -/
theorem C30_subcluster_content_witness :
    (∀ x, x ∈ Scenario.spawnedCluster.active_hits ↔
      x = ⟨2, 80⟩ ∨ (x ∈ Scenario.twoHitCluster.active_hits ∧
        connectedToHit_spec Scenario.paramsThree ⟨2, 80⟩ x = true)) ∧
    (AddHitToCluster Scenario.paramsThree Scenario.twoHitCluster ⟨2, 80⟩ []).1 =
      Scenario.twoHitCluster ∧
    (AddHitToCluster Scenario.paramsThree Scenario.twoHitCluster ⟨2, 80⟩ []).2.2 = true :=
  C30_subcluster_content Scenario.paramsThree Scenario.twoHitCluster ⟨2, 80⟩ []
    Scenario.spawnedCluster (by decide) (by decide)

/-- C40: for a connector block whose cumulative relation is the pointwise or of the
relations of its connectors, `ConnectorBlock::Connected(h1, h2)` is true exactly if some
connector of the block reports `Connected(h1, h2)` or, for hits with equal times,
`Connected(h2, h1)`; the early return on a missing cumulative relation does not change
the answer. -/
theorem C40_cumulative_relation_shortcut_is_sound (b : connector.ConnectorBlock)
    (hb : b.Cumulative) (h1 h2 : AbsHit) :
    b.Connected h1 h2 = b.Connected_spec h1 h2 := by
  unfold connector.ConnectorBlock.Connected connector.ConnectorBlock.Connected_spec
  by_cases ht : h1.time = h2.time
  · simp only [ht, if_true, decide_True, Bool.true_and]
    rw [connector.connectedEitherWay_eq_any, connector.connectedInOrder_eq_any]
    cases hany : b.connectorlist_.any (fun c => c.Connected h1 h2 || c.Connected h2 h1)
    · have hno : b.connectorlist_.any (fun c => c.Connected h1 h2) = false := by
        rw [List.any_eq_false] at hany ⊢
        intro c hc
        have := hany c hc
        simp only [Bool.or_eq_true, not_or, Bool.not_eq_true] at this
        simp [this.1]
      simp [hno]
    · simp
  · simp only [ht, if_false, decide_False, Bool.false_and, Bool.or_false]
    rw [connector.connectedInOrder_eq_any]
    cases hrel : b.cumulativeRel_.AreRelated h1.dom h2.dom
    · simp only [Bool.not_false, if_true]
      symm
      rw [List.any_eq_false]
      intro c hc hcon
      have hr := connector.Connected_related c h1 h2 ht hcon
      have hcum := hb h1.dom h2.dom
      rw [hrel] at hcum
      have := List.any_eq_false.mp hcum.symm c hc
      exact this hr
    · simp

/-- C40, witness: the block built by adding one connector of neighbouring sensors. -/
theorem C40_cumulative_relation_shortcut_is_sound_witness :
    Scenario.neighbourBlock.Connected ⟨1, 0⟩ ⟨2, 5⟩ =
      Scenario.neighbourBlock.Connected_spec ⟨1, 0⟩ ⟨2, 5⟩ :=
  C40_cumulative_relation_shortcut_is_sound Scenario.neighbourBlock
    (connector.Cumulative_AddConnector connector.Cumulative_new Scenario.neighbours) ⟨1, 0⟩ ⟨2, 5⟩

/-- C39: in every cluster built from an empty cluster by `insertActiveHit` calls with
pairwise distinct hits, interleaved with `advanceInTime` calls, the per-sensor counter map
holds exactly the sensors with an active hit, each with the number of its active hits (no
zero entry, one entry per sensor); every sensor with an active hit has a first-hit time;
and while the cluster is not established the first-hit-time map has no other keys. -/
theorem C39_cluster_bookkeeping (p : HiveSplitter_ParameterSet) (l : List AbsHit)
    (c : CausalCluster) (hb : BuiltFrom p l c) :
    (∀ d n, c.active_doms.get? d = some n ↔ (0 < n ∧ n = hitsOn d c.active_hits)) ∧
    (c.active_doms.map Prod.fst).Nodup ∧
    (∀ x ∈ c.active_hits, DomMap.has c.firstHitTimes x.dom = true) ∧
    (c.established = false → ∀ d, DomMap.has c.firstHitTimes d = true →
      ∃ x ∈ c.active_hits, x.dom = d) := by
  obtain ⟨_, hbk, hfr, hfa⟩ := BuiltFrom_invariant hb
  refine ⟨?_, hbk.keys, hfr.2.2, ?_⟩
  · intro d n
    have hc := hbk.counts d
    have hz := hbk.nonzero d
    constructor
    · intro hg
      rw [hg] at hc hz
      simp only [Option.getD_some] at hc
      refine ⟨Nat.pos_of_ne_zero (fun h0 => hz (by rw [h0])), hc⟩
    · rintro ⟨hpos, hn⟩
      cases hg : c.active_doms.get? d with
      | none =>
        rw [hg] at hc
        simp only [Option.getD_none] at hc
        omega
      | some m =>
        rw [hg] at hc
        simp only [Option.getD_some] at hc
        rw [hc, hn]
  · intro hest d hd
    exact (hitsOn_pos_iff d c.active_hits).mp (hfa hest d hd)

/-- C39, witness: two hits inserted into an empty cluster, then an advance in time that
evicts the first of them; the counter of sensor 1 is one. -/
theorem C39_cluster_bookkeeping_witness :
    BuiltFrom Scenario.params [⟨1, 10⟩, ⟨0, 0⟩] Scenario.builtCluster ∧
    (Scenario.builtCluster.active_doms.get? 1 = some 1 ↔
      (0 < 1 ∧ 1 = hitsOn 1 Scenario.builtCluster.active_hits)) :=
  ⟨BuiltFrom.advance (.fin 105)
      (BuiltFrom.insert ⟨1, 10⟩ (BuiltFrom.insert ⟨0, 0⟩ BuiltFrom.new (by simp)) (by simp)),
    (C39_cluster_bookkeeping Scenario.params [⟨1, 10⟩, ⟨0, 0⟩] Scenario.builtCluster
      (BuiltFrom.advance (.fin 105)
        (BuiltFrom.insert ⟨1, 10⟩ (BuiltFrom.insert ⟨0, 0⟩ BuiltFrom.new (by simp))
          (by simp)))).1 1 1⟩

/-- C34: if the accept window is unset or does not exceed the multiplicity window, then in
every call of `AddHit` (from any state) a cluster that the first loop keeps right after
`advanceInTime`, that is one for which `isActive` holds, has a non-empty active set, and a
cluster whose active set is empty after `advanceInTime` is erased. The clusters of the live
list keep a non-empty active set from there on: at the start of the pass of the
reconciliation loop for each new cluster (the list after `k` new clusters were handled) and
at the end of `AddHit`, and so has every new cluster; `getLatestActiveHit` is only applied
to non-empty sets. -/
theorem C34_live_clusters_have_active_hits (p : HiveSplitter_ParameterSet) (s : HiveSplitter)
    (h : AbsHit)
    (hacc : ∀ a, p.acceptTimeWindow = some a → a ≤ p.multiplicityTimeWindow) :
    (∀ c ∈ s.clusters_,
      ((c.advanceInTime p (.fin h.time)).isActive p = true ↔
        (c.advanceInTime p (.fin h.time)).active_hits ≠ [])) ∧
    (∀ k, ∀ c ∈ reconcile h
        ((addHitLoop p h s.clusters_
          { visited := [], newClusters := [], partialSubEvents := s.partialSubEvents_,
            subEvents := s.subEvents_, addedToCluster := false }).newClusters.take k)
        (addHitLoop p h s.clusters_
          { visited := [], newClusters := [], partialSubEvents := s.partialSubEvents_,
            subEvents := s.subEvents_, addedToCluster := false }).visited,
      c.active_hits ≠ []) ∧
    (∀ n ∈ (addHitLoop p h s.clusters_
          { visited := [], newClusters := [], partialSubEvents := s.partialSubEvents_,
            subEvents := s.subEvents_, addedToCluster := false }).newClusters,
      n.active_hits ≠ []) ∧
    ∀ c ∈ (s.AddHit p h).clusters_, c.active_hits ≠ [] := by
  have hloop := addHitLoop_active_ne_nil p hacc h s.clusters_
    { visited := [], newClusters := [], partialSubEvents := s.partialSubEvents_,
      subEvents := s.subEvents_, addedToCluster := false }
    (fun c hc => by simp at hc) (fun c hc => by simp at hc)
  have hrec : ∀ ns : List CausalCluster, (∀ n ∈ ns, n.active_hits ≠ []) →
      ∀ c ∈ reconcile h ns (addHitLoop p h s.clusters_
          { visited := [], newClusters := [], partialSubEvents := s.partialSubEvents_,
            subEvents := s.subEvents_, addedToCluster := false }).visited,
        c.active_hits ≠ [] := fun ns hns =>
    reconcile_forall (fun c => c.active_hits ≠ []) (fun c => c.active_hits ≠ []) h
      (fun n c hn _ _ => hn) (fun n hn => hn) ns _ hns hloop.1
  refine ⟨fun c _ => ⟨active_of_isActive p hacc _, fun hne => ?_⟩,
    fun k => hrec _ (fun n hn => hloop.2 n (List.mem_of_mem_take hn)), hloop.2, ?_⟩
  · by_contra hna
    exact hne (active_nil_of_not_isActive p _ (Bool.eq_false_iff.mpr hna))
  intro c hc
  simp only [HiveSplitter.AddHit] at hc
  split_ifs at hc with hadd
  · rw [List.mem_append, List.mem_singleton] at hc
    rcases hc with hc | rfl
    · exact hrec _ hloop.2 c hc
    · exact insertActiveHit_active_ne_nil p _ h
  · exact hrec _ hloop.2 c hc

/-- C34, witness: an accept window of 20 under a multiplicity window of 100; the engine holds
the cluster of the hit `(0,0)` when the hit `(1,10)` arrives, and the first loop keeps this
cluster after `advanceInTime` with its active hit. -/
theorem C34_live_clusters_have_active_hits_witness :
    CausalCluster.new.insertActiveHit Scenario.paramsNone ⟨0, 0⟩ ∈
      (HiveSplitter.cleared.AddHit Scenario.paramsNone ⟨0, 0⟩).clusters_ ∧
    ((CausalCluster.new.insertActiveHit Scenario.paramsNone ⟨0, 0⟩).advanceInTime
      Scenario.paramsNone (.fin 10)).isActive Scenario.paramsNone = true ∧
    ((CausalCluster.new.insertActiveHit Scenario.paramsNone ⟨0, 0⟩).advanceInTime
      Scenario.paramsNone (.fin 10)).active_hits ≠ [] :=
  ⟨by decide, by decide,
    ((C34_live_clusters_have_active_hits Scenario.paramsNone
      (HiveSplitter.cleared.AddHit Scenario.paramsNone ⟨0, 0⟩) ⟨1, 10⟩
      (fun a ha => by
        simp only [Scenario.paramsNone, Option.some.injEq] at ha
        subst ha
        decide)).1 _ (by decide)).1 (by decide)⟩

set_option maxRecDepth 100000 in
/-- C31: the overlap test of the source is not defined for every multiplicity. At a common
hit the loop over `common_hitdoms` erases an entry whose time has run out through its
running iterator and increments that iterator afterwards. For the sets
`{(0,0), (1,500)}` twice, `m = 2` and `w = 100` the worded test is false, and the sweep of
the source reaches the erasure at the second common hit. The same happens inside the engine:
after the run `Scenario.hitsExpire` (merge overlap 2, window 100) the engine holds no
partial subevent and two established clusters with the hits `Scenario.firstExpire` and
`Scenario.secondExpire`; `FinalizeSubEvents` keeps the first as a partial subevent and then
tests the second against it, where the worded test is false and the sweep reaches the
erasure at the common hit `(7,150)`. -/
theorem C31_overlap_test_erases_through_running_iterator :
    CausallyOverlaps_checked [⟨0, 0⟩, ⟨1, 500⟩] [⟨0, 0⟩, ⟨1, 500⟩] 2 100 = none ∧
    CausallyOverlaps_spec [⟨0, 0⟩, ⟨1, 500⟩] [⟨0, 0⟩, ⟨1, 500⟩] 2 100 = false ∧
    Scenario.stateExpire.partialSubEvents_ = [] ∧
    Scenario.stateExpire.clusters_.map
        (fun c => ((c.advanceInTime Scenario.paramsExpire .pinf).isEstablished,
          (c.advanceInTime Scenario.paramsExpire .pinf).concluded_hits)) =
      [(true, Scenario.firstExpire), (true, Scenario.secondExpire)] ∧
    AddSubEvent Scenario.paramsExpire
        ((Scenario.stateExpire.clusters_.take 1).map
            (fun c => c.advanceInTime Scenario.paramsExpire .pinf) ++
          Scenario.stateExpire.clusters_.drop 1)
        Scenario.firstExpire Scenario.stateExpire.partialSubEvents_
        Scenario.stateExpire.subEvents_ = ([Scenario.firstExpire], []) ∧
    CausallyOverlaps_checked Scenario.secondExpire Scenario.firstExpire
      Scenario.paramsExpire.mergeOverlap Scenario.paramsExpire.multiplicityTimeWindow = none ∧
    CausallyOverlaps_spec Scenario.secondExpire Scenario.firstExpire
      Scenario.paramsExpire.mergeOverlap Scenario.paramsExpire.multiplicityTimeWindow =
      false := by
  refine ⟨by decide, by decide, by decide, by decide, by decide, by decide, by decide⟩

/-- C35: with `mergeOverlap = 1`, if the partial subevents are pairwise disjoint before
`AddSubEvent(newSet)` (all sets time-ordered), then afterwards the partial subevents together
with the subevents this call promoted to the final output are pairwise disjoint, and a hit
lies in one of them exactly if it lies in `newSet` or in a previous partial subevent. -/
theorem C35_addSubEvent_keeps_subevents_disjoint (p : HiveSplitter_ParameterSet)
    (hm : p.mergeOverlap = 1) (clusters : List CausalCluster) (newSet : AbsHitSet)
    (partialSubEvents : List AbsHitSet) (subEvents : AbsHitSetSequence)
    (hn : newSet.Pairwise (fun a b => a.lt b = true))
    (hpa : ∀ e ∈ partialSubEvents, e.Pairwise (fun a b => a.lt b = true))
    (hd : partialSubEvents.Pairwise disjointSets) :
    ∃ promoted,
      (AddSubEvent p clusters newSet partialSubEvents subEvents).2 = subEvents ++ promoted ∧
      ((AddSubEvent p clusters newSet partialSubEvents subEvents).1 ++ promoted).Pairwise
        disjointSets ∧
      ∀ x, (∃ e ∈ (AddSubEvent p clusters newSet partialSubEvents subEvents).1 ++ promoted,
          x ∈ e) ↔ (x ∈ newSet ∨ ∃ e ∈ partialSubEvents, x ∈ e) := by
  obtain ⟨promoted, h1, h2, h3, _⟩ :=
    AddSubEvent_disjoint p hm clusters newSet partialSubEvents subEvents hn hpa hd
  exact ⟨promoted, h1, h2, h3⟩

/-- C35, witness: a new set that shares a hit with the first of two disjoint partial
subevents, while a cluster is still in progress. -/
theorem C35_addSubEvent_keeps_subevents_disjoint_witness :
    ∃ promoted,
      (AddSubEvent Scenario.params [Scenario.builtCluster] [⟨0, 0⟩, ⟨1, 5⟩]
        [[⟨1, 5⟩, ⟨2, 7⟩], [⟨3, 8⟩]] []).2 = [] ++ promoted ∧
      ((AddSubEvent Scenario.params [Scenario.builtCluster] [⟨0, 0⟩, ⟨1, 5⟩]
        [[⟨1, 5⟩, ⟨2, 7⟩], [⟨3, 8⟩]] []).1 ++ promoted).Pairwise disjointSets ∧
      ∀ x, (∃ e ∈ (AddSubEvent Scenario.params [Scenario.builtCluster] [⟨0, 0⟩, ⟨1, 5⟩]
          [[⟨1, 5⟩, ⟨2, 7⟩], [⟨3, 8⟩]] []).1 ++ promoted, x ∈ e) ↔
        (x ∈ ([⟨0, 0⟩, ⟨1, 5⟩] : AbsHitSet) ∨
          ∃ e ∈ ([[⟨1, 5⟩, ⟨2, 7⟩], [⟨3, 8⟩]] : List AbsHitSet), x ∈ e) :=
  C35_addSubEvent_keeps_subevents_disjoint Scenario.params rfl [Scenario.builtCluster]
    [⟨0, 0⟩, ⟨1, 5⟩] [[⟨1, 5⟩, ⟨2, 7⟩], [⟨3, 8⟩]] [] (by decide) (by decide)
    (by simp [disjointSets])

/-- C37: for every parameter set, oracle and input hit set, every hit of every subevent
returned by `HiveSplitter::Split` is one of the input hits, and no returned subevent is
empty. -/
theorem C37_output_soundness (p : HiveSplitter_ParameterSet) (inhits : AbsHitSet) :
    ∀ e ∈ HiveSplitter.Split p inhits, (∀ x ∈ e, x ∈ inhits) ∧ e ≠ [] :=
  fun e he => ⟨Split_hits_of_input p inhits e he, Split_subevents_ne_nil p inhits e he⟩

set_option maxRecDepth 100000 in
/-- C37, witness: the subevent of the five-hit scenario that holds the hits on the sensors
2 and 4. -/
theorem C37_output_soundness_witness :
    ([⟨2, 5⟩, ⟨4, 6⟩] : AbsHitSet) ∈ HiveSplitter.Split Scenario.paramsParity Scenario.fiveHits ∧
    (⟨4, 6⟩ : AbsHit) ∈ Scenario.fiveHits ∧ ([⟨2, 5⟩, ⟨4, 6⟩] : AbsHitSet) ≠ [] :=
  ⟨by decide,
    (C37_output_soundness Scenario.paramsParity Scenario.fiveHits [⟨2, 5⟩, ⟨4, 6⟩]
      (by decide)).1 ⟨4, 6⟩ (by decide),
    (C37_output_soundness Scenario.paramsParity Scenario.fiveHits [⟨2, 5⟩, ⟨4, 6⟩]
      (by decide)).2⟩

/-- C32: for hits fed in strictly increasing `(time, sensor)` order, after `AddHit(h)` some
live cluster has `h` as the latest hit of its active set; and if no existing cluster took
`h`, directly or through a sub-cluster, then no sub-cluster was spawned and the cluster
list is the list of the surviving clusters, none of which holds `h`, followed by exactly
one new cluster whose active set is `{h}`. -/
theorem C32_every_hit_is_placed (p : HiveSplitter_ParameterSet) (pre post : List AbsHit)
    (h : AbsHit) (hs : (pre ++ h :: post).Pairwise (fun a b => a.lt b = true)) :
    (∃ c ∈ ((pre.foldl (fun s h => s.AddHit p h) HiveSplitter.cleared).AddHit p h).clusters_,
      c.getLatestActiveHit = some h) ∧
    (((pre.foldl (fun s h => s.AddHit p h) HiveSplitter.cleared).afterFirstLoop p
        h).addedToCluster = false →
      ((pre.foldl (fun s h => s.AddHit p h) HiveSplitter.cleared).afterFirstLoop p
        h).newClusters = [] ∧
      ((pre.foldl (fun s h => s.AddHit p h) HiveSplitter.cleared).AddHit p h).clusters_ =
        ((pre.foldl (fun s h => s.AddHit p h) HiveSplitter.cleared).afterFirstLoop p
          h).visited ++ [CausalCluster.new.insertActiveHit p h] ∧
      (CausalCluster.new.insertActiveHit p h).active_hits = [h] ∧
      ∀ c ∈ ((pre.foldl (fun s h => s.AddHit p h) HiveSplitter.cleared).afterFirstLoop p
        h).visited, h ∉ c.active_hits) := by
  have hpre : (pre ++ [h]).Pairwise (fun a b => a.lt b = true) := by
    have : (pre ++ [h]).Sublist (pre ++ h :: post) :=
      List.Sublist.append (List.Sublist.refl _) (by simp)
    exact List.Pairwise.sublist this hs
  have hinv := foldl_AddHit_before p pre h hpre
  generalize pre.foldl (fun s h => s.AddHit p h) HiveSplitter.cleared = s at hinv ⊢
  obtain ⟨kept, hk1, hk2, hk3⟩ := AddHit_clusters_eq p s h
    (fun c hc => ⟨(hinv c hc).1, (hinv c hc).2.1⟩)
  obtain ⟨hv, hn⟩ := afterFirstLoop_offered p s h (fun c hc => ⟨(hinv c hc).1, (hinv c hc).2.1⟩)
  obtain ⟨l1, l2⟩ := afterFirstLoop_added p s h (fun c hc => (hinv c hc).2.1)
  have hsingle : (CausalCluster.new.insertActiveHit p h).getLatestActiveHit = some h :=
    getLatest_insert_of_lt p _ h (fun x hx => by simp [CausalCluster.new] at hx)
  constructor
  · rw [hk2]
    cases hadd : (s.afterFirstLoop p h).addedToCluster with
    | false => exact ⟨_, by simp, hsingle⟩
    | true =>
      by_cases hex : ∃ c ∈ (s.afterFirstLoop p h).visited, c.getLatestActiveHit = some h
      · obtain ⟨c, hc, hl⟩ := hex
        exact ⟨c, by simp [hc], hl⟩
      · have hnew : (s.afterFirstLoop p h).newClusters ≠ [] := by
          rcases l1 hadd with h3 | h3
          · exact absurd h3 hex
          · exact h3
        have hkept := hk3 (fun c hc hl => hex ⟨c, hc, hl⟩) hnew
        obtain ⟨n, hn2⟩ := List.exists_mem_of_ne_nil _ hkept
        exact ⟨n, by simp [hn2], (hn n (hk1.subset hn2)).2.2.1⟩
  · intro hadd
    obtain ⟨m1, m2⟩ := l2 hadd
    refine ⟨m1, ?_, rfl, m2⟩
    rw [hk2, hadd]
    rw [m1] at hk1
    have : kept = [] := List.sublist_nil.1 hk1
    simp [this]

set_option maxRecDepth 100000 in
/-- C32, witness: the third hit of the concrete scenario is taken by no cluster and gets a
cluster of its own. -/
theorem C32_every_hit_is_placed_witness :
    (∃ c ∈ (([⟨0, 0⟩, ⟨1, 10⟩].foldl (fun s h => s.AddHit Scenario.params h)
        HiveSplitter.cleared).AddHit Scenario.params ⟨2, 200⟩).clusters_,
      c.getLatestActiveHit = some ⟨2, 200⟩) :=
  (C32_every_hit_is_placed Scenario.params [⟨0, 0⟩, ⟨1, 10⟩] [] ⟨2, 200⟩ (by decide)).1

/-- C38: in every run of `HiveSplitter::Split` over a time-ordered hit set (whatever the
accept window, so in particular if it is unset or does not exceed the multiplicity window),
every hit that after some `AddHit` lies in the concluded set of a live cluster, and every
hit that is then active in an established cluster, lies in a subevent of the returned
sequence; and every cluster that the first loop of `AddHit` keeps is still in the cluster
list when `AddHit` returns: no new sub-cluster replaces it, so none drops its hits. -/
theorem C38_concluded_hits_are_not_lost (p : HiveSplitter_ParameterSet) (pre post : List AbsHit)
    (h : AbsHit) (hs : (pre ++ h :: post).Pairwise (fun a b => a.lt b = true)) :
    (∀ c ∈ ((pre ++ [h]).foldl (fun s h => s.AddHit p h) HiveSplitter.cleared).clusters_,
      (∀ x ∈ c.concluded_hits, ∃ e ∈ HiveSplitter.Split p (pre ++ h :: post), x ∈ e) ∧
      (c.established = true →
        ∀ x ∈ c.active_hits, ∃ e ∈ HiveSplitter.Split p (pre ++ h :: post), x ∈ e)) ∧
    ∀ c ∈ ((pre.foldl (fun s h => s.AddHit p h) HiveSplitter.cleared).afterFirstLoop p
        h).visited,
      c ∈ ((pre.foldl (fun s h => s.AddHit p h) HiveSplitter.cleared).AddHit p h).clusters_ := by
  have hsort1 : (([] : List AbsHit) ++ (pre ++ [h])).Pairwise (fun a b => a.lt b = true) := by
    have : (pre ++ [h]).Sublist (pre ++ h :: post) :=
      List.Sublist.append (List.Sublist.refl _) (by simp)
    simpa using List.Pairwise.sublist this hs
  have hsort0 : (([] : List AbsHit) ++ pre).Pairwise (fun a b => a.lt b = true) := by
    have : pre.Sublist (pre ++ h :: post) := List.sublist_append_left _ _
    simpa using List.Pairwise.sublist this hs
  have hclear : ∀ c ∈ HiveSplitter.cleared.clusters_, Sound [] c := by
    intro c hc; simp [HiveSplitter.cleared] at hc
  have hsound1 := foldl_AddHit_sound p (pre ++ [h]) [] HiveSplitter.cleared hsort1 hclear
  have hsound0 := foldl_AddHit_sound p pre [] HiveSplitter.cleared hsort0 hclear
  simp only [List.nil_append] at hsound1 hsound0
  have hout : ∀ x, Secured ((pre ++ [h]).foldl (fun s h => s.AddHit p h) HiveSplitter.cleared) x →
      ∃ e ∈ HiveSplitter.Split p (pre ++ h :: post), x ∈ e := by
    intro x hx
    have h2 := foldl_AddHit_secures p x post (pre ++ [h]) _ (by simpa using hs) hsound1 hx
    have h3 := (FinalizeSubEvents_flushes p _).2.2.1 x h2
    have e : pre ++ h :: post = (pre ++ [h]) ++ post := by simp
    unfold HiveSplitter.Split
    rw [e, List.foldl_append]
    exact h3
  refine ⟨?_, ?_⟩
  · intro c hc
    constructor
    · intro x hx
      have hest : c.established = true := by
        cases he : c.established with
        | true => rfl
        | false =>
          rw [(hsound1 c hc).2.1 he] at hx
          exact absurd hx (List.not_mem_nil _)
      exact hout x (Or.inl ⟨c, hc, hest, Or.inr hx⟩)
    · intro hest x hx
      exact hout x (Or.inl ⟨c, hc, hest, Or.inl hx⟩)
  · intro c hc
    have hlt : ∀ x ∈ pre, x.lt h = true :=
      fun x hx => (List.pairwise_append.1 hs).2.2 x hx h (List.mem_cons_self _ _)
    obtain ⟨kept, _, hk2, _⟩ := AddHit_clusters_eq p _ h
      (fun c hc => Sound_before (hsound0 c hc) hlt)
    rw [hk2]
    exact List.mem_append_left _ (List.mem_append_left _ hc)

set_option maxRecDepth 100000 in
/-- C38, witness: in the concrete scenario the hit `(1,10)` is active in the established
cluster after the second hit, and it lies in the returned subevent. -/
theorem C38_concluded_hits_are_not_lost_witness :
    Scenario.pairCluster ∈
      (([⟨0, 0⟩, ⟨1, 10⟩] : List AbsHit).foldl (fun s h => s.AddHit Scenario.params h)
        HiveSplitter.cleared).clusters_ ∧
    ∃ e ∈ HiveSplitter.Split Scenario.params [⟨0, 0⟩, ⟨1, 10⟩, ⟨2, 200⟩],
      (⟨1, 10⟩ : AbsHit) ∈ e :=
  ⟨by decide,
    ((C38_concluded_hits_are_not_lost Scenario.params [⟨0, 0⟩] [⟨2, 200⟩] ⟨1, 10⟩
      (by decide)).1 Scenario.pairCluster (by decide)).2 (by decide) ⟨1, 10⟩ (by decide)⟩

/-- C33: for every parameter set (in particular every valid one) and every run of `Split`
over a time-ordered hit set, no call of `getEarliestTime` runs into `assert(false)`: the run
with the assertion returns, and returns what `Split` returns; and after every `AddHit` of the
run every live cluster holds an active or a concluded hit, so that a call of
`FinalizedUntil` between two hits does not run into the assertion either. -/
theorem C33_empty_cluster_assertion_unreachable (p : HiveSplitter_ParameterSet)
    (inhits : AbsHitSet) (hs : inhits.Pairwise (fun a b => a.lt b = true)) :
    HiveSplitter.Split_checked p inhits = some (HiveSplitter.Split p inhits) ∧
    ∀ pre post : List AbsHit, inhits = pre ++ post →
      ∀ c ∈ (pre.foldl (fun s h => s.AddHit p h) HiveSplitter.cleared).clusters_,
        c.getEarliestTime_checked = some c.getEarliestTime := by
  have hclear : ∀ c ∈ HiveSplitter.cleared.clusters_, Sound [] c ∧ Alive c := by
    intro c hc; simp [HiveSplitter.cleared] at hc
  constructor
  · obtain ⟨h1, h2⟩ := foldl_AddHit_alive p inhits [] HiveSplitter.cleared (by simpa using hs)
      hclear
    unfold HiveSplitter.Split_checked HiveSplitter.Split
    rw [h1]
    simp only
    unfold HiveSplitter.FinalizeSubEvents_checked HiveSplitter.FinalizeSubEvents
    rw [finalizeLoop_checked_eq p _ _ _ (fun c hc => (h2 c hc).2.2.2)]
  · intro pre post e c hc
    have hpre : (([] : List AbsHit) ++ pre).Pairwise (fun a b => a.lt b = true) := by
      rw [e] at hs
      simpa using (List.pairwise_append.1 hs).1
    exact getEarliestTime_checked_eq
      ((foldl_AddHit_alive p pre [] HiveSplitter.cleared hpre hclear).2 c hc).2.2.2

set_option maxRecDepth 100000 in
/-- C33, witness: the run of the five-hit scenario with the assertion returns the two
subevents. -/
theorem C33_empty_cluster_assertion_unreachable_witness :
    HiveSplitter.Split_checked Scenario.paramsParity Scenario.fiveHits =
      some (HiveSplitter.Split Scenario.paramsParity Scenario.fiveHits) :=
  (C33_empty_cluster_assertion_unreachable Scenario.paramsParity Scenario.fiveHits
    (by decide)).1

/-- C36: for `mergeOverlap = 1`, every oracle, every accept window (so in particular an
unset one or one that does not exceed the multiplicity window) and every time-ordered set
of input hits, no two subevents of the sequence returned by `HiveSplitter::Split` share a
hit: every hit lies in at most one of them. -/
theorem C36_no_duplication_with_merge_overlap_one (p : HiveSplitter_ParameterSet)
    (hm : p.mergeOverlap = 1) (inhits : AbsHitSet)
    (hs : inhits.Pairwise (fun a b => a.lt b = true)) :
    (HiveSplitter.Split p inhits).Pairwise disjointSets ∧
    ∀ x, occurrences x (HiveSplitter.Split p inhits) ≤ 1 :=
  ⟨Split_pairwise_disjoint p hm inhits hs,
    fun x => occurrences_le_one x _ (Split_pairwise_disjoint p hm inhits hs)⟩

set_option maxRecDepth 100000 in
/-- C36, witness: the two subevents of the five-hit scenario share no hit. -/
theorem C36_no_duplication_with_merge_overlap_one_witness :
    (HiveSplitter.Split Scenario.paramsParity Scenario.fiveHits).Pairwise disjointSets ∧
    occurrences ⟨2, 5⟩ (HiveSplitter.Split Scenario.paramsParity Scenario.fiveHits) ≤ 1 :=
  ⟨(C36_no_duplication_with_merge_overlap_one Scenario.paramsParity rfl Scenario.fiveHits
      (by decide)).1,
    (C36_no_duplication_with_merge_overlap_one Scenario.paramsParity rfl Scenario.fiveHits
      (by decide)).2 ⟨2, 5⟩⟩
